import Mathlib

/-!
# Dependency sorter of the configuration-as-code engine

Shallow embedding of `pkg/project/v2/topologysort/topologysort.go` and of the
helpers it calls, followed by the properties of the three topological sorts
(parameters within a config, configs within a project and environment, projects
within an environment).

The later sections embed the validation of projects against the manifest, the
delete loader, the manifest writer, the HTTP request helpers, the deployment
report, the legacy project loader, the upload of extensions, the account
management client and the extraction of ids into parameters, each followed
further down by its properties.

Go slices are Lean lists, Go `int` is `Int`, a Go map is the list of its
entries in the order one `range` loop enumerates them, and a Go result pair
`(value, []error)` with a nil value is `(none, errs)`. A nil `error` is `none`,
an error stands for the text of its message, and a call that panics returns
`none`.
-/

set_option autoImplicit false

/-! ## Strings and stable sorting -/

namespace strings

/-- Lexicographic three-way comparison of two code sequences. -/
def compareCodes : List Nat → List Nat → Int
  | [], [] => 0
  | [], _ :: _ => -1
  | _ :: _, [] => 1
  | x :: xs, y :: ys =>
    if x < y then -1 else if y < x then 1 else compareCodes xs ys

/-- Go `strings.Compare`: lexicographic comparison of two strings (on valid
UTF-8 the byte order and the code point order agree). -/
def Compare (a b : String) : Int :=
  compareCodes (a.toList.map Char.toNat) (b.toList.map Char.toNat)

end strings

/-- Go `sort.SliceStable(xs, less)`: a stable sort, here by insertion. An
element stays in front of every later element that is not `less` than it. -/
def SliceStable {α : Type} (less : α → α → Bool) (xs : List α) : List α :=
  List.insertionSort (fun a b => less b a = false) xs

/-! ## Data model -/

namespace coordinate

/-- A `coordinate.Coordinate`: project, api (type) and config id. -/
structure Coordinate where
  Project : String
  Api : String
  Config : String
deriving DecidableEq, Repr

end coordinate

namespace parameter

/-- A `parameter.ParameterReference`: the referenced config and property. -/
structure ParameterReference where
  Config : coordinate.Coordinate
  Property : String
deriving DecidableEq, Repr

/-- A `parameter.Parameter`, seen through the one method the sorter calls:
`GetReferences()`. -/
structure Parameter where
  References : List ParameterReference
deriving DecidableEq, Repr

/-- The method `GetReferences()`. -/
def Parameter.GetReferences (p : Parameter) : List ParameterReference :=
  p.References

end parameter

namespace errors

/-- The struct `errors.EnvironmentDetails`. -/
structure EnvironmentDetails where
  Group : String
  Environment : String
deriving DecidableEq, Repr

end errors

/-! ## `sort.TopologySort` -/

namespace sort

/-- The struct `sort.TopologySortError`: a node that still has incoming edges
after sorting, and the nodes those edges come from. -/
structure TopologySortError where
  OnId : Nat
  UnresolvedIncomingEdgesFrom : List Nat
deriving DecidableEq, Repr

/-- Entry `matrix[i][j]` of an adjacency matrix. -/
def edgeAt (matrix : List (List Bool)) (i j : Nat) : Bool :=
  (matrix.getD i []).getD j false

/-- Modelled from the spec: the loop of `sort.TopologySort`, which is not among
the sources. One round of Kahn's algorithm per unit of fuel: take the head `cur`
of the queue, append it to the order, clear every edge `matrix[i][cur]`, decrement
`inDegrees[i]` for each cleared edge and enqueue the nodes whose in-degree
reaches zero, in ascending order. -/
def kahnLoop : Nat → List (List Bool) → List Int → List Nat → List Nat →
    List (List Bool) × List Nat
  | 0, matrix, _, _, order => (matrix, order)
  | _ + 1, matrix, _, [], order => (matrix, order)
  | fuel + 1, matrix, inDegrees, cur :: queue, order =>
    let inDegrees1 := List.zipWith
      (fun row d => if row.getD cur false then d - 1 else d) matrix inDegrees
    let released := (List.range matrix.length).filter
      (fun i => edgeAt matrix i cur && decide (inDegrees1.getD i 0 = 0))
    kahnLoop fuel (matrix.map (fun row => row.set cur false)) inDegrees1
      (queue ++ released) (order ++ [cur])

/-- Modelled from the spec: the list of unresolved incoming edges of a node in
`sort.TopologySort`, the nodes `j` whose edge is still set in its row. -/
def unresolvedEdges (row : List Bool) : List Nat :=
  (List.range row.length).filter (fun j => row.getD j false)

/-- Modelled from the spec: the errors of `sort.TopologySort`, one per node
that still has an incoming edge, in ascending order of the nodes. -/
def sortErrors (matrix : List (List Bool)) : List TopologySortError :=
  (List.range matrix.length).filterMap (fun i =>
    let unresolved := unresolvedEdges (matrix.getD i [])
    if unresolved = [] then none else some ⟨i, unresolved⟩)

/-- Modelled from the spec: `sort.TopologySort` of `pkg/util/sort` is not among
the sources. It is Kahn's algorithm on an explicit adjacency matrix and an
in-degree vector: the queue starts with the nodes of in-degree zero in ascending
order and is served first-in first-out; on failure there is one error per node
that still has incoming edges, carrying the node and the list of its unresolved
incoming edges. Every node enters the queue at most once, so `matrix.length`
rounds are enough (`TopologySort_fuel`). -/
def TopologySort (matrix : List (List Bool)) (inDegrees : List Int) :
    List Nat × List TopologySortError :=
  let start := (List.range matrix.length).filter
    (fun i => decide (inDegrees.getD i 0 = 0))
  let final := kahnLoop matrix.length matrix inDegrees start []
  (final.2, sortErrors final.1)

end sort

/-! ## `topologysort` -/

namespace topologysort

open coordinate parameter

/-- The struct `CircularDependencyParameterSortError`. -/
structure CircularDependencyParameterSortError where
  Config : Coordinate
  EnvironmentDetails : errors.EnvironmentDetails
  Parameter : String
  DependsOn : List ParameterReference
deriving DecidableEq, Repr

/-- The struct `ParameterWithName`. -/
structure ParameterWithName where
  Name : String
  Parameter : parameter.Parameter
deriving DecidableEq, Repr

/-- The method `IsReferencing`: some reference of `p` names `config` and the
parameter `param`. -/
def ParameterWithName.IsReferencing (p : ParameterWithName) (config : Coordinate)
    (param : ParameterWithName) : Bool :=
  p.Parameter.GetReferences.any
    (fun ref => decide (ref.Config = config) && decide (ref.Property = param.Name))

/-- The loop shared by `parametersToSortData`, `configsToSortData` and
`projectsToSortData`: `matrix[i][j]` is set, and counted in `inDegrees[i]`,
when `i ≠ j` and node `j` depends on node `i`. -/
def toSortData {α : Type} (nodes : List α) (dependsOn : α → α → Bool) :
    List (List Bool) × List Int :=
  let matrix := nodes.enum.map (fun ix =>
    nodes.enum.map (fun jy => decide (ix.1 ≠ jy.1) && dependsOn jy.2 ix.2))
  (matrix, matrix.map (fun row => (row.count true : Int)))

/-- The loop `for i := len(sorted) - 1; i >= 0; i--` that appends
`nodes[sorted[i]]` to the result. -/
def reversedLookup {α : Type} (nodes : List α) (sorted : List Nat) : List α :=
  sorted.reverse.filterMap (fun i => nodes[i]?)

/-- The function `parametersToSortData`. -/
def parametersToSortData (conf : Coordinate) (parameters : List ParameterWithName) :
    List (List Bool) × List Int :=
  toSortData parameters (fun p param => p.IsReferencing conf param)

/-- The slice `parametersWithName` of `SortParameters` as the first loop fills
it: one entry per entry of the map, in enumeration order. -/
def namedParameters (parameters : List (String × Parameter)) : List ParameterWithName :=
  parameters.map (fun e => ParameterWithName.mk e.1 e.2)

/-- The slice `parametersWithName` of `SortParameters` after the stable sort by
name. -/
def sortedParameters (parameters : List (String × Parameter)) : List ParameterWithName :=
  SliceStable
    (fun a b : ParameterWithName => decide (strings.Compare a.Name b.Name < 0))
    (namedParameters parameters)

/-- The function `SortParameters`. The map `parameters` is given by the list of
its entries in enumeration order. -/
def SortParameters (group environment : String) (conf : Coordinate)
    (parameters : List (String × Parameter)) :
    Option (List ParameterWithName) × List CircularDependencyParameterSortError :=
  let parametersWithName := sortedParameters parameters
  let data := parametersToSortData conf parametersWithName
  let sorted := sort.TopologySort data.1 data.2
  if 0 < sorted.2.length then
    (none, sorted.2.filterMap (fun sortErr =>
      parametersWithName[sortErr.OnId]?.map (fun param =>
        { Config := conf
          EnvironmentDetails := ⟨group, environment⟩
          Parameter := param.Name
          DependsOn := param.Parameter.GetReferences })))
  else
    (some (reversedLookup parametersWithName sorted.1), [])


end topologysort

/-! ## Configs and projects -/

namespace config

open coordinate parameter

/-- Modelled from the spec: the declaration of `config.Type` in `pkg/config` is
not among the sources. The type of a config is one of classic-api, settings
schema, automation, bucket, document, openpipeline (with its kind), policy,
group, user. -/
inductive Type' where
  | ClassicApiType (api : String)
  | SettingsType (schemaId : String)
  | AutomationType (resource : String)
  | BucketType
  | DocumentType
  | OpenPipelineType (kind : String)
  | PolicyType
  | GroupType
  | UserType
deriving DecidableEq, Repr

/-- A `config.Config`, with the fields the sorter and the validation read.
`Parameters` is the map from parameter name to parameter. -/
structure Config where
  Coordinate : coordinate.Coordinate
  Environment : String
  Parameters : List (String × Parameter)
  Skip : Bool
  Type' : Type' := Type'.ClassicApiType ""
deriving DecidableEq, Repr

/-- Modelled from the spec: the method `Config.HasDependencyOn` of
`pkg/config/v2` is not among the sources. A config depends on another one when
it has a reference whose coordinate equals the other's coordinate. -/
def Config.HasDependencyOn (c : Config) (config : Config) : Bool :=
  c.Parameters.any (fun e =>
    e.2.GetReferences.any (fun ref => decide (ref.Config = config.Coordinate)))

end config

namespace project

/-- A `project.Project`: `Configs` maps environment to type to configs,
`Dependencies` maps environment to the ids of the projects depended on. -/
structure Project where
  Id : String
  Configs : List (String × List (String × List config.Config))
  Dependencies : List (String × List String)
deriving DecidableEq, Repr

/-- Reading a Go map of slices: a missing key gives the nil slice. -/
def mapGet {V : Type} (m : List (String × List V)) (key : String) : List V :=
  ((m.find? (fun e => decide (e.1 = key))).map Prod.snd).getD []

/-- Reading a Go map with the `found` flag: `none` for a missing key. -/
def mapFind {V : Type} (m : List (String × V)) (key : String) : Option V :=
  (m.find? (fun e => decide (e.1 = key))).map Prod.snd

/-- Writing a Go map: the value of an existing key is replaced, a new key is
added. -/
def mapSet {V : Type} (m : List (String × V)) (key : String) (v : V) :
    List (String × V) :=
  if m.any (fun e => decide (e.1 = key)) then
    m.map (fun e => if e.1 = key then (key, v) else e)
  else m ++ [(key, v)]

/-- Modelled from the spec: the method `Project.HasDependencyOn` of
`pkg/project/v2` is not among the sources. A project depends on another one for
an environment when its dependencies for that environment include the other's
id. -/
def Project.HasDependencyOn (p : Project) (environment : String) (project : Project) :
    Bool :=
  (mapGet p.Dependencies environment).any (fun dep => decide (dep = project.Id))

end project

namespace topologysort

open coordinate parameter config project

/-- The struct `CircualDependencyProjectSortError`. -/
structure CircualDependencyProjectSortError where
  Environment : String
  Project : String
  DependsOn : List String
deriving DecidableEq, Repr

/-- The struct `CircularDependencyConfigSortError`. -/
structure CircularDependencyConfigSortError where
  Config : Coordinate
  Environment : String
  DependsOn : List Coordinate
deriving DecidableEq, Repr

/-- A Go `error` returned by `GetSortedConfigsForEnvironments`. -/
inductive SortError where
  | project (e : CircualDependencyProjectSortError)
  | config (e : CircularDependencyConfigSortError)
deriving DecidableEq, Repr

/-- The function `getConfigs`; `m` lists the entries of the map from type to
configs in enumeration order. The sort key is the field `Coordinate.Config`. -/
def getConfigs (m : List (String × List Config)) : List Config :=
  SliceStable
    (fun a b : Config =>
      decide (strings.Compare a.Coordinate.Config b.Coordinate.Config < 0))
    (m.flatMap Prod.snd)

/-- The function `configsToSortData`: a skipped config `c` contributes no edge. -/
def configsToSortData (configs : List Config) : List (List Bool) × List Int :=
  toSortData configs (fun c config => !c.Skip && c.HasDependencyOn config)

/-- One update of the map `depErrs` in `parseConfigSortErrors`. -/
def addDepErr (depErrs : List (Coordinate × CircularDependencyConfigSortError))
    (dependingConfig conf : Config) :
    List (Coordinate × CircularDependencyConfigSortError) :=
  if depErrs.any (fun kv => decide (kv.1 = dependingConfig.Coordinate)) then
    depErrs.map (fun kv =>
      if kv.1 = dependingConfig.Coordinate then
        (kv.1, { kv.2 with DependsOn := kv.2.DependsOn ++ [conf.Coordinate] })
      else kv)
  else
    depErrs ++ [(dependingConfig.Coordinate,
      { Config := dependingConfig.Coordinate
        Environment := dependingConfig.Environment
        DependsOn := [conf.Coordinate] })]

/-- The body of the loop over the sort errors in `parseConfigSortErrors`: every
config with an unresolved edge into `configs[sortErr.OnId]` gets that config
added to its `DependsOn`. -/
def collectDepErrs (configs : List Config)
    (depErrs : List (Coordinate × CircularDependencyConfigSortError))
    (sortErr : sort.TopologySortError) :
    List (Coordinate × CircularDependencyConfigSortError) :=
  match configs[sortErr.OnId]? with
  | none => depErrs
  | some conf =>
    sortErr.UnresolvedIncomingEdgesFrom.foldl (fun depErrs index =>
      match configs[index]? with
      | none => depErrs
      | some dependingConfig => addDepErr depErrs dependingConfig conf) depErrs

/-- The function `parseConfigSortErrors`. The errors are listed in the order
in which their coordinates first enter the map `depErrs` (Go leaves the
enumeration order of that map open). -/
def parseConfigSortErrors (sortErrs : List sort.TopologySortError)
    (configs : List Config) : List CircularDependencyConfigSortError :=
  (sortErrs.foldl (collectDepErrs configs) []).map Prod.snd

/-- The function `sortConfigs`. -/
def sortConfigs (configs : List Config) :
    Option (List Config) × List CircularDependencyConfigSortError :=
  let data := configsToSortData configs
  let sorted := sort.TopologySort data.1 data.2
  if 0 < sorted.2.length then
    (none, parseConfigSortErrors sorted.2 configs)
  else
    (some (reversedLookup configs sorted.1), [])

/-- The function `projectsToSortData`. -/
def projectsToSortData (projects : List Project) (environment : String) :
    List (List Bool) × List Int :=
  toSortData projects (fun p project => p.HasDependencyOn environment project)

/-- The body of the loop over the environments in `sortProjects`: the errors
and the projects in sorted order for one environment. -/
def sortProjectsFor (projects : List Project) (env : String) :
    List Project × List CircualDependencyProjectSortError :=
  let data := projectsToSortData projects env
  let sorted := sort.TopologySort data.1 data.2
  (reversedLookup projects sorted.1,
    sorted.2.filterMap (fun sortErr =>
      projects[sortErr.OnId]?.map (fun p =>
        { Environment := env
          Project := p.Id
          DependsOn := mapGet p.Dependencies env })))

/-- The function `sortProjects`; the result map is listed in the order in
which its keys are first written. -/
def sortProjects (projects : List Project) (environments : List String) :
    Option (List (String × List Project)) × List CircualDependencyProjectSortError :=
  let errors := environments.flatMap (fun env => (sortProjectsFor projects env).2)
  if errors ≠ [] then (none, errors)
  else
    (some (environments.foldl
      (fun m env => mapSet m env (sortProjectsFor projects env).1) []), [])

/-- The body of the loop over the sorted projects of one environment in
`GetSortedConfigsForEnvironments`: the sorted configs and the errors. -/
def sortConfigsFor (env : String) (sortedProject : List Project) :
    List Config × List CircularDependencyConfigSortError :=
  let each := sortedProject.map (fun project =>
    sortConfigs (getConfigs (mapGet project.Configs env)))
  (each.flatMap (fun r => r.1.getD []), each.flatMap (fun r => r.2))

/-- The function `GetSortedConfigsForEnvironments`; the result map is listed in
the order of the map returned by `sortProjects`. -/
def GetSortedConfigsForEnvironments (projects : List Project)
    (environments : List String) :
    Option (List (String × List Config)) × List SortError :=
  let sortedProjects := sortProjects projects environments
  if 0 < sortedProjects.2.length then
    (none, sortedProjects.2.map SortError.project)
  else
    let perEnv := (sortedProjects.1.getD []).map (fun kv => (kv.1, sortConfigsFor kv.1 kv.2))
    let errors := perEnv.flatMap (fun r => r.2.2)
    if errors ≠ [] then (none, errors.map SortError.config)
    else (some (perEnv.map (fun r => (r.1, r.2.1))), [])

/-- Reading `result[env]` from a result map. -/
def resultFor {V : Type} (result : List (String × List V)) (env : String) : List V :=
  mapGet result env

/-- The configs a project holds for an environment, over all types. -/
def heldConfigs (p : Project) (env : String) : List Config :=
  (mapGet p.Configs env).flatMap Prod.snd

/-- The dependency graph of a sorter: an edge from `a` to `b` when both are
nodes, `a ≠ b`, and `b` depends on `a`. -/
def DependsEdge {α : Type} (nodes : List α) (dependsOn : α → α → Bool) (a b : α) : Prop :=
  a ∈ nodes ∧ b ∈ nodes ∧ a ≠ b ∧ dependsOn b a = true

/-- The same-config reference relation among the parameters of a config: an
edge from `a` to `b` when `b` references `a`. -/
def ParamEdge (conf : Coordinate) (parameters : List (String × Parameter))
    (a b : ParameterWithName) : Prop :=
  DependsEdge (namedParameters parameters)
    (fun p param => p.IsReferencing conf param) a b

end topologysort

/-! ## Validation of projects against the manifest environments (`cmd/monaco/deploy`) -/

namespace manifest

/-- A secret of the manifest: the name of the environment variable it is read
from and the resolved value. -/
structure AuthSecret where
  Name : String
  Value : String
deriving DecidableEq, Repr

/-- The OAuth credentials of an environment. -/
structure OAuth where
  ClientID : AuthSecret
  ClientSecret : AuthSecret
deriving DecidableEq, Repr

/-- The field `Auth` of an environment definition: `Token` and `OAuth` are
pointers, `none` is nil. -/
structure Auth where
  Token : Option AuthSecret
  OAuth : Option OAuth
deriving DecidableEq, Repr

/-- A `manifest.EnvironmentDefinition`, with the fields the validation reads. -/
structure EnvironmentDefinition where
  Name : String
  Group : String
  Auth : Auth
deriving DecidableEq, Repr

end manifest

namespace deploy

open coordinate config project manifest

/-- The errors `validateProjectsWithEnvironments` builds with `fmt.Errorf`, one
constructor per message, carrying the values put into the message. -/
inductive ValidationError where
  | undefinedEnvironment (envName : String)
  | requiresPlatform (envName : String) (exampleCoordinate : Coordinate)
  | multipleOpenPipeline (envName kind : String) (coordinates : List Coordinate)
deriving DecidableEq, Repr

/-- Modelled from the spec: the iterator `ConfigsPerType.AllConfigs` of
`pkg/project/v2` is not among the sources. It yields every config of every type
of one environment of a project. -/
def AllConfigs (cfgPerType : List (String × List Config)) : List Config :=
  cfgPerType.flatMap Prod.snd

/-- The body of the loop of `collectOpenPipelineCoordinatesByKind`. -/
def addOpenPipelineCoordinate (dest : List (String × List Coordinate)) (cfg : Config) :
    List (String × List Coordinate) :=
  if cfg.Skip then dest
  else
    match cfg.Type' with
    | Type'.OpenPipelineType kind => mapSet dest kind (mapGet dest kind ++ [cfg.Coordinate])
    | _ => dest

/-- The function `collectOpenPipelineCoordinatesByKind`; the map `dest` it
writes to is returned. -/
def collectOpenPipelineCoordinatesByKind (cfgPerType : List (String × List Config))
    (dest : List (String × List Coordinate)) : List (String × List Coordinate) :=
  (AllConfigs cfgPerType).foldl addOpenPipelineCoordinate dest

/-- The function `configRequiresPlatform`. -/
def configRequiresPlatform (c : Config) : Bool :=
  match c.Type' with
  | Type'.AutomationType _ => true
  | Type'.BucketType => true
  | Type'.DocumentType => true
  | Type'.OpenPipelineType _ => true
  | _ => false

/-- The function `collectPlatformCoordinates`. -/
def collectPlatformCoordinates (cfgPerType : List (String × List Config)) :
    List Coordinate :=
  ((AllConfigs cfgPerType).filter
    (fun cfg => !cfg.Skip && configRequiresPlatform cfg)).map (fun cfg => cfg.Coordinate)

/-- The three collections `validateProjectsWithEnvironments` fills. -/
structure Collected where
  undefinedEnvironments : List (String × Unit)
  openPipelineKindCoordinatesPerEnvironment :
    List (String × List (String × List Coordinate))
  platformCoordinatesPerEnvironment : List (String × List Coordinate)
deriving DecidableEq, Repr

/-- The body of the inner loop of `validateProjectsWithEnvironments`, for one
entry `envName, cfgPerType` of `p.Configs`. -/
def collectEntry (envs : List (String × EnvironmentDefinition)) (st : Collected)
    (entry : String × List (String × List Config)) : Collected :=
  match mapFind envs entry.1 with
  | none =>
    { st with undefinedEnvironments := mapSet st.undefinedEnvironments entry.1 () }
  | some _ =>
    { st with
      openPipelineKindCoordinatesPerEnvironment :=
        mapSet st.openPipelineKindCoordinatesPerEnvironment entry.1
          (collectOpenPipelineCoordinatesByKind entry.2
            (mapGet st.openPipelineKindCoordinatesPerEnvironment entry.1))
      platformCoordinatesPerEnvironment :=
        mapSet st.platformCoordinatesPerEnvironment entry.1
          (mapGet st.platformCoordinatesPerEnvironment entry.1
            ++ collectPlatformCoordinates entry.2) }

/-- The function `collectUndefinedEnvironmentErrors`. -/
def collectUndefinedEnvironmentErrors (undefinedEnvironments : List (String × Unit)) :
    List ValidationError :=
  undefinedEnvironments.map (fun e => ValidationError.undefinedEnvironment e.1)

/-- The function `collectOpenPipelineCoordinateErrors`. -/
def collectOpenPipelineCoordinateErrors
    (openPipelineKindCoordinatesPerEnvironment :
      List (String × List (String × List Coordinate))) : List ValidationError :=
  openPipelineKindCoordinatesPerEnvironment.flatMap (fun e =>
    e.2.filterMap (fun kc =>
      if 1 < kc.2.length then some (ValidationError.multipleOpenPipeline e.1 kc.1 kc.2)
      else none))

/-- The function `platformEnvironment`. -/
def platformEnvironment (e : EnvironmentDefinition) : Bool :=
  e.Auth.OAuth.isSome

/-- The function `collectRequiresPlatformErrors`. -/
def collectRequiresPlatformErrors
    (platformCoordinatesPerEnvironment : List (String × List Coordinate))
    (envs : List (String × EnvironmentDefinition)) : List ValidationError :=
  platformCoordinatesPerEnvironment.filterMap (fun e =>
    match mapFind envs e.1 with
    | none => none
    | some env =>
      if platformEnvironment env then none
      else
        match e.2 with
        | exampleCoordinate :: _ =>
          some (ValidationError.requiresPlatform e.1 exampleCoordinate)
        | [] => none)

/-- Go `errors.Join`: nil when there is no error, else the joined errors. -/
def errorsJoin {ε : Type} (errs : List ε) : Option (List ε) :=
  match errs with
  | [] => none
  | _ :: _ => some errs

/-- The collections after the two loops of `validateProjectsWithEnvironments`. -/
def collectAll (projects : List Project) (envs : List (String × EnvironmentDefinition)) :
    Collected :=
  projects.foldl (fun st p => p.Configs.foldl (collectEntry envs) st) ⟨[], [], []⟩

/-- The function `validateProjectsWithEnvironments`: the errors it reports to
the reporter, in order, and the error it returns. -/
def validateProjectsWithEnvironments (projects : List Project)
    (envs : List (String × EnvironmentDefinition)) :
    List ValidationError × Option (List ValidationError) :=
  let st := collectAll projects envs
  let errs := collectUndefinedEnvironmentErrors st.undefinedEnvironments
    ++ collectRequiresPlatformErrors st.platformCoordinatesPerEnvironment envs
    ++ collectOpenPipelineCoordinateErrors st.openPipelineKindCoordinatesPerEnvironment
  (errs, errorsJoin errs)

/-- The errors of `validateAuthenticationWithProjectConfigs`, one constructor
per message. -/
inductive AuthenticationError where
  | requiresToken (type : Type') (envName : String)
  | requiresTokenOrOAuth (type : Type') (envName : String)
  | requiresOAuth (type : Type') (envName : String)
deriving DecidableEq, Repr

/-- The value `environments[envName].Auth`: the zero value for a missing key. -/
def authOf (environments : List (String × EnvironmentDefinition)) (envName : String) :
    Auth :=
  ((mapFind environments envName).map (fun e => e.Auth)).getD ⟨none, none⟩

/-- The body of the innermost loop of `validateAuthenticationWithProjectConfigs`:
the error it returns for one config, if any. -/
def checkAuthentication (environments : List (String × EnvironmentDefinition))
    (envName : String) (conf : Config) : Option AuthenticationError :=
  if conf.Skip = true then none
  else
    match conf.Type' with
    | Type'.ClassicApiType api =>
      if (authOf environments envName).Token = none then
        some (AuthenticationError.requiresToken (Type'.ClassicApiType api) envName)
      else none
    | Type'.SettingsType schemaId =>
      if (authOf environments envName).Token = none
          ∧ (authOf environments envName).OAuth = none then
        some (AuthenticationError.requiresTokenOrOAuth (Type'.SettingsType schemaId) envName)
      else none
    | other =>
      if (authOf environments envName).OAuth = none then
        some (AuthenticationError.requiresOAuth other envName)
      else none

/-- The function `validateAuthenticationWithProjectConfigs`: the first error
met in the four nested loops, nil when there is none. -/
def validateAuthenticationWithProjectConfigs (projects : List Project)
    (environments : List (String × EnvironmentDefinition)) : Option AuthenticationError :=
  projects.findSome? (fun p =>
    p.Configs.findSome? (fun env =>
      env.2.findSome? (fun file =>
        file.2.findSome? (fun conf => checkAuthentication environments env.1 conf))))

/-- The configs the projects hold for an environment, over all projects and
types. -/
def environmentConfigs (projects : List Project) (envName : String) : List Config :=
  projects.flatMap (fun p =>
    p.Configs.flatMap (fun e => if e.1 = envName then AllConfigs e.2 else []))

/-- The coordinates of the non-skipped openpipeline configs of a kind among the
given configs. -/
def openPipelineCoordinates (kind : String) (configs : List Config) : List Coordinate :=
  (configs.filter (fun cfg =>
    !cfg.Skip && decide (cfg.Type' = Type'.OpenPipelineType kind))).map
    (fun cfg => cfg.Coordinate)

/-- The coordinates of the non-skipped configs that `configRequiresPlatform`
accepts among the given configs. -/
def platformCoordinates (configs : List Config) : List Coordinate :=
  (configs.filter (fun cfg => !cfg.Skip && configRequiresPlatform cfg)).map
    (fun cfg => cfg.Coordinate)

end deploy

/-! ## Go string functions used by the loaders and writers -/

namespace strings

/-- The characters before and after the first `sep`, when there is one. -/
def cutFirst (sep : Char) : List Char → Option (List Char × List Char)
  | [] => none
  | c :: cs =>
    if c = sep then some ([], cs)
    else (cutFirst sep cs).map (fun parts => (c :: parts.1, parts.2))

/-- Go `strings.Contains(s, sep)` for a separator of one character. -/
def Contains (s : String) (sep : Char) : Bool :=
  s.toList.contains sep

/-- Go `strings.SplitN(s, sep, 2)` for a separator of one character: the text
before the first separator and the text after it, or `s` alone. -/
def SplitN2 (s : String) (sep : Char) : List String :=
  match cutFirst sep s.toList with
  | none => [s]
  | some parts => [String.mk parts.1, String.mk parts.2]

/-- The segments between the occurrences of `sep`. -/
def splitChars (sep : Char) : List Char → List (List Char)
  | [] => [[]]
  | c :: cs =>
    if c = sep then [] :: splitChars sep cs
    else
      match splitChars sep cs with
      | seg :: rest => (c :: seg) :: rest
      | [] => [[c]]

/-- Go `strings.Split(s, sep)` for a separator of one character. -/
def Split (s : String) (sep : Char) : List String :=
  (splitChars sep s.toList).map String.mk

/-- Go `strings.ReplaceAll(s, old, new)` for `old` and `new` of one character. -/
def ReplaceAll (s : String) (old new : Char) : String :=
  String.mk (s.toList.map (fun c => if c = old then new else c))

/-- Go `strings.TrimSuffix(s, suffix)`. -/
def TrimSuffix (s suffix : String) : String :=
  if suffix.toList.isSuffixOf s.toList then
    String.mk (s.toList.take (s.toList.length - suffix.toList.length))
  else s

end strings

/-! ## Loading the delete file (`pkg/delete`) -/

namespace delete

/-- The struct `DeletePointer`, with the fields the loader fills. -/
structure DeletePointer where
  Project : String
  Type' : String
  Identifier : String
deriving DecidableEq, Repr

/-- The struct `deleteEntry`. -/
structure deleteEntry where
  Project : String
  Type' : String
  ConfigId : String
  ConfigName : String
deriving DecidableEq, Repr

/-- The struct `DeleteEntryParserError`. -/
structure DeleteEntryParserError where
  Value : String
  Index : Nat
  Reason : String
deriving DecidableEq, Repr

/-- An element of `DeleteEntries`, a YAML value behind `interface{}`: a string
(the short form), a mapping that `mapstructure.Decode` turns into a
`deleteEntry` (the full form), or a value it cannot decode. `shown` is the text
`fmt.Sprintf("%v", entry)` gives. -/
inductive RawEntry where
  | str (s : String)
  | full (parsed : deleteEntry) (shown : String)
  | other (shown : String)
deriving DecidableEq, Repr

/-- The text of `fmt.Sprintf("%v", entry)`. -/
def RawEntry.shown : RawEntry → String
  | RawEntry.str s => s
  | RawEntry.full _ shown => shown
  | RawEntry.other shown => shown

/-- The call `mapstructure.Decode(entry, &parsed)`: only a mapping decodes. -/
def decode : RawEntry → Except String deleteEntry
  | RawEntry.full parsed _ => Except.ok parsed
  | RawEntry.str _ => Except.error "expected a map, got 'string'"
  | RawEntry.other _ => Except.error "expected a map"

/-- The constant `deleteDelimiter`. -/
def deleteDelimiter : Char := '/'

/-- The function `parseAPIEntry`. -/
def parseAPIEntry (parsed : deleteEntry) : Except String DeletePointer :=
  if parsed.ConfigName = "" then
    Except.error "delete entry of API type requiress config 'name' to be defined"
  else
    Except.ok { Project := "", Type' := parsed.Type', Identifier := parsed.ConfigName }

/-- The function `parseCoordinateEntry`. -/
def parseCoordinateEntry (parsed : deleteEntry) : Except String DeletePointer :=
  if parsed.ConfigId = "" then
    Except.error "delete entry requires config 'id' to be defined"
  else if parsed.Project = "" then
    Except.error "delete entry requires 'project' to be defined"
  else
    Except.ok
      { Project := parsed.Project, Type' := parsed.Type', Identifier := parsed.ConfigId }

/-- The function `parseFullEntry`; `knownApis` is the set `ctx.knownApis`. -/
def parseFullEntry (knownApis : List String) (entry : RawEntry) :
    Except String DeletePointer :=
  match decode entry with
  | Except.error err => Except.error err
  | Except.ok parsed =>
    if parsed.Type' ∈ knownApis then parseAPIEntry parsed
    else parseCoordinateEntry parsed

/-- The function `parseSimpleEntry`. -/
def parseSimpleEntry (entry : String) : Except String DeletePointer :=
  if ¬ strings.Contains entry deleteDelimiter then
    Except.error "invalid format. doesn't contain `/`"
  else
    let parts := strings.SplitN2 entry deleteDelimiter
    Except.ok { Project := "", Type' := parts.getD 0 "", Identifier := parts.getD 1 "" }

/-- The first half of `parseDeleteEntry`: the result of `parseFullEntry`,
replaced by that of `parseSimpleEntry` when the entry is a string and
`parseFullEntry` failed. -/
def parseFullOrSimple (knownApis : List String) (entry : RawEntry) :
    Except String DeletePointer :=
  match entry, parseFullEntry knownApis entry with
  | RawEntry.str s, Except.error _ => parseSimpleEntry s
  | _, full => full

/-- The function `parseDeleteEntry`. -/
def parseDeleteEntry (knownApis : List String) (index : Nat) (entry : RawEntry) :
    Except DeleteEntryParserError DeletePointer :=
  match parseFullOrSimple knownApis entry with
  | Except.error err => Except.error ⟨entry.shown, index, err⟩
  | Except.ok ptr => Except.ok ptr

/-- The loop of `parseDeleteFileDefinition`: the map `result` and the slice
`errors` after the entries from index `index` on. -/
def parseEntries (knownApis : List String) :
    Nat → List RawEntry → List (String × List DeletePointer) × List DeleteEntryParserError →
    List (String × List DeletePointer) × List DeleteEntryParserError
  | _, [], acc => acc
  | index, e :: es, acc =>
    match parseDeleteEntry knownApis index e with
    | Except.error err => parseEntries knownApis (index + 1) es (acc.1, acc.2 ++ [err])
    | Except.ok entry =>
      parseEntries knownApis (index + 1) es
        (project.mapSet acc.1 entry.Type' (project.mapGet acc.1 entry.Type' ++ [entry]),
          acc.2)

/-- The function `parseDeleteFileDefinition`: a nil map with the errors when
there is one, else the map. -/
def parseDeleteFileDefinition (knownApis : List String) (entries : List RawEntry) :
    Option (List (String × List DeletePointer)) × List DeleteEntryParserError :=
  let final := parseEntries knownApis 0 entries ([], [])
  if final.2 ≠ [] then (none, final.2) else (some final.1, [])

end delete

/-! ## Writing the manifest (`pkg/manifest`) -/

namespace manifest

/-- A `manifest.ProjectDefinition`, with the fields the writer reads. -/
structure ProjectDefinition where
  Name : String
  Path : String
deriving DecidableEq, Repr

/-- The struct `project` of the persisted manifest; an empty `Type'` or `Path`
is omitted from the file. -/
structure project where
  Name : String
  Type' : String
  Path : String
deriving DecidableEq, Repr

/-- The constant `groupProjectType`. -/
def groupProjectType : String := "grouping"

/-- The function `isGroupingProject`. -/
def isGroupingProject (projectDefinition : ProjectDefinition) : Bool :=
  strings.Contains projectDefinition.Name '.' &&
    decide (strings.ReplaceAll projectDefinition.Name '.' '/' = projectDefinition.Path)

/-- The function `extractGroupedProjectDetails`. -/
def extractGroupedProjectDetails (projectDefinition : ProjectDefinition) :
    String × String :=
  let subgroups := strings.Split projectDefinition.Name '.'
  let projectName := subgroups.getD (subgroups.length - 1) ""
  (strings.TrimSuffix projectDefinition.Name ("." ++ projectName),
    strings.TrimSuffix projectDefinition.Path ("/" ++ projectName))

/-- The entry written for a project definition that is no grouping project. -/
def simpleEntry (projectDefinition : ProjectDefinition) : project :=
  { Name := projectDefinition.Name
    Type' := ""
    Path := if projectDefinition.Name ≠ projectDefinition.Path then projectDefinition.Path
      else "" }

/-- The entry written into `groups` for a grouping project. -/
def groupEntry (projectDefinition : ProjectDefinition) : project :=
  { Name := (extractGroupedProjectDetails projectDefinition).1
    Type' := groupProjectType
    Path := (extractGroupedProjectDetails projectDefinition).2 }

/-- The body of the first loop of `toWriteableProjects`: `acc.1` is `result`,
`acc.2` the map `groups`. -/
def addWriteable (acc : List project × List (String × project))
    (entry : String × ProjectDefinition) : List project × List (String × project) :=
  if isGroupingProject entry.2 then
    (acc.1, project.mapSet acc.2 (groupEntry entry.2).Name (groupEntry entry.2))
  else (acc.1 ++ [simpleEntry entry.2], acc.2)

/-- The function `toWriteableProjects`; `projects` lists the entries of the map
in enumeration order, and the groups are appended in the order in which their
names first enter the map `groups`. -/
def toWriteableProjects (projects : List (String × ProjectDefinition)) : List project :=
  let final := projects.foldl addWriteable ([], [])
  final.1 ++ final.2.map Prod.snd

end manifest

/-! ## The HTTP request helpers (`pkg/rest`) -/

namespace rest

/-- A `rest.Response`; `Body` is the text of the body bytes. -/
structure Response where
  StatusCode : Int
  Body : String
  Headers : List (String × List String)
deriving DecidableEq, Repr

/-- The zero value `Response{}`. -/
def Response.empty : Response := ⟨0, "", []⟩

/-- Modelled from the spec: the helper `success` of `pkg/rest` is not among the
sources. A response is a success when its status is one of the 2xx codes. -/
def success (resp : Response) : Bool :=
  decide (200 ≤ resp.StatusCode ∧ resp.StatusCode ≤ 299)

/-- An `http.Request` as far as the helpers shape it: method, URL and the
headers they set. -/
structure Request where
  Method : String
  URL : String
  Header : List (String × String)
deriving DecidableEq, Repr

/-- What lies outside the helpers: `http.NewRequest` (its error is its
message), the run of the rate-limit strategy around `client.Do` for the `n`-th
executed request (a Go result pair, a nil error is `none`), and the user agent
built from the version and platform constants. -/
structure Client where
  NewRequest : String → String → Except String Request
  Do : Nat → Request → Response × Option String
  UserAgent : String

/-- Go `Header.Set` on a key in its canonical form: the value of the key is
replaced or added. -/
def headerSet (h : List (String × String)) (key value : String) : List (String × String) :=
  if h.any (fun e => decide (e.1 = key)) then
    h.map (fun e => if e.1 = key then (key, value) else e)
  else h ++ [(key, value)]

/-- The function `requestWithBody`, for the nil body of `request`; the header
keys are written in the canonical form that `Header.Set` stores. -/
def requestWithBody (client : Client) (method url apiToken : String) :
    Except String Request :=
  match client.NewRequest method url with
  | .error err => .error err
  | .ok req =>
    let h1 := headerSet req.Header "Authorization" ("Api-Token " ++ apiToken)
    let h2 := headerSet h1 "Content-Type" "application/json"
    let h3 := headerSet h2 "User-Agent" client.UserAgent
    .ok { req with Header := h3 }

/-- The function `request`. -/
def request (client : Client) (method url apiToken : String) : Except String Request :=
  requestWithBody client method url apiToken

/-- The function `executeRequest` as the `n`-th executed request: an error of
the strategy comes with the empty response. -/
def executeRequest (client : Client) (n : Nat) (req : Request) : Response × Option String :=
  match client.Do n req with
  | (_, some err) => (Response.empty, some err)
  | (response, none) => (response, none)

/-- The function `get` as the `n`-th executed request. -/
def get (client : Client) (n : Nat) (url apiToken : String) : Response × Option String :=
  match request client "GET" url apiToken with
  | .error err => (Response.empty, some err)
  | .ok req => executeRequest client n req

/-- The error that `getWithRetry` returns when no attempt succeeded; `last` is
the result of the last attempt. -/
def retryError (url : String) (maxRetries : Int) (last : Response × Option String) : String :=
  match last.2 with
  | some err =>
    "GET request " ++ url ++ " failed after " ++ toString maxRetries ++ " retries: " ++ err
  | none =>
    "GET request " ++ url ++ " failed after " ++ toString maxRetries ++ " retries: (HTTP "
      ++ toString last.1.StatusCode ++ ")!\n    Response was: " ++ last.1.Body

/-- The loop `for i := 0; i < maxRetries; i++` of `getWithRetry` and the code
after it, with `remaining` rounds left; `n` requests were executed before and
`last` is the result of the last one. The result comes with the number of
executed requests. -/
def retryLoop (client : Client) (url apiToken : String) (maxRetries : Int) :
    Nat → Nat → Response × Option String → (Response × Option String) × Nat
  | 0, n, last => ((Response.empty, some (retryError url maxRetries last)), n)
  | remaining + 1, n, _ =>
    let r := get client n url apiToken
    if r.2 = none ∧ success r.1 = true then (r, n + 1)
    else retryLoop client url apiToken maxRetries remaining (n + 1) r

/-- The function `getWithRetry`, started when `n` requests were executed
before: the Go result pair and the number of executed requests after it. The
loop runs `maxRetries.toNat` rounds, none for a negative `maxRetries`. -/
def getWithRetry (client : Client) (n : Nat) (url apiToken : String) (maxRetries : Int) :
    (Response × Option String) × Nat :=
  let first := get client n url apiToken
  if first.2 = none ∧ success first.1 = true then ((first.1, none), n + 1)
  else retryLoop client url apiToken maxRetries maxRetries.toNat (n + 1) first

/-- The function `deleteConfig`, its request being the `n`-th executed one: the
returned error, `none` for nil. -/
def deleteConfig (client : Client) (n : Nat) (url apiToken id : String) : Option String :=
  let fullPath := url ++ "/" ++ id
  match request client "DELETE" fullPath apiToken with
  | .error err => some err
  | .ok req =>
    match executeRequest client n req with
    | (_, some err) => some err
    | (resp, none) =>
      if resp.StatusCode = 404 then none
      else if !success resp then
        some ("failed call to DELETE " ++ fullPath ++ " (HTTP " ++ toString resp.StatusCode
          ++ ")!\n Response was:\n " ++ resp.Body)
      else none

end rest

/-! ## Response errors (`pkg/rest/errors.go`) -/

namespace rest

/-- The constant `RespErrType`. -/
def RespErrType : String := "ResponseError"

/-- A `rest.RequestInfo`. -/
structure RequestInfo where
  Method : String
  URL : String
deriving DecidableEq, Repr

/-- A `rest.RespError`. The wrapped `error` value `Err` stands for the text its
method `Error()` returns, `none` is the nil error; `Request` is a pointer. -/
structure RespError where
  Type' : String
  Err : Option String
  Message : String
  Body : String
  StatusCode : Int
  Request : Option RequestInfo
deriving DecidableEq, Repr

/-- The function `NewRespErr`: the fields `Err` and `Request` keep their zero
value nil. -/
def NewRespErr (msg : String) (resp : Response) : RespError :=
  { Type' := RespErrType
    Err := none
    Message := msg
    Body := resp.Body
    StatusCode := resp.StatusCode
    Request := none }

/-- The method `RespError.WithErr`. -/
def RespError.WithErr (e : RespError) (err : Option String) : RespError :=
  { e with Err := err }

/-- The method `RespError.Error`. -/
def RespError.Error (e : RespError) : String :=
  match e.Err with
  | some err => e.Message ++ ": " ++ err
  | none => e.Message

/-- Go `%q` of a string of printable characters other than the double quote and
the backslash: the string between double quotes. -/
def quoted (s : String) : String :=
  "\"" ++ s ++ "\""

/-- The text `additionalMessage` of `ConcurrentError`. The name `key` of the
environment variable (`environment.ConcurrentRequestsEnvKey`) and its current
value `limit` (`environment.GetEnvValueInt`) come from a package that is not
among the sources. -/
def additionalMessage (key : String) (limit : Int) : String :=
  "\n\n    A 403 error code probably means too many requests.\n    Reduce the number of concurrent requests by setting the "
    ++ quoted key ++ " environment variable (current value: " ++ toString limit
    ++ "). \n    Then wait a few minutes and retry "

/-- The method `RespError.ConcurrentError`: `none` when the call panics, which
`e.Err.Error()` does on the nil error. -/
def RespError.ConcurrentError (key : String) (limit : Int) (e : RespError) : Option String :=
  if e.StatusCode = 403 then
    match e.Err with
    | some err => some (err ++ "\n" ++ additionalMessage key limit)
    | none => none
  else some e.Error

end rest

/-! ## The deployment report (`pkg/report`) -/

namespace report

/-- The constant `State_DEPL_SUCCESS`. -/
def State_DEPL_SUCCESS : String := "SUCCESS"

/-- The constant `State_DEPL_ERR`. -/
def State_DEPL_ERR : String := "ERROR"

/-- The constant `State_DEPL_EXCLUDED`. -/
def State_DEPL_EXCLUDED : String := "EXCLUDED"

/-- The constant `State_DEPL_SKIPPED`. -/
def State_DEPL_SKIPPED : String := "SKIPPED"

/-- A JSON document. -/
inductive JSON where
  | null
  | str (s : String)
  | arr (items : List JSON)
  | obj (fields : List (String × JSON))

/-- A Go `time.Time`: the seconds since the Unix epoch and the nanoseconds
within the second. -/
structure Time where
  sec : Int
  nsec : Nat
deriving DecidableEq, Repr

/-- Go `Time.Unix`. -/
def Time.Unix (t : Time) : Int := t.sec

/-- Modelled from the spec: the declaration of `report.Detail` is not among the
sources; a detail is `{type, message}`. -/
structure Detail where
  Type' : String
  Message : String
deriving DecidableEq, Repr

/-- A value of the Go interface `error`: the text its method `Error()` returns,
and what `json.Marshal` makes of the value, which follows the exported fields
and the marshalling methods of its dynamic type, not `Error()`. -/
structure GoError where
  Message : String
  Marshal : Except String JSON

/-- Go `errors.New(text)`: the dynamic type is a struct without exported
fields, which `json.Marshal` writes as the empty object. -/
def errorsNew (text : String) : GoError :=
  ⟨text, .ok (JSON.obj [])⟩

/-- A `report.record`; a nil `Details` is the empty list. -/
structure record where
  Type' : String
  Time : Time
  Config : coordinate.Coordinate
  State : String
  Details : List Detail
  Error : Option GoError

/-- Modelled from the spec: the JSON names of `coordinate.Coordinate` are not
among the sources. -/
def marshalCoordinate (c : coordinate.Coordinate) : JSON :=
  JSON.obj [("project", JSON.str c.Project), ("type", JSON.str c.Api),
    ("configId", JSON.str c.Config)]

/-- What `json.Marshal` writes for the details: `null` for the nil slice. -/
def marshalDetails (details : List Detail) : JSON :=
  match details with
  | [] => JSON.null
  | _ => JSON.arr (details.map (fun d =>
      JSON.obj [("type", JSON.str d.Type'), ("message", JSON.str d.Message)]))

/-- The field `error` of the record's document: left out for the nil error
(`omitempty`), else what `json.Marshal` makes of the error value. -/
def marshalError (err : Option GoError) : Except String (List (String × JSON)) :=
  match err with
  | none => .ok []
  | some e =>
    match e.Marshal with
    | .ok doc => .ok [("error", doc)]
    | .error msg => .error msg

/-- The method `record.ToJSON`: the document whose text it returns, or its
error. -/
def record.ToJSON (r : record) : Except String JSON :=
  match marshalError r.Error with
  | .error err => .error ("error marshalling JSON: " ++ err)
  | .ok errorField =>
    .ok (JSON.obj ([("type", JSON.str r.Type'),
      ("time", JSON.str (toString r.Time.Unix)),
      ("config", marshalCoordinate r.Config),
      ("state", JSON.str r.State),
      ("details", marshalDetails r.Details)] ++ errorField))

/-- The fields of `report.defaultReporter` that the summary keeps. -/
structure defaultReporter where
  started : Time
  ended : Time
  deploymentFinishedCount : Int
  deploymentsExcludedCount : Int
  deploymentsSkippedCount : Int
deriving DecidableEq, Repr

/-- The method `defaultReporter.updateSummaryFromRecord`: the reporter after
the update, `none` when the `default` case panics. -/
def defaultReporter.updateSummaryFromRecord (d : defaultReporter) (r : record) :
    Option defaultReporter :=
  let d := { d with ended := r.Time }
  if r.State = State_DEPL_SUCCESS then
    some { d with deploymentFinishedCount := d.deploymentFinishedCount + 1 }
  else if r.State = State_DEPL_EXCLUDED then
    some { d with deploymentsExcludedCount := d.deploymentsExcludedCount + 1 }
  else if r.State = State_DEPL_SKIPPED then
    some { d with deploymentsSkippedCount := d.deploymentsSkippedCount + 1 }
  else none

end report

/-! ## Writing the environments of the manifest (`pkg/manifest`) -/

namespace manifest

/-- Modelled from the spec: the declaration of `manifest.URLType` is not among
the sources; the writer tells three values apart. -/
inductive URLType where
  | ValueURLType
  | EnvironmentURLType
  | Absent
deriving DecidableEq, Repr

/-- A `manifest.URLDefinition`: for the type `EnvironmentURLType`, `Name` is the
environment variable and `Value` what it resolved to. -/
structure URLDefinition where
  Type' : URLType
  Name : String
  Value : String
deriving DecidableEq, Repr

/-- Modelled from the spec: the declaration of `manifest.EnvironmentType` is not
among the sources; `Classic` and `Platform` are its two constants, `Unknown` is
any other value of the Go type. -/
inductive EnvironmentType where
  | Classic
  | Platform
  | Unknown
deriving DecidableEq, Repr

namespace writer

/-- The OAuth credentials as `manifest_writer.go` reads them. -/
structure OAuth where
  ClientID : AuthSecret
  ClientSecret : AuthSecret
  TokenEndpoint : URLDefinition
deriving DecidableEq, Repr

/-- The field `Auth` as `manifest_writer.go` reads it: it reads
`env.Auth.Token.Name` and `env.Auth.OAuth.TokenEndpoint.Type` without a nil
check and tells a missing token endpoint by the URL type `Absent`, so `Token`
and `OAuth` are values there. -/
structure Auth where
  Token : AuthSecret
  OAuth : OAuth
deriving DecidableEq, Repr

/-- A `manifest.EnvironmentDefinition` as `manifest_writer.go` reads it. -/
structure EnvironmentDefinition where
  Name : String
  Type' : EnvironmentType
  URL : URLDefinition
  Group : String
  Auth : Auth
deriving DecidableEq, Repr

end writer

/-- The constant `typeEnvironment`. -/
def typeEnvironment : String := "environment"

/-- The constant `urlTypeEnvironment`. -/
def urlTypeEnvironment : String := "environment"

/-- The written `authSecret`. -/
structure authSecret where
  Type' : String
  Name : String
  Value : String
deriving DecidableEq, Repr

/-- The written `url`. -/
structure url where
  Type' : String
  Value : String
deriving DecidableEq, Repr

/-- The written `oAuth` as the writer builds it; `TokenEndpoint` is a pointer. -/
structure oAuth where
  ClientID : authSecret
  ClientSecret : authSecret
  TokenEndpoint : Option url
deriving DecidableEq, Repr

/-- The written `auth` as the writer builds it; `OAuth` is a pointer. -/
structure auth where
  Token : authSecret
  OAuth : Option oAuth
deriving DecidableEq, Repr

/-- The written `environment` as the writer builds it; `Auth` is a pointer. -/
structure environment where
  Name : String
  Type' : String
  URL : url
  Auth : Option auth
deriving DecidableEq, Repr

/-- The written `group`. -/
structure group where
  Name : String
  Environments : List environment
deriving DecidableEq, Repr

/-- The function `getTokenSecret`. -/
def getTokenSecret (environment : writer.EnvironmentDefinition) : authSecret :=
  let token :=
    if environment.Auth.Token.Name ≠ "" then environment.Auth.Token.Name
    else environment.Name ++ "_TOKEN"
  { Type' := typeEnvironment, Name := token, Value := "" }

/-- The function `getAuth`. -/
def getAuth (env : writer.EnvironmentDefinition) : auth :=
  if env.Type' = EnvironmentType.Classic then
    { Token := getTokenSecret env, OAuth := none }
  else
    let te : Option url :=
      match env.Auth.OAuth.TokenEndpoint.Type' with
      | URLType.ValueURLType => some { Type' := "", Value := env.Auth.OAuth.TokenEndpoint.Value }
      | URLType.EnvironmentURLType =>
        some { Type' := urlTypeEnvironment, Value := env.Auth.OAuth.TokenEndpoint.Name }
      | URLType.Absent => none
    { Token := getTokenSecret env
      OAuth := some
        { ClientID := { Type' := typeEnvironment, Name := env.Auth.OAuth.ClientID.Name, Value := "" }
          ClientSecret :=
            { Type' := typeEnvironment, Name := env.Auth.OAuth.ClientSecret.Name, Value := "" }
          TokenEndpoint := te } }

/-- The function `getType`: `none` when it panics. -/
def getType (env : writer.EnvironmentDefinition) : Option String :=
  match env.Type' with
  | EnvironmentType.Classic => some "classic"
  | EnvironmentType.Platform => some "platform"
  | EnvironmentType.Unknown => none

/-- The function `toWriteableURL`. -/
def toWriteableURL (environment : writer.EnvironmentDefinition) : url :=
  if environment.URL.Type' = URLType.EnvironmentURLType then
    { Type' := urlTypeEnvironment, Value := environment.URL.Name }
  else { Type' := "", Value := environment.URL.Value }

/-- The body of the first loop of `toWriteableEnvironmentGroups` on the map
`environmentPerGroup`: `none` when `getType` panics. -/
def addEnvironment (environmentPerGroup : List (String × List environment))
    (entry : String × writer.EnvironmentDefinition) :
    Option (List (String × List environment)) :=
  let a := getAuth entry.2
  match getType entry.2 with
  | none => none
  | some type =>
    let e : environment :=
      { Name := entry.1, Type' := type, URL := toWriteableURL entry.2, Auth := some a }
    some (project.mapSet environmentPerGroup entry.2.Group
      (project.mapGet environmentPerGroup entry.2.Group ++ [e]))

/-- The function `toWriteableEnvironmentGroups`; `environments` lists the
entries of the map in enumeration order, and the groups are written in the
order in which they enter `environmentPerGroup`. `none` when a call panics. -/
def toWriteableEnvironmentGroups (environments : List (String × writer.EnvironmentDefinition)) :
    Option (List group) :=
  (environments.foldlM addEnvironment []).map
    (fun environmentPerGroup => environmentPerGroup.map (fun ge => ⟨ge.1, ge.2⟩))

end manifest

/-! ## Go string and path functions used by the project loader -/

namespace strings

/-- Go `strings.HasPrefix(s, p)`. -/
def HasPrefix (s p : String) : Bool :=
  p.toList.isPrefixOf s.toList

/-- Whether the characters `sub` occur in `s` as a contiguous run. -/
def containsChars (sub : List Char) : List Char → Bool
  | [] => sub.isEmpty
  | c :: cs => sub.isPrefixOf (c :: cs) || containsChars sub cs

/-- Go `strings.Contains(s, substr)`. -/
def ContainsSubstring (s substr : String) : Bool :=
  containsChars substr.toList s.toList

/-- Go `strings.TrimPrefix(s, p)`. -/
def TrimPrefix (s p : String) : String :=
  if p.toList.isPrefixOf s.toList then String.mk (s.toList.drop p.toList.length) else s

/-- Go `strings.TrimLeft(s, cutset)`. -/
def TrimLeft (s cutset : String) : String :=
  String.mk (s.toList.dropWhile (fun c => cutset.toList.contains c))

end strings

namespace filepath

/-- The constant `os.PathSeparator` of a Unix system. -/
def PathSeparator : Char := '/'

/-- The elements that `Clean` keeps: an empty element and `.` are dropped, `..`
takes back the element before it, is dropped at the root and is kept at the
start of a relative path. `kept` holds the elements in reverse. -/
def cleanElements (rooted : Bool) : List String → List String → List String
  | kept, [] => kept.reverse
  | kept, e :: rest =>
    if e = "" ∨ e = "." then cleanElements rooted kept rest
    else if e = ".." then
      match kept with
      | top :: below =>
        if top = ".." then cleanElements rooted (e :: kept) rest
        else cleanElements rooted below rest
      | [] => if rooted then cleanElements rooted [] rest else cleanElements rooted [e] rest
    else cleanElements rooted (e :: kept) rest

/-- Go `filepath.Clean` on a Unix system: the shortest path name equivalent to
`path` by lexical processing; the empty path becomes `.`. -/
def Clean (path : String) : String :=
  let rooted := strings.HasPrefix path "/"
  let elements := cleanElements rooted [] (strings.Split path PathSeparator)
  let joined := (if rooted then "/" else "") ++ "/".intercalate elements
  if joined = "" then "." else joined

/-- Go `filepath.Dir` on a Unix system: `Clean` of the path up to its last
separator. -/
def Dir (path : String) : String :=
  Clean (String.mk (path.toList.reverse.dropWhile (fun c => c ≠ PathSeparator)).reverse)

/-- Go `filepath.Join` of two elements on a Unix system. -/
def Join (a b : String) : String :=
  if a = "" ∧ b = "" then ""
  else if a = "" then Clean b
  else if b = "" then Clean a
  else Clean (a ++ "/" ++ b)

end filepath

/-! ## The API table (`pkg/api`) -/

namespace api

/-- The keys of the table `apiMap`. -/
def apiMap : List String :=
  ["alerting-profile", "management-zone", "auto-tag", "dashboard", "notification",
   "extension", "custom-service-java", "custom-service-dotnet", "custom-service-go",
   "custom-service-nodejs", "custom-service-php", "anomaly-detection-metrics",
   "anomaly-detection-disks", "synthetic-location", "synthetic-monitor", "application",
   "application-web", "application-mobile", "app-detection-rule", "aws-credentials",
   "kubernetes-credentials", "azure-credentials", "request-attributes",
   "calculated-metrics-service", "calculated-metrics-log",
   "calculated-metrics-application-mobile", "calculated-metrics-synthetic",
   "calculated-metrics-application-web", "conditional-naming-processgroup",
   "conditional-naming-host", "conditional-naming-service", "maintenance-window",
   "request-naming-service", "slo", "credential-vault", "failure-detection-parametersets",
   "failure-detection-rules", "service-detection-full-web-request",
   "service-detection-full-web-service", "service-detection-opaque-web-request",
   "service-detection-opaque-web-service", "reports", "frequent-issue-detection",
   "data-privacy", "hosts-auto-update", "anomaly-detection-applications",
   "anomaly-detection-aws", "anomaly-detection-database-services", "anomaly-detection-hosts",
   "anomaly-detection-services", "anomaly-detection-vmware", "service-resource-naming",
   "app-detection-rule-host", "content-resources", "allowed-beacon-origins",
   "geo-ip-detection-headers", "geo-ip-address-mappings"]

/-- The function `IsApi`. -/
def IsApi (dir : String) : Bool :=
  apiMap.contains dir

/-- The function `ContainsApiName`. -/
def ContainsApiName (path : String) : Bool :=
  apiMap.any (fun api => strings.ContainsSubstring path api)

end api

/-! ## The project loader (`pkg/project/project_loader.go`) -/

namespace project
namespace v1

/-- What `os.FileInfo` tells about a directory entry. -/
structure FileInfo where
  Name : String
  IsDir : Bool
deriving DecidableEq, Repr

/-- The loop of `subprojectsMixedWithApi` over the entries of the directory. -/
def mixedLoop (path : String) : Bool → Bool → List FileInfo → Option String
  | _, _, [] => none
  | apiFound, subprojectFound, d :: rest =>
    let apiFound := if api.IsApi d.Name then true else apiFound
    let subprojectFound :=
      if !api.IsApi d.Name && d.IsDir then true else subprojectFound
    if apiFound && subprojectFound then
      some ("found folder with projects and configurations in " ++ path)
    else mixedLoop path apiFound subprojectFound rest

/-- The function `subprojectsMixedWithApi`: the returned error, `none` for nil.
`dirs` is the outcome of `os.Open(path)` and `f.Readdir(0)`: the entries of the
directory, or the error of the call that failed. -/
def subprojectsMixedWithApi (dirs : Except String (List FileInfo)) (path : String) :
    Option String :=
  match dirs with
  | .error err => some err
  | .ok entries => mixedLoop path false false entries

/-- The function `hasSubprojectFolder`. -/
def hasSubprojectFolder (projectFolder : String) (projectFolders : List String) : Bool :=
  let cleanedProjectFolder := filepath.Clean projectFolder
  projectFolders.any (fun p =>
    let cleanedFolder := filepath.Clean p
    decide (filepath.Dir cleanedFolder = cleanedProjectFolder)
      && decide (cleanedFolder ≠ cleanedProjectFolder))

/-- The function `filterProjectsWithSubproject`. -/
def filterProjectsWithSubproject (allProjectFolders : List String) : List String :=
  allProjectFolders.foldl (fun list projectFolder =>
    if !hasSubprojectFolder projectFolder allProjectFolders then list ++ [projectFolder]
    else list) []

/-- A file tree: a plain file, or a directory with its entries in the lexical
order of their names, in which `filepath.Walk` visits them. Every entry can be
read. -/
inductive Node where
  | file (name : String)
  | dir (name : String) (children : List Node)

/-- The name of a node. -/
def Node.name : Node → String
  | .file name => name
  | .dir name _ => name

/-- The `os.FileInfo` of a node. -/
def Node.info : Node → FileInfo
  | .file name => ⟨name, false⟩
  | .dir name _ => ⟨name, true⟩

/-- The entries that `Readdir` lists for a node. -/
def Node.entries : Node → List FileInfo
  | .file _ => []
  | .dir _ children => children.map Node.info

/-- The function literal that `getAllProjectFoldersRecursively` hands to
`filepath.Walk`, on a node that exists: the slice `allProjectsFolders` after the
call and the returned error. -/
def walkFn (cleanPath : String) (allProjectsFolders : List String) (path : String)
    (node : Node) : List String × Option String :=
  if node.info.IsDir && !strings.HasPrefix path "." && !api.ContainsApiName path then
    let sanitizedPath :=
      strings.TrimLeft (strings.TrimPrefix path cleanPath) (String.singleton filepath.PathSeparator)
    (allProjectsFolders ++ [sanitizedPath], subprojectsMixedWithApi (.ok node.entries) path)
  else (allProjectsFolders, none)

mutual
/-- Go `filepath.Walk` below a node that exists, for a function that returns
no `SkipDir`: the node is visited, then its entries in order, each under the
path `Join(path, name)`; the first error ends the walk. -/
def walk (cleanPath : String) : String → Node → List String → List String × Option String
  | path, .file name, all => walkFn cleanPath all path (.file name)
  | path, .dir name children, all =>
    match walkFn cleanPath all path (.dir name children) with
    | (all1, some err) => (all1, some err)
    | (all1, none) => walkEntries cleanPath path children all1
/-- The walk over the entries of a directory. -/
def walkEntries (cleanPath : String) :
    String → List Node → List String → List String × Option String
  | _, [], all => (all, none)
  | path, child :: rest, all =>
    match walk cleanPath (filepath.Join path child.name) child all with
    | (all1, some err) => (all1, some err)
    | (all1, none) => walkEntries cleanPath path rest all1
end

/-- The function `getAllProjectFoldersRecursively` on the file tree found at
`path`, `none` when nothing is there: the Go result pair. -/
def getAllProjectFoldersRecursively (root : Option Node) (path : String) :
    List String × Option String :=
  let cleanPath := filepath.Clean path
  match root with
  | none =>
    ([], some ("Project path does not exist: " ++ path
      ++ ". (This needs to be a relative path from the current directory)"))
  | some node =>
    match walk cleanPath path node [] with
    | (allProjectsFolders, some err) => (allProjectsFolders, some err)
    | (allProjectsFolders, none) => (filterProjectsWithSubproject allProjectsFolders, none)

/-- The function `isProjectAlreadyAdded`; `GetId` is the method of the Go
interface `Project`, whose implementation is not among the sources. -/
def isProjectAlreadyAdded {P : Type} (GetId : P → String) (findProject : P)
    (projects : List P) : Bool :=
  projects.any (fun project => decide (GetId project = GetId findProject))

/-- The body of the innermost loop of the dependency search of
`LoadProjectsToDeploy`; the state is `projectsToDeploy` and `foundDependency`,
`HasDependencyOn` is the method of the Go interface `Project`. -/
def searchStep {P : Type} (GetId : P → String) (HasDependencyOn : P → P → Bool) (project : P)
    (state : List P × Bool) (availableProject : P) : List P × Bool :=
  if HasDependencyOn project availableProject
      && !isProjectAlreadyAdded GetId availableProject state.1 then
    (state.1 ++ [availableProject], true)
  else state

/-- One round of the loop `for foundDependency` of `LoadProjectsToDeploy`:
`foundDependency` is reset, and the two `range` loops run over
`availableProjects` for every project that `projectsToDeploy` holds when the
round starts (Go evaluates the range expression once), while the test and the
`append` use the current slice. -/
def searchRound {P : Type} (GetId : P → String) (HasDependencyOn : P → P → Bool)
    (availableProjects projectsToDeploy : List P) : List P × Bool :=
  projectsToDeploy.foldl
    (fun state project => availableProjects.foldl (searchStep GetId HasDependencyOn project) state)
    (projectsToDeploy, false)

/-- The loop `for foundDependency` of `LoadProjectsToDeploy` with a bound on the
number of rounds: the list handed to `returnSortedProjects`, `none` when the
bound is reached. -/
def searchDependencies {P : Type} (GetId : P → String) (HasDependencyOn : P → P → Bool)
    (availableProjects : List P) : Nat → List P → Option (List P)
  | 0, _ => none
  | fuel + 1, projectsToDeploy =>
    let round := searchRound GetId HasDependencyOn availableProjects projectsToDeploy
    if round.2 then searchDependencies GetId HasDependencyOn availableProjects fuel round.1
    else some round.1

end v1
end project

/-! ## Uploading extensions (`pkg/client/dtclient`) -/

namespace dtclient

/-- The type `extensionStatus` with its four constants. -/
inductive extensionStatus where
  | extensionValidationError
  | extensionUpToDate
  | extensionConfigOutdated
  | extensionNeedsUpdate
deriving DecidableEq, Repr

/-- What lies outside `validateIfExtensionShouldBeUploaded`: the call
`d.classicClient.Get(ctx, url)` (a Go result pair, a nil error is `none`), and
`json.Unmarshal` into `Properties`, which gives an error or the field `Version`,
a pointer (`none` is nil). -/
structure DynatraceClient where
  Get : String → rest.Response × Option String
  Unmarshal : String → Except String (Option String)

/-- The error of a config that is older than the deployed extension. The
arguments of `fmt.Errorf` follow the source: `extensionName`, `curVersion`,
`newVersion`. -/
def outdatedError (extensionName curVersion newVersion : String) : String :=
  "already deployed version (" ++ extensionName ++ ") of extension (" ++ curVersion
    ++ ") is newer than local (" ++ newVersion ++ ")"

/-- The method `DynatraceClient.validateIfExtensionShouldBeUploaded`: the status
and the error, `none` for nil. Go compares the two version strings with `>` and
`==`, byte by byte. -/
def validateIfExtensionShouldBeUploaded (d : DynatraceClient)
    (apiPath extensionName payload : String) : extensionStatus × Option String :=
  match d.Get (apiPath ++ "/" ++ extensionName) with
  | (_, some err) => (extensionStatus.extensionValidationError, some err)
  | (response, none) =>
    if response.StatusCode = 404 then (extensionStatus.extensionNeedsUpdate, none)
    else
      match d.Unmarshal response.Body with
      | .error err => (extensionStatus.extensionValidationError, some err)
      | .ok none =>
        (extensionStatus.extensionValidationError,
          some ("API failed to return a version for extension (" ++ extensionName ++ ")"))
      | .ok (some curVersion) =>
        match d.Unmarshal payload with
        | .error err => (extensionStatus.extensionValidationError, some err)
        | .ok none =>
          (extensionStatus.extensionValidationError,
            some ("extension configuration (" ++ extensionName ++ ") does not define a version"))
        | .ok (some newVersion) =>
          if 0 < strings.Compare curVersion newVersion then
            (extensionStatus.extensionConfigOutdated,
              some (outdatedError extensionName curVersion newVersion))
          else if curVersion = newVersion then (extensionStatus.extensionUpToDate, none)
          else (extensionStatus.extensionNeedsUpdate, none)

end dtclient

/-! ## The account management client (`pkg/account/deployer`) -/

namespace deployer

/-- An `http.Response` as far as the client reads it: the status code and the
outcome of `io.ReadAll(resp.Body)`. -/
structure HttpResponse where
  StatusCode : Int
  Body : Except String String

/-- The function `rest.IsSuccess` of the client library: a status from 200 to
299. -/
def IsSuccess (resp : HttpResponse) : Bool :=
  decide (200 ≤ resp.StatusCode ∧ resp.StatusCode ≤ 299)

/-- The method `handleClientResponseError`; `resp` is a pointer and `clientErr`
an error, `none` is nil. The outer `none` is the panic on a nil response without
client error; the inner value is the returned error, for an `errMessage` without
formatting verbs. -/
def handleClientResponseError (resp : Option HttpResponse) (clientErr : Option String)
    (errMessage : String) : Option (Option String) :=
  match resp, clientErr with
  | none, some err => some (some (errMessage ++ ": " ++ err))
  | none, none => none
  | some r, _ =>
    if !IsSuccess r && decide (r.StatusCode ≠ 404) then
      match r.Body with
      | .error err => some (some ("unable to read response body " ++ err))
      | .ok body =>
        some (some (errMessage ++ " (HTTP " ++ toString r.StatusCode ++ "): " ++ body))
    else some none

/-- The request body `Policy`, with its name. -/
structure Policy where
  Name : String
  Description : String
  StatementQuery : String
deriving DecidableEq, Repr

/-- A `LevelPolicyDto` of the client library, with the fields that are read. -/
structure LevelPolicyDto where
  Uuid : String
  Name : String
deriving DecidableEq, Repr

/-- The request body `Group`, with its name. -/
structure Group where
  Name : String
  Description : String
deriving DecidableEq, Repr

/-- A `GetGroupDto` of the client library, with the fields that are read. -/
structure GetGroupDto where
  Uuid : String
  Name : String
deriving DecidableEq, Repr

/-- The calls of `d.client` that the upserts make. Every call gives the Go
results of its `Execute()`: the decoded value, a pointer or slice that is nil on
a failed call (`none`), the response pointer and the error. -/
structure Client where
  UpdateLevelPolicy : String → String → String → Policy → Option HttpResponse × Option String
  GetLevelPolicies : String → String → String →
    Option (List LevelPolicyDto) × Option HttpResponse × Option String
  CreateLevelPolicy : String → String → Policy →
    Option LevelPolicyDto × Option HttpResponse × Option String
  EditGroup : String → String → Group → Option HttpResponse × Option String
  GetGroups : String → Option (List GetGroupDto) × Option HttpResponse × Option String
  CreateGroups : String → List Group →
    Option (List GetGroupDto) × Option HttpResponse × Option String

/-- A request that an upsert sends. -/
inductive Call where
  | updatePolicy (uuid : String)
  | getPolicies (name : String)
  | createPolicy (name : String)
  | editGroup (uuid : String)
  | getGroups
  | createGroups (name : String)
deriving DecidableEq, Repr

/-- The method `upsertPolicy`: the Go result pair and the requests sent, in
order; `none` when `handleClientResponseError` panics. The getters `GetPolicies`
and `GetUuid` of the client library give the zero value on a nil receiver. -/
def upsertPolicy (client : Client) (policyLevel policyLevelId policyId : String)
    (policy : Policy) : Option ((String × Option String) × List Call) :=
  if policyId ≠ "" then
    let r := client.UpdateLevelPolicy policyLevel policyLevelId policyId policy
    match handleClientResponseError r.1 r.2 ("unable to update policy with UUID: " ++ policyId) with
    | none => none
    | some (some err) => some (("", some err), [Call.updatePolicy policyId])
    | some none => some ((policyId, none), [Call.updatePolicy policyId])
  else
    let r := client.GetLevelPolicies policyLevel policyLevelId policy.Name
    match handleClientResponseError r.2.1 r.2.2
        ("unable to get policy with name: " ++ policy.Name) with
    | none => none
    | some (some err) => some (("", some err), [Call.getPolicies policy.Name])
    | some none =>
      match r.1.getD [] with
      | [] =>
        let c := client.CreateLevelPolicy policyLevel policyLevelId policy
        match handleClientResponseError c.2.1 c.2.2
            ("unable to create policy with name: " ++ policy.Name) with
        | none => none
        | some (some err) =>
          some (("", some err), [Call.getPolicies policy.Name, Call.createPolicy policy.Name])
        | some none =>
          some (((c.1.map (fun p => p.Uuid)).getD "", none),
            [Call.getPolicies policy.Name, Call.createPolicy policy.Name])
      | first :: _ =>
        let u := client.UpdateLevelPolicy policyLevel policyLevelId first.Uuid policy
        match handleClientResponseError u.1 u.2
            ("unable to update policy with name: " ++ policy.Name) with
        | none => none
        | some (some err) =>
          some (("", some err), [Call.getPolicies policy.Name, Call.updatePolicy first.Uuid])
        | some none =>
          some ((first.Uuid, none), [Call.getPolicies policy.Name, Call.updatePolicy first.Uuid])

/-- The method `upsertGroup`, for the account `accountUUID`: the Go result pair
and the requests sent, in order; `none` when `handleClientResponseError`
panics. -/
def upsertGroup (client : Client) (accountUUID groupId : String) (group : Group) :
    Option ((String × Option String) × List Call) :=
  if groupId ≠ "" then
    let r := client.EditGroup accountUUID groupId group
    match handleClientResponseError r.1 r.2 ("unable to update group with UUID: " ++ groupId) with
    | none => none
    | some (some err) => some (("", some err), [Call.editGroup groupId])
    | some none => some ((groupId, none), [Call.editGroup groupId])
  else
    let r := client.GetGroups accountUUID
    match handleClientResponseError r.2.1 r.2.2
        ("unable to get group with name: " ++ group.Name) with
    | none => none
    | some (some err) => some (("", some err), [Call.getGroups])
    | some none =>
      let existingGroups := (r.1.getD []).filter (fun g => decide (g.Name = group.Name))
      match existingGroups with
      | [] =>
        let c := client.CreateGroups accountUUID [group]
        match handleClientResponseError c.2.1 c.2.2
            ("unable to create group with name: " ++ group.Name) with
        | none => none
        | some (some err) =>
          some (("", some err), [Call.getGroups, Call.createGroups group.Name])
        | some none =>
          match c.1.getD [] with
          | [] =>
            some (("", some ("unable to get UUID of created group with name: " ++ group.Name)),
              [Call.getGroups, Call.createGroups group.Name])
          | created :: _ =>
            some ((created.Uuid, none), [Call.getGroups, Call.createGroups group.Name])
      | groupToUpdate :: _ =>
        let u := client.EditGroup accountUUID groupToUpdate.Uuid group
        match handleClientResponseError u.1 u.2
            ("unable to update group with name: " ++ group.Name) with
        | none => none
        | some (some err) =>
          some (("", some err), [Call.getGroups, Call.editGroup groupToUpdate.Uuid])
        | some none =>
          some ((groupToUpdate.Uuid, none), [Call.getGroups, Call.editGroup groupToUpdate.Uuid])

end deployer

/-! ## Sending with retries (`pkg/rest`) -/

namespace rest

/-- What `sendWithRetry` does to the outside: it sleeps, and it calls
`restCall`; `call n` is the `n`-th call. -/
inductive Event where
  | sleep (timeout : Int)
  | call (n : Nat)
deriving DecidableEq, Repr

/-- The error that `sendWithRetry` returns when no call succeeded; `last` is the
result of the last call, the zero values when there was none. -/
def sendError (objectName : String) (maxRetries : Int) (last : Response × Option String) :
    String :=
  match last.2 with
  | some err =>
    "dependency of config " ++ objectName ++ " was not available after "
      ++ toString maxRetries ++ " retries: " ++ err
  | none =>
    "dependency of config " ++ objectName ++ " was not available after "
      ++ toString maxRetries ++ " retries: (HTTP " ++ toString last.1.StatusCode
      ++ ")!\n    Response was: " ++ last.1.Body

/-- The loop `for i := 0; i < maxRetries; i++` of `sendWithRetry` and the code
after it, with `remaining` rounds left; `n` calls were made before, `last` is
the result of the last one and `events` what happened so far. `restCall n` is
the result of the `n`-th call of the function `restCall` on the path, the body
and the token. -/
def sendLoop (restCall : Nat → String → String → String → Response × Option String)
    (objectName path body apiToken : String) (maxRetries timeout : Int) :
    Nat → Nat → Response × Option String → List Event →
      (Response × Option String) × List Event
  | 0, _, last, events =>
    ((Response.empty, some (sendError objectName maxRetries last)), events)
  | remaining + 1, n, _, events =>
    let events := events ++ [Event.sleep timeout]
    let r := restCall n path body apiToken
    let events := events ++ [Event.call n]
    if r.2 = none ∧ success r.1 = true then (r, events)
    else sendLoop restCall objectName path body apiToken maxRetries timeout remaining (n + 1) r
      events

/-- The function `sendWithRetry`: the Go result pair and what happened, in
order. The named results start as the zero values, and the loop runs
`maxRetries.toNat` rounds. -/
def sendWithRetry (restCall : Nat → String → String → String → Response × Option String)
    (objectName path body apiToken : String) (maxRetries timeout : Int) :
    (Response × Option String) × List Event :=
  sendLoop restCall objectName path body apiToken maxRetries timeout maxRetries.toNat 0
    (Response.empty, none) []

end rest

/-! ## The summary of the reporter (`pkg/report`) -/

namespace report

/-- The function `NewDefaultReporter` at the time `now`, as far as the summary
goes: nothing is counted yet. -/
def NewDefaultReporter (now : Time) : defaultReporter :=
  { started := now
    ended := ⟨0, 0⟩
    deploymentFinishedCount := 0
    deploymentsExcludedCount := 0
    deploymentsSkippedCount := 0 }

/-- The method `defaultReporter.GetSummary`; `format` stands for
`Time.Format("20060102-150405")` and `sub` for the printed `ended.Sub(started)`. -/
def defaultReporter.GetSummary (format : Time → String) (sub : Time → Time → String)
    (d : defaultReporter) : String :=
  "Deployments success: " ++ toString d.deploymentFinishedCount ++ "\n"
    ++ "Deployments excluded: " ++ toString d.deploymentsExcludedCount ++ "\n"
    ++ "Deployments skipped: " ++ toString d.deploymentsSkippedCount ++ "\n"
    ++ "Deploy Start Time: " ++ format d.started ++ "\n"
    ++ "Deploy End Time: " ++ format d.ended ++ "\n"
    ++ "Deploy Duration: " ++ sub d.ended d.started ++ "\n"

/-- The summary updates of the loop of `defaultReporter.record` over the records
of the queue: `none` when one of them panics. -/
def defaultReporter.process (d : defaultReporter) (records : List record) :
    Option defaultReporter :=
  records.foldlM (fun d r => d.updateSummaryFromRecord r) d

end report

/-! ## Replacing in strings -/

namespace strings

/-- The scan of Go `strings.ReplaceAll` for a non-empty `old`: the occurrences
of `old` are replaced from left to right without overlap. `skip` counts the
characters of a replaced occurrence that are still to be passed over. -/
def replaceChars (old new : List Char) : Nat → List Char → List Char
  | _, [] => []
  | skip + 1, _ :: cs => replaceChars old new skip cs
  | 0, c :: cs =>
    if old.isPrefixOf (c :: cs) then new ++ replaceChars old new (old.length - 1) cs
    else c :: replaceChars old new 0 cs

/-- Go `strings.ReplaceAll(s, old, new)` for strings. An empty `old` matches
before every character and at the end of the string. -/
def ReplaceAllString (s old new : String) : String :=
  if old.toList = [] then
    String.mk (new.toList ++ s.toList.flatMap (fun c => c :: new.toList))
  else String.mk (replaceChars old.toList new.toList 0 s.toList)

end strings

/-! ## Extraction of ids into parameters (`pkg/download/id_extraction`) -/

namespace id_extraction

/-- The character classes of the two id patterns: `[a-zA-Z_]`, `[A-Za-z0-9]`,
`[0-9a-fA-F]` and the literal `-`. -/
inductive CharClass where
  | type
  | alnum
  | hex
  | dash
deriving DecidableEq, Repr

/-- The letters `a` to `z` and `A` to `Z`. -/
def isLetter (c : Char) : Bool :=
  (decide (65 ≤ c.toNat) && decide (c.toNat ≤ 90))
    || (decide (97 ≤ c.toNat) && decide (c.toNat ≤ 122))

/-- The digits `0` to `9`. -/
def isDigit (c : Char) : Bool :=
  decide (48 ≤ c.toNat) && decide (c.toNat ≤ 57)

/-- Whether a character is in a class. -/
def CharClass.test : CharClass → Char → Bool
  | .type, c => isLetter c || decide (c = '_')
  | .alnum, c => isLetter c || isDigit c
  | .hex, c =>
    isDigit c || (decide (65 ≤ c.toNat) && decide (c.toNat ≤ 70))
      || (decide (97 ≤ c.toNat) && decide (c.toNat ≤ 102))
  | .dash, c => decide (c = '-')

/-- The match of a sequence of classes, one character each, at the start of
`s`: the matched characters. -/
def matchClasses : List CharClass → List Char → Option (List Char)
  | [], _ => some []
  | _ :: _, [] => none
  | cl :: cls, c :: cs =>
    if cl.test c then (matchClasses cls cs).map (fun m => c :: m) else none

/-- The part `-[A-Za-z0-9]{16}` of `meIDRegexPattern`. -/
def meIDClasses : List CharClass :=
  CharClass.dash :: List.replicate 16 CharClass.alnum

/-- The pattern `uuidRegexPattern`,
`[0-9a-fA-F]{8}-[0-9a-fA-F]{4}-[0-9a-fA-F]{4}-[0-9a-fA-F]{4}-[0-9a-fA-F]{12}`. -/
def uuidClasses : List CharClass :=
  List.replicate 8 CharClass.hex ++ CharClass.dash :: (List.replicate 4 CharClass.hex
    ++ CharClass.dash :: (List.replicate 4 CharClass.hex
    ++ CharClass.dash :: (List.replicate 4 CharClass.hex
    ++ CharClass.dash :: List.replicate 12 CharClass.hex)))

/-- The match of `meIDRegexPattern`, `[a-zA-Z_]+-[A-Za-z0-9]{16}`, at the start
of `s`. As `-` is not in the first class, the run `[a-zA-Z_]+` can only be the
longest one. -/
def matchMeID (s : List Char) : Option (List Char) :=
  let type := s.takeWhile CharClass.type.test
  if type = [] then none
  else (matchClasses meIDClasses (s.dropWhile CharClass.type.test)).map (fun m => type ++ m)

/-- The match of `uuidRegexPattern` at the start of `s`. -/
def matchUUID (s : List Char) : Option (List Char) :=
  matchClasses uuidClasses s

/-- The scan of `Regexp.FindAllString(s, -1)` for a pattern whose match at the
start of a text is `m`: the leftmost matches without overlap. `skip` counts the
characters of a match that are still to be passed over. -/
def findAll (m : List Char → Option (List Char)) : Nat → List Char → List (List Char)
  | _, [] => []
  | skip + 1, _ :: cs => findAll m skip cs
  | 0, c :: cs =>
    match m (c :: cs) with
    | some id => id :: findAll m (id.length - 1) cs
    | none => findAll m 0 cs

/-- A parameter of a config as far as the extraction goes: the value parameter
`value.New(v)`, or a parameter of another kind. -/
inductive Parameter where
  | value (v : String)
  | other (kind : String)
deriving DecidableEq, Repr

/-- A config as far as the extraction goes: the content of its template and its
parameters by name. -/
structure Config where
  Template : String
  Parameters : List (String × Parameter)
deriving DecidableEq, Repr

/-- The ids of both patterns in a template, the monitored entity ids first. -/
def findIDs (content : String) : List String :=
  ((findAll matchMeID 0 content.toList) ++ (findAll matchUUID 0 content.toList)).map String.mk

/-- The function `deduplicateIDs`: the keys of the set of ids. `keys` is the
order in which `maps.Keys` lists the keys of a map, which Go leaves open. -/
def deduplicateIDs (keys : List String → List String) (ids : List String) : List String :=
  keys ids.dedup

/-- The name `paramID` of the parameter of an id in `ExtractIDsIntoYAML`. -/
def paramID (id : String) : String :=
  "__EXTRACTED_ID_" ++ strings.ReplaceAll id '-' '_' ++ "__"

/-- The body of the loop over the ids in `ExtractIDsIntoYAML`. -/
def extractID (c : Config) (id : String) : Config :=
  { Parameters := project.mapSet c.Parameters (paramID id) (Parameter.value id)
    Template := strings.ReplaceAllString c.Template id ("\x7b\x7b ." ++ paramID id ++ " \x7d\x7d") }

/-- The body of the loop over the configs in `ExtractIDsIntoYAML`. -/
def extractConfig (keys : List String → List String) (c : Config) : Config :=
  (deduplicateIDs keys (findIDs c.Template)).foldl extractID c

/-- The function `ExtractIDsIntoYAML` on the map from type to configs. -/
def ExtractIDsIntoYAML (keys : List String → List String)
    (configsPerType : List (String × List Config)) : List (String × List Config) :=
  configsPerType.map (fun e => (e.1, e.2.map (extractConfig keys)))

end id_extraction

/-! ## Inputs of the repository's tests -/

namespace examples

open coordinate parameter topologysort

/-- The coordinate of `TestSortParameters`. -/
def dashboard1 : Coordinate := ⟨"project-1", "dashboard", "dashboard-1"⟩

/-- The parameters of `TestSortParameters`: `name` references `owner`. -/
def sortableParameters : List (String × Parameter) :=
  [("name", ⟨[⟨dashboard1, "owner"⟩]⟩), ("owner", ⟨[]⟩), ("timeout", ⟨[]⟩)]

/-- The parameters of `TestSortParametersShouldFailOnCircularDependency`: `name`
and `owner` reference each other. -/
def circularParameters : List (String × Parameter) :=
  [("name", ⟨[⟨dashboard1, "owner"⟩]⟩), ("owner", ⟨[⟨dashboard1, "name"⟩]⟩)]

/-- A single parameter that references itself. -/
def selfReferencingParameters : List (String × Parameter) :=
  [("name", ⟨[⟨dashboard1, "name"⟩]⟩)]

/-- A config of project `p` with the given api, id, references and skip flag. -/
def mkConfig (api id : String) (refs : List Coordinate) (skip : Bool) : config.Config :=
  { Coordinate := ⟨"p", api, id⟩
    Environment := "dev"
    Parameters := [("ref", ⟨refs.map (fun c => ⟨c, "id"⟩)⟩)]
    Skip := skip }

/-- An auto-tag config without references. -/
def tagConfig : config.Config := mkConfig "auto-tag" "tag" [] false

/-- A dashboard config that references the auto-tag config. -/
def dashboardConfig : config.Config :=
  mkConfig "dashboard" "board" [⟨"p", "auto-tag", "tag"⟩] false

/-- The auto-tag config, skipped. -/
def skippedTagConfig : config.Config := mkConfig "auto-tag" "tag" [] true

/-- The dashboard config, skipped. -/
def skippedDashboardConfig : config.Config :=
  mkConfig "dashboard" "board" [⟨"p", "auto-tag", "tag"⟩] true

/-- Two configs of different types that share the config id `main`. -/
def mainDashboard : config.Config := mkConfig "dashboard" "main" [] false

/-- The second config with the config id `main`. -/
def mainTag : config.Config := mkConfig "auto-tag" "main" [] false

/-- The project `project1` of `TestGetSortedConfigsForEnvironments`: two
dashboards, one of which references the auto-tag of `project2`; it depends on
`project2` for the environment `dev`. -/
def project1 : project.Project :=
  { Id := "project1"
    Configs := [("dev", [("dashboard",
      [{ Coordinate := ⟨"project1", "dashboard", "sample dashboard"⟩
         Environment := "dev"
         Parameters := [("autoTagId", ⟨[⟨⟨"project2", "auto-tag", "tag"⟩, "tagId"⟩]⟩)]
         Skip := false },
       { Coordinate := ⟨"project1", "dashboard", "Random Dashboard"⟩
         Environment := "dev"
         Parameters := [("name", ⟨[]⟩)]
         Skip := false }])])]
    Dependencies := [("dev", ["project2"])] }

/-- The project `project2` of `TestGetSortedConfigsForEnvironments`: one
auto-tag. -/
def project2 : project.Project :=
  { Id := "project2"
    Configs := [("dev", [("auto-tag",
      [{ Coordinate := ⟨"project2", "auto-tag", "tag"⟩
         Environment := "dev"
         Parameters := [("tagId", ⟨[]⟩)]
         Skip := false }])])]
    Dependencies := [] }

/-- The projects of `TestGetSortedConfigsForEnvironments`. -/
def testProjects : List project.Project := [project1, project2]

/-- An environment whose auth has a token and no OAuth. -/
def tokenEnvironment : manifest.EnvironmentDefinition :=
  { Name := "dev", Group := "default", Auth := ⟨some ⟨"TOKEN", "secret"⟩, none⟩ }

/-- An environment whose auth has a token and OAuth. -/
def platformEnvironment : manifest.EnvironmentDefinition :=
  { Name := "dev", Group := "default",
    Auth := ⟨some ⟨"TOKEN", "secret"⟩, some ⟨⟨"ID", "id"⟩, ⟨"SECRET", "secret"⟩⟩⟩ }

/-- A config of project `p` with the given type and skip flag. -/
def typedConfig (id : String) (type : config.Type') (skip : Bool) : config.Config :=
  { Coordinate := ⟨"p", "t", id⟩
    Environment := "dev"
    Parameters := []
    Skip := skip
    Type' := type }

/-- A non-skipped config of type policy. -/
def policyConfig : config.Config := typedConfig "policy" config.Type'.PolicyType false

/-- A project that holds the policy config for `dev`. -/
def policyProject : project.Project :=
  { Id := "p", Configs := [("dev", [("policy", [policyConfig])])], Dependencies := [] }

/-- A project that holds one bucket config for `dev`. -/
def bucketProject : project.Project :=
  { Id := "p"
    Configs := [("dev", [("bucket", [typedConfig "bucket" config.Type'.BucketType false])])]
    Dependencies := [] }

/-- Scenario S3: a project with two non-skipped openpipeline configs of kind
`logs` and a skipped one for `dev`. -/
def pipelineProject : project.Project :=
  { Id := "p"
    Configs := [("dev", [("openpipeline",
      [typedConfig "logs-1" (config.Type'.OpenPipelineType "logs") false,
       typedConfig "logs-2" (config.Type'.OpenPipelineType "logs") false,
       typedConfig "logs-3" (config.Type'.OpenPipelineType "logs") true])])]
    Dependencies := [] }

/-- Project definitions: two simple projects, two projects of the group `g`,
one of the group `h.k`, and one whose dotted name does not match its path. -/
def projectDefinitions : List (String × manifest.ProjectDefinition) :=
  [("a", ⟨"a", "a"⟩), ("g.x", ⟨"g.x", "g/x"⟩), ("g.y", ⟨"g.y", "g/y"⟩),
   ("b", ⟨"b", "path/b"⟩), ("h.k.z", ⟨"h.k.z", "h/k/z"⟩), ("n.o", ⟨"n.o", "other"⟩)]

/-- The second record of `TestReporter_ContextWithDefaultReporterCollectsEvents`:
a deployment reported with the state `ERROR` and the error
`errors.New("an error")`. -/
def errorRecord : report.record :=
  { Type' := "DEPLOY"
    Time := ⟨1700000000, 0⟩
    Config := ⟨"test", "dashboard", "my-dashboard2"⟩
    State := "ERROR"
    Details := [⟨"ERROR", "error"⟩]
    Error := some (report.errorsNew "an error") }

/-- A reporter that has counted nothing yet. -/
def freshReporter : report.defaultReporter := ⟨⟨1700000000, 0⟩, ⟨0, 0⟩, 0, 0, 0⟩

/-- A platform environment of the group `live` with the given resolved values of
its token, client id and client secret. -/
def platformDefinition (token id secret : String) : manifest.writer.EnvironmentDefinition :=
  { Name := "prod"
    Type' := manifest.EnvironmentType.Platform
    URL := ⟨manifest.URLType.EnvironmentURLType, "PROD_URL", "https://prod.example"⟩
    Group := "live"
    Auth :=
      { Token := ⟨"", token⟩
        OAuth := ⟨⟨"CLIENT_ID", id⟩, ⟨"CLIENT_SECRET", secret⟩,
          ⟨manifest.URLType.Absent, "", ""⟩⟩ } }

/-- A classic environment of the group `live` with the given resolved value of
its token. -/
def classicDefinition (token : String) : manifest.writer.EnvironmentDefinition :=
  { Name := "dev"
    Type' := manifest.EnvironmentType.Classic
    URL := ⟨manifest.URLType.ValueURLType, "", "https://dev.example"⟩
    Group := "live"
    Auth :=
      { Token := ⟨"DEV_TOKEN", token⟩
        OAuth := ⟨⟨"", ""⟩, ⟨"", ""⟩, ⟨manifest.URLType.ValueURLType, "", ""⟩⟩ } }

/-- An environment map with resolved secrets. -/
def resolvedEnvironments : List (String × manifest.writer.EnvironmentDefinition) :=
  [("prod", platformDefinition "t0ken" "id" "s3cret"), ("dev", classicDefinition "dt0c01")]

/-- The same environment map with other resolved secrets. -/
def otherSecrets : List (String × manifest.writer.EnvironmentDefinition) :=
  [("prod", platformDefinition "other" "values" "here"), ("dev", classicDefinition "")]

/-- A server on which the first two GET requests fail, with a transport error
and with status 500, and the third one succeeds. -/
def flakyClient : rest.Client :=
  { NewRequest := fun method url => .ok ⟨method, url, []⟩
    Do := fun n _ =>
      if n = 0 then (rest.Response.empty, some "connection reset")
      else if n = 1 then (⟨500, "busy", []⟩, none)
      else (⟨200, "body", [("Content-Type", ["application/json"])]⟩, none)
    UserAgent := "Dynatrace Monitoring as Code/1.0 linux amd64" }

/-- The folders of `TestIfProjectHasSubproject`. -/
def subprojectFolders : List String :=
  ["zem", "marvin", "marvin/trillian", "marvin/trillian/hacktar", "robot/trillian/hacktar"]

/-- The folders of `TestFilterProjectsWithSubproject`. -/
def allProjectFolders : List String :=
  ["zem", "caveman/anjie", "caveman/anjie/garkbit", "marvin/trillian", "trillian"]

/-- The tree of `test-resources/hidden-directories/project2`: the hidden folder
`.logs` next to the project `subproject`. -/
def hiddenProject2 : project.v1.Node :=
  .dir "project2"
    [.dir ".logs" [.file "monaco.log"],
     .dir "subproject" [.dir "dashboard" [.file "dashboard.json", .file "dashboard.yaml"]]]

/-- A directory listing: a plain file named like an API next to a
sub-directory. -/
def apiNamedFile : List project.v1.FileInfo :=
  [⟨"dashboard", false⟩, ⟨"subproject", true⟩]

/-- A project of the legacy loader: its id and the ids it depends on. -/
structure LegacyProject where
  id : String
  dependsOn : List String
deriving DecidableEq, Repr

/-- The id of a legacy project. -/
def LegacyProject.GetId (p : LegacyProject) : String := p.id

/-- A legacy project depends on another one when it names its id. -/
def LegacyProject.HasDependencyOn (p q : LegacyProject) : Bool := p.dependsOn.contains q.id

/-- Available projects: `a` depends on `b`, `b` on `c` and on `a`, `d` stands
alone. -/
def availableProjects : List LegacyProject :=
  [⟨"d", []⟩, ⟨"c", []⟩, ⟨"b", ["c", "a"]⟩, ⟨"a", ["b"]⟩]

/-- An environment whose auth has neither token nor OAuth. -/
def bareEnvironment : manifest.EnvironmentDefinition :=
  { Name := "dev", Group := "default", Auth := ⟨none, none⟩ }

/-- A project with a dashboard config for `dev` and a bucket config for `prod`. -/
def twoEnvironmentsProject : project.Project :=
  { Id := "p"
    Configs :=
      [("dev", [("dashboard", [typedConfig "board" (config.Type'.ClassicApiType "dashboard") false])]),
       ("prod", [("bucket", [typedConfig "bucket" config.Type'.BucketType false])])]
    Dependencies := [] }


/-- A tenant on which every extension is deployed in the given version, and a
JSON reader for payloads that hold nothing but the version. -/
def extensionClient (deployed : String) : dtclient.DynatraceClient :=
  { Get := fun _ => (⟨200, deployed, []⟩, none)
    Unmarshal := fun body => .ok (some body) }


/-- A `restCall` whose first call is answered 503 and every later one 200. -/
def secondCallSucceeds (n : Nat) (_path _body _apiToken : String) :
    rest.Response × Option String :=
  if n = 0 then (⟨503, "unavailable", []⟩, none) else (⟨200, "ok", []⟩, none)


/-- Three processed records: a success, a skipped and another success. -/
def processedRecords : List report.record :=
  [{ Type' := "DEPLOY", Time := ⟨1700000001, 0⟩, Config := ⟨"test", "dashboard", "a"⟩,
     State := "SUCCESS", Details := [], Error := none },
   { Type' := "DEPLOY", Time := ⟨1700000002, 0⟩, Config := ⟨"test", "dashboard", "b"⟩,
     State := "SKIPPED", Details := [⟨"INFO", "skipped"⟩], Error := none },
   { Type' := "DEPLOY", Time := ⟨1700000003, 0⟩, Config := ⟨"test", "dashboard", "c"⟩,
     State := "SUCCESS", Details := [], Error := none }]


/-- An account on which every update is answered 404 with a client error, no
policy and no group is found, and every creation is answered 201. -/
def missingObjects : deployer.Client :=
  { UpdateLevelPolicy := fun _ _ _ _ => (some ⟨404, .ok "not found"⟩, some "404 Not Found")
    GetLevelPolicies := fun _ _ _ => (some [], some ⟨200, .ok ""⟩, none)
    CreateLevelPolicy := fun _ _ policy => (some ⟨"new-uuid", policy.Name⟩, some ⟨201, .ok ""⟩, none)
    EditGroup := fun _ _ _ => (some ⟨404, .ok "not found"⟩, some "404 Not Found")
    GetGroups := fun _ => (some [], some ⟨200, .ok ""⟩, none)
    CreateGroups := fun _ groups =>
      (some (groups.map (fun g => ⟨"new-group", g.Name⟩)), some ⟨201, .ok ""⟩, none) }


/-- Sort errors on three configs: node 0 keeps edges from 1 and 2, node 1 keeps
an edge from 2. -/
def configSortErrors : List sort.TopologySortError :=
  [⟨0, [1, 2]⟩, ⟨1, [2]⟩]

/-- Three configs with distinct coordinates. -/
def threeConfigs : List config.Config :=
  [mkConfig "dashboard" "a" [] false, mkConfig "dashboard" "b" [] false,
   mkConfig "dashboard" "c" [] false]

/-- A template with a monitored entity id, twice, and a UUID. -/
def entityTemplate : id_extraction.Config :=
  { Template := "\x7b\"a\": \"HOST-0123456789ABCDEF\", \"b\": \"HOST-0123456789ABCDEF\", \"c\": \"12345678-abcd-ef01-2345-6789abcdef01\"\x7d"
    Parameters := [("name", id_extraction.Parameter.value "x")] }

/-- A template in which a UUID and a monitored entity id overlap: the id
`abcd-123456789abcWXYZ` starts inside the UUID. -/
def overlappingTemplate : id_extraction.Config :=
  { Template := "12345678-1234-1234-abcd-123456789abcWXYZ"
    Parameters := [] }

end examples

/-! ## Folding updates into a Go map -/

namespace project

/-- One update of a Go map inside a loop: the element `x` selects a key, or
none, and the new value of that key is computed from the old one. -/
def mapUpdate {X V : Type} (key : X → Option String) (u : X → Option V → V)
    (m : List (String × V)) (x : X) : List (String × V) :=
  match key x with
  | some k => mapSet m k (u x (mapFind m k))
  | none => m

end project

/-! ## Keys and error kinds of the validation -/

namespace deploy

open coordinate config project manifest

/-- The key an entry of `p.Configs` writes into `undefinedEnvironments`. -/
def undeclaredKey (envs : List (String × EnvironmentDefinition))
    (e : String × List (String × List Config)) : Option String :=
  match mapFind envs e.1 with
  | none => some e.1
  | some _ => none

/-- The key an entry of `p.Configs` writes into the two per-environment maps. -/
def declaredKey (envs : List (String × EnvironmentDefinition))
    (e : String × List (String × List Config)) : Option String :=
  match mapFind envs e.1 with
  | none => none
  | some _ => some e.1

/-- The kind under which `collectOpenPipelineCoordinatesByKind` files a config. -/
def openPipelineKey (cfg : Config) : Option String :=
  if cfg.Skip then none
  else
    match cfg.Type' with
    | Type'.OpenPipelineType kind => some kind
    | _ => none

/-- The errors about an undefined environment `envName`. -/
def isUndefinedError (envName : String) (err : ValidationError) : Bool :=
  match err with
  | ValidationError.undefinedEnvironment e => decide (e = envName)
  | _ => false

/-- The errors about missing platform access of the environment `envName`. -/
def isPlatformError (envName : String) (err : ValidationError) : Bool :=
  match err with
  | ValidationError.requiresPlatform e _ => decide (e = envName)
  | _ => false

/-- The errors about several openpipeline configs of `kind` in `envName`. -/
def isOpenPipelineError (envName kind : String) (err : ValidationError) : Bool :=
  match err with
  | ValidationError.multipleOpenPipeline e k _ => decide (e = envName) && decide (k = kind)
  | _ => false

end deploy

/-! ## The credential requirement of a config type -/

namespace deploy

open config manifest

/-- The credentials a config of a type needs: a token for a classic API, a
token or OAuth for settings, OAuth for every other type. -/
def satisfiesCredentials (auth : Auth) (type : Type') : Prop :=
  match type with
  | Type'.ClassicApiType _ => auth.Token ≠ none
  | Type'.SettingsType _ => auth.Token ≠ none ∨ auth.OAuth ≠ none
  | _ => auth.OAuth ≠ none

end deploy

/-! ## The errors and pointers of a delete file -/

namespace delete

/-- The error `parseDeleteEntry` returns for the entry at index `ie.1`, if any. -/
def entryError (knownApis : List String) (ie : Nat × RawEntry) :
    Option DeleteEntryParserError :=
  match parseFullOrSimple knownApis ie.2 with
  | Except.error reason => some ⟨ie.2.shown, ie.1, reason⟩
  | Except.ok _ => none

/-- The pointer `parseDeleteEntry` returns for an entry, if any. -/
def entryPointer (knownApis : List String) (entry : RawEntry) : Option DeletePointer :=
  match parseFullOrSimple knownApis entry with
  | Except.error _ => none
  | Except.ok ptr => some ptr

end delete

/-! ## The key of a grouping project -/

namespace manifest

/-- The key under which the first loop of `toWriteableProjects` writes a project
definition into `groups`, if it writes it there. -/
def groupKey (entry : String × ProjectDefinition) : Option String :=
  if isGroupingProject entry.2 then some (groupEntry entry.2).Name else none

end manifest

/-! ## Notions used to state the properties of the helpers, the report and the loader -/

namespace rest

/-- A GET attempt succeeds: no error and a success status. -/
def succeeded (r : Response × Option String) : Bool :=
  decide (r.2 = none) && success r.1

end rest

namespace report

/-- Reading a field of a JSON object. -/
def JSON.field (doc : JSON) (name : String) : Option JSON :=
  match doc with
  | JSON.obj fields => (fields.find? (fun f => decide (f.1 = name))).map Prod.snd
  | _ => none

end report

namespace manifest

/-- The secrets that a written `auth` holds. -/
def auth.secrets (a : auth) : List authSecret :=
  a.Token :: (match a.OAuth with
    | some o => [o.ClientID, o.ClientSecret]
    | none => [])

/-- Two environment definitions that differ at most in the resolved value of
the token, of the OAuth client id and of the OAuth client secret. -/
def sameButSecretValues (a b : writer.EnvironmentDefinition) : Prop :=
  a.Name = b.Name ∧ a.Type' = b.Type' ∧ a.URL = b.URL ∧ a.Group = b.Group ∧
  a.Auth.Token.Name = b.Auth.Token.Name ∧
  a.Auth.OAuth.ClientID.Name = b.Auth.OAuth.ClientID.Name ∧
  a.Auth.OAuth.ClientSecret.Name = b.Auth.OAuth.ClientSecret.Name ∧
  a.Auth.OAuth.TokenEndpoint = b.Auth.OAuth.TokenEndpoint

end manifest

namespace project
namespace v1

/-- The available projects whose id is not in the list yet. -/
def notAdded {P : Type} (GetId : P → String) (availableProjects projects : List P) : List P :=
  availableProjects.filter (fun a => !isProjectAlreadyAdded GetId a projects)

/-- The list `next` is `projects` followed by available projects with new,
pairwise distinct ids, each one a dependency of a project of `next`. -/
def Extends {P : Type} (GetId : P → String) (HasDependencyOn : P → P → Bool)
    (availableProjects projects next : List P) : Prop :=
  ∃ added, next = projects ++ added ∧ (∀ a ∈ added, a ∈ availableProjects) ∧
    (added.map GetId).Nodup ∧ (∀ a ∈ added, GetId a ∉ projects.map GetId) ∧
    (∀ a ∈ added, ∃ p ∈ next, HasDependencyOn p a = true)

/-- Every available project that a project of the list depends on has its id in
the list. -/
def Closed {P : Type} (GetId : P → String) (HasDependencyOn : P → P → Bool)
    (availableProjects projects : List P) : Prop :=
  ∀ p ∈ projects, ∀ a ∈ availableProjects, HasDependencyOn p a = true →
    GetId a ∈ projects.map GetId

/-- An available project that a requested project depends on, directly or
through available projects. -/
inductive Reachable {P : Type} (HasDependencyOn : P → P → Bool)
    (availableProjects requested : List P) : P → Prop where
  | direct (r a : P) : r ∈ requested → a ∈ availableProjects → HasDependencyOn r a = true →
      Reachable HasDependencyOn availableProjects requested a
  | step (b a : P) : Reachable HasDependencyOn availableProjects requested b →
      a ∈ availableProjects → HasDependencyOn b a = true →
      Reachable HasDependencyOn availableProjects requested a

/-- The invariant of the two inner loops of the dependency search: the current
list extends the list of the round's start, the flag tells whether it grew, and
the pairs handled so far are closed in the current list. -/
structure RoundInv {P : Type} (GetId : P → String) (HasDependencyOn : P → P → Bool)
    (av l : List P) (done : P → P → Prop) (state : List P × Bool) : Prop where
  ext : Extends GetId HasDependencyOn av l state.1
  flag : state.2 = false → state.1 = l
  grown : state.2 = true → state.1 ≠ l
  closed : ∀ p a, done p a → HasDependencyOn p a = true → GetId a ∈ state.1.map GetId

end v1
end project

namespace deploy

open config project manifest

/-- The violations of all non-skipped configs, in the order of the four nested
loops of `validateAuthenticationWithProjectConfigs`. -/
def authenticationViolations (projects : List Project)
    (environments : List (String × EnvironmentDefinition)) : List AuthenticationError :=
  projects.flatMap (fun p =>
    p.Configs.flatMap (fun env =>
      env.2.flatMap (fun file =>
        file.2.filterMap (fun conf => checkAuthentication environments env.1 conf))))

end deploy

namespace rest

/-- The events of `k` rounds that start with call `n`: one sleep before each
call. -/
def rounds (timeout : Int) (n k : Nat) : List Event :=
  (List.range k).flatMap (fun i => [Event.sleep timeout, Event.call (n + i)])

end rest

namespace report

/-- The number of records in a state. -/
def countState (state : String) (records : List record) : Int :=
  ((records.filter (fun r => decide (r.State = state))).length : Int)

end report

namespace deployer

/-- A call is accepted: it gives a response whose status is a success status or
404. -/
def accepted (resp : Option HttpResponse) : Prop :=
  ∃ r, resp = some r ∧ (IsSuccess r = true ∨ r.StatusCode = 404)

end deployer

namespace topologysort

open coordinate config

/-- The pairs of a depending config and the config it has an unresolved edge
into, in the order in which `parseConfigSortErrors` meets them. -/
def resolvedEdges (configs : List Config) (sortErrs : List sort.TopologySortError) :
    List (Config × Config) :=
  sortErrs.flatMap (fun sortErr =>
    match configs[sortErr.OnId]? with
    | none => []
    | some conf =>
      sortErr.UnresolvedIncomingEdgesFrom.filterMap (fun index =>
        (configs[index]?).map (fun dependingConfig => (dependingConfig, conf))))

/-- The invariant of the map `depErrs` after the pairs `processed`. -/
structure DepInv (m : List (Coordinate × CircularDependencyConfigSortError))
    (processed : List (Config × Config)) : Prop where
  nodup : (m.map Prod.fst).Nodup
  keys : ∀ k, k ∈ m.map Prod.fst ↔ ∃ p ∈ processed, p.1.Coordinate = k
  entry : ∀ kv ∈ m, kv.2.Config = kv.1 ∧
    (∃ p ∈ processed, p.1.Coordinate = kv.1 ∧ kv.2.Environment = p.1.Environment) ∧
    kv.2.DependsOn = (processed.filter (fun p => decide (p.1.Coordinate = kv.1))).map
      (fun p => p.2.Coordinate)

end topologysort

namespace id_extraction

/-- The one pass that replaces placeholders by values: `params` pairs the text of
a placeholder with the text of its value. `skip` counts the characters of a
replaced placeholder that are still to be passed over. -/
def renderChars (params : List (List Char × List Char)) : Nat → List Char → List Char
  | _, [] => []
  | skip + 1, _ :: cs => renderChars params skip cs
  | 0, c :: cs =>
    match params.find? (fun p => p.1.isPrefixOf (c :: cs)) with
    | some p => p.2 ++ renderChars params (p.1.length - 1) cs
    | none => c :: renderChars params 0 cs

/-- The content in which every placeholder of a parameter of `params`, name and
value, is replaced by the value. -/
def render (params : List (String × String)) (content : String) : String :=
  String.mk (renderChars
    (params.map (fun p => (("\x7b\x7b ." ++ p.1 ++ " \x7d\x7d").toList, p.2.toList))) 0
    content.toList)

/-- The characters of the key of an id: `strings.ReplaceAll(id, "-", "_")`. -/
def keyChars (l : List Char) : List Char :=
  l.map (fun c => if c = '-' then '_' else c)

/-- The characters of the placeholder of an id. -/
def phChars (l : List Char) : List Char :=
  "\x7b\x7b .__EXTRACTED_ID_".toList ++ (keyChars l ++ "__ \x7d\x7d".toList)

/-- A text matches a sequence of classes, character by character. -/
def Matches (cls : List CharClass) (l : List Char) : Prop :=
  List.Forall₂ (fun cl c => CharClass.test cl c = true) cls l

/-- The text of a match of one of the two id patterns. -/
def IdShape (l : List Char) : Prop :=
  (∃ X m, l = X ++ m ∧ X ≠ [] ∧ (∀ c ∈ X, CharClass.type.test c = true)
    ∧ Matches meIDClasses m) ∨ Matches uuidClasses l

/-- The id of a key that matches a sequence of classes: the `-` are put
back. -/
def unkey (cls : List CharClass) (k : List Char) : List Char :=
  List.zipWith (fun cl c => if cl = CharClass.dash then '-' else c) cls k

/-- The text of a placeholder as the proofs use it: it starts with two opening
braces, has no further opening brace and no `-`, and ends with a closing
brace. -/
structure Placeholder (ph : List Char) : Prop where
  braces : ∃ p2, ph = '{' :: '{' :: p2 ∧ p2 ≠ [] ∧ '{' ∉ p2
  noDash : '-' ∉ ph
  last : ph.getLast? = some '}'

/-- The text of an id as the proofs use it: not empty, without braces, with a
`-`. -/
structure IdText (v : List Char) : Prop where
  ne : v ≠ []
  noOpen : '{' ∉ v
  noClose : '}' ∉ v
  dash : '-' ∈ v

/-- Pairs of a placeholder and its id, no placeholder of which starts a text
that starts with another one. -/
structure Rules (P : List (List Char × List Char)) : Prop where
  placeholder : ∀ p ∈ P, Placeholder p.1
  id : ∀ p ∈ P, IdText p.2
  unique : ∀ p ∈ P, ∀ q ∈ P, ∀ X, p.1 <+: q.1 ++ X → p = q

end id_extraction

/-! ## Predicates used by the proofs -/

namespace sort

/-- Sort data as the callers build it: a square matrix whose row counts are the
in-degrees. -/
def WellFormed (matrix : List (List Bool)) (inDegrees : List Int) : Prop :=
  inDegrees.length = matrix.length ∧ (∀ row ∈ matrix, row.length = matrix.length) ∧
  ∀ i, i < matrix.length → inDegrees.getD i 0 = ((matrix.getD i []).count true : Int)

/-- The invariant of `kahnLoop`, relative to the original matrix `M`. -/
structure KahnInv (M m : List (List Bool)) (d : List Int) (q acc : List Nat) : Prop where
  len : m.length = M.length
  wf : WellFormed m d
  nodup : (acc ++ q).Nodup
  bound : ∀ i ∈ acc ++ q, i < M.length
  edges : ∀ i j, edgeAt m i j = (edgeAt M i j && decide (j ∉ acc))
  zero : ∀ i, i < M.length → (i ∈ acc ++ q ↔ d.getD i 0 = 0)
  ordered : ∀ i ∈ acc, ∀ j, edgeAt M i j = true →
    j ∈ acc ∧ acc.indexOf j < acc.indexOf i

/-- What a finished run of Kahn's algorithm on well-formed data guarantees. -/
structure Sorted (M : List (List Bool)) (order : List Nat)
    (errs : List TopologySortError) : Prop where
  nodup : order.Nodup
  bound : ∀ i ∈ order, i < M.length
  ordered : ∀ i ∈ order, ∀ j, edgeAt M i j = true →
    j ∈ order ∧ order.indexOf j < order.indexOf i
  stuck : ∀ i, i < M.length → i ∉ order → ∃ j, edgeAt M i j = true ∧ j ∉ order
  errs_iff : ∀ e, e ∈ errs ↔ e.OnId < M.length ∧ e.OnId ∉ order ∧
    e.UnresolvedIncomingEdgesFrom = (List.range M.length).filter
      (fun j => edgeAt M e.OnId j && decide (j ∉ order))
  errs_nodup : (errs.map TopologySortError.OnId).Nodup

end sort

/-! ## Kahn's algorithm: the loop invariant -/

namespace sort

theorem edgeAt_clear (m : List (List Bool)) (cur i j : Nat) :
    edgeAt (m.map (fun row => row.set cur false)) i j
      = (edgeAt m i j && decide (j ≠ cur)) := by
  unfold edgeAt
  simp only [List.getD_eq_getElem?_getD, List.getElem?_map]
  cases m[i]? with
  | none => simp
  | some row =>
    simp only [Option.map_some', Option.getD_some, List.getElem?_set]
    by_cases hj : cur = j
    · subst hj
      by_cases hl : cur < row.length <;> simp [hl]
    · have hj2 : j ≠ cur := fun h => hj h.symm
      simp [hj, hj2]

theorem count_clear (row : List Bool) (cur : Nat) :
    ((row.set cur false).count true : Int)
      = (row.count true : Int) - (if row.getD cur false then 1 else 0) := by
  induction row generalizing cur with
  | nil => simp
  | cons b row ih =>
    cases cur with
    | zero => cases b <;> simp [List.count_cons]
    | succ k =>
      have h := ih k
      cases b <;> simp [List.count_cons] at h ⊢ <;> omega

theorem getD_true_count_pos (row : List Bool) (j : Nat) (h : row.getD j false = true) :
    0 < row.count true := by
  rw [List.count_pos_iff]
  rw [List.getD_eq_getElem?_getD] at h
  cases hj : row[j]? with
  | none => simp [hj] at h
  | some b =>
    simp [hj] at h
    subst h
    exact List.mem_iff_getElem?.2 ⟨j, hj⟩

theorem count_eq_zero_iff_getD (row : List Bool) :
    row.count true = 0 ↔ ∀ j, row.getD j false = false := by
  constructor
  · intro h j
    by_contra hne
    have := getD_true_count_pos row j (by simpa using hne)
    omega
  · intro h
    rw [List.count_eq_zero]
    intro hmem
    obtain ⟨j, hj⟩ := List.mem_iff_getElem?.1 hmem
    have := h j
    simp [List.getD_eq_getElem?_getD, hj] at this

theorem getD_zipWith_step (m : List (List Bool)) (d : List Int) (cur i : Nat)
    (hd : d.length = m.length) (hi : i < m.length) :
    (List.zipWith (fun (row : List Bool) (x : Int) => if row.getD cur false then x - 1 else x)
        m d).getD i 0
      = if edgeAt m i cur then d.getD i 0 - 1 else d.getD i 0 := by
  have hi2 : i < d.length := by omega
  simp only [edgeAt, List.getD_eq_getElem?_getD, List.getElem?_zipWith,
    List.getElem?_eq_getElem hi, List.getElem?_eq_getElem hi2, Option.getD_some]

theorem getD_row_clear (m : List (List Bool)) (cur i : Nat) :
    (m.map (fun row => row.set cur false)).getD i [] = (m.getD i []).set cur false := by
  simp only [List.getD_eq_getElem?_getD, List.getElem?_map]
  cases m[i]? <;> simp

theorem WellFormed.clearColumn {m : List (List Bool)} {d : List Int} (h : WellFormed m d)
    (cur : Nat) :
    WellFormed (m.map (fun row => row.set cur false))
      (List.zipWith (fun (row : List Bool) (x : Int) =>
        if row.getD cur false then x - 1 else x) m d) := by
  obtain ⟨h1, h2, h3⟩ := h
  refine ⟨by simp [h1], ?_, ?_⟩
  · intro row hrow
    obtain ⟨r, hr, rfl⟩ := List.mem_map.1 hrow
    simpa using h2 r hr
  · intro i hi
    have hi2 : i < m.length := by simpa using hi
    rw [getD_zipWith_step m d cur i h1 hi2, getD_row_clear, count_clear, h3 i hi2]
    unfold edgeAt
    split <;> rfl

theorem KahnInv.round {M m : List (List Bool)} {d : List Int} {cur : Nat}
    {q acc : List Nat} (h : KahnInv M m d (cur :: q) acc) :
    KahnInv M (m.map (fun row => row.set cur false))
      (List.zipWith (fun (row : List Bool) (x : Int) =>
        if row.getD cur false then x - 1 else x) m d)
      (q ++ (List.range m.length).filter (fun i => edgeAt m i cur &&
        decide ((List.zipWith (fun (row : List Bool) (x : Int) =>
          if row.getD cur false then x - 1 else x) m d).getD i 0 = 0)))
      (acc ++ [cur]) := by
  have hcur : cur < M.length := h.bound cur (by simp)
  have hcurAcc : cur ∉ acc := by
    have := h.nodup
    rw [List.nodup_append] at this
    exact fun hc => this.2.2 hc (List.mem_cons_self _ _)
  have hd0 : d.getD cur 0 = 0 := (h.zero cur hcur).1 (by simp)
  have hrow : ∀ j, edgeAt m cur j = false := by
    have hc : (m.getD cur []).count true = 0 := by
      have := h.wf.2.2 cur (by rw [h.len]; exact hcur)
      rw [hd0] at this
      exact_mod_cast this.symm
    exact (count_eq_zero_iff_getD _).1 hc
  have hstep : ∀ i, i < M.length →
      (List.zipWith (fun (row : List Bool) (x : Int) =>
        if row.getD cur false then x - 1 else x) m d).getD i 0
        = if edgeAt m i cur then d.getD i 0 - 1 else d.getD i 0 := fun i hi =>
    getD_zipWith_step m d cur i h.wf.1 (by rw [h.len]; exact hi)
  have hpos : ∀ i, i < M.length → edgeAt m i cur = true → 0 < d.getD i 0 := by
    intro i hi he
    rw [h.wf.2.2 i (by rw [h.len]; exact hi)]
    exact_mod_cast getD_true_count_pos _ _ he
  have hnn : ∀ i, i < M.length → 0 ≤ d.getD i 0 := by
    intro i hi
    rw [h.wf.2.2 i (by rw [h.len]; exact hi)]
    exact Int.natCast_nonneg _
  have hrel : ∀ i, i ∈ (List.range m.length).filter (fun i => edgeAt m i cur &&
        decide ((List.zipWith (fun (row : List Bool) (x : Int) =>
          if row.getD cur false then x - 1 else x) m d).getD i 0 = 0)) ↔
      i < M.length ∧ edgeAt m i cur = true ∧ d.getD i 0 = 1 := by
    intro i
    simp only [List.mem_filter, List.mem_range, Bool.and_eq_true, decide_eq_true_eq, h.len]
    constructor
    · rintro ⟨hi, he, hz⟩
      rw [hstep i hi] at hz
      simp only [he, if_true] at hz
      exact ⟨hi, he, by omega⟩
    · rintro ⟨hi, he, hz⟩
      refine ⟨hi, he, ?_⟩
      rw [hstep i hi, he, hz]; rfl
  refine ⟨by simp [h.len], h.wf.clearColumn cur, ?_, ?_, ?_, ?_, ?_⟩
  · -- nodup
    have hperm : ((acc ++ [cur]) ++ (q ++ (List.range m.length).filter (fun i =>
        edgeAt m i cur && decide ((List.zipWith (fun (row : List Bool) (x : Int) =>
          if row.getD cur false then x - 1 else x) m d).getD i 0 = 0)))) =
        (acc ++ cur :: q) ++ (List.range m.length).filter (fun i =>
        edgeAt m i cur && decide ((List.zipWith (fun (row : List Bool) (x : Int) =>
          if row.getD cur false then x - 1 else x) m d).getD i 0 = 0)) := by
      simp
    rw [hperm]
    refine List.Nodup.append h.nodup ((List.nodup_range _).filter _) ?_
    intro i hi1 hi2
    obtain ⟨hi, _, hone⟩ := (hrel i).1 hi2
    have := (h.zero i hi).1 hi1
    omega
  · -- bound
    intro i hi
    simp only [List.mem_append, List.mem_singleton] at hi
    rcases hi with (hi | hi) | hi | hi
    · exact h.bound i (by simp [hi])
    · exact hi ▸ hcur
    · exact h.bound i (by simp [hi])
    · exact ((hrel i).1 hi).1
  · -- edges
    intro i j
    rw [edgeAt_clear, h.edges]
    by_cases hj : j = cur
    · simp [hj]
    · simp [hj]
  · -- zero
    intro i hi
    rw [hstep i hi]
    have hz := h.zero i hi
    have key : i ∈ (acc ++ [cur]) ++ (q ++ (List.range m.length).filter (fun i =>
        edgeAt m i cur && decide ((List.zipWith (fun (row : List Bool) (x : Int) =>
          if row.getD cur false then x - 1 else x) m d).getD i 0 = 0))) ↔
        (i ∈ acc ++ cur :: q ∨ (i < M.length ∧ edgeAt m i cur = true ∧ d.getD i 0 = 1)) := by
      rw [← hrel i]
      simp only [List.mem_append, List.mem_singleton, List.mem_cons]
      tauto
    rw [key, hz]
    by_cases he : edgeAt m i cur = true
    · have := hpos i hi he
      simp only [he, if_true]
      constructor
      · rintro (h0 | ⟨_, _, h1⟩) <;> omega
      · intro h1; right; exact ⟨hi, trivial, by omega⟩
    · simp only [he, if_false, Bool.false_eq_true]
      constructor
      · rintro (h0 | ⟨_, h1, _⟩)
        · exact h0
        · exact h1.elim
      · intro h0; exact Or.inl h0
  · -- ordered
    intro i hi j hij
    simp only [List.mem_append, List.mem_singleton] at hi
    rcases hi with hi | hi
    · obtain ⟨hj, hlt⟩ := h.ordered i hi j hij
      refine ⟨by simp [hj], ?_⟩
      rw [List.indexOf_append_of_mem hj, List.indexOf_append_of_mem hi]
      exact hlt
    · subst hi
      have hj : j ∈ acc := by
        have := h.edges i j
        rw [hrow j, hij] at this
        by_contra hne
        simp [hne] at this
      refine ⟨by simp [hj], ?_⟩
      rw [List.indexOf_append_of_mem hj, List.indexOf_append_of_not_mem hcurAcc]
      have := List.indexOf_lt_length.2 hj
      simp
      omega

theorem length_le_of_nodup_bound {l : List Nat} {n : Nat} (hn : l.Nodup)
    (hb : ∀ i ∈ l, i < n) : l.length ≤ n := by
  have hsub : l ⊆ List.range n := fun i hi => List.mem_range.2 (hb i hi)
  simpa using (hn.subperm hsub).length_le

theorem KahnInv.queue_nil_of_full {M m : List (List Bool)} {d : List Int}
    {q acc : List Nat} (h : KahnInv M m d q acc) (hfull : M.length ≤ acc.length) :
    q = [] := by
  have := length_le_of_nodup_bound h.nodup h.bound
  rw [List.length_append] at this
  exact List.length_eq_zero.1 (by omega)

/-- The loop ends with an empty queue and keeps the invariant. -/
theorem kahnLoop_inv {M : List (List Bool)} :
    ∀ (fuel : Nat) (m : List (List Bool)) (d : List Int) (q acc : List Nat),
      KahnInv M m d q acc → M.length ≤ fuel + acc.length →
      ∃ d1, KahnInv M (kahnLoop fuel m d q acc).1 d1 [] (kahnLoop fuel m d q acc).2 := by
  intro fuel
  induction fuel with
  | zero =>
    intro m d q acc h hf
    have hq := h.queue_nil_of_full (by omega)
    subst hq
    exact ⟨d, h⟩
  | succ fuel ih =>
    intro m d q acc h hf
    cases q with
    | nil => exact ⟨d, h⟩
    | cons cur q =>
      simp only [kahnLoop]
      exact ih _ _ _ _ h.round (by simp; omega)

/-- More fuel than `matrix.length` rounds changes nothing: the loop has ended. -/
theorem kahnLoop_fuel {M : List (List Bool)} (k : Nat) :
    ∀ (fuel : Nat) (m : List (List Bool)) (d : List Int) (q acc : List Nat),
      KahnInv M m d q acc → M.length ≤ fuel + acc.length →
      kahnLoop (fuel + k) m d q acc = kahnLoop fuel m d q acc := by
  intro fuel
  induction fuel with
  | zero =>
    intro m d q acc h hf
    have hq := h.queue_nil_of_full (by omega)
    subst hq
    cases k <;> simp [kahnLoop]
  | succ fuel ih =>
    intro m d q acc h hf
    cases q with
    | nil => simp [kahnLoop, Nat.add_right_comm fuel 1 k]
    | cons cur q =>
      rw [Nat.add_right_comm fuel 1 k]
      simp only [kahnLoop]
      exact ih _ _ _ _ h.round (by simp; omega)

theorem KahnInv.init {M : List (List Bool)} {d : List Int} (h : WellFormed M d) :
    KahnInv M M d ((List.range M.length).filter (fun i => decide (d.getD i 0 = 0))) [] := by
  refine ⟨rfl, h, ?_, ?_, ?_, ?_, ?_⟩
  · simpa using (List.nodup_range _).filter _
  · intro i hi
    simp only [List.nil_append, List.mem_filter, List.mem_range] at hi
    exact hi.1
  · intro i j; simp
  · intro i hi
    simp [List.mem_filter, hi]
  · intro i hi; simp at hi

/-- On well-formed data the loop of `TopologySort` has ended within its
`matrix.length` rounds: any further round leaves the result as it is. -/
theorem TopologySort_fuel {M : List (List Bool)} {d : List Int} (h : WellFormed M d)
    (k : Nat) :
    kahnLoop (M.length + k) M d
        ((List.range M.length).filter (fun i => decide (d.getD i 0 = 0))) []
      = kahnLoop M.length M d
        ((List.range M.length).filter (fun i => decide (d.getD i 0 = 0))) [] :=
  kahnLoop_fuel k M.length M d _ [] (KahnInv.init h) (by simp)

theorem mem_unresolvedEdges (row : List Bool) (j : Nat) :
    j ∈ unresolvedEdges row ↔ row.getD j false = true := by
  unfold unresolvedEdges
  simp only [List.mem_filter, List.mem_range, and_iff_right_iff_imp]
  intro hj
  by_contra hlt
  rw [List.getD_eq_getElem?_getD, List.getElem?_eq_none (by omega)] at hj
  simp at hj

theorem unresolvedEdges_eq_nil (row : List Bool) :
    unresolvedEdges row = [] ↔ row.count true = 0 := by
  rw [count_eq_zero_iff_getD, List.eq_nil_iff_forall_not_mem]
  simp only [mem_unresolvedEdges, Bool.not_eq_true]

theorem mem_sortErrors (m : List (List Bool)) (e : TopologySortError) :
    e ∈ sortErrors m ↔ e.OnId < m.length ∧ (m.getD e.OnId []).count true ≠ 0 ∧
      e.UnresolvedIncomingEdgesFrom = unresolvedEdges (m.getD e.OnId []) := by
  unfold sortErrors
  simp only [List.mem_filterMap, List.mem_range]
  constructor
  · rintro ⟨i, hi, he⟩
    by_cases hu : unresolvedEdges (m.getD i []) = []
    · rw [if_pos hu] at he
      cases he
    · rw [if_neg hu] at he
      cases he
      exact ⟨hi, fun hc => hu ((unresolvedEdges_eq_nil _).2 hc), rfl⟩
  · rintro ⟨hi, hc, hu⟩
    refine ⟨e.OnId, hi, ?_⟩
    have : unresolvedEdges (m.getD e.OnId []) ≠ [] :=
      fun h0 => hc ((unresolvedEdges_eq_nil _).1 h0)
    rw [if_neg this, ← hu]

theorem sortErrors_nodup (m : List (List Bool)) :
    ((sortErrors m).map TopologySortError.OnId).Nodup := by
  unfold sortErrors
  rw [List.map_filterMap]
  refine List.Nodup.filterMap ?_ (List.nodup_range _)
  intro a a1 b hb hb1
  have key : ∀ x : Nat, b ∈ Option.map TopologySortError.OnId
      (if unresolvedEdges (m.getD x []) = [] then none
        else some ⟨x, unresolvedEdges (m.getD x [])⟩) → b = x := by
    intro x hx
    by_cases hu : unresolvedEdges (m.getD x []) = []
    · rw [if_pos hu] at hx; simp at hx
    · rw [if_neg hu] at hx; simpa using hx.symm
  rw [← key a hb, ← key a1 hb1]

/-- The model of `TopologySort` ends in a finished sort on well-formed data. -/
theorem TopologySort_sorted {M : List (List Bool)} {d : List Int} (h : WellFormed M d) :
    Sorted M (TopologySort M d).1 (TopologySort M d).2 := by
  obtain ⟨d1, inv⟩ := kahnLoop_inv M.length M d _ [] (KahnInv.init h) (by simp)
  unfold TopologySort
  simp only
  generalize (kahnLoop M.length M d
    ((List.range M.length).filter (fun i => decide (d.getD i 0 = 0))) []) = fin at inv
  obtain ⟨mf, order⟩ := fin
  simp only at inv ⊢
  have hmem : ∀ i, i < M.length → (i ∈ order ↔ (mf.getD i []).count true = 0) := by
    intro i hi
    have h1 := inv.zero i hi
    have h2 := inv.wf.2.2 i (by rw [inv.len]; exact hi)
    rw [List.append_nil] at h1
    rw [h1, h2]
    exact_mod_cast Iff.rfl
  have hrowlen : ∀ i, i < M.length → (mf.getD i []).length = M.length := by
    intro i hi
    have hi2 : i < mf.length := by rw [inv.len]; exact hi
    rw [← inv.len]
    apply inv.wf.2.1
    rw [List.getD_eq_getElem?_getD, List.getElem?_eq_getElem hi2]
    exact List.getElem_mem _
  refine ⟨by simpa using inv.nodup, fun i hi => inv.bound i (by simpa using hi),
    inv.ordered, ?_, ?_, sortErrors_nodup mf⟩
  · intro i hi hno
    have hc : (mf.getD i []).count true ≠ 0 := fun hc => hno ((hmem i hi).2 hc)
    rw [Ne, count_eq_zero_iff_getD] at hc
    push_neg at hc
    obtain ⟨j, hj⟩ := hc
    have hj2 : edgeAt mf i j = true := by simpa [edgeAt] using hj
    rw [inv.edges] at hj2
    simp only [Bool.and_eq_true, decide_eq_true_eq] at hj2
    exact ⟨j, hj2.1, hj2.2⟩
  · intro e
    rw [mem_sortErrors, inv.len]
    constructor
    · rintro ⟨hi, hc, hu⟩
      refine ⟨hi, fun ho => hc ((hmem _ hi).1 ho), ?_⟩
      rw [hu, unresolvedEdges, hrowlen _ hi]
      apply List.filter_congr
      intro j _
      exact inv.edges e.OnId j
    · rintro ⟨hi, ho, hu⟩
      refine ⟨hi, fun hc => ho ((hmem _ hi).2 hc), ?_⟩
      rw [hu, unresolvedEdges, hrowlen _ hi]
      apply List.filter_congr
      intro j _
      exact (inv.edges e.OnId j).symm

theorem Sorted.errs_nil_iff {M : List (List Bool)} {order : List Nat}
    {errs : List TopologySortError} (h : Sorted M order errs) :
    errs = [] ↔ ∀ i, i < M.length → i ∈ order := by
  constructor
  · intro he i hi
    by_contra hno
    have : (⟨i, (List.range M.length).filter
        (fun j => edgeAt M i j && decide (j ∉ order))⟩ : TopologySortError) ∈ errs :=
      (h.errs_iff _).2 ⟨hi, hno, rfl⟩
    rw [he] at this
    simp at this
  · intro hall
    rw [List.eq_nil_iff_forall_not_mem]
    intro e he
    obtain ⟨hi, hno, _⟩ := (h.errs_iff e).1 he
    exact hno (hall _ hi)

theorem Sorted.perm_range {M : List (List Bool)} {order : List Nat}
    {errs : List TopologySortError} (h : Sorted M order errs) (he : errs = []) :
    order.Perm (List.range M.length) := by
  rw [List.perm_ext_iff_of_nodup h.nodup (List.nodup_range _)]
  intro i
  rw [List.mem_range]
  exact ⟨h.bound i, h.errs_nil_iff.1 he i⟩

theorem getElem?_reverse_indexOf (l : List Nat) (x : Nat) (hx : x ∈ l) :
    l.reverse[l.length - 1 - l.indexOf x]? = some x := by
  have hlt := List.indexOf_lt_length.2 hx
  rw [List.getElem?_reverse (by omega)]
  have : l.length - 1 - (l.length - 1 - l.indexOf x) = l.indexOf x := by omega
  rw [this, List.getElem?_eq_getElem hlt]
  simp

/-- In the reversed order, a node stands before every node that depends on it. -/
theorem Sorted.before {M : List (List Bool)} {order : List Nat}
    {errs : List TopologySortError} (h : Sorted M order errs) {i j : Nat}
    (hij : edgeAt M i j = true) (hi : i ∈ order) :
    ∃ p q : Nat, p < q ∧ order.reverse[p]? = some i ∧ order.reverse[q]? = some j := by
  obtain ⟨hj, hlt⟩ := h.ordered i hi j hij
  have h1 := List.indexOf_lt_length.2 hi
  exact ⟨order.length - 1 - order.indexOf i, order.length - 1 - order.indexOf j,
    by omega, getElem?_reverse_indexOf order i hi, getElem?_reverse_indexOf order j hj⟩

theorem Sorted.trans_before {M : List (List Bool)} {order : List Nat}
    {errs : List TopologySortError} (h : Sorted M order errs) {a b : Nat}
    (hab : Relation.TransGen (fun x y => edgeAt M x y = true) a b) (ha : a ∈ order) :
    b ∈ order ∧ order.indexOf b < order.indexOf a := by
  induction hab with
  | single hxy => exact h.ordered a ha _ hxy
  | tail _ hyz ih =>
    obtain ⟨hz, hlt⟩ := h.ordered _ ih.1 _ hyz
    exact ⟨hz, lt_trans hlt ih.2⟩

/-- A node on a cycle is never taken from the queue. -/
theorem Sorted.cycle_not_mem {M : List (List Bool)} {order : List Nat}
    {errs : List TopologySortError} (h : Sorted M order errs) {a : Nat}
    (hc : Relation.TransGen (fun x y => edgeAt M x y = true) a a) : a ∉ order :=
  fun ha => lt_irrefl _ (h.trans_before hc ha).2

/-- Without a cycle every node is taken from the queue: there are no errors. -/
theorem Sorted.errs_nil_of_acyclic {M : List (List Bool)} {order : List Nat}
    {errs : List TopologySortError} (h : Sorted M order errs)
    (hb : ∀ i j, edgeAt M i j = true → j < M.length)
    (hac : ∀ i, ¬ Relation.TransGen (fun x y => edgeAt M x y = true) i i) :
    errs = [] := by
  by_contra hne
  obtain ⟨e, he⟩ := List.exists_mem_of_ne_nil _ hne
  obtain ⟨hi, hno, _⟩ := (h.errs_iff e).1 he
  let r : Fin M.length → Fin M.length → Prop := fun x a =>
    Relation.TransGen (fun x y => edgeAt M x y = true) a.val x.val
  haveI : IsTrans _ r := ⟨fun _ _ _ hxa hab => Relation.TransGen.trans hab hxa⟩
  haveI : IsIrrefl _ r := ⟨fun a ha => hac _ ha⟩
  have wf := Finite.wellFounded_of_trans_of_irrefl r
  obtain ⟨a, haU, hmin⟩ :=
    wf.has_min {x : Fin M.length | x.val ∉ order} ⟨⟨e.OnId, hi⟩, hno⟩
  obtain ⟨j, hj, hjno⟩ := h.stuck a.val a.isLt haU
  exact hmin ⟨j, hb _ _ hj⟩ hjno (Relation.TransGen.single hj)

end sort

/-! ## The sort data of the three sorters -/

namespace topologysort

open sort coordinate parameter config project

theorem toSortData_length {α : Type} (nodes : List α) (dependsOn : α → α → Bool) :
    (toSortData nodes dependsOn).1.length = nodes.length := by
  simp [toSortData]

theorem edgeAt_toSortData {α : Type} (nodes : List α) (dependsOn : α → α → Bool)
    (i j : Nat) :
    edgeAt (toSortData nodes dependsOn).1 i j = true ↔
      i ≠ j ∧ ∃ x y, nodes[i]? = some x ∧ nodes[j]? = some y ∧ dependsOn y x = true := by
  unfold edgeAt toSortData
  simp only [List.getD_eq_getElem?_getD, List.getElem?_map, List.getElem?_enum]
  cases hi : nodes[i]? with
  | none => simp
  | some x =>
    cases hj : nodes[j]? with
    | none => simp [hj]
    | some y => simp [hj]

theorem toSortData_wf {α : Type} (nodes : List α) (dependsOn : α → α → Bool) :
    WellFormed (toSortData nodes dependsOn).1 (toSortData nodes dependsOn).2 := by
  refine ⟨by simp [toSortData], ?_, ?_⟩
  · intro row hrow
    simp only [toSortData, List.mem_map] at hrow
    obtain ⟨ix, _, rfl⟩ := hrow
    simp [toSortData]
  · intro i hi
    simp only [toSortData, List.getD_eq_getElem?_getD, List.getElem?_map]
    cases (nodes.enum)[i]? <;> simp

theorem edgeAt_toSortData_bound {α : Type} (nodes : List α) (dependsOn : α → α → Bool)
    (i j : Nat) (h : edgeAt (toSortData nodes dependsOn).1 i j = true) :
    j < (toSortData nodes dependsOn).1.length := by
  obtain ⟨_, x, y, _, hy, _⟩ := (edgeAt_toSortData nodes dependsOn i j).1 h
  rw [toSortData_length]
  exact (List.getElem?_eq_some.1 hy).1

/-- The finished sort of the data built by `toSortData`. -/
theorem toSortData_sorted {α : Type} (nodes : List α) (dependsOn : α → α → Bool) :
    Sorted (toSortData nodes dependsOn).1
      (TopologySort (toSortData nodes dependsOn).1 (toSortData nodes dependsOn).2).1
      (TopologySort (toSortData nodes dependsOn).1 (toSortData nodes dependsOn).2).2 :=
  TopologySort_sorted (toSortData_wf nodes dependsOn)

theorem getElem?_filterMap_lookup {α : Type} (nodes : List α) :
    ∀ (l : List Nat) (p : Nat), (∀ x ∈ l, x < nodes.length) →
      (l.filterMap (fun i => nodes[i]?))[p]? = l[p]?.bind (fun i => nodes[i]?) := by
  intro l
  induction l with
  | nil => intro p _; simp
  | cons x l ih =>
    intro p hb
    have hx : x < nodes.length := hb x (List.mem_cons_self _ _)
    have hl : ∀ y ∈ l, y < nodes.length := fun y hy => hb y (List.mem_cons_of_mem _ hy)
    rw [List.filterMap_cons, List.getElem?_eq_getElem hx]
    cases p with
    | zero => simp [List.getElem?_eq_getElem hx]
    | succ k => simpa using ih k hl

theorem filterMap_lookup_range {α : Type} (nodes : List α) :
    (List.range nodes.length).filterMap (fun i => nodes[i]?) = nodes := by
  apply List.ext_getElem?
  intro k
  rw [getElem?_filterMap_lookup nodes _ k (fun x hx => List.mem_range.1 hx)]
  by_cases hk : k < nodes.length
  · rw [List.getElem?_range hk]; rfl
  · rw [List.getElem?_eq_none (by simpa using hk), List.getElem?_eq_none (by omega)]
    rfl

/-- Without sort errors the read-out is a permutation of the nodes. -/
theorem reversedLookup_perm {α : Type} (nodes : List α) (dependsOn : α → α → Bool)
    (he : (TopologySort (toSortData nodes dependsOn).1 (toSortData nodes dependsOn).2).2 = []) :
    (reversedLookup nodes
      (TopologySort (toSortData nodes dependsOn).1 (toSortData nodes dependsOn).2).1).Perm
      nodes := by
  have hs := toSortData_sorted nodes dependsOn
  have hp := hs.perm_range he
  rw [toSortData_length] at hp
  unfold reversedLookup
  have h1 := ((List.reverse_perm _).trans hp).filterMap (fun i => nodes[i]?)
  rw [filterMap_lookup_range] at h1
  exact h1

/-- Without sort errors a node stands, in the read-out, before every node that
depends on it. -/
theorem reversedLookup_before {α : Type} (nodes : List α) (dependsOn : α → α → Bool)
    (he : (TopologySort (toSortData nodes dependsOn).1 (toSortData nodes dependsOn).2).2 = [])
    {i j : Nat} {a b : α} (hij : i ≠ j) (ha : nodes[i]? = some a) (hb : nodes[j]? = some b)
    (hdep : dependsOn b a = true) :
    ∃ p q : Nat, p < q ∧
      (reversedLookup nodes (TopologySort (toSortData nodes dependsOn).1
        (toSortData nodes dependsOn).2).1)[p]? = some a ∧
      (reversedLookup nodes (TopologySort (toSortData nodes dependsOn).1
        (toSortData nodes dependsOn).2).1)[q]? = some b := by
  have hs := toSortData_sorted nodes dependsOn
  have hedge : edgeAt (toSortData nodes dependsOn).1 i j = true :=
    (edgeAt_toSortData nodes dependsOn i j).2 ⟨hij, a, b, ha, hb, hdep⟩
  have hi : i < nodes.length := (List.getElem?_eq_some.1 ha).1
  have hmem := hs.errs_nil_iff.1 he i (by rw [toSortData_length]; exact hi)
  obtain ⟨p, q, hpq, hp, hq⟩ := hs.before hedge hmem
  have hbound : ∀ x ∈ (TopologySort (toSortData nodes dependsOn).1
      (toSortData nodes dependsOn).2).1.reverse, x < nodes.length := by
    intro x hx
    have := hs.bound x (List.mem_reverse.1 hx)
    rwa [toSortData_length] at this
  refine ⟨p, q, hpq, ?_, ?_⟩
  · unfold reversedLookup
    rw [getElem?_filterMap_lookup nodes _ p hbound, hp]
    exact ha
  · unfold reversedLookup
    rw [getElem?_filterMap_lookup nodes _ q hbound, hq]
    exact hb

/-- A path of the matrix of `toSortData` is a path of the dependency graph. -/
theorem transGen_nodes_of_index {α : Type} (nodes : List α) (dependsOn : α → α → Bool)
    (hnd : nodes.Nodup) {i j : Nat}
    (h : Relation.TransGen
      (fun x y => edgeAt (toSortData nodes dependsOn).1 x y = true) i j) :
    ∃ a b, nodes[i]? = some a ∧ nodes[j]? = some b ∧
      Relation.TransGen (DependsEdge nodes dependsOn) a b := by
  have single : ∀ x y, edgeAt (toSortData nodes dependsOn).1 x y = true →
      ∃ a b, nodes[x]? = some a ∧ nodes[y]? = some b ∧ DependsEdge nodes dependsOn a b := by
    intro x y hxy
    obtain ⟨hne, a, b, ha, hb, hdep⟩ := (edgeAt_toSortData nodes dependsOn x y).1 hxy
    refine ⟨a, b, ha, hb, List.mem_iff_getElem?.2 ⟨x, ha⟩, List.mem_iff_getElem?.2 ⟨y, hb⟩,
      ?_, hdep⟩
    intro hab
    subst hab
    exact hne (List.getElem?_inj (List.getElem?_eq_some.1 ha).1 hnd (ha.trans hb.symm))
  induction h with
  | single hxy =>
    obtain ⟨a, b, ha, hb, hab⟩ := single _ _ hxy
    exact ⟨a, b, ha, hb, Relation.TransGen.single hab⟩
  | tail _ hyz ih =>
    obtain ⟨a, b, ha, hb, hab⟩ := ih
    obtain ⟨b1, c, hb1, hc, hbc⟩ := single _ _ hyz
    have : b1 = b := Option.some.inj (hb1.symm.trans hb)
    subst this
    exact ⟨a, c, ha, hc, Relation.TransGen.tail hab hbc⟩

theorem getElem?_indexOf_mem {α : Type} [DecidableEq α] {l : List α} {a : α}
    (h : a ∈ l) : l[l.indexOf a]? = some a := by
  rw [← List.get?_eq_getElem?]
  exact List.indexOf_get? h

/-- A path of the dependency graph is a path of the matrix of `toSortData`. -/
theorem transGen_index_of_nodes {α : Type} [DecidableEq α] (nodes : List α)
    (dependsOn : α → α → Bool) {a b : α}
    (h : Relation.TransGen (DependsEdge nodes dependsOn) a b) :
    Relation.TransGen (fun x y => edgeAt (toSortData nodes dependsOn).1 x y = true)
      (nodes.indexOf a) (nodes.indexOf b) := by
  refine Relation.TransGen.lift (fun x => nodes.indexOf x) ?_ h
  intro x y hxy
  obtain ⟨hx, hy, hne, hdep⟩ := hxy
  refine (edgeAt_toSortData nodes dependsOn _ _).2
    ⟨?_, x, y, getElem?_indexOf_mem hx, getElem?_indexOf_mem hy, hdep⟩
  intro heq
  have heq1 : nodes.indexOf x = nodes.indexOf y := heq
  have h1 : nodes[nodes.indexOf x]? = some x := getElem?_indexOf_mem hx
  rw [heq1, getElem?_indexOf_mem hy] at h1
  exact hne (Option.some.inj h1).symm

/-- Without a cycle in the dependency graph the sort has no errors. -/
theorem sortErrs_nil_of_acyclic {α : Type} (nodes : List α) (dependsOn : α → α → Bool)
    (hnd : nodes.Nodup)
    (hac : ∀ a, ¬ Relation.TransGen (DependsEdge nodes dependsOn) a a) :
    (TopologySort (toSortData nodes dependsOn).1 (toSortData nodes dependsOn).2).2 = [] := by
  refine (toSortData_sorted nodes dependsOn).errs_nil_of_acyclic
    (edgeAt_toSortData_bound nodes dependsOn) ?_
  intro i hi
  obtain ⟨a, b, ha, hb, hab⟩ := transGen_nodes_of_index nodes dependsOn hnd hi
  have : a = b := Option.some.inj (ha.symm.trans hb)
  subst this
  exact hac a hab

/-- A node on a cycle of the dependency graph gets a sort error. -/
theorem err_of_cycle {α : Type} [DecidableEq α] (nodes : List α)
    (dependsOn : α → α → Bool) {a : α}
    (hc : Relation.TransGen (DependsEdge nodes dependsOn) a a) :
    ∃ e ∈ (TopologySort (toSortData nodes dependsOn).1 (toSortData nodes dependsOn).2).2,
      nodes[e.OnId]? = some a := by
  have hs := toSortData_sorted nodes dependsOn
  have hno := hs.cycle_not_mem (transGen_index_of_nodes nodes dependsOn hc)
  have ha : a ∈ nodes := by
    cases hc with
    | single h => exact h.1
    | tail _ h => exact h.2.1
  have hlt : nodes.indexOf a < (toSortData nodes dependsOn).1.length := by
    rw [toSortData_length]; exact List.indexOf_lt_length.2 ha
  exact ⟨⟨nodes.indexOf a, (List.range (toSortData nodes dependsOn).1.length).filter
      (fun j => edgeAt (toSortData nodes dependsOn).1 (nodes.indexOf a) j &&
        decide (j ∉ (TopologySort (toSortData nodes dependsOn).1
          (toSortData nodes dependsOn).2).1))⟩,
    (hs.errs_iff _).2 ⟨hlt, hno, rfl⟩, getElem?_indexOf_mem ha⟩

/-! ## `SortParameters` -/

theorem sortedParameters_perm (parameters : List (String × Parameter)) :
    (sortedParameters parameters).Perm (namedParameters parameters) :=
  List.perm_insertionSort _ _

theorem namedParameters_nodup (parameters : List (String × Parameter))
    (hkeys : (parameters.map Prod.fst).Nodup) : (namedParameters parameters).Nodup := by
  apply List.Nodup.of_map ParameterWithName.Name
  simpa [namedParameters, Function.comp_def] using hkeys

theorem sortedParameters_nodup (parameters : List (String × Parameter))
    (hkeys : (parameters.map Prod.fst).Nodup) : (sortedParameters parameters).Nodup :=
  (sortedParameters_perm parameters).nodup_iff.2 (namedParameters_nodup parameters hkeys)

theorem dependsEdge_perm {α : Type} {nodes nodes1 : List α} (h : nodes.Perm nodes1)
    (dependsOn : α → α → Bool) (a b : α) :
    DependsEdge nodes dependsOn a b ↔ DependsEdge nodes1 dependsOn a b := by
  unfold DependsEdge
  rw [h.mem_iff, h.mem_iff]

theorem transGen_dependsEdge_perm {α : Type} {nodes nodes1 : List α}
    (h : nodes.Perm nodes1) (dependsOn : α → α → Bool) {a b : α}
    (hab : Relation.TransGen (DependsEdge nodes dependsOn) a b) :
    Relation.TransGen (DependsEdge nodes1 dependsOn) a b :=
  Relation.TransGen.mono (fun x y hxy => (dependsEdge_perm h dependsOn x y).1 hxy) hab

/-- The sort data and the sort result inside `SortParameters`. -/
theorem SortParameters_eq (group environment : String) (conf : Coordinate)
    (parameters : List (String × Parameter)) :
    SortParameters group environment conf parameters =
      if 0 < (TopologySort
          (toSortData (sortedParameters parameters)
            (fun p param => p.IsReferencing conf param)).1
          (toSortData (sortedParameters parameters)
            (fun p param => p.IsReferencing conf param)).2).2.length then
        (none, (TopologySort
          (toSortData (sortedParameters parameters)
            (fun p param => p.IsReferencing conf param)).1
          (toSortData (sortedParameters parameters)
            (fun p param => p.IsReferencing conf param)).2).2.filterMap (fun sortErr =>
          (sortedParameters parameters)[sortErr.OnId]?.map (fun param =>
            { Config := conf
              EnvironmentDetails := ⟨group, environment⟩
              Parameter := param.Name
              DependsOn := param.Parameter.GetReferences })))
      else
        (some (reversedLookup (sortedParameters parameters) (TopologySort
          (toSortData (sortedParameters parameters)
            (fun p param => p.IsReferencing conf param)).1
          (toSortData (sortedParameters parameters)
            (fun p param => p.IsReferencing conf param)).2).1), []) := rfl

/-- Every sort error names a node of the list. -/
theorem sortErr_lookup {α : Type} (nodes : List α) (dependsOn : α → α → Bool)
    {e : TopologySortError}
    (he : e ∈ (TopologySort (toSortData nodes dependsOn).1 (toSortData nodes dependsOn).2).2) :
    ∃ a, nodes[e.OnId]? = some a := by
  have h := ((toSortData_sorted nodes dependsOn).errs_iff e).1 he
  rw [toSortData_length] at h
  exact ⟨nodes[e.OnId], List.getElem?_eq_getElem h.1⟩

theorem SortParameters_errs_nil (group environment : String) (conf : Coordinate)
    (parameters : List (String × Parameter))
    (h : (SortParameters group environment conf parameters).2 = []) :
    (TopologySort
      (toSortData (sortedParameters parameters)
        (fun p param => p.IsReferencing conf param)).1
      (toSortData (sortedParameters parameters)
        (fun p param => p.IsReferencing conf param)).2).2 = [] := by
  rw [SortParameters_eq] at h
  by_contra hne
  obtain ⟨e, he⟩ := List.exists_mem_of_ne_nil _ hne
  rw [if_pos (List.length_pos.2 hne)] at h
  obtain ⟨a, ha⟩ := sortErr_lookup _ _ he
  have hmem : (⟨conf, ⟨group, environment⟩, a.Name, a.Parameter.GetReferences⟩ :
      CircularDependencyParameterSortError) ∈ ([] : List _) := by
    rw [← h]
    exact List.mem_filterMap.2 ⟨e, he, by simp [ha]⟩
  simp at hmem

theorem SortParameters_of_errs_nil (group environment : String) (conf : Coordinate)
    (parameters : List (String × Parameter))
    (h : (TopologySort
      (toSortData (sortedParameters parameters)
        (fun p param => p.IsReferencing conf param)).1
      (toSortData (sortedParameters parameters)
        (fun p param => p.IsReferencing conf param)).2).2 = []) :
    SortParameters group environment conf parameters =
      (some (reversedLookup (sortedParameters parameters) (TopologySort
        (toSortData (sortedParameters parameters)
          (fun p param => p.IsReferencing conf param)).1
        (toSortData (sortedParameters parameters)
          (fun p param => p.IsReferencing conf param)).2).1), []) := by
  rw [SortParameters_eq, h]
  simp

theorem isReferencing_iff (p param : ParameterWithName) (conf : Coordinate) :
    p.IsReferencing conf param = true ↔
      (⟨conf, param.Name⟩ : ParameterReference) ∈ p.Parameter.GetReferences := by
  unfold ParameterWithName.IsReferencing
  simp only [List.any_eq_true, Bool.and_eq_true, decide_eq_true_eq]
  constructor
  · rintro ⟨ref, hmem, h1, h2⟩
    cases ref
    simp only at h1 h2
    subst h1 h2
    exact hmem
  · intro h
    exact ⟨_, h, rfl, rfl⟩

/-- C1 (sort soundness, parameters): when `SortParameters` returns no errors, a
parameter `a` stands at a strictly smaller index of the returned list than every
other parameter `b` of the map whose references include `a` in the config `conf`;
both occur at exactly one index. -/
theorem SortParameters_sound (group environment : String) (conf : Coordinate)
    (parameters : List (String × Parameter))
    (hkeys : (parameters.map Prod.fst).Nodup)
    (hok : (SortParameters group environment conf parameters).2 = [])
    (a b : ParameterWithName) (ha : a ∈ namedParameters parameters)
    (hb : b ∈ namedParameters parameters) (hab : a ≠ b)
    (href : (⟨conf, a.Name⟩ : ParameterReference) ∈ b.Parameter.GetReferences) :
    ∃ result, (SortParameters group environment conf parameters).1 = some result ∧
      ∃ i j : Nat, i < j ∧ result[i]? = some a ∧ result[j]? = some b ∧
        (∀ k : Nat, result[k]? = some a → k = i) ∧
        (∀ k : Nat, result[k]? = some b → k = j) := by
  have he := SortParameters_errs_nil group environment conf parameters hok
  rw [SortParameters_of_errs_nil group environment conf parameters he]
  refine ⟨_, rfl, ?_⟩
  have hperm := sortedParameters_perm parameters
  have ha1 : a ∈ sortedParameters parameters := hperm.mem_iff.2 ha
  have hb1 : b ∈ sortedParameters parameters := hperm.mem_iff.2 hb
  have hne : (sortedParameters parameters).indexOf a ≠ (sortedParameters parameters).indexOf b := by
    intro heq
    have h1 := getElem?_indexOf_mem ha1
    rw [heq, getElem?_indexOf_mem hb1] at h1
    exact hab (Option.some.inj h1).symm
  obtain ⟨p, q, hpq, hp, hq⟩ := reversedLookup_before (sortedParameters parameters)
    (fun p param => p.IsReferencing conf param) he hne (getElem?_indexOf_mem ha1)
    (getElem?_indexOf_mem hb1) ((isReferencing_iff b a conf).2 href)
  have hnd : (reversedLookup (sortedParameters parameters) (TopologySort
      (toSortData (sortedParameters parameters)
        (fun p param => p.IsReferencing conf param)).1
      (toSortData (sortedParameters parameters)
        (fun p param => p.IsReferencing conf param)).2).1).Nodup :=
    (reversedLookup_perm _ _ he).nodup_iff.2 (sortedParameters_nodup parameters hkeys)
  refine ⟨p, q, hpq, hp, hq, ?_, ?_⟩
  · intro k hk
    exact (List.getElem?_inj (List.getElem?_eq_some.1 hp).1 hnd (hp.trans hk.symm)).symm
  · intro k hk
    exact (List.getElem?_inj (List.getElem?_eq_some.1 hq).1 hnd (hq.trans hk.symm)).symm

/-- C4 (sort completeness, parameters): when the same-config reference relation
among the distinct parameters has no cycle, `SortParameters` returns no errors
and a list holding every parameter of the map exactly once, of the map's size. -/
theorem SortParameters_complete (group environment : String) (conf : Coordinate)
    (parameters : List (String × Parameter))
    (hkeys : (parameters.map Prod.fst).Nodup)
    (hac : ∀ a, ¬ Relation.TransGen (ParamEdge conf parameters) a a) :
    (SortParameters group environment conf parameters).2 = [] ∧
      ∃ result, (SortParameters group environment conf parameters).1 = some result ∧
        result.Perm (namedParameters parameters) ∧ result.Nodup ∧
        result.length = parameters.length := by
  have hperm := sortedParameters_perm parameters
  have he := sortErrs_nil_of_acyclic (sortedParameters parameters)
    (fun p param => p.IsReferencing conf param) (sortedParameters_nodup parameters hkeys)
    (fun a h => hac a (transGen_dependsEdge_perm hperm _ h))
  rw [SortParameters_of_errs_nil group environment conf parameters he]
  have hres := (reversedLookup_perm _ _ he).trans hperm
  refine ⟨rfl, _, rfl, hres, hres.nodup_iff.2 (namedParameters_nodup parameters hkeys), ?_⟩
  rw [hres.length_eq]
  simp [namedParameters]

/-- C6 (cycle witness, parameters): a parameter on a cycle of the same-config
reference relation among distinct parameters makes `SortParameters` return a nil
result and a non-empty error list that holds the error naming that parameter. -/
theorem SortParameters_cycle (group environment : String) (conf : Coordinate)
    (parameters : List (String × Parameter)) (a : ParameterWithName)
    (hc : Relation.TransGen (ParamEdge conf parameters) a a) :
    (SortParameters group environment conf parameters).1 = none ∧
      (SortParameters group environment conf parameters).2 ≠ [] ∧
      (⟨conf, ⟨group, environment⟩, a.Name, a.Parameter.GetReferences⟩ :
        CircularDependencyParameterSortError) ∈
        (SortParameters group environment conf parameters).2 := by
  have hperm := sortedParameters_perm parameters
  obtain ⟨e, he, hea⟩ := err_of_cycle (sortedParameters parameters)
    (fun p param => p.IsReferencing conf param)
    (transGen_dependsEdge_perm hperm.symm _ hc)
  have hpos : 0 < (TopologySort
      (toSortData (sortedParameters parameters)
        (fun p param => p.IsReferencing conf param)).1
      (toSortData (sortedParameters parameters)
        (fun p param => p.IsReferencing conf param)).2).2.length :=
    List.length_pos.2 (List.ne_nil_of_mem he)
  rw [SortParameters_eq, if_pos hpos]
  have hmem : (⟨conf, ⟨group, environment⟩, a.Name, a.Parameter.GetReferences⟩ :
      CircularDependencyParameterSortError) ∈ (TopologySort
        (toSortData (sortedParameters parameters)
          (fun p param => p.IsReferencing conf param)).1
        (toSortData (sortedParameters parameters)
          (fun p param => p.IsReferencing conf param)).2).2.filterMap (fun sortErr =>
        (sortedParameters parameters)[sortErr.OnId]?.map (fun param =>
          ({ Config := conf
             EnvironmentDetails := ⟨group, environment⟩
             Parameter := param.Name
             DependsOn := param.Parameter.GetReferences } :
            CircularDependencyParameterSortError))) :=
    List.mem_filterMap.2 ⟨e, he, by simp [hea]⟩
  exact ⟨rfl, List.ne_nil_of_mem hmem, hmem⟩

/-- Witness of C1 on the parameters of `TestSortParameters`: `owner` stands
before `name`. -/
theorem SortParameters_sound_witness :
    (SortParameters "" "dev" examples.dashboard1 examples.sortableParameters).2 = [] ∧
    ∃ result,
      (SortParameters "" "dev" examples.dashboard1 examples.sortableParameters).1
        = some result ∧
      ∃ i j : Nat, i < j ∧ result[i]? = some ⟨"owner", ⟨[]⟩⟩ ∧
        result[j]? = some ⟨"name", ⟨[⟨examples.dashboard1, "owner"⟩]⟩⟩ ∧
        (∀ k : Nat, result[k]? = some ⟨"owner", ⟨[]⟩⟩ → k = i) ∧
        (∀ k : Nat, result[k]? = some ⟨"name", ⟨[⟨examples.dashboard1, "owner"⟩]⟩⟩ →
          k = j) :=
  ⟨by decide,
    SortParameters_sound "" "dev" examples.dashboard1 examples.sortableParameters
      (by decide) (by decide) ⟨"owner", ⟨[]⟩⟩ ⟨"name", ⟨[⟨examples.dashboard1, "owner"⟩]⟩⟩
      (by decide) (by decide) (by decide) (by decide)⟩

theorem sortableParameters_acyclic (a : ParameterWithName) :
    ¬ Relation.TransGen (ParamEdge examples.dashboard1 examples.sortableParameters) a a := by
  intro h
  have hlast : ∃ y, ParamEdge examples.dashboard1 examples.sortableParameters y a := by
    cases h with
    | single e => exact ⟨_, e⟩
    | tail _ e => exact ⟨_, e⟩
  have hfirst : ∃ y, ParamEdge examples.dashboard1 examples.sortableParameters a y := by
    cases (Relation.TransGen.head'_iff.1 h) with
    | intro y hy => exact ⟨y, hy.1⟩
  obtain ⟨y, _, hy1, _, hy2⟩ := hlast
  obtain ⟨z, _, hz1, _, hz2⟩ := hfirst
  simp only [namedParameters, examples.sortableParameters, List.map_cons, List.map_nil,
    List.mem_cons, List.mem_singleton, List.not_mem_nil, or_false] at hy1 hz1
  rcases hy1 with rfl | rfl | rfl
  · rcases hz1 with rfl | rfl | rfl <;> revert hz2 <;> decide
  · revert hy2; simp [ParameterWithName.IsReferencing, Parameter.GetReferences]
  · revert hy2; simp [ParameterWithName.IsReferencing, Parameter.GetReferences]

/-- Witness of C4 on the parameters of `TestSortParameters`. -/
theorem SortParameters_complete_witness :
    (SortParameters "" "dev" examples.dashboard1 examples.sortableParameters).2 = [] ∧
      ∃ result,
        (SortParameters "" "dev" examples.dashboard1 examples.sortableParameters).1
          = some result ∧
        result.Perm (namedParameters examples.sortableParameters) ∧ result.Nodup ∧
        result.length = examples.sortableParameters.length :=
  SortParameters_complete "" "dev" examples.dashboard1 examples.sortableParameters
    (by decide) sortableParameters_acyclic

theorem circularParameters_cycle :
    Relation.TransGen (ParamEdge examples.dashboard1 examples.circularParameters)
      ⟨"name", ⟨[⟨examples.dashboard1, "owner"⟩]⟩⟩
      ⟨"name", ⟨[⟨examples.dashboard1, "owner"⟩]⟩⟩ := by
  refine Relation.TransGen.tail (Relation.TransGen.single
    (b := ⟨"owner", ⟨[⟨examples.dashboard1, "name"⟩]⟩⟩) ?_) ?_
  · unfold ParamEdge DependsEdge; decide
  · unfold ParamEdge DependsEdge; decide

/-- Witness of C6 on the parameters of
`TestSortParametersShouldFailOnCircularDependency`. -/
theorem SortParameters_cycle_witness :
    (SortParameters "" "dev" examples.dashboard1 examples.circularParameters).1 = none ∧
      (SortParameters "" "dev" examples.dashboard1 examples.circularParameters).2 ≠ [] ∧
      (⟨examples.dashboard1, ⟨"", "dev"⟩, "name", [⟨examples.dashboard1, "owner"⟩]⟩ :
        CircularDependencyParameterSortError) ∈
        (SortParameters "" "dev" examples.dashboard1 examples.circularParameters).2 :=
  SortParameters_cycle "" "dev" examples.dashboard1 examples.circularParameters
    ⟨"name", ⟨[⟨examples.dashboard1, "owner"⟩]⟩⟩ circularParameters_cycle

/-- C7, as stated, fails: a lone parameter that references itself is sorted
without any error. -/
theorem SortParameters_selfReference_counterexample :
    (⟨examples.dashboard1, "name"⟩ : ParameterReference) ∈
        (Parameter.mk [⟨examples.dashboard1, "name"⟩]).GetReferences ∧
      SortParameters "" "dev" examples.dashboard1 examples.selfReferencingParameters
        = (some [⟨"name", ⟨[⟨examples.dashboard1, "name"⟩]⟩⟩], []) ∧
      ¬ ((SortParameters "" "dev" examples.dashboard1
            examples.selfReferencingParameters).1 = none ∧
          ∃ e ∈ (SortParameters "" "dev" examples.dashboard1
            examples.selfReferencingParameters).2, e.Parameter = "name") := by
  decide

/-- C7, amended: `parametersToSortData` records no edge from a parameter to
itself, and when no parameter of the map references another parameter of the
map (references to itself allowed) `SortParameters` returns no errors and a list
holding every parameter exactly once. -/
theorem SortParameters_selfReference (group environment : String) (conf : Coordinate)
    (parameters : List (String × Parameter))
    (hkeys : (parameters.map Prod.fst).Nodup)
    (hself : ∀ a ∈ namedParameters parameters, ∀ b ∈ namedParameters parameters,
      a ≠ b → (⟨conf, a.Name⟩ : ParameterReference) ∉ b.Parameter.GetReferences) :
    (∀ i, edgeAt (parametersToSortData conf (sortedParameters parameters)).1 i i = false) ∧
      (SortParameters group environment conf parameters).2 = [] ∧
      ∃ result, (SortParameters group environment conf parameters).1 = some result ∧
        result.Perm (namedParameters parameters) := by
  have hperm := sortedParameters_perm parameters
  have he := sortErrs_nil_of_acyclic (sortedParameters parameters)
    (fun p param => p.IsReferencing conf param) (sortedParameters_nodup parameters hkeys)
    (by
      intro a h
      have hfirst := Relation.TransGen.head'_iff.1 h
      obtain ⟨y, ⟨hy1, hy2, hy3, hy4⟩, _⟩ := hfirst
      exact hself a (hperm.mem_iff.1 hy1) y (hperm.mem_iff.1 hy2) hy3
        ((isReferencing_iff y a conf).1 hy4))
  refine ⟨?_, ?_, ?_⟩
  · intro i
    have := (edgeAt_toSortData (sortedParameters parameters)
      (fun p param => p.IsReferencing conf param) i i)
    unfold parametersToSortData
    cases hE : edgeAt (toSortData (sortedParameters parameters)
      (fun p param => p.IsReferencing conf param)).1 i i with
    | false => rfl
    | true => exact absurd rfl (this.1 hE).1
  · rw [SortParameters_of_errs_nil group environment conf parameters he]
  · rw [SortParameters_of_errs_nil group environment conf parameters he]
    exact ⟨_, rfl, (reversedLookup_perm _ _ he).trans hperm⟩

/-- Witness of the amended C7 on a lone parameter that references itself. -/
theorem SortParameters_selfReference_witness :
    (∀ i, edgeAt (parametersToSortData examples.dashboard1
        (sortedParameters examples.selfReferencingParameters)).1 i i = false) ∧
      (SortParameters "" "dev" examples.dashboard1 examples.selfReferencingParameters).2
        = [] ∧
      ∃ result, (SortParameters "" "dev" examples.dashboard1
          examples.selfReferencingParameters).1 = some result ∧
        result.Perm (namedParameters examples.selfReferencingParameters) :=
  SortParameters_selfReference "" "dev" examples.dashboard1
    examples.selfReferencingParameters (by decide) (by decide)

theorem Sorted_mem_errs_onId {M : List (List Bool)} {order : List Nat}
    {errs : List TopologySortError} (h : Sorted M order errs) (i : Nat) :
    i ∈ errs.map TopologySortError.OnId ↔ i < M.length ∧ i ∉ order := by
  rw [List.mem_map]
  constructor
  · rintro ⟨e, he, rfl⟩
    obtain ⟨h1, h2, _⟩ := (h.errs_iff e).1 he
    exact ⟨h1, h2⟩
  · rintro ⟨h1, h2⟩
    exact ⟨⟨i, (List.range M.length).filter
      (fun j => edgeAt M i j && decide (j ∉ order))⟩, (h.errs_iff _).2 ⟨h1, h2, rfl⟩, rfl⟩

theorem named_eq_of_name (parameters : List (String × Parameter))
    (hkeys : (parameters.map Prod.fst).Nodup) {x : ParameterWithName}
    (hx : x ∈ namedParameters parameters) {k : String} {v : Parameter}
    (hkv : (k, v) ∈ parameters) (hname : x.Name = k) : x = ⟨k, v⟩ := by
  have hnd : ((namedParameters parameters).map ParameterWithName.Name).Nodup := by
    simpa [namedParameters, Function.comp_def] using hkeys
  have hmem : (⟨k, v⟩ : ParameterWithName) ∈ namedParameters parameters :=
    List.mem_map.2 ⟨(k, v), hkv, rfl⟩
  exact List.inj_on_of_nodup_map hnd hx hmem hname

/-- C8 (scenario S4): when `name` references `owner` and `owner` references
`name` in the config `conf`, these being their only same-config references, and
no further parameter has a same-config reference, `SortParameters` returns a nil
result and exactly two errors, one for `name` and one for `owner`, each with
`Config = conf`, the given group and environment, and the parameter's own
references as `DependsOn`. -/
theorem SortParameters_circular_pair (group environment : String) (conf : Coordinate)
    (parameters : List (String × Parameter)) (pn po : Parameter)
    (hkeys : (parameters.map Prod.fst).Nodup)
    (hn : ("name", pn) ∈ parameters) (ho : ("owner", po) ∈ parameters)
    (hn1 : (⟨conf, "owner"⟩ : ParameterReference) ∈ pn.GetReferences)
    (hn2 : ∀ r ∈ pn.GetReferences, r.Config = conf → r.Property = "owner")
    (ho1 : (⟨conf, "name"⟩ : ParameterReference) ∈ po.GetReferences)
    (ho2 : ∀ r ∈ po.GetReferences, r.Config = conf → r.Property = "name")
    (hother : ∀ e ∈ parameters, e.1 ≠ "name" → e.1 ≠ "owner" →
      ∀ r ∈ e.2.GetReferences, r.Config ≠ conf) :
    (SortParameters group environment conf parameters).1 = none ∧
      (SortParameters group environment conf parameters).2.Perm
        [⟨conf, ⟨group, environment⟩, "name", pn.GetReferences⟩,
         ⟨conf, ⟨group, environment⟩, "owner", po.GetReferences⟩] := by
  have hperm := sortedParameters_perm parameters
  have hnd := sortedParameters_nodup parameters hkeys
  have hs := toSortData_sorted (sortedParameters parameters)
    (fun p param => p.IsReferencing conf param)
  have hnmem : (⟨"name", pn⟩ : ParameterWithName) ∈ sortedParameters parameters :=
    hperm.mem_iff.2 (List.mem_map.2 ⟨("name", pn), hn, rfl⟩)
  have homem : (⟨"owner", po⟩ : ParameterWithName) ∈ sortedParameters parameters :=
    hperm.mem_iff.2 (List.mem_map.2 ⟨("owner", po), ho, rfl⟩)
  have hne : (⟨"name", pn⟩ : ParameterWithName) ≠ ⟨"owner", po⟩ := by
    intro h
    have hname : ("name" : String) = "owner" := congrArg ParameterWithName.Name h
    exact absurd hname (by decide)
  have e1 : DependsEdge (sortedParameters parameters)
      (fun p param => p.IsReferencing conf param) ⟨"name", pn⟩ ⟨"owner", po⟩ :=
    ⟨hnmem, homem, hne, (isReferencing_iff _ _ conf).2 ho1⟩
  have e2 : DependsEdge (sortedParameters parameters)
      (fun p param => p.IsReferencing conf param) ⟨"owner", po⟩ ⟨"name", pn⟩ :=
    ⟨homem, hnmem, hne.symm, (isReferencing_iff _ _ conf).2 hn1⟩
  have hcn := hs.cycle_not_mem (transGen_index_of_nodes _ _
    (Relation.TransGen.tail (Relation.TransGen.single e1) e2))
  have hco := hs.cycle_not_mem (transGen_index_of_nodes _ _
    (Relation.TransGen.tail (Relation.TransGen.single e2) e1))
  have hidx : ∀ {x : ParameterWithName} {i : Nat}, x ∈ sortedParameters parameters →
      (sortedParameters parameters)[i]? = some x →
      i = (sortedParameters parameters).indexOf x := by
    intro x i hx hi
    exact List.getElem?_inj (List.getElem?_eq_some.1 hi).1 hnd
      (hi.trans (getElem?_indexOf_mem hx).symm)
  have hstuck : ∀ i, i < (toSortData (sortedParameters parameters)
        (fun p param => p.IsReferencing conf param)).1.length →
      i ∉ (TopologySort (toSortData (sortedParameters parameters)
        (fun p param => p.IsReferencing conf param)).1
        (toSortData (sortedParameters parameters)
        (fun p param => p.IsReferencing conf param)).2).1 →
      i = (sortedParameters parameters).indexOf ⟨"name", pn⟩ ∨
        i = (sortedParameters parameters).indexOf ⟨"owner", po⟩ := by
    intro i hi hno
    obtain ⟨j, hj, _⟩ := hs.stuck i hi hno
    obtain ⟨_, x, y, hx, hy, hdep⟩ := (edgeAt_toSortData _ _ i j).1 hj
    have hxmem : x ∈ sortedParameters parameters := List.mem_iff_getElem?.2 ⟨i, hx⟩
    have hymem : y ∈ namedParameters parameters :=
      hperm.mem_iff.1 (List.mem_iff_getElem?.2 ⟨j, hy⟩)
    have href := (isReferencing_iff y x conf).1 hdep
    obtain ⟨e, he, hey⟩ := List.mem_map.1 hymem
    subst hey
    by_cases h1 : e.1 = "name"
    · have : (⟨e.1, e.2⟩ : ParameterWithName) = ⟨"name", pn⟩ :=
        named_eq_of_name parameters hkeys hymem hn h1
      rw [this] at href
      have hxo := named_eq_of_name parameters hkeys (hperm.mem_iff.1 hxmem) ho
        (hn2 _ href rfl)
      subst hxo
      exact Or.inr (hidx hxmem hx)
    · by_cases h2 : e.1 = "owner"
      · have : (⟨e.1, e.2⟩ : ParameterWithName) = ⟨"owner", po⟩ :=
          named_eq_of_name parameters hkeys hymem ho h2
        rw [this] at href
        have hxn := named_eq_of_name parameters hkeys (hperm.mem_iff.1 hxmem) hn
          (ho2 _ href rfl)
        subst hxn
        exact Or.inl (hidx hxmem hx)
      · exact absurd rfl (hother e he h1 h2 _ href)
  have hlen : ∀ {x : ParameterWithName}, x ∈ sortedParameters parameters →
      (sortedParameters parameters).indexOf x < (toSortData (sortedParameters parameters)
        (fun p param => p.IsReferencing conf param)).1.length := by
    intro x hx
    rw [toSortData_length]
    exact List.indexOf_lt_length.2 hx
  have hids : ((TopologySort (toSortData (sortedParameters parameters)
        (fun p param => p.IsReferencing conf param)).1
        (toSortData (sortedParameters parameters)
        (fun p param => p.IsReferencing conf param)).2).2.map TopologySortError.OnId).Perm
      [(sortedParameters parameters).indexOf ⟨"name", pn⟩,
       (sortedParameters parameters).indexOf ⟨"owner", po⟩] := by
    rw [List.perm_ext_iff_of_nodup hs.errs_nodup]
    · intro i
      rw [Sorted_mem_errs_onId hs]
      simp only [List.mem_cons, List.mem_singleton, List.not_mem_nil, or_false]
      constructor
      · rintro ⟨h1, h2⟩
        exact hstuck i h1 h2
      · rintro (rfl | rfl)
        · exact ⟨hlen hnmem, hcn⟩
        · exact ⟨hlen homem, hco⟩
    · simp only [List.nodup_cons, List.mem_singleton, List.not_mem_nil, not_false_eq_true,
        List.nodup_nil, and_true]
      intro heq
      have h1 := getElem?_indexOf_mem hnmem
      rw [heq, getElem?_indexOf_mem homem] at h1
      exact hne (Option.some.inj h1).symm
  have hpos : 0 < (TopologySort (toSortData (sortedParameters parameters)
        (fun p param => p.IsReferencing conf param)).1
        (toSortData (sortedParameters parameters)
        (fun p param => p.IsReferencing conf param)).2).2.length := by
    have := hids.length_eq
    simp only [List.length_map, List.length_cons, List.length_nil] at this
    omega
  rw [SortParameters_eq, if_pos hpos]
  refine ⟨rfl, ?_⟩
  have hfm := hids.filterMap (fun i => (sortedParameters parameters)[i]?.map (fun param =>
    ({ Config := conf
       EnvironmentDetails := ⟨group, environment⟩
       Parameter := param.Name
       DependsOn := param.Parameter.GetReferences } : CircularDependencyParameterSortError)))
  rw [List.filterMap_map] at hfm
  simpa [getElem?_indexOf_mem hnmem, getElem?_indexOf_mem homem, Function.comp_def] using hfm

/-- Witness of C8 on the parameters of
`TestSortParametersShouldFailOnCircularDependency`. -/
theorem SortParameters_circular_pair_witness :
    (SortParameters "" "dev" examples.dashboard1 examples.circularParameters).1 = none ∧
      (SortParameters "" "dev" examples.dashboard1 examples.circularParameters).2.Perm
        [⟨examples.dashboard1, ⟨"", "dev"⟩, "name", [⟨examples.dashboard1, "owner"⟩]⟩,
         ⟨examples.dashboard1, ⟨"", "dev"⟩, "owner", [⟨examples.dashboard1, "name"⟩]⟩] :=
  SortParameters_circular_pair "" "dev" examples.dashboard1 examples.circularParameters
    ⟨[⟨examples.dashboard1, "owner"⟩]⟩ ⟨[⟨examples.dashboard1, "name"⟩]⟩
    (by decide) (by decide) (by decide) (by decide) (by decide) (by decide) (by decide)
    (by decide)

/-! ## `sortConfigs` -/

theorem addDepErr_ne_nil (depErrs : List (Coordinate × CircularDependencyConfigSortError))
    (dependingConfig conf : Config) : addDepErr depErrs dependingConfig conf ≠ [] := by
  unfold addDepErr
  split
  · rename_i h
    obtain ⟨kv, hkv, _⟩ := List.any_eq_true.1 h
    intro h0
    have := List.map_eq_nil_iff.1 h0
    rw [this] at hkv
    simp at hkv
  · simp

theorem foldl_addDepErr_ne_nil (configs : List Config) (conf : Config) :
    ∀ (idxs : List Nat) (depErrs : List (Coordinate × CircularDependencyConfigSortError)),
      (depErrs ≠ [] ∨ ∃ idx ∈ idxs, ∃ dc, configs[idx]? = some dc) →
      idxs.foldl (fun depErrs index =>
        match configs[index]? with
        | none => depErrs
        | some dependingConfig => addDepErr depErrs dependingConfig conf) depErrs ≠ [] := by
  intro idxs
  induction idxs with
  | nil =>
    intro depErrs h
    rcases h with h | ⟨idx, hidx, _⟩
    · simpa using h
    · simp at hidx
  | cons i idxs ih =>
    intro depErrs h
    rw [List.foldl_cons]
    apply ih
    cases hi : configs[i]? with
    | some dc => exact Or.inl (addDepErr_ne_nil _ _ _)
    | none =>
      rcases h with h | ⟨idx, hidx, dc, hdc⟩
      · exact Or.inl h
      · rcases List.mem_cons.1 hidx with rfl | hmem
        · rw [hi] at hdc; cases hdc
        · exact Or.inr ⟨idx, hmem, dc, hdc⟩

theorem collectDepErrs_ne_nil (configs : List Config)
    (depErrs : List (Coordinate × CircularDependencyConfigSortError))
    (sortErr : TopologySortError)
    (h : depErrs ≠ [] ∨ ((∃ c, configs[sortErr.OnId]? = some c) ∧
      ∃ idx ∈ sortErr.UnresolvedIncomingEdgesFrom, ∃ dc, configs[idx]? = some dc)) :
    collectDepErrs configs depErrs sortErr ≠ [] := by
  unfold collectDepErrs
  cases hc : configs[sortErr.OnId]? with
  | none =>
    rcases h with h | ⟨⟨c, hc1⟩, _⟩
    · simpa using h
    · rw [hc] at hc1; cases hc1
  | some conf =>
    apply foldl_addDepErr_ne_nil
    rcases h with h | ⟨_, h⟩
    · exact Or.inl h
    · exact Or.inr h

theorem foldl_collectDepErrs_ne_nil (configs : List Config) :
    ∀ (sortErrs : List TopologySortError)
      (depErrs : List (Coordinate × CircularDependencyConfigSortError)),
      (depErrs ≠ [] ∨ ∃ e ∈ sortErrs, (∃ c, configs[e.OnId]? = some c) ∧
        ∃ idx ∈ e.UnresolvedIncomingEdgesFrom, ∃ dc, configs[idx]? = some dc) →
      sortErrs.foldl (collectDepErrs configs) depErrs ≠ [] := by
  intro sortErrs
  induction sortErrs with
  | nil =>
    intro depErrs h
    rcases h with h | ⟨e, he, _⟩
    · simpa using h
    · simp at he
  | cons e sortErrs ih =>
    intro depErrs h
    rw [List.foldl_cons]
    apply ih
    rcases h with h | ⟨e1, he1, hrest⟩
    · exact Or.inl (collectDepErrs_ne_nil _ _ _ (Or.inl h))
    · rcases List.mem_cons.1 he1 with rfl | hmem
      · exact Or.inl (collectDepErrs_ne_nil _ _ _ (Or.inr hrest))
      · exact Or.inr ⟨e1, hmem, hrest⟩

/-- A sort error of the data of `toSortData` has an unresolved edge from a node
of the list. -/
theorem sortErr_unresolved {α : Type} (nodes : List α) (dependsOn : α → α → Bool)
    {e : TopologySortError}
    (he : e ∈ (TopologySort (toSortData nodes dependsOn).1 (toSortData nodes dependsOn).2).2) :
    ∃ idx ∈ e.UnresolvedIncomingEdgesFrom, ∃ b, nodes[idx]? = some b := by
  have hs := toSortData_sorted nodes dependsOn
  obtain ⟨h1, h2, h3⟩ := (hs.errs_iff e).1 he
  obtain ⟨j, hj, hjno⟩ := hs.stuck _ h1 h2
  have hjlt := edgeAt_toSortData_bound nodes dependsOn _ _ hj
  refine ⟨j, ?_, ?_⟩
  · rw [h3, List.mem_filter]
    exact ⟨List.mem_range.2 hjlt, by simp [hj, hjno]⟩
  · rw [toSortData_length] at hjlt
    exact ⟨nodes[j], List.getElem?_eq_getElem hjlt⟩

theorem sortConfigs_eq (configs : List Config) :
    sortConfigs configs =
      if 0 < (TopologySort (configsToSortData configs).1
          (configsToSortData configs).2).2.length then
        (none, parseConfigSortErrors (TopologySort (configsToSortData configs).1
          (configsToSortData configs).2).2 configs)
      else
        (some (reversedLookup configs (TopologySort (configsToSortData configs).1
          (configsToSortData configs).2).1), []) := rfl

theorem sortConfigs_errs_nil (configs : List Config)
    (h : (sortConfigs configs).2 = []) :
    (TopologySort (configsToSortData configs).1 (configsToSortData configs).2).2 = [] := by
  rw [sortConfigs_eq] at h
  by_contra hne
  obtain ⟨e, he⟩ := List.exists_mem_of_ne_nil _ hne
  rw [if_pos (List.length_pos.2 hne)] at h
  have hnn : (TopologySort (configsToSortData configs).1
      (configsToSortData configs).2).2.foldl (collectDepErrs configs) [] ≠ [] :=
    foldl_collectDepErrs_ne_nil configs _ []
      (Or.inr ⟨e, he, sortErr_lookup _ _ he, sortErr_unresolved _ _ he⟩)
  unfold parseConfigSortErrors at h
  exact hnn (List.map_eq_nil_iff.1 h)

theorem sortConfigs_of_errs_nil (configs : List Config)
    (h : (TopologySort (configsToSortData configs).1
      (configsToSortData configs).2).2 = []) :
    sortConfigs configs =
      (some (reversedLookup configs (TopologySort (configsToSortData configs).1
        (configsToSortData configs).2).1), []) := by
  rw [sortConfigs_eq, h]
  simp

/-- C2 (sort soundness, configs): for configs with pairwise distinct coordinates
on which `sortConfigs` returns no errors, a config `a` stands in the returned
list before every other config `b` that depends on it, both not skipped; both
occur at exactly one index. -/
theorem sortConfigs_sound (configs : List Config)
    (hcoord : (configs.map (fun c => c.Coordinate)).Nodup)
    (hok : (sortConfigs configs).2 = [])
    (a b : Config) (ha : a ∈ configs) (hb : b ∈ configs) (hab : a ≠ b)
    (_hsa : a.Skip = false) (hsb : b.Skip = false)
    (hdep : b.HasDependencyOn a = true) :
    ∃ result, (sortConfigs configs).1 = some result ∧
      ∃ i j : Nat, i < j ∧ result[i]? = some a ∧ result[j]? = some b ∧
        (∀ k : Nat, result[k]? = some a → k = i) ∧
        (∀ k : Nat, result[k]? = some b → k = j) := by
  have he := sortConfigs_errs_nil configs hok
  rw [sortConfigs_of_errs_nil configs he]
  refine ⟨_, rfl, ?_⟩
  have hnodup : configs.Nodup := List.Nodup.of_map _ hcoord
  have hne : configs.indexOf a ≠ configs.indexOf b := by
    intro heq
    have h1 := getElem?_indexOf_mem ha
    rw [heq, getElem?_indexOf_mem hb] at h1
    exact hab (Option.some.inj h1).symm
  obtain ⟨p, q, hpq, hp, hq⟩ := reversedLookup_before configs
    (fun c config => !c.Skip && c.HasDependencyOn config) he hne
    (getElem?_indexOf_mem ha) (getElem?_indexOf_mem hb) (by simp [hsb, hdep])
  have hnd : (reversedLookup configs (TopologySort (configsToSortData configs).1
      (configsToSortData configs).2).1).Nodup :=
    (reversedLookup_perm _ _ he).nodup_iff.2 hnodup
  refine ⟨p, q, hpq, hp, hq, ?_, ?_⟩
  · intro k hk
    exact (List.getElem?_inj (List.getElem?_eq_some.1 hp).1 hnd (hp.trans hk.symm)).symm
  · intro k hk
    exact (List.getElem?_inj (List.getElem?_eq_some.1 hq).1 hnd (hq.trans hk.symm)).symm

/-- Witness of C2: the auto-tag config stands before the dashboard config that
references it. -/
theorem sortConfigs_sound_witness :
    (sortConfigs [examples.dashboardConfig, examples.tagConfig]).2 = [] ∧
    ∃ result, (sortConfigs [examples.dashboardConfig, examples.tagConfig]).1 = some result ∧
      ∃ i j : Nat, i < j ∧ result[i]? = some examples.tagConfig ∧
        result[j]? = some examples.dashboardConfig ∧
        (∀ k : Nat, result[k]? = some examples.tagConfig → k = i) ∧
        (∀ k : Nat, result[k]? = some examples.dashboardConfig → k = j) :=
  ⟨by decide,
    sortConfigs_sound [examples.dashboardConfig, examples.tagConfig] (by decide) (by decide)
      examples.tagConfig examples.dashboardConfig (by decide) (by decide) (by decide)
      (by decide) (by decide) (by decide)⟩

theorem hasDependencyOn_iff (c config : Config) :
    c.HasDependencyOn config = true ↔
      ∃ e ∈ c.Parameters, ∃ ref ∈ e.2.GetReferences, ref.Config = config.Coordinate := by
  unfold Config.HasDependencyOn
  simp only [List.any_eq_true, decide_eq_true_eq]

/-- C9, as stated, fails in both directions: a non-skipped config that
references a skipped one gets an edge, and a skipped config that references a
non-skipped one gets none. -/
theorem configsToSortData_skip_counterexample :
    ¬ (edgeAt (configsToSortData
          [examples.skippedTagConfig, examples.dashboardConfig]).1 0 1 = true ↔
        ((∃ e ∈ examples.dashboardConfig.Parameters, ∃ ref ∈ e.2.GetReferences,
            ref.Config = examples.skippedTagConfig.Coordinate) ∧
          examples.skippedTagConfig.Skip = false)) ∧
    ¬ (edgeAt (configsToSortData
          [examples.tagConfig, examples.skippedDashboardConfig]).1 0 1 = true ↔
        ((∃ e ∈ examples.skippedDashboardConfig.Parameters, ∃ ref ∈ e.2.GetReferences,
            ref.Config = examples.tagConfig.Coordinate) ∧
          examples.tagConfig.Skip = false)) := by
  decide

/-- C9, amended: for `i ≠ j`, `a = configs[i]` and `b = configs[j]`, the entry
`matrix[i][j]` of `configsToSortData` is set exactly when `b` has a reference
whose coordinate equals `a`'s coordinate and `b.Skip` is false (the guard tests
the depending config); `inDegrees[i]` counts the set entries of row `i`. -/
theorem configsToSortData_edge (configs : List Config) (i j : Nat) (a b : Config)
    (hij : i ≠ j) (ha : configs[i]? = some a) (hb : configs[j]? = some b) :
    (edgeAt (configsToSortData configs).1 i j = true ↔
      ((∃ e ∈ b.Parameters, ∃ ref ∈ e.2.GetReferences, ref.Config = a.Coordinate) ∧
        b.Skip = false)) ∧
    (configsToSortData configs).2.getD i 0
      = (((configsToSortData configs).1.getD i []).count true : Int) := by
  constructor
  · unfold configsToSortData
    rw [edgeAt_toSortData, ← hasDependencyOn_iff]
    constructor
    · rintro ⟨_, x, y, hx, hy, hdep⟩
      rw [ha] at hx
      rw [hb] at hy
      cases hx
      cases hy
      simp only [Bool.and_eq_true, Bool.not_eq_true'] at hdep
      exact ⟨hdep.2, hdep.1⟩
    · rintro ⟨h1, h2⟩
      exact ⟨hij, a, b, ha, hb, by simp [h1, h2]⟩
  · have hi : i < (configsToSortData configs).1.length := by
      unfold configsToSortData
      rw [toSortData_length]
      exact (List.getElem?_eq_some.1 ha).1
    exact (toSortData_wf configs _).2.2 i hi

/-- Witness of the amended C9: the edge from a skipped auto-tag config to the
dashboard config that references it. -/
theorem configsToSortData_edge_witness :
    (edgeAt (configsToSortData
        [examples.skippedTagConfig, examples.dashboardConfig]).1 0 1 = true ↔
      ((∃ e ∈ examples.dashboardConfig.Parameters, ∃ ref ∈ e.2.GetReferences,
          ref.Config = examples.skippedTagConfig.Coordinate) ∧
        examples.dashboardConfig.Skip = false)) ∧
    (configsToSortData [examples.skippedTagConfig, examples.dashboardConfig]).2.getD 0 0
      = (((configsToSortData
          [examples.skippedTagConfig, examples.dashboardConfig]).1.getD 0 []).count true : Int) :=
  configsToSortData_edge [examples.skippedTagConfig, examples.dashboardConfig] 0 1
    examples.skippedTagConfig examples.dashboardConfig (by decide) (by decide) (by decide)

/-- C10 fails on the code: two enumeration orders of the one map
`dashboard ↦ [p:dashboard:main], auto-tag ↦ [p:auto-tag:main]` give two different
sequences from `getConfigs`, whose sort key is the config id alone, and two
different orders from `sortConfigs`. -/
theorem getConfigs_enumeration_dependent :
    [("dashboard", [examples.mainDashboard]), ("auto-tag", [examples.mainTag])].Perm
      [("auto-tag", [examples.mainTag]), ("dashboard", [examples.mainDashboard])] ∧
    getConfigs [("dashboard", [examples.mainDashboard]), ("auto-tag", [examples.mainTag])]
      = [examples.mainDashboard, examples.mainTag] ∧
    getConfigs [("auto-tag", [examples.mainTag]), ("dashboard", [examples.mainDashboard])]
      = [examples.mainTag, examples.mainDashboard] ∧
    sortConfigs (getConfigs
        [("dashboard", [examples.mainDashboard]), ("auto-tag", [examples.mainTag])])
      = (some [examples.mainTag, examples.mainDashboard], []) ∧
    sortConfigs (getConfigs
        [("auto-tag", [examples.mainTag]), ("dashboard", [examples.mainDashboard])])
      = (some [examples.mainDashboard, examples.mainTag], []) ∧
    getConfigs [("dashboard", [examples.mainDashboard]), ("auto-tag", [examples.mainTag])]
      ≠ getConfigs
        [("auto-tag", [examples.mainTag]), ("dashboard", [examples.mainDashboard])] :=
  ⟨List.Perm.swap _ _ _, by decide, by decide, by decide, by decide, by decide⟩

/-! ## Go maps -/

theorem mapSet_forall {V : Type} (P : String × V → Prop) (m : List (String × V))
    (key : String) (v : V) (hm : ∀ kv ∈ m, P kv) (hkv : P (key, v)) :
    ∀ kv ∈ mapSet m key v, P kv := by
  intro kv hmem
  unfold mapSet at hmem
  split at hmem
  · obtain ⟨kv0, h0, rfl⟩ := List.mem_map.1 hmem
    by_cases hk : kv0.1 = key
    · rw [if_pos hk]; exact hkv
    · rw [if_neg hk]; exact hm kv0 h0
  · rcases List.mem_append.1 hmem with h | h
    · exact hm kv h
    · rw [List.mem_singleton.1 h]; exact hkv

theorem mapSet_key {V : Type} (m : List (String × V)) (key : String) (v : V) :
    ∃ kv ∈ mapSet m key v, kv.1 = key := by
  unfold mapSet
  split
  · rename_i h
    obtain ⟨kv0, h0, hk⟩ := List.any_eq_true.1 h
    have hk1 : kv0.1 = key := by simpa using hk
    exact ⟨(key, v), List.mem_map.2 ⟨kv0, h0, by rw [if_pos hk1]⟩, rfl⟩
  · exact ⟨(key, v), by simp, rfl⟩

theorem mapSet_keeps_key {V : Type} (m : List (String × V)) (key : String) (v : V)
    (e : String) (h : ∃ kv ∈ m, kv.1 = e) : ∃ kv ∈ mapSet m key v, kv.1 = e := by
  obtain ⟨kv0, h0, hk0⟩ := h
  unfold mapSet
  split
  · by_cases hk : kv0.1 = key
    · exact ⟨(key, v), List.mem_map.2 ⟨kv0, h0, by rw [if_pos hk]⟩, by rw [← hk0, hk]⟩
    · exact ⟨kv0, List.mem_map.2 ⟨kv0, h0, by rw [if_neg hk]⟩, hk0⟩
  · exact ⟨kv0, List.mem_append_left _ h0, hk0⟩

theorem foldl_mapSet_values {V : Type} (f : String → V) :
    ∀ (envs : List String) (m0 : List (String × V)), (∀ kv ∈ m0, kv.2 = f kv.1) →
      ∀ kv ∈ envs.foldl (fun m env => mapSet m env (f env)) m0, kv.2 = f kv.1 := by
  intro envs
  induction envs with
  | nil => intro m0 h; simpa using h
  | cons env envs ih =>
    intro m0 h
    rw [List.foldl_cons]
    exact ih _ (mapSet_forall (fun kv => kv.2 = f kv.1) m0 env (f env) h rfl)

theorem foldl_mapSet_keys {V : Type} (f : String → V) :
    ∀ (envs : List String) (m0 : List (String × V)) (e : String),
      (e ∈ envs ∨ ∃ kv ∈ m0, kv.1 = e) →
      ∃ kv ∈ envs.foldl (fun m env => mapSet m env (f env)) m0, kv.1 = e := by
  intro envs
  induction envs with
  | nil =>
    intro m0 e h
    rcases h with h | h
    · simp at h
    · simpa using h
  | cons env envs ih =>
    intro m0 e h
    rw [List.foldl_cons]
    apply ih
    rcases h with h | h
    · rcases List.mem_cons.1 h with rfl | h1
      · exact Or.inr (mapSet_key m0 e (f e))
      · exact Or.inl h1
    · exact Or.inr (mapSet_keeps_key m0 env (f env) e h)

theorem mapGet_of_values {V : Type} (m : List (String × List V)) (h : String → List V)
    (hv : ∀ kv ∈ m, kv.2 = h kv.1) (e : String) (hk : ∃ kv ∈ m, kv.1 = e) :
    mapGet m e = h e := by
  unfold mapGet
  cases hf : m.find? (fun kv => decide (kv.1 = e)) with
  | none =>
    obtain ⟨kv, hkv, hke⟩ := hk
    have := List.find?_eq_none.1 hf kv hkv
    simp [hke] at this
  | some kv =>
    have h1 := List.find?_some hf
    have h2 := List.mem_of_find?_eq_some hf
    simp only [decide_eq_true_eq] at h1
    simp only [Option.map_some', Option.getD_some]
    rw [hv kv h2, h1]

theorem split_at_two {α : Type} :
    ∀ (l : List α) (p q : Nat) (a b : α), p < q → l[p]? = some a → l[q]? = some b →
      ∃ s1 s2 s3, l = s1 ++ a :: (s2 ++ b :: s3) := by
  intro l
  induction l with
  | nil => intro p q a b _ hp; simp at hp
  | cons x l ih =>
    intro p q a b hpq hp hq
    cases q with
    | zero => omega
    | succ q =>
      rw [List.getElem?_cons_succ] at hq
      cases p with
      | zero =>
        rw [List.getElem?_cons_zero] at hp
        cases hp
        obtain ⟨hlt, hget⟩ := List.getElem?_eq_some.1 hq
        refine ⟨[], l.take q, l.drop (q + 1), ?_⟩
        rw [List.nil_append, ← hget, ← List.drop_eq_getElem_cons hlt, List.take_append_drop]
      | succ p =>
        rw [List.getElem?_cons_succ] at hp
        obtain ⟨s1, s2, s3, h⟩ := ih p q a b (by omega) hp hq
        exact ⟨x :: s1, s2, s3, by rw [h]; rfl⟩

/-! ## `sortProjects` and `GetSortedConfigsForEnvironments` -/

theorem sortProjectsFor_errs_nil (projects : List Project) (e : String)
    (h : (sortProjectsFor projects e).2 = []) :
    (TopologySort (projectsToSortData projects e).1 (projectsToSortData projects e).2).2
      = [] := by
  by_contra hne
  obtain ⟨err, herr⟩ := List.exists_mem_of_ne_nil _ hne
  obtain ⟨p, hp⟩ := sortErr_lookup projects
    (fun p project => p.HasDependencyOn e project) herr
  have hmem : (⟨e, p.Id, mapGet p.Dependencies e⟩ : CircualDependencyProjectSortError) ∈
      (sortProjectsFor projects e).2 := by
    unfold sortProjectsFor
    exact List.mem_filterMap.2 ⟨err, herr, by simp [hp]⟩
  rw [h] at hmem
  simp at hmem

theorem sortProjects_eq (projects : List Project) (environments : List String) :
    sortProjects projects environments =
      if environments.flatMap (fun env => (sortProjectsFor projects env).2) ≠ [] then
        (none, environments.flatMap (fun env => (sortProjectsFor projects env).2))
      else
        (some (environments.foldl
          (fun m env => mapSet m env (sortProjectsFor projects env).1) []), []) := rfl

theorem GetSorted_eq (projects : List Project) (environments : List String) :
    GetSortedConfigsForEnvironments projects environments =
      if 0 < (sortProjects projects environments).2.length then
        (none, (sortProjects projects environments).2.map SortError.project)
      else
        if (((sortProjects projects environments).1.getD []).map
            (fun kv => (kv.1, sortConfigsFor kv.1 kv.2))).flatMap (fun r => r.2.2) ≠ [] then
          (none, ((((sortProjects projects environments).1.getD []).map
            (fun kv => (kv.1, sortConfigsFor kv.1 kv.2))).flatMap
              (fun r => r.2.2)).map SortError.config)
        else
          (some ((((sortProjects projects environments).1.getD []).map
            (fun kv => (kv.1, sortConfigsFor kv.1 kv.2))).map (fun r => (r.1, r.2.1))), []) :=
  rfl

/-- What a run of `GetSortedConfigsForEnvironments` without errors returns. -/
theorem GetSorted_ok (projects : List Project) (environments : List String)
    (hok : (GetSortedConfigsForEnvironments projects environments).2 = []) :
    ∃ result, (GetSortedConfigsForEnvironments projects environments).1 = some result ∧
      ∀ e ∈ environments,
        (sortProjectsFor projects e).2 = [] ∧
        (sortConfigsFor e (sortProjectsFor projects e).1).2 = [] ∧
        resultFor result e = (sortConfigsFor e (sortProjectsFor projects e).1).1 := by
  have hE : environments.flatMap (fun env => (sortProjectsFor projects env).2) = [] := by
    by_contra hne
    have hsp : sortProjects projects environments =
        (none, environments.flatMap (fun env => (sortProjectsFor projects env).2)) := by
      rw [sortProjects_eq, if_pos hne]
    rw [GetSorted_eq, hsp, if_pos (List.length_pos.2 hne)] at hok
    exact hne (List.map_eq_nil_iff.1 hok)
  have hsp : sortProjects projects environments =
      (some (environments.foldl
        (fun m env => mapSet m env (sortProjectsFor projects env).1) []), []) := by
    rw [sortProjects_eq, if_neg (not_not.2 hE)]
  rw [GetSorted_eq, hsp] at hok ⊢
  simp only [List.length_nil, lt_irrefl, if_false, Option.getD_some] at hok ⊢
  have hvals := foldl_mapSet_values (fun env => (sortProjectsFor projects env).1)
    environments [] (by simp)
  have hkeys := fun e he => foldl_mapSet_keys (fun env => (sortProjectsFor projects env).1)
    environments [] e (Or.inl he)
  generalize environments.foldl
    (fun m env => mapSet m env (sortProjectsFor projects env).1) [] = m at hok hvals hkeys ⊢
  have hC : (m.map (fun kv => (kv.1, sortConfigsFor kv.1 kv.2))).flatMap
      (fun r => r.2.2) = [] := by
    by_contra hne
    rw [if_pos hne] at hok
    exact hne (List.map_eq_nil_iff.1 hok)
  rw [if_neg (not_not.2 hC)]
  refine ⟨_, rfl, ?_⟩
  intro e he
  obtain ⟨kv, hkv, hke⟩ := hkeys e he
  have hkv2 := hvals kv hkv
  refine ⟨?_, ?_, ?_⟩
  · exact List.flatMap_eq_nil_iff.1 hE e he
  · have := List.flatMap_eq_nil_iff.1 hC (kv.1, sortConfigsFor kv.1 kv.2)
      (List.mem_map.2 ⟨kv, hkv, rfl⟩)
    simp only at this
    rw [hke, hkv2, hke] at this
    exact this
  · unfold resultFor
    apply mapGet_of_values _ (fun e => (sortConfigsFor e (sortProjectsFor projects e).1).1)
    · intro r hr
      simp only [List.map_map, List.mem_map, Function.comp] at hr
      obtain ⟨kv1, hkv1, rfl⟩ := hr
      simp only
      rw [hvals kv1 hkv1]
    · exact ⟨(kv.1, (sortConfigsFor kv.1 kv.2).1),
        by simp only [List.map_map, List.mem_map, Function.comp]; exact ⟨kv, hkv, rfl⟩, hke⟩

theorem sortConfigsFor_fst (e : String) (ps : List Project) :
    (sortConfigsFor e ps).1 = ps.flatMap (fun p =>
      (sortConfigs (getConfigs (mapGet p.Configs e))).1.getD []) := by
  unfold sortConfigsFor
  simp only [List.flatMap_map]

theorem sortConfigsFor_snd (e : String) (ps : List Project)
    (h : (sortConfigsFor e ps).2 = []) :
    ∀ p ∈ ps, (sortConfigs (getConfigs (mapGet p.Configs e))).2 = [] := by
  unfold sortConfigsFor at h
  simp only [List.flatMap_map] at h
  exact List.flatMap_eq_nil_iff.1 h

theorem getConfigs_perm (m : List (String × List Config)) :
    (getConfigs m).Perm (m.flatMap Prod.snd) :=
  List.perm_insertionSort _ _

/-- Without errors `sortConfigs` returns a permutation of its input. -/
theorem sortConfigs_perm (configs : List Config) (h : (sortConfigs configs).2 = []) :
    ((sortConfigs configs).1.getD []).Perm configs := by
  have he := sortConfigs_errs_nil configs h
  rw [sortConfigs_of_errs_nil configs he]
  exact reversedLookup_perm _ _ he

theorem sortedConfigs_perm_held (p : Project) (e : String)
    (h : (sortConfigs (getConfigs (mapGet p.Configs e))).2 = []) :
    ((sortConfigs (getConfigs (mapGet p.Configs e))).1.getD []).Perm (heldConfigs p e) :=
  (sortConfigs_perm _ h).trans (getConfigs_perm _)

/-- C5 (sort completeness, environments): when `GetSortedConfigsForEnvironments`
returns no errors, `result[e]` is, for each requested environment `e`, a
permutation of all configs the given projects hold for `e`, of the same length. -/
theorem GetSortedConfigsForEnvironments_perm (projects : List Project)
    (environments : List String)
    (hok : (GetSortedConfigsForEnvironments projects environments).2 = []) :
    ∃ result, (GetSortedConfigsForEnvironments projects environments).1 = some result ∧
      ∀ e ∈ environments,
        (resultFor result e).Perm (projects.flatMap (fun p => heldConfigs p e)) ∧
        (resultFor result e).length = (projects.flatMap (fun p => heldConfigs p e)).length := by
  obtain ⟨result, hres, hall⟩ := GetSorted_ok projects environments hok
  refine ⟨result, hres, ?_⟩
  intro e he
  obtain ⟨h1, h2, h3⟩ := hall e he
  have hperm : (resultFor result e).Perm (projects.flatMap (fun p => heldConfigs p e)) := by
    rw [h3, sortConfigsFor_fst]
    have hP : (sortProjectsFor projects e).1.Perm projects :=
      reversedLookup_perm projects _ (sortProjectsFor_errs_nil projects e h1)
    refine (List.Perm.flatMap_left _ ?_).trans (hP.flatMap_right _)
    intro p hp
    exact sortedConfigs_perm_held p e (sortConfigsFor_snd e _ h2 p hp)
  exact ⟨hperm, hperm.length_eq⟩

/-- C3 (sort soundness, projects): when `GetSortedConfigsForEnvironments` returns
no errors and the project `P` lists the id of another project `Q` in its
dependencies for the requested environment `e`, then in `result[e]` all configs
of `Q` for `e` form a block that stands before the block of all configs of `P`
for `e`. -/
theorem GetSortedConfigsForEnvironments_projects (projects : List Project)
    (environments : List String) (e : String) (he : e ∈ environments)
    (iP iQ : Nat) (P Q : Project) (hPQ : iP ≠ iQ)
    (hP : projects[iP]? = some P) (hQ : projects[iQ]? = some Q)
    (hdep : Q.Id ∈ mapGet P.Dependencies e)
    (hok : (GetSortedConfigsForEnvironments projects environments).2 = []) :
    ∃ result, (GetSortedConfigsForEnvironments projects environments).1 = some result ∧
      ∃ l1 cq l2 cp l3, resultFor result e = l1 ++ cq ++ l2 ++ cp ++ l3 ∧
        cq.Perm (heldConfigs Q e) ∧ cp.Perm (heldConfigs P e) := by
  obtain ⟨result, hres, hall⟩ := GetSorted_ok projects environments hok
  refine ⟨result, hres, ?_⟩
  obtain ⟨h1, h2, h3⟩ := hall e he
  have hT := sortProjectsFor_errs_nil projects e h1
  have hHas : P.HasDependencyOn e Q = true := by
    unfold Project.HasDependencyOn
    exact List.any_eq_true.2 ⟨Q.Id, hdep, by simp⟩
  obtain ⟨p, q, hpq, hp, hq⟩ := reversedLookup_before projects
    (fun p project => p.HasDependencyOn e project) hT (Ne.symm hPQ) hQ hP hHas
  have hsorted : (sortProjectsFor projects e).1 = reversedLookup projects
      (TopologySort (toSortData projects (fun p project => p.HasDependencyOn e project)).1
        (toSortData projects (fun p project => p.HasDependencyOn e project)).2).1 :=
    rfl
  obtain ⟨s1, s2, s3, hsplit⟩ := split_at_two _ p q Q P hpq hp hq
  have hmemQ : Q ∈ (sortProjectsFor projects e).1 := by
    rw [hsorted]; exact List.mem_iff_getElem?.2 ⟨p, hp⟩
  have hmemP : P ∈ (sortProjectsFor projects e).1 := by
    rw [hsorted]; exact List.mem_iff_getElem?.2 ⟨q, hq⟩
  refine ⟨s1.flatMap (fun p => (sortConfigs (getConfigs (mapGet p.Configs e))).1.getD []),
    (sortConfigs (getConfigs (mapGet Q.Configs e))).1.getD [],
    s2.flatMap (fun p => (sortConfigs (getConfigs (mapGet p.Configs e))).1.getD []),
    (sortConfigs (getConfigs (mapGet P.Configs e))).1.getD [],
    s3.flatMap (fun p => (sortConfigs (getConfigs (mapGet p.Configs e))).1.getD []),
    ?_, ?_, ?_⟩
  · rw [h3, sortConfigsFor_fst, hsorted, hsplit]
    simp only [List.flatMap_append, List.flatMap_cons, List.append_assoc]
  · exact sortedConfigs_perm_held Q e (sortConfigsFor_snd e _ h2 Q hmemQ)
  · exact sortedConfigs_perm_held P e (sortConfigsFor_snd e _ h2 P hmemP)

/-- Witness of C5 on the projects of `TestGetSortedConfigsForEnvironments`. -/
theorem GetSortedConfigsForEnvironments_perm_witness :
    (GetSortedConfigsForEnvironments examples.testProjects ["dev"]).2 = [] ∧
    ∃ result,
      (GetSortedConfigsForEnvironments examples.testProjects ["dev"]).1 = some result ∧
      ∀ e ∈ ["dev"],
        (resultFor result e).Perm
          (examples.testProjects.flatMap (fun p => heldConfigs p e)) ∧
        (resultFor result e).length
          = (examples.testProjects.flatMap (fun p => heldConfigs p e)).length :=
  ⟨by decide,
    GetSortedConfigsForEnvironments_perm examples.testProjects ["dev"] (by decide)⟩

/-- Witness of C3 on the projects of `TestGetSortedConfigsForEnvironments`: the
auto-tag of `project2` stands before the dashboards of `project1`. -/
theorem GetSortedConfigsForEnvironments_projects_witness :
    (GetSortedConfigsForEnvironments examples.testProjects ["dev"]).2 = [] ∧
    ∃ result,
      (GetSortedConfigsForEnvironments examples.testProjects ["dev"]).1 = some result ∧
      ∃ l1 cq l2 cp l3, resultFor result "dev" = l1 ++ cq ++ l2 ++ cp ++ l3 ∧
        cq.Perm (heldConfigs examples.project2 "dev") ∧
        cp.Perm (heldConfigs examples.project1 "dev") :=
  ⟨by decide,
    GetSortedConfigsForEnvironments_projects examples.testProjects ["dev"] "dev"
      (by decide) 0 1 examples.project1 examples.project2 (by decide) (by decide)
      (by decide) (by decide) (by decide)⟩

end topologysort

/-! ## The order of `strings.Compare` and the determinism of `SliceStable` -/

namespace strings

theorem compareCodes_eq_zero : ∀ (x y : List Nat), compareCodes x y = 0 → x = y
  | [], [], _ => rfl
  | [], _ :: _, h => by simp [compareCodes] at h
  | _ :: _, [], h => by simp [compareCodes] at h
  | a :: x, b :: y, h => by
    unfold compareCodes at h
    split at h
    · omega
    · split at h
      · omega
      · have hab : a = b := by omega
        rw [hab, compareCodes_eq_zero x y h]

theorem compareCodes_neg : ∀ (x y : List Nat), compareCodes y x = - compareCodes x y
  | [], [] => by simp [compareCodes]
  | [], _ :: _ => by simp [compareCodes]
  | _ :: _, [] => by simp [compareCodes]
  | a :: x, b :: y => by
    have ih := compareCodes_neg x y
    unfold compareCodes
    by_cases h1 : a < b
    · have h2 : ¬ b < a := by omega
      simp [h1, h2]
    · by_cases h2 : b < a
      · simp [h1, h2]
      · simp [h1, h2, ih]

theorem compareCodes_lt_trans : ∀ (x y z : List Nat),
    compareCodes x y < 0 → compareCodes y z < 0 → compareCodes x z < 0
  | [], [], _, h, _ => by simp [compareCodes] at h
  | [], _ :: _, [], _, h => by simp [compareCodes] at h
  | [], _ :: _, _ :: _, _, _ => by simp [compareCodes]
  | _ :: _, [], _, h, _ => by simp [compareCodes] at h
  | _ :: _, _ :: _, [], _, h => by simp [compareCodes] at h
  | a :: x, b :: y, c :: z, h1, h2 => by
    have ih := compareCodes_lt_trans x y z
    unfold compareCodes at h1 h2 ⊢
    by_cases hab : a < b
    · by_cases hbc : b < c
      · have : a < c := by omega
        simp [this]
      · by_cases hcb : c < b
        · simp [hbc, hcb] at h2
        · have : a < c := by omega
          simp [this]
    · by_cases hba : b < a
      · simp [hab, hba] at h1
      · simp only [hab, hba, if_false] at h1
        have hab2 : a = b := by omega
        subst hab2
        by_cases hbc : a < c
        · simp [hbc]
        · by_cases hcb : c < a
          · simp [hbc, hcb] at h2
          · simp only [hbc, hcb, if_false] at h2 ⊢
            exact ih h1 h2

theorem codes_injective (a b : String)
    (h : a.toList.map Char.toNat = b.toList.map Char.toNat) : a = b := by
  apply String.toList_inj.1
  have hinj : Function.Injective Char.toNat := by
    intro c d hcd
    rw [← Char.ofNat_toNat c, ← Char.ofNat_toNat d, hcd]
  exact List.map_injective_iff.2 hinj h

/-- The comparison is zero only on equal strings. -/
theorem Compare_eq_zero (a b : String) (h : Compare a b = 0) : a = b :=
  codes_injective a b (compareCodes_eq_zero _ _ h)

theorem Compare_neg (a b : String) : Compare b a = - Compare a b :=
  compareCodes_neg _ _

theorem Compare_lt_trans (a b c : String) (h1 : Compare a b < 0) (h2 : Compare b c < 0) :
    Compare a c < 0 :=
  compareCodes_lt_trans _ _ _ h1 h2

/-- Two different strings are strictly ordered one way or the other. -/
theorem Compare_lt_of_not_gt (a b : String) (hne : a ≠ b) (h : ¬ Compare b a < 0) :
    Compare a b < 0 := by
  have h1 := Compare_neg a b
  have h2 : Compare a b ≠ 0 := fun h0 => hne (Compare_eq_zero a b h0)
  omega

end strings

/-- The order in which `SliceStable` leaves its elements: none is `less` than
an earlier one. -/
theorem SliceStable_sorted {α : Type} (key : α → String) (xs : List α) :
    (SliceStable (fun a b => decide (strings.Compare (key a) (key b) < 0)) xs).Pairwise
      (fun a b => ¬ strings.Compare (key b) (key a) < 0) := by
  have htotal : IsTotal α
      (fun a b => decide (strings.Compare (key b) (key a) < 0) = false) := by
    refine ⟨fun a b => ?_⟩
    have := strings.Compare_neg (key a) (key b)
    simp only [decide_eq_false_iff_not]
    by_cases h : strings.Compare (key b) (key a) < 0
    · right; omega
    · left; exact h
  have htrans : IsTrans α
      (fun a b => decide (strings.Compare (key b) (key a) < 0) = false) := by
    refine ⟨fun a b c hab hbc => ?_⟩
    simp only [decide_eq_false_iff_not] at hab hbc ⊢
    intro hca
    by_cases h1 : key a = key b
    · rw [h1] at hca; exact hbc hca
    · by_cases h2 : key b = key c
      · rw [← h2] at hca; exact hab hca
      · have hlt1 := strings.Compare_lt_of_not_gt _ _ h1 hab
        have hlt2 := strings.Compare_lt_of_not_gt _ _ h2 hbc
        have hlt3 := strings.Compare_lt_trans _ _ _ hlt1 hlt2
        have := strings.Compare_neg (key a) (key c)
        omega
  have hs := List.sorted_insertionSort
    (fun a b => decide (strings.Compare (key b) (key a) < 0) = false) xs
  unfold SliceStable
  exact hs.imp (fun h => by simpa using h)

/-- With pairwise distinct keys the result of `SliceStable` does not depend on
the order of its input. -/
theorem SliceStable_perm_eq {α : Type} (key : α → String) (xs ys : List α)
    (hperm : xs.Perm ys) (hkeys : (xs.map key).Nodup) :
    SliceStable (fun a b => decide (strings.Compare (key a) (key b) < 0)) xs
      = SliceStable (fun a b => decide (strings.Compare (key a) (key b) < 0)) ys := by
  have hp1 : (SliceStable (fun a b => decide (strings.Compare (key a) (key b) < 0)) xs).Perm
      xs := List.perm_insertionSort _ _
  have hp2 : (SliceStable (fun a b => decide (strings.Compare (key a) (key b) < 0)) ys).Perm
      ys := List.perm_insertionSort _ _
  have strict : ∀ zs : List α, zs.Perm xs →
      (SliceStable (fun a b => decide (strings.Compare (key a) (key b) < 0)) zs).Pairwise
        (fun a b => strings.Compare (key a) (key b) < 0) := by
    intro zs hz
    have hsorted := SliceStable_sorted key zs
    have hnd : ((SliceStable (fun a b => decide (strings.Compare (key a) (key b) < 0))
        zs).map key).Nodup :=
      (((List.perm_insertionSort _ zs).trans hz).map key).nodup_iff.2 hkeys
    have hne : (SliceStable (fun a b => decide (strings.Compare (key a) (key b) < 0))
        zs).Pairwise (fun a b => key a ≠ key b) := List.pairwise_map.1 hnd
    exact (hsorted.and hne).imp (fun h => strings.Compare_lt_of_not_gt _ _ h.2 h.1)
  haveI : IsAntisymm α (fun a b => strings.Compare (key a) (key b) < 0) := by
    refine ⟨fun a b hab hba => ?_⟩
    have := strings.Compare_neg (key a) (key b)
    omega
  exact List.eq_of_perm_of_sorted (hp1.trans (hperm.trans hp2.symm))
    (strict xs (List.Perm.refl _)) (strict ys hperm.symm)

namespace topologysort

open sort coordinate parameter config project

/-- C11 (determinism of `SortParameters`): two enumerations of the same
parameter map give the same result, order and errors alike. -/
theorem SortParameters_deterministic (group environment : String) (conf : Coordinate)
    (parameters parameters1 : List (String × Parameter))
    (hperm : parameters.Perm parameters1)
    (hkeys : (parameters.map Prod.fst).Nodup) :
    SortParameters group environment conf parameters
      = SortParameters group environment conf parameters1 := by
  have hs : sortedParameters parameters = sortedParameters parameters1 := by
    unfold sortedParameters
    apply SliceStable_perm_eq ParameterWithName.Name
    · exact hperm.map _
    · simpa [namedParameters, Function.comp_def] using hkeys
  rw [SortParameters_eq, SortParameters_eq, hs]

/-- Witness of C11 on two enumerations of the parameters of
`TestSortParameters`. -/
theorem SortParameters_deterministic_witness :
    SortParameters "" "dev" examples.dashboard1 examples.sortableParameters
      = SortParameters "" "dev" examples.dashboard1 examples.sortableParameters.reverse :=
  SortParameters_deterministic "" "dev" examples.dashboard1 examples.sortableParameters
    examples.sortableParameters.reverse (List.reverse_perm _).symm (by decide)

end topologysort

/-! ## Go maps: reading after writing -/

namespace project

theorem mapFind_cons {V : Type} (x : String × V) (m : List (String × V)) (k : String) :
    mapFind (x :: m) k = if x.1 = k then some x.2 else mapFind m k := by
  unfold mapFind
  rw [List.find?_cons]
  by_cases h : x.1 = k <;> simp [h]

theorem mapFind_eq_none_iff {V : Type} (m : List (String × V)) (k : String) :
    mapFind m k = none ↔ k ∉ m.map Prod.fst := by
  induction m with
  | nil => simp [mapFind]
  | cons x m ih =>
    rw [mapFind_cons]
    by_cases h : x.1 = k
    · simp [h]
    · have h2 : k ≠ x.1 := fun h1 => h h1.symm
      simp [h, h2, ih]

theorem mapSet_of_mem {V : Type} (m : List (String × V)) (k : String) (v : V)
    (h : k ∈ m.map Prod.fst) :
    mapSet m k v = m.map (fun e => if e.1 = k then (k, v) else e) := by
  unfold mapSet
  rw [if_pos]
  obtain ⟨e, he, hk⟩ := List.mem_map.1 h
  exact List.any_eq_true.2 ⟨e, he, by simpa using hk⟩

theorem mapSet_of_not_mem {V : Type} (m : List (String × V)) (k : String) (v : V)
    (h : k ∉ m.map Prod.fst) : mapSet m k v = m ++ [(k, v)] := by
  unfold mapSet
  rw [if_neg]
  intro hany
  obtain ⟨e, he, hk⟩ := List.any_eq_true.1 hany
  exact h (List.mem_map.2 ⟨e, he, by simpa using hk⟩)

theorem keys_mapSet {V : Type} (m : List (String × V)) (k : String) (v : V) :
    (mapSet m k v).map Prod.fst
      = if k ∈ m.map Prod.fst then m.map Prod.fst else m.map Prod.fst ++ [k] := by
  by_cases h : k ∈ m.map Prod.fst
  · rw [if_pos h, mapSet_of_mem m k v h, List.map_map]
    apply List.map_congr_left
    intro e _
    by_cases he : e.1 = k <;> simp [he]
  · rw [if_neg h, mapSet_of_not_mem m k v h]
    simp

theorem keys_mapSet_nodup {V : Type} (m : List (String × V)) (k : String) (v : V)
    (h : (m.map Prod.fst).Nodup) : ((mapSet m k v).map Prod.fst).Nodup := by
  rw [keys_mapSet]
  by_cases hk : k ∈ m.map Prod.fst
  · rw [if_pos hk]; exact h
  · rw [if_neg hk]
    exact List.Nodup.append h (List.nodup_singleton k)
      (by intro a ha hb; rw [List.mem_singleton.1 hb] at ha; exact hk ha)

theorem mem_keys_mapSet {V : Type} (m : List (String × V)) (k : String) (v : V)
    (k1 : String) : k1 ∈ (mapSet m k v).map Prod.fst ↔ k1 = k ∨ k1 ∈ m.map Prod.fst := by
  rw [keys_mapSet]
  by_cases hk : k ∈ m.map Prod.fst
  · rw [if_pos hk]
    constructor
    · exact Or.inr
    · rintro (rfl | h)
      · exact hk
      · exact h
  · rw [if_neg hk, List.mem_append, List.mem_singleton]
    tauto

theorem mapFind_map_replace {V : Type} (m : List (String × V)) (k : String) (v : V)
    (k1 : String) :
    mapFind (m.map (fun e => if e.1 = k then (k, v) else e)) k1
      = if k1 = k then (mapFind m k).map (fun _ => v) else mapFind m k1 := by
  induction m with
  | nil => simp [mapFind]
  | cons x m ih =>
    rw [List.map_cons, mapFind_cons, mapFind_cons, mapFind_cons, ih]
    by_cases hx : x.1 = k
    · by_cases h1 : k1 = k
      · simp [hx, h1]
      · have h2 : ¬ k = k1 := fun h => h1 h.symm
        simp [hx, h1, h2]
    · by_cases h1 : k1 = k
      · have h2 : ¬ x.1 = k1 := by rw [h1]; exact hx
        simp [hx, h1]
      · simp [hx, h1]

theorem mapFind_append_singleton {V : Type} (m : List (String × V)) (k : String) (v : V)
    (k1 : String) :
    mapFind (m ++ [(k, v)]) k1
      = match mapFind m k1 with
        | some w => some w
        | none => if k1 = k then some v else none := by
  induction m with
  | nil =>
    rw [List.nil_append, mapFind_cons]
    by_cases h1 : k1 = k
    · simp [h1, mapFind]
    · have h2 : ¬ k = k1 := fun h => h1 h.symm
      simp [h1, h2, mapFind]
  | cons x m ih =>
    rw [List.cons_append, mapFind_cons, mapFind_cons, ih]
    by_cases hx : x.1 = k1 <;> simp [hx]

theorem mapFind_mapSet {V : Type} (m : List (String × V)) (k : String) (v : V)
    (k1 : String) :
    mapFind (mapSet m k v) k1 = if k1 = k then some v else mapFind m k1 := by
  by_cases hk : k ∈ m.map Prod.fst
  · rw [mapSet_of_mem m k v hk, mapFind_map_replace]
    by_cases h1 : k1 = k
    · rw [if_pos h1, if_pos h1]
      cases hf : mapFind m k with
      | none => exact absurd hk ((mapFind_eq_none_iff m k).1 hf)
      | some w => rfl
    · rw [if_neg h1, if_neg h1]
  · rw [mapSet_of_not_mem m k v hk, mapFind_append_singleton]
    by_cases h1 : k1 = k
    · rw [if_pos h1, h1, (mapFind_eq_none_iff m k).2 hk]
      simp
    · rw [if_neg h1]
      cases mapFind m k1 <;> simp [h1]

theorem mem_of_mapFind {V : Type} (m : List (String × V)) (k : String) (v : V)
    (h : mapFind m k = some v) : (k, v) ∈ m := by
  induction m with
  | nil => simp [mapFind] at h
  | cons x m ih =>
    rw [mapFind_cons] at h
    by_cases hx : x.1 = k
    · rw [if_pos hx] at h
      have : x = (k, v) := by
        cases x
        simp only at hx
        simp only [Option.some.injEq] at h
        rw [hx, h]
      rw [this]
      exact List.mem_cons_self _ _
    · rw [if_neg hx] at h
      exact List.mem_cons_of_mem _ (ih h)

/-- In a map only the entry of the key `k` contributes to a `flatMap` that is
empty on every other key. -/
theorem flatMap_of_key {V W : Type} (m : List (String × V))
    (hnd : (m.map Prod.fst).Nodup) (k : String) (H : String × V → List W)
    (hH : ∀ x ∈ m, x.1 ≠ k → H x = []) :
    m.flatMap H = match mapFind m k with
      | some v => H (k, v)
      | none => [] := by
  induction m with
  | nil => simp [mapFind]
  | cons x m ih =>
    rw [List.map_cons, List.nodup_cons] at hnd
    rw [List.flatMap_cons, mapFind_cons]
    by_cases hx : x.1 = k
    · rw [if_pos hx]
      have hrest : m.flatMap H = [] := by
        rw [List.flatMap_eq_nil_iff]
        intro y hy
        apply hH y (List.mem_cons_of_mem _ hy)
        intro hyk
        exact hnd.1 (List.mem_map.2 ⟨y, hy, by rw [hyk, hx]⟩)
      rw [hrest, List.append_nil]
      cases x
      simp only at hx
      rw [hx]
    · rw [if_neg hx, hH x (List.mem_cons_self _ _) hx, List.nil_append]
      exact ih hnd.2 (fun y hy => hH y (List.mem_cons_of_mem _ hy))

theorem mapFind_foldl_update {X V : Type} (key : X → Option String)
    (u : X → Option V → V) (k : String) :
    ∀ (xs : List X) (m0 : List (String × V)),
      mapFind (xs.foldl (mapUpdate key u) m0) k
        = (xs.filter (fun x => decide (key x = some k))).foldl
            (fun o x => some (u x o)) (mapFind m0 k) := by
  intro xs
  induction xs with
  | nil => intro m0; rfl
  | cons x xs ih =>
    intro m0
    rw [List.foldl_cons, ih]
    unfold mapUpdate
    cases hx : key x with
    | none => simp [hx]
    | some k1 =>
      by_cases hk : k1 = k
      · subst hk
        simp [hx, mapFind_mapSet]
      · have hk2 : ¬ k = k1 := fun h => hk h.symm
        simp [hx, hk, hk2, mapFind_mapSet]

theorem keys_foldl_update_nodup {X V : Type} (key : X → Option String)
    (u : X → Option V → V) :
    ∀ (xs : List X) (m0 : List (String × V)), (m0.map Prod.fst).Nodup →
      ((xs.foldl (mapUpdate key u) m0).map Prod.fst).Nodup := by
  intro xs
  induction xs with
  | nil => intro m0 h; exact h
  | cons x xs ih =>
    intro m0 h
    rw [List.foldl_cons]
    apply ih
    unfold mapUpdate
    cases key x with
    | none => exact h
    | some k1 => exact keys_mapSet_nodup _ _ _ h

theorem values_foldl_update {X V : Type} (key : X → Option String)
    (u : X → Option V → V) (P : V → Prop) (hu : ∀ x o, (∀ v, o = some v → P v) → P (u x o)) :
    ∀ (xs : List X) (m0 : List (String × V)), (∀ e ∈ m0, P e.2) →
      ∀ e ∈ xs.foldl (mapUpdate key u) m0, P e.2 := by
  intro xs
  induction xs with
  | nil => intro m0 h; exact h
  | cons x xs ih =>
    intro m0 h
    rw [List.foldl_cons]
    apply ih
    unfold mapUpdate
    cases key x with
    | none => exact h
    | some k1 =>
      apply topologysort.mapSet_forall (fun e => P e.2) m0 k1 _ h
      apply hu
      intro v hv
      exact h _ (mem_of_mapFind m0 k1 v hv)

theorem foldl_foldl_flatMap {A B S : Type} (g : A → List B) (f : S → B → S) :
    ∀ (xs : List A) (init : S),
      xs.foldl (fun st a => (g a).foldl f st) init = (xs.flatMap g).foldl f init := by
  intro xs
  induction xs with
  | nil => intro init; rfl
  | cons a xs ih =>
    intro init
    rw [List.foldl_cons, List.flatMap_cons, List.foldl_append, ih]

end project

/-! ## `validateProjectsWithEnvironments` -/

namespace deploy

open coordinate config project manifest

theorem foldl_some_getD {X V : Type} (w : X → List V → List V) :
    ∀ (l : List X) (o0 : Option (List V)),
      (l.foldl (fun o x => some (w x (o.getD []))) o0).getD []
        = l.foldl (fun v x => w x v) (o0.getD []) := by
  intro l
  induction l with
  | nil => intro o0; rfl
  | cons x l ih => intro o0; rw [List.foldl_cons, ih]; rfl

theorem foldl_some_eq_none {X V : Type} (w : X → Option V → V) :
    ∀ (l : List X) (o0 : Option V),
      l.foldl (fun o x => some (w x o)) o0 = none ↔ l = [] ∧ o0 = none := by
  intro l
  induction l with
  | nil => intro o0; simp
  | cons x l ih => intro o0; rw [List.foldl_cons, ih]; simp

theorem foldl_append_flatMap {X V : Type} (g : X → List V) :
    ∀ (l : List X) (v0 : List V),
      l.foldl (fun v x => v ++ g x) v0 = v0 ++ l.flatMap g := by
  intro l
  induction l with
  | nil => intro v0; simp
  | cons x l ih => intro v0; rw [List.foldl_cons, ih, List.flatMap_cons, List.append_assoc]

theorem collectAll_eq (projects : List Project)
    (envs : List (String × EnvironmentDefinition)) :
    collectAll projects envs
      = (projects.flatMap (fun p => p.Configs)).foldl (collectEntry envs) ⟨[], [], []⟩ :=
  foldl_foldl_flatMap _ _ _ _

theorem collect_undefined (envs : List (String × EnvironmentDefinition)) :
    ∀ (es : List (String × List (String × List Config))) (st : Collected),
      (es.foldl (collectEntry envs) st).undefinedEnvironments
        = es.foldl (mapUpdate (undeclaredKey envs) (fun _ _ => ())) st.undefinedEnvironments := by
  intro es
  induction es with
  | nil => intro st; rfl
  | cons e es ih =>
    intro st
    rw [List.foldl_cons, List.foldl_cons, ih]
    congr 1
    unfold collectEntry mapUpdate undeclaredKey
    cases mapFind envs e.1 <;> rfl

theorem collect_platform (envs : List (String × EnvironmentDefinition)) :
    ∀ (es : List (String × List (String × List Config))) (st : Collected),
      (es.foldl (collectEntry envs) st).platformCoordinatesPerEnvironment
        = es.foldl (mapUpdate (declaredKey envs)
            (fun e o => o.getD [] ++ collectPlatformCoordinates e.2))
            st.platformCoordinatesPerEnvironment := by
  intro es
  induction es with
  | nil => intro st; rfl
  | cons e es ih =>
    intro st
    rw [List.foldl_cons, List.foldl_cons, ih]
    congr 1
    unfold collectEntry mapUpdate declaredKey
    cases mapFind envs e.1 <;> rfl

theorem collect_openPipeline (envs : List (String × EnvironmentDefinition)) :
    ∀ (es : List (String × List (String × List Config))) (st : Collected),
      (es.foldl (collectEntry envs) st).openPipelineKindCoordinatesPerEnvironment
        = es.foldl (mapUpdate (declaredKey envs)
            (fun e o => collectOpenPipelineCoordinatesByKind e.2 (o.getD [])))
            st.openPipelineKindCoordinatesPerEnvironment := by
  intro es
  induction es with
  | nil => intro st; rfl
  | cons e es ih =>
    intro st
    rw [List.foldl_cons, List.foldl_cons, ih]
    congr 1
    unfold collectEntry mapUpdate declaredKey
    cases mapFind envs e.1 <;> rfl

theorem environmentConfigs_eq (projects : List Project) (envName : String) :
    environmentConfigs projects envName
      = (projects.flatMap (fun p => p.Configs)).flatMap
          (fun e => if e.1 = envName then AllConfigs e.2 else []) := by
  unfold environmentConfigs
  rw [List.flatMap_assoc]

/-- The entries that write under a declared environment name hold exactly the
configs of that environment. -/
theorem flatMap_declared (envs : List (String × EnvironmentDefinition)) (envName : String)
    (d : EnvironmentDefinition) (hd : mapFind envs envName = some d) :
    ∀ (es : List (String × List (String × List Config))),
      (es.filter (fun e => decide (declaredKey envs e = some envName))).flatMap
          (fun e => AllConfigs e.2)
        = es.flatMap (fun e => if e.1 = envName then AllConfigs e.2 else []) := by
  intro es
  induction es with
  | nil => rfl
  | cons e es ih =>
    rw [List.filter_cons, List.flatMap_cons]
    by_cases he : e.1 = envName
    · have hk : declaredKey envs e = some envName := by
        unfold declaredKey; rw [he, hd]
      simp only [hk, decide_True, if_true, List.flatMap_cons, ih, he]
    · have hk : declaredKey envs e ≠ some envName := by
        unfold declaredKey
        cases mapFind envs e.1 with
        | none => simp
        | some _ => simpa using he
      simp only [hk, decide_False, if_false, ih, he, List.nil_append, Bool.false_eq_true]

theorem mem_undefinedErrors (U : List (String × Unit)) (err : ValidationError)
    (h : err ∈ collectUndefinedEnvironmentErrors U) :
    ∃ e, err = ValidationError.undefinedEnvironment e := by
  obtain ⟨x, _, rfl⟩ := List.mem_map.1 h
  exact ⟨x.1, rfl⟩

theorem mem_platformErrors (P : List (String × List Coordinate))
    (envs : List (String × EnvironmentDefinition)) (err : ValidationError)
    (h : err ∈ collectRequiresPlatformErrors P envs) :
    ∃ e c, err = ValidationError.requiresPlatform e c := by
  obtain ⟨x, _, hx⟩ := List.mem_filterMap.1 h
  cases hf : mapFind envs x.1 with
  | none => simp [hf] at hx
  | some env =>
    simp only [hf] at hx
    by_cases hp : platformEnvironment env = true
    · simp [hp] at hx
    · cases hc : x.2 with
      | nil => simp [hp, hc] at hx
      | cons c cs =>
        simp only [hp, hc, if_false, Option.some.injEq, Bool.false_eq_true] at hx
        exact ⟨x.1, c, hx.symm⟩

theorem mem_openPipelineErrors (M : List (String × List (String × List Coordinate)))
    (err : ValidationError) (h : err ∈ collectOpenPipelineCoordinateErrors M) :
    ∃ e k cs, err = ValidationError.multipleOpenPipeline e k cs := by
  obtain ⟨x, _, hx⟩ := List.mem_flatMap.1 h
  obtain ⟨kc, _, hkc⟩ := List.mem_filterMap.1 hx
  by_cases hl : 1 < kc.2.length
  · simp only [hl, if_true, Option.some.injEq] at hkc
    exact ⟨x.1, kc.1, kc.2, hkc.symm⟩
  · simp [hl] at hkc

theorem undefined_keys_nodup (projects : List Project)
    (envs : List (String × EnvironmentDefinition)) :
    ((collectAll projects envs).undefinedEnvironments.map Prod.fst).Nodup := by
  rw [collectAll_eq, collect_undefined]
  exact keys_foldl_update_nodup _ _ _ _ (by simp)

theorem undefined_find (projects : List Project)
    (envs : List (String × EnvironmentDefinition)) (envName : String) :
    mapFind (collectAll projects envs).undefinedEnvironments envName = none ↔
      ¬ ((∃ p ∈ projects, ∃ e ∈ p.Configs, e.1 = envName) ∧ mapFind envs envName = none) := by
  rw [collectAll_eq, collect_undefined, mapFind_foldl_update, foldl_some_eq_none,
    List.filter_eq_nil_iff]
  have h0 : mapFind ([] : List (String × Unit)) envName = none := rfl
  simp only [h0, and_true, decide_eq_true_eq, List.mem_flatMap]
  constructor
  · rintro h ⟨⟨p, hp, e, he, hname⟩, hnone⟩
    apply h e ⟨p, hp, he⟩
    unfold undeclaredKey
    rw [hname, hnone]
  · rintro h e ⟨p, hp, he⟩ hkey
    apply h
    unfold undeclaredKey at hkey
    cases hf : mapFind envs e.1 with
    | none =>
      rw [hf] at hkey
      have hname : e.1 = envName := Option.some.inj hkey
      exact ⟨⟨p, hp, e, he, hname⟩, by rw [← hname]; exact hf⟩
    | some d => rw [hf] at hkey; cases hkey

theorem filter_undefinedErrors (projects : List Project)
    (envs : List (String × EnvironmentDefinition)) (envName : String) :
    (collectUndefinedEnvironmentErrors
        (collectAll projects envs).undefinedEnvironments).filter (isUndefinedError envName)
      = if (∃ p ∈ projects, ∃ e ∈ p.Configs, e.1 = envName) ∧ mapFind envs envName = none
        then [ValidationError.undefinedEnvironment envName] else [] := by
  unfold collectUndefinedEnvironmentErrors
  rw [List.map_eq_flatMap, List.filter_flatMap,
    flatMap_of_key _ (undefined_keys_nodup projects envs) envName]
  · have hfind := undefined_find projects envs envName
    cases hf : mapFind (collectAll projects envs).undefinedEnvironments envName with
    | none =>
      rw [if_neg (hfind.1 hf)]
    | some u =>
      have : ¬ ¬ ((∃ p ∈ projects, ∃ e ∈ p.Configs, e.1 = envName) ∧
          mapFind envs envName = none) := fun hn => by
        rw [hfind.2 hn] at hf; cases hf
      rw [if_pos (not_not.1 this)]
      simp [isUndefinedError]
  · intro x _ hx
    simp [isUndefinedError, hx]

/-- C15 (undefined environments): the reported errors hold exactly one
`undefined environment` error for a name that is a key of some project's
per-environment configs and is not declared in the manifest, none for any other
name; the reported errors are the undefined-environment, platform and
openpipeline errors, and the returned error is nil exactly when none was
collected. -/
theorem validateProjectsWithEnvironments_undefined (projects : List Project)
    (envs : List (String × EnvironmentDefinition)) (envName : String) :
    (validateProjectsWithEnvironments projects envs).1.filter (isUndefinedError envName)
      = (if (∃ p ∈ projects, ∃ e ∈ p.Configs, e.1 = envName) ∧ mapFind envs envName = none
        then [ValidationError.undefinedEnvironment envName] else []) ∧
    (validateProjectsWithEnvironments projects envs).1
      = collectUndefinedEnvironmentErrors (collectAll projects envs).undefinedEnvironments
        ++ collectRequiresPlatformErrors
          (collectAll projects envs).platformCoordinatesPerEnvironment envs
        ++ collectOpenPipelineCoordinateErrors
          (collectAll projects envs).openPipelineKindCoordinatesPerEnvironment ∧
    ((validateProjectsWithEnvironments projects envs).2 = none ↔
      (validateProjectsWithEnvironments projects envs).1 = []) := by
  refine ⟨?_, rfl, ?_⟩
  · unfold validateProjectsWithEnvironments
    simp only [List.filter_append]
    rw [filter_undefinedErrors]
    have h2 : (collectRequiresPlatformErrors
        (collectAll projects envs).platformCoordinatesPerEnvironment envs).filter
        (isUndefinedError envName) = [] := by
      rw [List.filter_eq_nil_iff]
      intro err herr
      obtain ⟨e, c, rfl⟩ := mem_platformErrors _ _ _ herr
      simp [isUndefinedError]
    have h3 : (collectOpenPipelineCoordinateErrors
        (collectAll projects envs).openPipelineKindCoordinatesPerEnvironment).filter
        (isUndefinedError envName) = [] := by
      rw [List.filter_eq_nil_iff]
      intro err herr
      obtain ⟨e, k, cs, rfl⟩ := mem_openPipelineErrors _ _ herr
      simp [isUndefinedError]
    rw [h2, h3, List.append_nil, List.append_nil]
  · unfold validateProjectsWithEnvironments
    simp only
    generalize collectUndefinedEnvironmentErrors (collectAll projects envs).undefinedEnvironments
      ++ collectRequiresPlatformErrors
        (collectAll projects envs).platformCoordinatesPerEnvironment envs
      ++ collectOpenPipelineCoordinateErrors
        (collectAll projects envs).openPipelineKindCoordinatesPerEnvironment = errs
    cases errs <;> simp [errorsJoin]

/-- The value a per-environment map holds for an environment after the loops:
the updates of the entries that write under that name, folded in order. -/
theorem declared_getD {V : Type} (projects : List Project)
    (envs : List (String × EnvironmentDefinition)) (envName : String)
    (w : String × List (String × List Config) → List V → List V) :
    (mapFind ((projects.flatMap (fun p => p.Configs)).foldl
        (mapUpdate (declaredKey envs) (fun e o => w e (o.getD []))) []) envName).getD []
      = ((projects.flatMap (fun p => p.Configs)).filter
          (fun e => decide (declaredKey envs e = some envName))).foldl
          (fun v x => w x v) [] := by
  rw [mapFind_foldl_update, foldl_some_getD]
  rfl

theorem platformCoordinates_flatMap {X : Type} (l : List X) (h : X → List Config) :
    platformCoordinates (l.flatMap h) = l.flatMap (fun x => platformCoordinates (h x)) := by
  unfold platformCoordinates
  rw [List.filter_flatMap, List.map_flatMap]

theorem platform_keys_nodup (projects : List Project)
    (envs : List (String × EnvironmentDefinition)) :
    ((collectAll projects envs).platformCoordinatesPerEnvironment.map Prod.fst).Nodup := by
  rw [collectAll_eq, collect_platform]
  exact keys_foldl_update_nodup _ _ _ _ (by simp)

theorem platform_getD (projects : List Project)
    (envs : List (String × EnvironmentDefinition)) (envName : String)
    (d : EnvironmentDefinition) (hd : mapFind envs envName = some d) :
    (mapFind (collectAll projects envs).platformCoordinatesPerEnvironment envName).getD []
      = platformCoordinates (environmentConfigs projects envName) := by
  rw [collectAll_eq, collect_platform,
    declared_getD projects envs envName (fun e v => v ++ collectPlatformCoordinates e.2),
    foldl_append_flatMap, List.nil_append, environmentConfigs_eq,
    ← flatMap_declared envs envName d hd, platformCoordinates_flatMap]
  rfl

theorem filter_platformErrors (projects : List Project)
    (envs : List (String × EnvironmentDefinition)) (envName : String)
    (d : EnvironmentDefinition) (hd : mapFind envs envName = some d) :
    (collectRequiresPlatformErrors
        (collectAll projects envs).platformCoordinatesPerEnvironment envs).filter
        (isPlatformError envName)
      = match d.Auth.OAuth, platformCoordinates (environmentConfigs projects envName) with
        | none, c :: _ => [ValidationError.requiresPlatform envName c]
        | _, _ => [] := by
  unfold collectRequiresPlatformErrors
  rw [List.filterMap_eq_flatMap_toList, List.filter_flatMap,
    flatMap_of_key _ (platform_keys_nodup projects envs) envName]
  · have hget := platform_getD projects envs envName d hd
    cases hf : mapFind (collectAll projects envs).platformCoordinatesPerEnvironment envName with
    | none =>
      rw [hf] at hget
      simp only [Option.getD_none] at hget
      rw [← hget]
      cases d.Auth.OAuth <;> rfl
    | some coords =>
      rw [hf] at hget
      simp only [Option.getD_some] at hget
      rw [← hget]
      simp only [hd, platformEnvironment]
      cases d.Auth.OAuth with
      | some o => simp
      | none =>
        cases coords with
        | nil => simp
        | cons c cs => simp [isPlatformError]
  · intro x _ hx
    cases hfx : mapFind envs x.1 with
    | none => simp
    | some env =>
      by_cases hp : platformEnvironment env = true
      · simp [hp]
      · cases hc : x.2 with
        | nil => simp [hp]
        | cons c cs => simp [hp, isPlatformError, hx]

/-- C13, as stated, fails: an environment without OAuth whose only non-skipped
config is of type policy gets no platform error. -/
theorem validateProjectsWithEnvironments_platform_counterexample :
    examples.policyConfig.Skip = false ∧
    examples.policyConfig.Type' = Type'.PolicyType ∧
    mapFind [("dev", examples.tokenEnvironment)] "dev" = some examples.tokenEnvironment ∧
    examples.tokenEnvironment.Auth.OAuth = none ∧
    environmentConfigs [examples.policyProject] "dev" = [examples.policyConfig] ∧
    (validateProjectsWithEnvironments [examples.policyProject]
      [("dev", examples.tokenEnvironment)]).1 = [] := by
  decide

/-- C13, amended: for a declared environment the reported errors hold exactly
one platform error when its auth has no OAuth and it has at least one
non-skipped config of a type `configRequiresPlatform` names (automation, bucket,
document, openpipeline), the error naming the first such config, and no platform
error when its auth has OAuth or it has no such config. -/
theorem validateProjectsWithEnvironments_platform (projects : List Project)
    (envs : List (String × EnvironmentDefinition)) (envName : String)
    (d : EnvironmentDefinition) (hd : mapFind envs envName = some d) :
    (validateProjectsWithEnvironments projects envs).1.filter (isPlatformError envName)
      = match d.Auth.OAuth, platformCoordinates (environmentConfigs projects envName) with
        | none, c :: _ => [ValidationError.requiresPlatform envName c]
        | _, _ => [] := by
  unfold validateProjectsWithEnvironments
  simp only [List.filter_append]
  rw [filter_platformErrors projects envs envName d hd]
  have h1 : (collectUndefinedEnvironmentErrors
      (collectAll projects envs).undefinedEnvironments).filter
      (isPlatformError envName) = [] := by
    rw [List.filter_eq_nil_iff]
    intro err herr
    obtain ⟨e, rfl⟩ := mem_undefinedErrors _ _ herr
    simp [isPlatformError]
  have h3 : (collectOpenPipelineCoordinateErrors
      (collectAll projects envs).openPipelineKindCoordinatesPerEnvironment).filter
      (isPlatformError envName) = [] := by
    rw [List.filter_eq_nil_iff]
    intro err herr
    obtain ⟨e, k, cs, rfl⟩ := mem_openPipelineErrors _ _ herr
    simp [isPlatformError]
  rw [h1, h3, List.nil_append, List.append_nil]

/-- Witness of the amended C13: a bucket config in an environment without
OAuth gives one platform error. -/
theorem validateProjectsWithEnvironments_platform_witness :
    (validateProjectsWithEnvironments [examples.bucketProject]
        [("dev", examples.tokenEnvironment)]).1.filter (isPlatformError "dev")
      = match examples.tokenEnvironment.Auth.OAuth,
          platformCoordinates (environmentConfigs [examples.bucketProject] "dev") with
        | none, c :: _ => [ValidationError.requiresPlatform "dev" c]
        | _, _ => [] :=
  validateProjectsWithEnvironments_platform [examples.bucketProject]
    [("dev", examples.tokenEnvironment)] "dev" examples.tokenEnvironment (by decide)

theorem addOpenPipelineCoordinate_eq :
    addOpenPipelineCoordinate
      = mapUpdate openPipelineKey (fun cfg o => o.getD [] ++ [cfg.Coordinate]) := by
  funext dest cfg
  unfold addOpenPipelineCoordinate mapUpdate openPipelineKey
  by_cases hs : cfg.Skip = true
  · simp [hs]
  · simp only [hs, if_false, Bool.false_eq_true]
    cases cfg.Type' <;> rfl

theorem openPipelineKey_eq (cfg : Config) (kind : String) :
    decide (openPipelineKey cfg = some kind)
      = (!cfg.Skip && decide (cfg.Type' = Type'.OpenPipelineType kind)) := by
  unfold openPipelineKey
  by_cases hs : cfg.Skip = true
  · simp [hs]
  · simp only [hs, if_false, Bool.false_eq_true]
    cases cfg.Type' <;> simp

theorem collectOpenPipeline_keys_nodup (cfgPerType : List (String × List Config))
    (dest : List (String × List Coordinate)) (h : (dest.map Prod.fst).Nodup) :
    ((collectOpenPipelineCoordinatesByKind cfgPerType dest).map Prod.fst).Nodup := by
  unfold collectOpenPipelineCoordinatesByKind
  rw [addOpenPipelineCoordinate_eq]
  exact keys_foldl_update_nodup _ _ _ _ h

/-- The coordinates filed under a kind after folding configs into an empty map. -/
theorem openPipeline_kind_getD (configs : List Config) (kind : String) :
    (mapFind (configs.foldl addOpenPipelineCoordinate []) kind).getD []
      = openPipelineCoordinates kind configs := by
  rw [addOpenPipelineCoordinate_eq, mapFind_foldl_update,
    foldl_some_getD (fun (cfg : Config) v => v ++ [cfg.Coordinate]), foldl_append_flatMap]
  unfold openPipelineCoordinates
  rw [List.map_eq_flatMap]
  have hfilter : configs.filter (fun x => decide (openPipelineKey x = some kind))
      = configs.filter (fun cfg =>
        !cfg.Skip && decide (cfg.Type' = Type'.OpenPipelineType kind)) :=
    List.filter_congr (fun x _ => openPipelineKey_eq x kind)
  rw [hfilter]
  rfl

theorem openPipeline_keys_nodup (projects : List Project)
    (envs : List (String × EnvironmentDefinition)) :
    ((collectAll projects envs).openPipelineKindCoordinatesPerEnvironment.map
      Prod.fst).Nodup := by
  rw [collectAll_eq, collect_openPipeline]
  exact keys_foldl_update_nodup _ _ _ _ (by simp)

theorem openPipeline_inner_nodup (projects : List Project)
    (envs : List (String × EnvironmentDefinition)) :
    ∀ e ∈ (collectAll projects envs).openPipelineKindCoordinatesPerEnvironment,
      (e.2.map Prod.fst).Nodup := by
  rw [collectAll_eq, collect_openPipeline]
  refine values_foldl_update (declaredKey envs)
    (fun e o => collectOpenPipelineCoordinatesByKind e.2 (o.getD []))
    (fun v => (v.map Prod.fst).Nodup) ?_ _ _ ?_
  · intro x o ho
    apply collectOpenPipeline_keys_nodup
    cases o with
    | none => simp
    | some v => exact ho v rfl
  · intro e he
    simp at he

theorem openPipeline_getD (projects : List Project)
    (envs : List (String × EnvironmentDefinition)) (envName : String)
    (d : EnvironmentDefinition) (hd : mapFind envs envName = some d) :
    (mapFind (collectAll projects envs).openPipelineKindCoordinatesPerEnvironment
        envName).getD []
      = (environmentConfigs projects envName).foldl addOpenPipelineCoordinate [] := by
  rw [collectAll_eq, collect_openPipeline,
    declared_getD projects envs envName
      (fun e v => collectOpenPipelineCoordinatesByKind e.2 v),
    environmentConfigs_eq, ← flatMap_declared envs envName d hd]
  unfold collectOpenPipelineCoordinatesByKind
  exact foldl_foldl_flatMap
    (fun (e : String × List (String × List Config)) => AllConfigs e.2)
    addOpenPipelineCoordinate _ _

/-- The errors of one kind among those of one environment's map of kinds. -/
theorem filter_kindErrors (inner : List (String × List Coordinate))
    (hnd : (inner.map Prod.fst).Nodup) (envName kind : String) :
    (inner.filterMap (fun kc =>
        if 1 < kc.2.length then
          some (ValidationError.multipleOpenPipeline envName kc.1 kc.2)
        else none)).filter (isOpenPipelineError envName kind)
      = if 1 < ((mapFind inner kind).getD []).length then
          [ValidationError.multipleOpenPipeline envName kind ((mapFind inner kind).getD [])]
        else [] := by
  rw [List.filterMap_eq_flatMap_toList, List.filter_flatMap, flatMap_of_key _ hnd kind]
  · cases hf : mapFind inner kind with
    | none => simp
    | some coords =>
      by_cases hl : 1 < coords.length
      · simp [hl, isOpenPipelineError]
      · simp [hl]
  · intro x _ hx
    by_cases hl : 1 < x.2.length
    · simp [hl, isOpenPipelineError, hx]
    · simp [hl]

theorem filter_openPipelineErrors (projects : List Project)
    (envs : List (String × EnvironmentDefinition)) (envName kind : String)
    (d : EnvironmentDefinition) (hd : mapFind envs envName = some d) :
    (collectOpenPipelineCoordinateErrors
        (collectAll projects envs).openPipelineKindCoordinatesPerEnvironment).filter
        (isOpenPipelineError envName kind)
      = if 2 ≤ (openPipelineCoordinates kind (environmentConfigs projects envName)).length
        then [ValidationError.multipleOpenPipeline envName kind
          (openPipelineCoordinates kind (environmentConfigs projects envName))]
        else [] := by
  unfold collectOpenPipelineCoordinateErrors
  rw [List.filter_flatMap, flatMap_of_key _ (openPipeline_keys_nodup projects envs) envName]
  · have hget := openPipeline_getD projects envs envName d hd
    have hkind := openPipeline_kind_getD (environmentConfigs projects envName) kind
    cases hf : mapFind (collectAll projects envs).openPipelineKindCoordinatesPerEnvironment
        envName with
    | none =>
      rw [hf] at hget
      simp only [Option.getD_none] at hget
      rw [← hget] at hkind
      have h0 : openPipelineCoordinates kind (environmentConfigs projects envName) = [] := by
        rw [← hkind]; rfl
      rw [h0]
      simp
    | some inner =>
      rw [hf] at hget
      simp only [Option.getD_some] at hget
      have hnd := openPipeline_inner_nodup projects envs (envName, inner)
        (mem_of_mapFind _ _ _ hf)
      simp only
      rw [filter_kindErrors inner hnd envName kind, hget, hkind]
      rfl
  · intro x _ hx
    rw [List.filter_eq_nil_iff]
    intro err herr
    obtain ⟨kc, _, hkc⟩ := List.mem_filterMap.1 herr
    by_cases hl : 1 < kc.2.length
    · simp only [hl, if_true, Option.some.injEq] at hkc
      rw [← hkc]
      simp [isOpenPipelineError, hx]
    · simp [hl] at hkc

/-- C12 (openpipeline kinds): for an environment declared in the manifest and a
kind, the reported errors hold exactly one error of that environment and kind
when two or more non-skipped openpipeline configs of the kind exist for the
environment across all projects, and none otherwise; skipped configs are not
counted. -/
theorem validateProjectsWithEnvironments_openPipeline (projects : List Project)
    (envs : List (String × EnvironmentDefinition)) (envName kind : String)
    (d : EnvironmentDefinition) (hd : mapFind envs envName = some d) :
    (validateProjectsWithEnvironments projects envs).1.filter
        (isOpenPipelineError envName kind)
      = if 2 ≤ ((environmentConfigs projects envName).filter (fun cfg =>
            !cfg.Skip && decide (cfg.Type' = Type'.OpenPipelineType kind))).length
        then [ValidationError.multipleOpenPipeline envName kind
          (openPipelineCoordinates kind (environmentConfigs projects envName))]
        else [] := by
  unfold validateProjectsWithEnvironments
  simp only [List.filter_append]
  rw [filter_openPipelineErrors projects envs envName kind d hd]
  have h1 : (collectUndefinedEnvironmentErrors
      (collectAll projects envs).undefinedEnvironments).filter
      (isOpenPipelineError envName kind) = [] := by
    rw [List.filter_eq_nil_iff]
    intro err herr
    obtain ⟨e, rfl⟩ := mem_undefinedErrors _ _ herr
    simp [isOpenPipelineError]
  have h2 : (collectRequiresPlatformErrors
      (collectAll projects envs).platformCoordinatesPerEnvironment envs).filter
      (isOpenPipelineError envName kind) = [] := by
    rw [List.filter_eq_nil_iff]
    intro err herr
    obtain ⟨e, c, rfl⟩ := mem_platformErrors _ _ _ herr
    simp [isOpenPipelineError]
  rw [h1, h2, List.nil_append, List.nil_append]
  simp [openPipelineCoordinates]

/-- Witness of C12 on scenario S3: two non-skipped `logs` configs, one error
naming both. -/
theorem validateProjectsWithEnvironments_openPipeline_witness :
    (validateProjectsWithEnvironments [examples.pipelineProject]
        [("dev", examples.platformEnvironment)]).1
      = [ValidationError.multipleOpenPipeline "dev" "logs"
          [⟨"p", "t", "logs-1"⟩, ⟨"p", "t", "logs-2"⟩]] ∧
    (validateProjectsWithEnvironments [examples.pipelineProject]
        [("dev", examples.platformEnvironment)]).1.filter
        (isOpenPipelineError "dev" "logs")
      = if 2 ≤ ((environmentConfigs [examples.pipelineProject] "dev").filter (fun cfg =>
            !cfg.Skip && decide (cfg.Type' = Type'.OpenPipelineType "logs"))).length
        then [ValidationError.multipleOpenPipeline "dev" "logs"
          (openPipelineCoordinates "logs"
            (environmentConfigs [examples.pipelineProject] "dev"))]
        else [] :=
  ⟨by decide,
    validateProjectsWithEnvironments_openPipeline [examples.pipelineProject]
      [("dev", examples.platformEnvironment)] "dev" "logs" examples.platformEnvironment
      (by decide)⟩

/-! ## `validateAuthenticationWithProjectConfigs` -/

theorem checkAuthentication_eq_none (environments : List (String × EnvironmentDefinition))
    (envName : String) (conf : Config) :
    checkAuthentication environments envName conf = none ↔
      (conf.Skip = false → satisfiesCredentials (authOf environments envName) conf.Type') := by
  unfold checkAuthentication satisfiesCredentials
  by_cases hs : conf.Skip = true
  · simp [hs]
  · have hs2 : conf.Skip = false := by simpa using hs
    simp only [hs, if_false, hs2, true_implies, Bool.false_eq_true]
    cases conf.Type' <;> simp
    tauto

/-- C14 (credentials): `validateAuthenticationWithProjectConfigs` returns no
error exactly when every non-skipped config of every project satisfies the
credential requirement of its type in the environment it is filed under. -/
theorem validateAuthenticationWithProjectConfigs_eq_none (projects : List Project)
    (environments : List (String × EnvironmentDefinition)) :
    validateAuthenticationWithProjectConfigs projects environments = none ↔
      ∀ p ∈ projects, ∀ env ∈ p.Configs, ∀ file ∈ env.2, ∀ conf ∈ file.2,
        conf.Skip = false →
          satisfiesCredentials (authOf environments env.1) conf.Type' := by
  unfold validateAuthenticationWithProjectConfigs
  simp only [List.findSome?_eq_none_iff, checkAuthentication_eq_none]

end deploy

/-! ## The delete loader -/

namespace strings

theorem cutFirst_eq_none (sep : Char) :
    ∀ (l : List Char), cutFirst sep l = none ↔ sep ∉ l
  | [] => by simp [cutFirst]
  | c :: cs => by
    have ih := cutFirst_eq_none sep cs
    unfold cutFirst
    by_cases h : c = sep
    · simp [h]
    · have h2 : ¬ sep = c := fun e => h e.symm
      simp [h, h2, ih]

theorem cutFirst_eq_some (sep : Char) :
    ∀ (l a b : List Char), cutFirst sep l = some (a, b) → l = a ++ sep :: b ∧ sep ∉ a
  | [], _, _, h => by simp [cutFirst] at h
  | c :: cs, a, b, h => by
    unfold cutFirst at h
    by_cases hc : c = sep
    · rw [if_pos hc] at h
      simp only [Option.some.injEq, Prod.mk.injEq] at h
      obtain ⟨rfl, rfl⟩ := h
      simp [hc]
    · rw [if_neg hc] at h
      cases hrec : cutFirst sep cs with
      | none => rw [hrec] at h; simp at h
      | some parts =>
        rw [hrec] at h
        simp only [Option.map_some', Option.some.injEq, Prod.mk.injEq] at h
        obtain ⟨rfl, rfl⟩ := h
        obtain ⟨h1, h2⟩ := cutFirst_eq_some sep cs parts.1 parts.2 hrec
        refine ⟨by rw [List.cons_append, ← h1], ?_⟩
        intro hmem
        rcases List.mem_cons.1 hmem with h3 | h3
        · exact hc h3.symm
        · exact h2 h3

theorem toList_append3 (a b : List Char) (sep : Char) :
    (String.mk a ++ String.singleton sep ++ String.mk b).toList = a ++ sep :: b := by
  simp [String.toList, String.data_append, String.singleton]

end strings

namespace delete

/-- C16 (short form): `parseSimpleEntry` fails exactly when the entry has no
`/`; when it succeeds the pointer has an empty project, its type holds no `/`,
and type, `/` and identifier together are the entry, so the type is the text
before the first `/` and the identifier all that follows it. -/
theorem parseSimpleEntry_spec (entry : String) :
    ((∃ err, parseSimpleEntry entry = Except.error err) ↔ '/' ∉ entry.toList) ∧
    ((∃ ptr, parseSimpleEntry entry = Except.ok ptr) ↔ '/' ∈ entry.toList) ∧
    ∀ ptr, parseSimpleEntry entry = Except.ok ptr →
      ptr.Project = "" ∧ '/' ∉ ptr.Type'.toList ∧
      ptr.Type' ++ "/" ++ ptr.Identifier = entry := by
  unfold parseSimpleEntry strings.Contains strings.SplitN2 deleteDelimiter
  by_cases h : '/' ∈ entry.toList
  · have hc : entry.toList.contains '/' = true := by simpa using h
    cases hcut : strings.cutFirst '/' entry.toList with
    | none => exact absurd h ((strings.cutFirst_eq_none '/' _).1 hcut)
    | some parts =>
      obtain ⟨h1, h2⟩ := strings.cutFirst_eq_some '/' _ parts.1 parts.2 hcut
      simp only [hc, not_true_eq_false, if_false, List.getD_cons_zero, List.getD_cons_succ]
      refine ⟨⟨fun ⟨err, he⟩ => (by cases he), fun hn => absurd h hn⟩,
        ⟨fun _ => h, fun _ => ⟨_, rfl⟩⟩, ?_⟩
      intro ptr hptr
      cases hptr
      refine ⟨rfl, h2, ?_⟩
      apply String.toList_inj.1
      rw [h1]
      exact strings.toList_append3 parts.1 parts.2 '/'
  · have hc : ¬ entry.toList.contains '/' = true := by simpa using h
    simp only [hc, not_false_eq_true, if_true]
    refine ⟨⟨fun _ => h, fun _ => ⟨_, rfl⟩⟩,
      ⟨fun ⟨ptr, hp⟩ => (by cases hp), fun hn => absurd hn h⟩, ?_⟩
    intro ptr hptr
    cases hptr

/-- C17 (full form): for a decoded full-form entry whose type is a known API,
parsing succeeds exactly if `name` is non-empty and then gives the type and the
name, without project; for any other type it succeeds exactly if `id` and
`project` are non-empty and then gives project, type and id. -/
theorem parseFullEntry_spec (knownApis : List String) (parsed : deleteEntry)
    (shown : String) :
    (parsed.Type' ∈ knownApis →
      ((∃ ptr, parseFullEntry knownApis (RawEntry.full parsed shown) = Except.ok ptr) ↔
        parsed.ConfigName ≠ "") ∧
      ∀ ptr, parseFullEntry knownApis (RawEntry.full parsed shown) = Except.ok ptr →
        ptr = ⟨"", parsed.Type', parsed.ConfigName⟩) ∧
    (parsed.Type' ∉ knownApis →
      ((∃ ptr, parseFullEntry knownApis (RawEntry.full parsed shown) = Except.ok ptr) ↔
        (parsed.ConfigId ≠ "" ∧ parsed.Project ≠ "")) ∧
      ∀ ptr, parseFullEntry knownApis (RawEntry.full parsed shown) = Except.ok ptr →
        ptr = ⟨parsed.Project, parsed.Type', parsed.ConfigId⟩) := by
  constructor
  · intro hk
    simp only [parseFullEntry, decode, hk, if_true, parseAPIEntry]
    by_cases hn : parsed.ConfigName = ""
    · simp [hn]
    · simp only [hn, if_false, ne_eq, not_false_eq_true, iff_true]
      exact ⟨⟨_, rfl⟩, fun ptr h => by cases h; rfl⟩
  · intro hk
    simp only [parseFullEntry, decode, hk, if_false, parseCoordinateEntry]
    by_cases hi : parsed.ConfigId = ""
    · simp [hi]
    · by_cases hp : parsed.Project = ""
      · simp [hi, hp]
      · simp only [hi, hp, if_false, ne_eq, not_false_eq_true, and_self, iff_true]
        exact ⟨⟨_, rfl⟩, fun ptr h => by cases h; rfl⟩

/-- Witness of C17: a `dashboard` entry with a name, and a `bucket` entry with
id and project. -/
theorem parseFullEntry_spec_witness :
    parseFullEntry ["dashboard"] (RawEntry.full ⟨"p", "dashboard", "id", "board"⟩ "")
      = Except.ok ⟨"", "dashboard", "board"⟩ ∧
    parseFullEntry ["dashboard"] (RawEntry.full ⟨"p", "bucket", "id", "name"⟩ "")
      = Except.ok ⟨"p", "bucket", "id"⟩ ∧
    ((∃ ptr, parseFullEntry ["dashboard"]
        (RawEntry.full ⟨"p", "dashboard", "id", "board"⟩ "") = Except.ok ptr) ↔
      (deleteEntry.mk "p" "dashboard" "id" "board").ConfigName ≠ "") :=
  ⟨rfl, rfl,
    ((parseFullEntry_spec ["dashboard"] ⟨"p", "dashboard", "id", "board"⟩ "").1
      (by decide)).1⟩

theorem parseDeleteEntry_eq (knownApis : List String) (index : Nat) (entry : RawEntry) :
    parseDeleteEntry knownApis index entry
      = match entryError knownApis (index, entry), entryPointer knownApis entry with
        | some err, _ => Except.error err
        | none, some ptr => Except.ok ptr
        | none, none => Except.error ⟨entry.shown, index, ""⟩ := by
  unfold parseDeleteEntry entryError entryPointer
  cases parseFullOrSimple knownApis entry <;> rfl

theorem entryError_or_pointer (knownApis : List String) (ie : Nat × RawEntry) :
    (entryError knownApis ie).isSome = (entryPointer knownApis ie.2).isNone := by
  unfold entryError entryPointer
  cases parseFullOrSimple knownApis ie.2 <;> rfl

/-- The loop of `parseDeleteFileDefinition`, in closed form. -/
theorem parseEntries_eq (knownApis : List String) :
    ∀ (es : List RawEntry) (index : Nat)
      (acc : List (String × List DeletePointer) × List DeleteEntryParserError),
      parseEntries knownApis index es acc
        = ((es.filterMap (entryPointer knownApis)).foldl
            (project.mapUpdate (fun (ptr : DeletePointer) => some ptr.Type')
              (fun ptr o => o.getD [] ++ [ptr])) acc.1,
           acc.2 ++ (es.enumFrom index).filterMap (entryError knownApis)) := by
  intro es
  induction es with
  | nil => intro index acc; simp [parseEntries]
  | cons e es ih =>
    intro index acc
    unfold parseEntries
    rw [parseDeleteEntry_eq]
    have hor := entryError_or_pointer knownApis (index, e)
    cases herr : entryError knownApis (index, e) with
    | some err =>
      rw [herr] at hor
      have hp : entryPointer knownApis e = none := by simpa using hor.symm
      simp only [ih, List.enumFrom_cons, List.filterMap_cons, herr, hp, List.append_assoc,
        List.singleton_append]
    | none =>
      rw [herr] at hor
      cases hp : entryPointer knownApis e with
      | none => rw [hp] at hor; simp at hor
      | some ptr =>
        simp only [ih, List.enumFrom_cons, List.filterMap_cons, herr, hp, List.foldl_cons]
        rfl

/-- C18 (all or nothing): the errors of `parseDeleteFileDefinition` are the
errors of the invalid entries, one each, in file order and with the entry's
zero-based index; with an error the map is nil; without any, the map has each
type once as key and under it the pointers of all entries of that type in file
order, every entry giving one pointer. -/
theorem parseDeleteFileDefinition_spec (knownApis : List String)
    (entries : List RawEntry) :
    (∀ i e err, parseDeleteEntry knownApis i e = Except.error err ↔
      entryError knownApis (i, e) = some err) ∧
    (∀ i e err, entryError knownApis (i, e) = some err →
      err.Index = i ∧ err.Value = e.shown) ∧
    (∀ i e ptr, parseDeleteEntry knownApis i e = Except.ok ptr ↔
      entryPointer knownApis e = some ptr) ∧
    (parseDeleteFileDefinition knownApis entries).2
      = entries.enum.filterMap (entryError knownApis) ∧
    (entries.enum.filterMap (entryError knownApis) ≠ [] →
      (parseDeleteFileDefinition knownApis entries).1 = none) ∧
    (entries.enum.filterMap (entryError knownApis) = [] →
      ∃ m, (parseDeleteFileDefinition knownApis entries).1 = some m ∧
        (m.map Prod.fst).Nodup ∧
        (entries.filterMap (entryPointer knownApis)).length = entries.length ∧
        (∀ kv ∈ m, kv.2 ≠ []) ∧
        ∀ type, project.mapGet m type
          = (entries.filterMap (entryPointer knownApis)).filter
              (fun ptr => decide (ptr.Type' = type))) := by
  refine ⟨?_, ?_, ?_, ?_⟩
  · intro i e err
    unfold parseDeleteEntry entryError
    cases parseFullOrSimple knownApis e <;> simp
  · intro i e err h
    unfold entryError at h
    cases hp : parseFullOrSimple knownApis e with
    | error reason =>
      rw [hp] at h
      simp only [Option.some.injEq] at h
      rw [← h]
      exact ⟨rfl, rfl⟩
    | ok ptr => rw [hp] at h; simp at h
  · intro i e ptr
    unfold parseDeleteEntry entryPointer
    cases parseFullOrSimple knownApis e <;> simp
  unfold parseDeleteFileDefinition
  rw [parseEntries_eq]
  simp only [List.nil_append]
  have henum : entries.enumFrom 0 = entries.enum := rfl
  rw [henum]
  by_cases herrs : entries.enum.filterMap (entryError knownApis) = []
  · rw [if_neg (not_not.2 herrs)]
    refine ⟨herrs.symm, fun h => absurd herrs h, fun hnil => ⟨_, rfl, ?_, ?_, ?_, ?_⟩⟩
    · exact project.keys_foldl_update_nodup _ _ _ _ (by simp)
    · have hall : ∀ e ∈ entries, (entryPointer knownApis e).isSome = true := by
        intro e he
        obtain ⟨i, hi⟩ := List.mem_iff_getElem?.1 he
        have hmem : (i, e) ∈ entries.enum := List.mk_mem_enum_iff_getElem?.2 hi
        have hnone : entryError knownApis (i, e) = none := by
          cases hx : entryError knownApis (i, e) with
          | none => rfl
          | some err =>
            have : err ∈ entries.enum.filterMap (entryError knownApis) :=
              List.mem_filterMap.2 ⟨(i, e), hmem, hx⟩
            rw [herrs] at this
            simp at this
        have := entryError_or_pointer knownApis (i, e)
        rw [hnone] at this
        cases hp : entryPointer knownApis e with
        | none => rw [hp] at this; simp at this
        | some ptr => rfl
      clear herrs henum hnil
      induction entries with
      | nil => rfl
      | cons e es ih =>
        have he := hall e (List.mem_cons_self _ _)
        cases hp : entryPointer knownApis e with
        | none => rw [hp] at he; simp at he
        | some ptr =>
          rw [List.filterMap_cons, hp, List.length_cons, List.length_cons,
            ih (fun x hx => hall x (List.mem_cons_of_mem _ hx))]
    · intro kv hkv
      revert kv
      refine project.values_foldl_update (fun (ptr : DeletePointer) => some ptr.Type')
        (fun ptr o => o.getD [] ++ [ptr]) (fun v => v ≠ []) ?_ _ _ ?_
      · intro x o _
        simp
      · intro e he
        simp at he
    · intro type
      show (project.mapFind _ type).getD [] = _
      rw [project.mapFind_foldl_update,
        deploy.foldl_some_getD (fun (ptr : DeletePointer) v => v ++ [ptr]),
        deploy.foldl_append_flatMap]
      have h0 : (project.mapFind ([] : List (String × List DeletePointer)) type).getD []
          = [] := rfl
      rw [h0, List.nil_append, List.flatMap_singleton']
      apply List.filter_congr
      intro x _
      simp
  · rw [if_pos herrs]
    exact ⟨rfl, fun _ => rfl, fun h => absurd h herrs⟩

end delete

/-! ## The manifest writer -/

namespace strings

theorem splitChars_last (sep : Char) :
    ∀ (l : List Char), ∃ last,
      (splitChars sep l).getLast? = some last ∧ sep ∉ last ∧
      ((sep ∉ l ∧ splitChars sep l = [l] ∧ last = l) ∨
        (∃ G, l = G ++ sep :: last ∧ 2 ≤ (splitChars sep l).length))
  | [] => ⟨[], by simp [splitChars]⟩
  | c :: cs => by
    obtain ⟨last, hlast, hsep, hcases⟩ := splitChars_last sep cs
    unfold splitChars
    by_cases hc : c = sep
    · rw [if_pos hc]
      refine ⟨last, ?_, hsep, Or.inr ?_⟩
      · cases hS : splitChars sep cs with
        | nil => rw [hS] at hlast; simp at hlast
        | cons seg rest => rw [List.getLast?_cons_cons, ← hS]; exact hlast
      · rcases hcases with ⟨_, hS, hl⟩ | ⟨G, hG, hlen⟩
        · exact ⟨[], by rw [hc, hl]; rfl, by rw [hS]; simp⟩
        · exact ⟨sep :: G, by rw [hc, hG]; rfl, by simp; omega⟩
    · rw [if_neg hc]
      rcases hcases with ⟨hno, hS, hl⟩ | ⟨G, hG, hlen⟩
      · rw [hS]
        refine ⟨c :: cs, by simp, ?_, Or.inl ⟨?_, rfl, rfl⟩⟩
        · intro hmem
          rcases List.mem_cons.1 hmem with h | h
          · exact hc h.symm
          · exact hno h
        · intro hmem
          rcases List.mem_cons.1 hmem with h | h
          · exact hc h.symm
          · exact hno h
      · cases hS : splitChars sep cs with
        | nil => rw [hS] at hlast; simp at hlast
        | cons seg rest =>
          rw [hS] at hlast hlen
          cases rest with
          | nil => simp at hlen
          | cons seg2 rest2 =>
            refine ⟨last, ?_, hsep, Or.inr ⟨c :: G, by rw [hG]; rfl, by simp⟩⟩
            rw [List.getLast?_cons_cons] at hlast ⊢
            exact hlast

theorem TrimSuffix_append (G suffix : List Char) :
    TrimSuffix (String.mk (G ++ suffix)) (String.mk suffix) = String.mk G := by
  unfold TrimSuffix
  have h1 : (String.mk suffix).toList.isSuffixOf (String.mk (G ++ suffix)).toList = true :=
    List.isSuffixOf_iff_suffix.2 (List.suffix_append G suffix)
  rw [if_pos h1]
  congr 1
  exact List.take_left' (by simp [String.toList])

theorem Split_last (s : String) (sep : Char) (last : List Char)
    (h : (splitChars sep s.toList).getLast? = some last) :
    (Split s sep).getD ((Split s sep).length - 1) "" = String.mk last := by
  unfold Split
  rw [List.getD_eq_getElem?_getD, ← List.getLast?_eq_getElem?, List.getLast?_map, h]
  rfl

end strings

namespace manifest

theorem isGroupingProject_iff (d : ProjectDefinition) :
    isGroupingProject d = true ↔
      '.' ∈ d.Name.toList ∧ d.Path = strings.ReplaceAll d.Name '.' '/' := by
  unfold isGroupingProject strings.Contains
  simp only [Bool.and_eq_true, decide_eq_true_eq]
  constructor
  · rintro ⟨h1, h2⟩; exact ⟨by simpa using h1, h2.symm⟩
  · rintro ⟨h1, h2⟩; exact ⟨by simpa using h1, h2.symm⟩

/-- The entry of a grouping project: its name is the project name without the
last dotted segment, its path that name with `/` for every `.`. -/
theorem groupEntry_spec (d : ProjectDefinition) (h : isGroupingProject d = true) :
    ∃ G last : List Char, d.Name = String.mk (G ++ '.' :: last) ∧ '.' ∉ last ∧
      (groupEntry d).Name = String.mk G ∧
      (groupEntry d).Path = strings.ReplaceAll (String.mk G) '.' '/' ∧
      (groupEntry d).Type' = groupProjectType := by
  obtain ⟨hdot, hpath⟩ := (isGroupingProject_iff d).1 h
  obtain ⟨last, hlast, hsep, hcases⟩ := strings.splitChars_last '.' d.Name.toList
  rcases hcases with ⟨hno, _, _⟩ | ⟨G, hG, _⟩
  · exact absurd hdot hno
  · have hname : d.Name = String.mk (G ++ '.' :: last) := by
      apply String.toList_inj.1
      exact hG
    have hproj := strings.Split_last d.Name '.' last hlast
    have hmap : last.map (fun c => if c = '.' then '/' else c) = last := by
      have hid : ∀ c ∈ last, (fun c => if c = '.' then '/' else c) c = id c := by
        intro c hc
        have hne : c ≠ '.' := fun e => hsep (e ▸ hc)
        simp [hne]
      rw [List.map_congr_left hid, List.map_id]
    refine ⟨G, last, hname, hsep, ?_, ?_, rfl⟩
    · show strings.TrimSuffix d.Name ("." ++ _) = _
      rw [hproj, hname]
      exact strings.TrimSuffix_append G ('.' :: last)
    · show strings.TrimSuffix d.Path ("/" ++ _) = _
      have hrep : strings.ReplaceAll (String.mk (G ++ '.' :: last)) '.' '/'
          = String.mk (G.map (fun c => if c = '.' then '/' else c) ++ '/' :: last) := by
        unfold strings.ReplaceAll
        congr 1
        show (G ++ '.' :: last).map _ = _
        rw [List.map_append, List.map_cons, hmap]
        simp
      rw [hproj, hpath, hname, hrep]
      exact strings.TrimSuffix_append _ ('/' :: last)

theorem entries_foldl_update {X V : Type} (key : X → Option String)
    (u : X → Option V → V) (Q : String × V → Prop) :
    ∀ (xs : List X) (m0 : List (String × V)),
      (∀ x ∈ xs, ∀ k o, key x = some k → Q (k, u x o)) → (∀ e ∈ m0, Q e) →
      ∀ e ∈ xs.foldl (project.mapUpdate key u) m0, Q e := by
  intro xs
  induction xs with
  | nil => intro m0 _ h; exact h
  | cons x xs ih =>
    intro m0 hu h
    rw [List.foldl_cons]
    apply ih _ (fun y hy => hu y (List.mem_cons_of_mem _ hy))
    unfold project.mapUpdate
    cases hk : key x with
    | none => exact h
    | some k =>
      exact topologysort.mapSet_forall Q m0 k _ h (hu x (List.mem_cons_self _ _) k _ hk)

theorem foldl_some_mem {X V : Type} (g : X → V) :
    ∀ (l : List X) (o0 : Option V), l ≠ [] →
      ∃ x ∈ l, l.foldl (fun (_ : Option V) x => some (g x)) o0 = some (g x) := by
  intro l
  induction l with
  | nil => intro o0 h; exact absurd rfl h
  | cons x l ih =>
    intro o0 _
    rw [List.foldl_cons]
    by_cases hl : l = []
    · subst hl
      exact ⟨x, List.mem_cons_self _ _, rfl⟩
    · obtain ⟨y, hy, hfold⟩ := ih (some (g x)) hl
      exact ⟨y, List.mem_cons_of_mem _ hy, hfold⟩

theorem addWriteable_fst :
    ∀ (xs : List (String × ProjectDefinition))
      (acc : List project × List (String × project)),
      (xs.foldl addWriteable acc).1
        = acc.1 ++ ((xs.map Prod.snd).filter (fun d => !isGroupingProject d)).map
            simpleEntry := by
  intro xs
  induction xs with
  | nil => intro acc; simp
  | cons x xs ih =>
    intro acc
    rw [List.foldl_cons, ih]
    unfold addWriteable
    by_cases hg : isGroupingProject x.2 = true
    · simp [hg]
    · simp [hg]

theorem addWriteable_snd :
    ∀ (xs : List (String × ProjectDefinition))
      (acc : List project × List (String × project)),
      (xs.foldl addWriteable acc).2
        = xs.foldl (project.mapUpdate groupKey (fun e _ => groupEntry e.2)) acc.2 := by
  intro xs
  induction xs with
  | nil => intro acc; rfl
  | cons x xs ih =>
    intro acc
    rw [List.foldl_cons, List.foldl_cons, ih]
    congr 1
    unfold addWriteable project.mapUpdate groupKey
    by_cases hg : isGroupingProject x.2 = true
    · simp [hg]
    · simp [hg]

/-- Two grouping projects with the same group name give the same entry. -/
theorem groupEntry_eq_of_name (d1 d2 : ProjectDefinition)
    (h1 : isGroupingProject d1 = true) (h2 : isGroupingProject d2 = true)
    (hname : (groupEntry d1).Name = (groupEntry d2).Name) :
    groupEntry d1 = groupEntry d2 := by
  obtain ⟨G1, _, _, _, hn1, hp1, ht1⟩ := groupEntry_spec d1 h1
  obtain ⟨G2, _, _, _, hn2, hp2, ht2⟩ := groupEntry_spec d2 h2
  have hG : String.mk G1 = String.mk G2 := by rw [← hn1, ← hn2, hname]
  have hpath : (groupEntry d1).Path = (groupEntry d2).Path := by rw [hp1, hp2, hG]
  have htype : (groupEntry d1).Type' = (groupEntry d2).Type' := by rw [ht1, ht2]
  cases hg1 : groupEntry d1
  cases hg2 : groupEntry d2
  rw [hg1, hg2] at hname hpath htype
  simp only at hname hpath htype
  rw [hname, hpath, htype]

/-- The result of `toWriteableProjects`: the entries of the projects that are no
grouping projects, then one entry per group name. -/
theorem toWriteableProjects_groups (projects : List (String × ProjectDefinition)) :
    ∃ groups : List project,
      toWriteableProjects projects
        = ((projects.map Prod.snd).filter (fun d => !isGroupingProject d)).map simpleEntry
          ++ groups ∧
      (groups.map (fun g => g.Name)).Nodup ∧
      ∀ g, g ∈ groups ↔ ∃ e ∈ projects, isGroupingProject e.2 = true ∧ g = groupEntry e.2 := by
  have hQ : ∀ kv ∈ projects.foldl
      (project.mapUpdate groupKey (fun e _ => groupEntry e.2)) [],
      (∃ e ∈ projects, isGroupingProject e.2 = true ∧ kv.2 = groupEntry e.2) ∧
        kv.1 = kv.2.Name := by
    refine entries_foldl_update groupKey (fun e _ => groupEntry e.2)
      (fun kv => (∃ e ∈ projects, isGroupingProject e.2 = true ∧ kv.2 = groupEntry e.2) ∧
        kv.1 = kv.2.Name) projects [] ?_ (by simp)
    intro x hx k o hk
    unfold groupKey at hk
    by_cases hg : isGroupingProject x.2 = true
    · rw [if_pos hg] at hk
      exact ⟨⟨x, hx, hg, rfl⟩, (Option.some.inj hk).symm⟩
    · rw [if_neg hg] at hk; cases hk
  have hkeys : ((projects.foldl
      (project.mapUpdate groupKey (fun e _ => groupEntry e.2)) []).map Prod.fst).Nodup :=
    project.keys_foldl_update_nodup _ _ _ _ (by simp)
  refine ⟨(projects.foldl
    (project.mapUpdate groupKey (fun e _ => groupEntry e.2)) []).map Prod.snd, ?_, ?_, ?_⟩
  · unfold toWriteableProjects
    simp only [addWriteable_fst, addWriteable_snd, List.nil_append]
  · rw [List.map_map]
    have : (projects.foldl
        (project.mapUpdate groupKey (fun e _ => groupEntry e.2)) []).map
        ((fun g => g.Name) ∘ Prod.snd)
        = (projects.foldl
        (project.mapUpdate groupKey (fun e _ => groupEntry e.2)) []).map Prod.fst :=
      List.map_congr_left (fun kv hkv => (hQ kv hkv).2.symm)
    rw [this]
    exact hkeys
  · intro g
    constructor
    · intro hg
      obtain ⟨kv, hkv, rfl⟩ := List.mem_map.1 hg
      exact (hQ kv hkv).1
    · rintro ⟨e, he, hgroup, rfl⟩
      have hfind := project.mapFind_foldl_update groupKey
        (fun (e : String × ProjectDefinition) (_ : Option project) => groupEntry e.2)
        (groupEntry e.2).Name projects []
      have hne : projects.filter
          (fun x => decide (groupKey x = some (groupEntry e.2).Name)) ≠ [] := by
        intro h0
        have hmem : e ∈ projects.filter
            (fun x => decide (groupKey x = some (groupEntry e.2).Name)) := by
          rw [List.mem_filter]
          refine ⟨he, ?_⟩
          unfold groupKey
          simp [hgroup]
        rw [h0] at hmem
        simp at hmem
      obtain ⟨x, hx, hfold⟩ := foldl_some_mem (fun (e : String × ProjectDefinition) =>
        groupEntry e.2) _ (project.mapFind ([] : List (String × project))
          (groupEntry e.2).Name) hne
      rw [hfold] at hfind
      have hxkey := (List.mem_filter.1 hx).2
      unfold groupKey at hxkey
      by_cases hgx : isGroupingProject x.2 = true
      · simp only [hgx, if_true, decide_eq_true_eq, Option.some.injEq] at hxkey
        have heq := groupEntry_eq_of_name x.2 e.2 hgx hgroup hxkey
        rw [heq] at hfind
        exact List.mem_map.2 ⟨_, project.mem_of_mapFind _ _ _ hfind, rfl⟩
      · simp [hgx] at hxkey

/-- C19 (grouping entries): a project definition whose name contains `.` and
whose path is its name with `/` for every `.` gets a `grouping` entry whose name
is the project name without its last dotted segment and whose path is that name
with `/` for every `.`; every `grouping` entry of the result stems from such a
definition. -/
theorem toWriteableProjects_grouping (projects : List (String × ProjectDefinition)) :
    (∀ e ∈ projects, '.' ∈ e.2.Name.toList →
      e.2.Path = strings.ReplaceAll e.2.Name '.' '/' →
      ∃ g ∈ toWriteableProjects projects, g.Type' = "grouping" ∧
        (∃ last : String, '.' ∉ last.toList ∧ e.2.Name = g.Name ++ "." ++ last) ∧
        g.Path = strings.ReplaceAll g.Name '.' '/') ∧
    (∀ g ∈ toWriteableProjects projects, g.Type' = "grouping" →
      ∃ e ∈ projects, '.' ∈ e.2.Name.toList ∧
        e.2.Path = strings.ReplaceAll e.2.Name '.' '/' ∧ g = groupEntry e.2) := by
  obtain ⟨groups, hres, _, hmem⟩ := toWriteableProjects_groups projects
  constructor
  · intro e he hdot hpath
    have hg : isGroupingProject e.2 = true := (isGroupingProject_iff e.2).2 ⟨hdot, hpath⟩
    obtain ⟨G, last, hname, hlast, hn, hp, ht⟩ := groupEntry_spec e.2 hg
    refine ⟨groupEntry e.2, ?_, ht, ⟨String.mk last, hlast, ?_⟩, ?_⟩
    · rw [hres]
      exact List.mem_append_right _ ((hmem _).2 ⟨e, he, hg, rfl⟩)
    · rw [hn, hname]
      apply String.toList_inj.1
      exact (strings.toList_append3 G last '.').symm
    · rw [hp, hn]
  · intro g hg htype
    rw [hres] at hg
    rcases List.mem_append.1 hg with h | h
    · obtain ⟨d, _, rfl⟩ := List.mem_map.1 h
      have hempty : ("" : String) = "grouping" := htype
      exact absurd hempty (by decide)
    · obtain ⟨e, he, hgroup, rfl⟩ := (hmem g).1 h
      obtain ⟨hdot, hpath⟩ := (isGroupingProject_iff e.2).1 hgroup
      exact ⟨e, he, hdot, hpath, rfl⟩

/-- C20 (one entry per project, one per group): the result of
`toWriteableProjects` is one entry for each definition that is no grouping
project, with its name and with its path only when that differs from the name,
followed by grouping entries with pairwise distinct names, one for each group
name of a grouping definition. -/
theorem toWriteableProjects_entries (projects : List (String × ProjectDefinition)) :
    ∃ groups : List project,
      toWriteableProjects projects
        = ((projects.map Prod.snd).filter (fun d => !isGroupingProject d)).map
            (fun d => { Name := d.Name, Type' := "",
                        Path := if d.Name ≠ d.Path then d.Path else "" })
          ++ groups ∧
      (groups.map (fun g => g.Name)).Nodup ∧
      (∀ g ∈ groups, g.Type' = "grouping") ∧
      ∀ name, name ∈ groups.map (fun g => g.Name) ↔
        ∃ e ∈ projects, isGroupingProject e.2 = true ∧
          name = (extractGroupedProjectDetails e.2).1 := by
  obtain ⟨groups, hres, hnd, hmem⟩ := toWriteableProjects_groups projects
  refine ⟨groups, hres, hnd, ?_, ?_⟩
  · intro g hg
    obtain ⟨e, _, _, rfl⟩ := (hmem g).1 hg
    rfl
  · intro name
    rw [List.mem_map]
    constructor
    · rintro ⟨g, hg, rfl⟩
      obtain ⟨e, he, hgroup, rfl⟩ := (hmem g).1 hg
      exact ⟨e, he, hgroup, rfl⟩
    · rintro ⟨e, he, hgroup, rfl⟩
      exact ⟨groupEntry e.2, (hmem _).2 ⟨e, he, hgroup, rfl⟩, rfl⟩

/-- The writer on the example definitions: two groups for three grouping
projects. -/
theorem toWriteableProjects_example :
    toWriteableProjects examples.projectDefinitions
      = [⟨"a", "", ""⟩, ⟨"b", "", "path/b"⟩, ⟨"n.o", "", "other"⟩,
         ⟨"g", "grouping", "g"⟩, ⟨"h.k", "grouping", "h/k"⟩] := by
  decide

end manifest

/-! ## The request helpers and the response error -/

namespace rest

/-- The retry loop when every remaining attempt fails. -/
theorem retryLoop_fail (client : Client) (url apiToken : String) (maxRetries : Int) :
    ∀ (remaining n : Nat) (last : Response × Option String),
      (∀ j, j < remaining → succeeded (get client (n + j) url apiToken) = false) →
      ∃ err, retryLoop client url apiToken maxRetries remaining n last
        = ((Response.empty, some err), n + remaining) := by
  intro remaining
  induction remaining with
  | zero => intro n last _; exact ⟨_, rfl⟩
  | succ k ih =>
    intro n last h
    have h0 := h 0 (Nat.succ_pos k)
    simp only [Nat.add_zero, succeeded, Bool.and_eq_false_iff, decide_eq_false_iff_not] at h0
    have hnot : ¬ ((get client n url apiToken).2 = none
        ∧ success (get client n url apiToken).1 = true) := by
      rintro ⟨h1, h2⟩
      rcases h0 with h0 | h0
      · exact h0 h1
      · rw [h2] at h0; exact absurd h0 (by decide)
    obtain ⟨err, herr⟩ := ih (n + 1) (get client n url apiToken) (by
      intro j hj
      have := h (j + 1) (Nat.succ_lt_succ hj)
      rwa [show n + (j + 1) = n + 1 + j by omega] at this)
    refine ⟨err, ?_⟩
    simp only [retryLoop, hnot, if_false, herr]
    rw [show n + 1 + k = n + (k + 1) by omega]

/-- The retry loop up to the first attempt that succeeds. -/
theorem retryLoop_first (client : Client) (url apiToken : String) (maxRetries : Int) :
    ∀ (remaining n k : Nat) (last : Response × Option String), k < remaining →
      (∀ j, j < k → succeeded (get client (n + j) url apiToken) = false) →
      succeeded (get client (n + k) url apiToken) = true →
      retryLoop client url apiToken maxRetries remaining n last
        = (((get client (n + k) url apiToken).1, none), n + k + 1) := by
  intro remaining
  induction remaining with
  | zero => intro n k last hk; exact absurd hk (Nat.not_lt_zero k)
  | succ m ih =>
    intro n k last hk hfail hok
    cases k with
    | zero =>
      simp only [Nat.add_zero, succeeded, Bool.and_eq_true, decide_eq_true_eq] at hok
      simp only [retryLoop, hok, and_self, if_true, Nat.add_zero]
      rw [← hok.1]
    | succ k =>
      have h0 := hfail 0 (Nat.succ_pos k)
      simp only [Nat.add_zero, succeeded, Bool.and_eq_false_iff, decide_eq_false_iff_not] at h0
      have hnot : ¬ ((get client n url apiToken).2 = none
          ∧ success (get client n url apiToken).1 = true) := by
        rintro ⟨h1, h2⟩
        rcases h0 with h0 | h0
        · exact h0 h1
        · rw [h2] at h0; exact absurd h0 (by decide)
      have := ih (n + 1) k (get client n url apiToken) (Nat.lt_of_succ_lt_succ hk) (by
        intro j hj
        have := hfail (j + 1) (Nat.succ_lt_succ hj)
        rwa [show n + (j + 1) = n + 1 + j by omega] at this) (by
        rwa [show n + (k + 1) = n + 1 + k by omega] at hok)
      simp only [retryLoop, hnot, if_false, this]
      rw [show n + 1 + k = n + (k + 1) by omega]

/-- An attempt succeeds when it has no error and a success status. -/
theorem succeeded_iff (r : Response × Option String) :
    succeeded r = true ↔ r.2 = none ∧ success r.1 = true := by
  simp [succeeded]

/-- C24 (retry of GET): when attempt `k + 1` is the first one that succeeds and
`k` is at most the number of retries, `getWithRetry` returns the response of
that attempt with no error after `k + 1` requests; when none of the first
`maxRetries.toNat + 1` attempts succeeds, it returns the empty response and an
error after `maxRetries.toNat + 1` requests. For `0 ≤ maxRetries` the bound
`maxRetries.toNat + 1` is `maxRetries + 1`. -/
theorem getWithRetry_spec (client : Client) (url apiToken : String) (maxRetries : Int) :
    (∀ k, k ≤ maxRetries.toNat →
      (∀ j, j < k → succeeded (get client j url apiToken) = false) →
      succeeded (get client k url apiToken) = true →
      getWithRetry client 0 url apiToken maxRetries
        = (((get client k url apiToken).1, none), k + 1)) ∧
    ((∀ j, j ≤ maxRetries.toNat → succeeded (get client j url apiToken) = false) →
      ∃ err, getWithRetry client 0 url apiToken maxRetries
        = ((Response.empty, some err), maxRetries.toNat + 1)) := by
  constructor
  · intro k hk hfail hok
    cases k with
    | zero =>
      have h := (succeeded_iff _).1 hok
      simp only [getWithRetry, h, and_self, if_true]
    | succ k =>
      have h0 : ¬ ((get client 0 url apiToken).2 = none
          ∧ success (get client 0 url apiToken).1 = true) := by
        intro h
        have := (succeeded_iff _).2 h
        rw [hfail 0 (Nat.succ_pos k)] at this
        exact absurd this (by decide)
      have := retryLoop_first client url apiToken maxRetries maxRetries.toNat 1 k
        (get client 0 url apiToken) (by omega) (by
          intro j hj
          have := hfail (j + 1) (Nat.succ_lt_succ hj)
          rwa [Nat.add_comm j 1] at this) (by rwa [Nat.add_comm k 1] at hok)
      simp only [getWithRetry, h0, if_false, Nat.zero_add, this]
      rw [Nat.add_comm 1 k]
  · intro hfail
    have h0 : ¬ ((get client 0 url apiToken).2 = none
        ∧ success (get client 0 url apiToken).1 = true) := by
      intro h
      have := (succeeded_iff _).2 h
      rw [hfail 0 (Nat.zero_le _)] at this
      exact absurd this (by decide)
    obtain ⟨err, herr⟩ := retryLoop_fail client url apiToken maxRetries maxRetries.toNat 1
      (get client 0 url apiToken) (by
        intro j hj
        have := hfail (j + 1) (by omega)
        rwa [Nat.add_comm j 1] at this)
    refine ⟨err, ?_⟩
    simp only [getWithRetry, h0, if_false, Nat.zero_add, herr]
    rw [Nat.add_comm 1]

/-- C23 (delete swallows 404): `deleteConfig` returns no error exactly when the
request is built, its execution returns a response without error, and the
status of that response is 404 or one of the 2xx codes. -/
theorem deleteConfig_eq_none (client : Client) (n : Nat) (url apiToken id : String) :
    deleteConfig client n url apiToken id = none ↔
      ∃ req resp, request client "DELETE" (url ++ "/" ++ id) apiToken = .ok req ∧
        executeRequest client n req = (resp, none) ∧
        (resp.StatusCode = 404 ∨ (200 ≤ resp.StatusCode ∧ resp.StatusCode ≤ 299)) := by
  simp only [deleteConfig]
  split
  · rename_i err hreq
    simp [hreq]
  · rename_i req hreq
    split
    · rename_i resp err hexec
      simp [hreq, hexec]
    · rename_i resp hexec
      by_cases h404 : resp.StatusCode = 404
      · simp [hreq, hexec, h404]
      · by_cases hs : success resp = true
        · have hs2 := hs
          simp only [success, decide_eq_true_eq] at hs2
          simp [hreq, hexec, h404, hs, hs2]
        · have hs2 := hs
          simp only [success, decide_eq_true_eq] at hs2
          simp [hreq, hexec, h404, hs, hs2]

/-- The retry on a server whose third answer is the first success: three
requests, and the third response is returned. -/
theorem getWithRetry_example :
    getWithRetry examples.flakyClient 0 "https://env/api" "token" 4
      = ((⟨200, "body", [("Content-Type", ["application/json"])]⟩, none), 3) ∧
    (getWithRetry examples.flakyClient 0 "https://env/api" "token" 1).2 = 2 ∧
    (getWithRetry examples.flakyClient 0 "https://env/api" "token" 1).1.1 = Response.empty := by
  decide

/-- C22 fails on the code: for a `RespError` built by `NewRespErr` from a
response with status 403, which has no wrapped error, `ConcurrentError` calls
`Error()` on the nil error and panics instead of returning a message. -/
theorem ConcurrentError_NewRespErr (key : String) (limit : Int) (msg body : String)
    (headers : List (String × List String)) :
    (NewRespErr msg ⟨403, body, headers⟩).ConcurrentError key limit = none := by
  rfl

/-- What `ConcurrentError` returns otherwise: `Error()` for a status other than
403, and for status 403 the text of the wrapped error followed by the hint, when
there is a wrapped error. -/
theorem ConcurrentError_other (key : String) (limit : Int) (e : RespError) :
    (e.StatusCode ≠ 403 → e.ConcurrentError key limit = some e.Error) ∧
    (e.StatusCode = 403 → e.ConcurrentError key limit
      = e.Err.map (fun err => err ++ "\n" ++ additionalMessage key limit)) := by
  constructor
  · intro h
    simp [RespError.ConcurrentError, h]
  · intro h
    cases he : e.Err <;> simp [RespError.ConcurrentError, h, he]

end rest

/-! ## The report -/

namespace report

/-- C25 fails on the code: a record with the state `ERROR` reaches the `default`
case of `updateSummaryFromRecord`, which panics; the update completes exactly
for the states `SUCCESS`, `EXCLUDED` and `SKIPPED`. -/
theorem updateSummaryFromRecord_error (d : defaultReporter) (r : record) :
    d.updateSummaryFromRecord { r with State := State_DEPL_ERR } = none ∧
    ((d.updateSummaryFromRecord r).isSome ↔
      r.State = State_DEPL_SUCCESS ∨ r.State = State_DEPL_EXCLUDED
        ∨ r.State = State_DEPL_SKIPPED) := by
  constructor
  · simp [defaultReporter.updateSummaryFromRecord, State_DEPL_ERR, State_DEPL_SUCCESS,
      State_DEPL_EXCLUDED, State_DEPL_SKIPPED]
  · unfold defaultReporter.updateSummaryFromRecord
    by_cases h1 : r.State = State_DEPL_SUCCESS
    · rw [if_pos h1]
      simp [h1]
    · by_cases h2 : r.State = State_DEPL_EXCLUDED
      · rw [if_neg h1, if_pos h2]
        simp [h2]
      · by_cases h3 : r.State = State_DEPL_SKIPPED
        · rw [if_neg h1, if_neg h2, if_pos h3]
          simp [h3]
        · rw [if_neg h1, if_neg h2, if_neg h3]
          simp [h1, h2, h3]

/-- The summary update on the error record of the reporter test. -/
theorem updateSummaryFromRecord_example :
    examples.freshReporter.updateSummaryFromRecord examples.errorRecord = none := by
  decide

/-- C26 fails on the code: for a record whose error is `errors.New(text)`,
`ToJSON` writes the time as the decimal text of the Unix seconds, but it writes
the field `error` as the empty object, not as the text of the error. -/
theorem ToJSON_errorsNew (r : record) (text : String) :
    ∃ doc, ({ r with Error := some (errorsNew text) } : record).ToJSON = .ok doc ∧
      doc.field "time" = some (JSON.str (toString r.Time.Unix)) ∧
      doc.field "error" = some (JSON.obj []) ∧
      doc.field "error" ≠ some (JSON.str text) := by
  refine ⟨_, rfl, rfl, rfl, ?_⟩
  intro h
  have h2 : JSON.obj [] = JSON.str text := Option.some.inj h
  exact JSON.noConfusion h2

/-- A record without error: the field `error` is left out. -/
theorem ToJSON_no_error (r : record) :
    ∃ doc, ({ r with Error := none } : record).ToJSON = .ok doc ∧
      doc.field "time" = some (JSON.str (toString r.Time.Unix)) ∧
      doc.field "error" = none := by
  exact ⟨_, rfl, rfl, rfl⟩

/-- The document written for the error record of the reporter test. -/
theorem ToJSON_error_example :
    examples.errorRecord.ToJSON
      = .ok (JSON.obj [("type", JSON.str "DEPLOY"), ("time", JSON.str "1700000000"),
          ("config", JSON.obj [("project", JSON.str "test"), ("type", JSON.str "dashboard"),
            ("configId", JSON.str "my-dashboard2")]),
          ("state", JSON.str "ERROR"),
          ("details", JSON.arr [JSON.obj [("type", JSON.str "ERROR"),
            ("message", JSON.str "error")]]),
          ("error", JSON.obj [])]) := by
  rfl

end report

/-! ## The environments of the written manifest -/

namespace manifest

/-- The written groups of the example environments. -/
theorem toWriteableEnvironmentGroups_example :
    toWriteableEnvironmentGroups examples.resolvedEnvironments
    = some [⟨"live",
        [⟨"prod", "platform", ⟨"environment", "PROD_URL"⟩,
          some ⟨⟨"environment", "prod_TOKEN", ""⟩,
            some ⟨⟨"environment", "CLIENT_ID", ""⟩, ⟨"environment", "CLIENT_SECRET", ""⟩, none⟩⟩⟩,
         ⟨"dev", "classic", ⟨"", "https://dev.example"⟩,
          some ⟨⟨"environment", "DEV_TOKEN", ""⟩, none⟩⟩]⟩] := by
  decide

/-- The written auth does not read the resolved values. -/
theorem getAuth_sameButSecretValues (a b : writer.EnvironmentDefinition)
    (h : sameButSecretValues a b) : getAuth a = getAuth b := by
  obtain ⟨h1, h2, _, _, h5, h6, h7, h8⟩ := h
  simp only [getAuth, getTokenSecret, h1, h2, h5, h6, h7, h8]

/-- The loop body does not read the resolved values. -/
theorem addEnvironment_sameButSecretValues (acc : List (String × List environment))
    (x y : String × writer.EnvironmentDefinition) (hk : x.1 = y.1)
    (h : sameButSecretValues x.2 y.2) : addEnvironment acc x = addEnvironment acc y := by
  have ha := getAuth_sameButSecretValues x.2 y.2 h
  obtain ⟨_, h2, h3, h4, _⟩ := h
  simp only [addEnvironment, getType, toWriteableURL, ha, hk, h2, h3, h4]

/-- The loop does not read the resolved values. -/
theorem foldlM_sameButSecretValues (envs1 envs2 : List (String × writer.EnvironmentDefinition))
    (h : List.Forall₂ (fun x y => x.1 = y.1 ∧ sameButSecretValues x.2 y.2) envs1 envs2) :
    ∀ acc, envs1.foldlM addEnvironment acc = envs2.foldlM addEnvironment acc := by
  induction h with
  | nil => intro acc; rfl
  | cons hxy _ ih =>
    intro acc
    simp only [List.foldlM_cons]
    rw [addEnvironment_sameButSecretValues acc _ _ hxy.1 hxy.2]
    cases addEnvironment acc _ with
    | none => rfl
    | some acc1 => exact ih acc1

/-- The secrets of a written auth have the type `environment` and no value. -/
theorem getAuth_secrets (env : writer.EnvironmentDefinition) :
    ∀ s ∈ (getAuth env).secrets, s.Type' = typeEnvironment ∧ s.Value = "" := by
  intro s hs
  unfold getAuth at hs
  split at hs
  · simp only [auth.secrets, List.mem_singleton] at hs
    subst hs
    exact ⟨rfl, rfl⟩
  · simp only [auth.secrets, List.mem_cons, List.mem_singleton, List.not_mem_nil, or_false] at hs
    rcases hs with rfl | rfl | rfl <;> exact ⟨rfl, rfl⟩

/-- Every written environment of the map stems from an entry of the input. -/
theorem foldlM_addEnvironment_mem (envs : List (String × writer.EnvironmentDefinition)) :
    ∀ (acc res : List (String × List environment)) (P : environment → Prop),
      (∀ ge ∈ acc, ∀ e ∈ ge.2, P e) →
      (∀ entry ∈ envs, ∀ type, P ⟨entry.1, type, toWriteableURL entry.2, some (getAuth entry.2)⟩) →
      envs.foldlM addEnvironment acc = some res →
      ∀ ge ∈ res, ∀ e ∈ ge.2, P e := by
  induction envs with
  | nil =>
    intro acc res P hacc _ hres
    simp only [List.foldlM_nil, Option.pure_def, Option.some.injEq] at hres
    subst hres
    exact hacc
  | cons x xs ih =>
    intro acc res P hacc hP hres
    simp only [List.foldlM_cons] at hres
    cases hstep : addEnvironment acc x with
    | none => rw [hstep] at hres; exact absurd hres (by simp)
    | some acc1 =>
      rw [hstep] at hres
      refine ih acc1 res P ?_ (fun entry he => hP entry (List.mem_cons_of_mem _ he)) hres
      unfold addEnvironment at hstep
      cases htype : getType x.2 with
      | none => rw [htype] at hstep; exact absurd hstep (by simp)
      | some type =>
        rw [htype] at hstep
        simp only [Option.some.injEq] at hstep
        subst hstep
        refine topologysort.mapSet_forall (fun ge => ∀ e ∈ ge.2, P e) acc _ _ hacc ?_
        intro e he
        rcases List.mem_append.1 he with h | h
        · unfold project.mapGet at h
          cases hf : acc.find? (fun e => decide (e.1 = x.2.Group)) with
          | none => rw [hf] at h; exact absurd h (by simp)
          | some ge =>
            rw [hf] at h
            exact hacc ge (List.mem_of_find?_eq_some hf) e h
        · rw [List.mem_singleton.1 h]
          exact hP x (List.mem_cons_self _ _) type

/-- C21 (no resolved secrets): two environment maps that differ at most in the
resolved values of tokens, client ids and client secrets give the same result of
`toWriteableEnvironmentGroups`, and every secret of a written environment has
the type `environment` and an empty value. -/
theorem toWriteableEnvironmentGroups_no_secrets
    (envs1 envs2 : List (String × writer.EnvironmentDefinition))
    (h : List.Forall₂ (fun x y => x.1 = y.1 ∧ sameButSecretValues x.2 y.2) envs1 envs2) :
    toWriteableEnvironmentGroups envs1 = toWriteableEnvironmentGroups envs2 ∧
    ∀ groups, toWriteableEnvironmentGroups envs1 = some groups →
      ∀ g ∈ groups, ∀ e ∈ g.Environments, ∃ a, e.Auth = some a ∧
        ∀ s ∈ a.secrets, s.Type' = typeEnvironment ∧ s.Value = "" := by
  constructor
  · unfold toWriteableEnvironmentGroups
    rw [foldlM_sameButSecretValues envs1 envs2 h]
  · intro groups hg g hgm e he
    unfold toWriteableEnvironmentGroups at hg
    cases hf : envs1.foldlM addEnvironment [] with
    | none => rw [hf] at hg; exact absurd hg (by simp)
    | some res =>
      rw [hf] at hg
      simp only [Option.map_some', Option.some.injEq] at hg
      subst hg
      obtain ⟨ge, hge, rfl⟩ := List.mem_map.1 hgm
      exact foldlM_addEnvironment_mem envs1 [] res
        (fun e => ∃ a, e.Auth = some a ∧ ∀ s ∈ a.secrets, s.Type' = typeEnvironment ∧ s.Value = "")
        (by intro ge h; exact absurd h (List.not_mem_nil _))
        (fun entry _ type => ⟨getAuth entry.2, rfl, getAuth_secrets entry.2⟩) hf ge hge e he

/-- Witness of C21 on the example environments and the same environments with
other resolved secrets. -/
theorem toWriteableEnvironmentGroups_no_secrets_witness :
    List.Forall₂ (fun x y => x.1 = y.1 ∧ sameButSecretValues x.2 y.2)
      examples.resolvedEnvironments examples.otherSecrets ∧
    (toWriteableEnvironmentGroups examples.resolvedEnvironments
        = toWriteableEnvironmentGroups examples.otherSecrets ∧
      ∀ groups, toWriteableEnvironmentGroups examples.resolvedEnvironments = some groups →
        ∀ g ∈ groups, ∀ e ∈ g.Environments, ∃ a, e.Auth = some a ∧
          ∀ s ∈ a.secrets, s.Type' = typeEnvironment ∧ s.Value = "") :=
  have h : List.Forall₂ (fun x y => x.1 = y.1 ∧ sameButSecretValues x.2 y.2)
      examples.resolvedEnvironments examples.otherSecrets :=
    List.Forall₂.cons ⟨rfl, rfl, rfl, rfl, rfl, rfl, rfl, rfl, rfl⟩
      (List.Forall₂.cons ⟨rfl, rfl, rfl, rfl, rfl, rfl, rfl, rfl, rfl⟩ List.Forall₂.nil)
  ⟨h, toWriteableEnvironmentGroups_no_secrets _ _ h⟩

end manifest

/-! ## The project loader -/

namespace project
namespace v1

/-- The loop of `subprojectsMixedWithApi` from any state of its two flags. -/
theorem mixedLoop_eq_none (path : String) :
    ∀ (entries : List FileInfo) (apiFound subprojectFound : Bool),
      ¬ (apiFound = true ∧ subprojectFound = true) →
      (mixedLoop path apiFound subprojectFound entries = none ↔
        ¬ ((apiFound = true ∨ ∃ d ∈ entries, api.IsApi d.Name = true) ∧
           (subprojectFound = true ∨
             ∃ d ∈ entries, api.IsApi d.Name = false ∧ d.IsDir = true))) := by
  intro entries
  induction entries with
  | nil =>
    intro a s h
    simp only [mixedLoop, List.not_mem_nil, false_and, exists_false, or_false, true_iff]
    exact h
  | cons d rest ih =>
    intro a s h
    unfold mixedLoop
    cases hapi : api.IsApi d.Name with
    | true =>
      cases hs : s with
      | true =>
        simp [hapi, hs]
      | false =>
        have := ih true false (by simp)
        simp only [hapi, if_true, Bool.not_true, Bool.false_and, Bool.false_eq_true, if_false,
          Bool.and_false, this]
        simp [hapi]
    | false =>
      cases hdir : d.IsDir with
      | true =>
        cases ha : a with
        | true => simp [hapi, hdir, ha]
        | false =>
          have := ih false true (by simp)
          simp only [hapi, hdir, Bool.false_eq_true, if_false, Bool.not_false, Bool.and_self,
            if_true, Bool.false_and, this]
          simp [hapi, hdir]
      | false =>
        have := ih a s h
        have hnot : (a && s) = false := by
          cases a <;> cases s <;> simp at h ⊢
        simp only [hapi, hdir, Bool.false_eq_true, if_false, Bool.not_false, Bool.and_false,
          hnot, this]
        simp [hapi, hdir]

/-- C27, amended: `subprojectsMixedWithApi` returns no error exactly when the
directory can be read and does not hold both an entry, file or directory, whose
name is an API and a sub-directory whose name is no API. -/
theorem subprojectsMixedWithApi_eq_none (dirs : Except String (List FileInfo))
    (path : String) :
    subprojectsMixedWithApi dirs path = none ↔
      ∃ entries, dirs = .ok entries ∧
        ¬ ((∃ d ∈ entries, api.IsApi d.Name = true) ∧
           (∃ d ∈ entries, api.IsApi d.Name = false ∧ d.IsDir = true)) := by
  cases dirs with
  | error err => simp [subprojectsMixedWithApi]
  | ok entries =>
    simp only [subprojectsMixedWithApi, Except.ok.injEq, exists_eq_left']
    rw [mixedLoop_eq_none path entries false false (by simp)]
    simp

/-- C27, as stated, fails: a plain file named `dashboard` next to a
sub-directory gives the error, although no directory of the listing is named
like an API. -/
theorem subprojectsMixedWithApi_counterexample :
    subprojectsMixedWithApi (.ok examples.apiNamedFile) "project"
      = some "found folder with projects and configurations in project" ∧
    ¬ ∃ d ∈ examples.apiNamedFile, d.IsDir = true ∧ api.IsApi d.Name = true := by
  decide

/-- The loop of `filterProjectsWithSubproject` appends the kept folders. -/
theorem filterProjectsWithSubproject_foldl (all : List String) :
    ∀ (xs acc : List String),
      xs.foldl (fun list projectFolder =>
        if !hasSubprojectFolder projectFolder all then list ++ [projectFolder] else list) acc
      = acc ++ xs.filter (fun f => !hasSubprojectFolder f all) := by
  intro xs
  induction xs with
  | nil => intro acc; simp
  | cons x xs ih =>
    intro acc
    rw [List.foldl_cons, ih]
    cases h : hasSubprojectFolder x all <;> simp [h]

/-- C29, amended: `filterProjectsWithSubproject` keeps, in order, the folders
for which `hasSubprojectFolder` is false, and `hasSubprojectFolder f list` holds
exactly when some entry of the list, cleaned, differs from the cleaned `f` and
has it as its parent directory, whether `f` is in the list or not. -/
theorem filterProjectsWithSubproject_spec (allProjectFolders : List String) (f : String)
    (list : List String) :
    filterProjectsWithSubproject allProjectFolders
      = allProjectFolders.filter (fun p => !hasSubprojectFolder p allProjectFolders) ∧
    (hasSubprojectFolder f list = true ↔
      ∃ p ∈ list, filepath.Clean p ≠ filepath.Clean f
        ∧ filepath.Dir (filepath.Clean p) = filepath.Clean f) := by
  constructor
  · unfold filterProjectsWithSubproject
    rw [filterProjectsWithSubproject_foldl, List.nil_append]
  · simp only [hasSubprojectFolder, List.any_eq_true, Bool.and_eq_true, decide_eq_true_eq]
    constructor
    · rintro ⟨p, hp, h1, h2⟩; exact ⟨p, hp, h2, h1⟩
    · rintro ⟨p, hp, h1, h2⟩; exact ⟨p, hp, h2, h1⟩

/-- C29, as stated, fails: `robot/trillian` is absent from the list of
`TestIfProjectHasSubproject` and has a sub-project in it. -/
theorem hasSubprojectFolder_counterexample :
    "robot/trillian" ∉ examples.subprojectFolders ∧
    hasSubprojectFolder "robot/trillian" examples.subprojectFolders = true := by
  decide

/-- C28 fails on the code: walking `test-resources/hidden-directories/project2`
returns the hidden folder `.logs` next to `subproject`, because the test
`strings.HasPrefix(path, ".")` looks at the walked path, not at the name of the
folder. -/
theorem getAllProjectFoldersRecursively_hidden :
    getAllProjectFoldersRecursively (some examples.hiddenProject2)
      "test-resources/hidden-directories/project2" = ([".logs", "subproject"], none) := by
  decide

/-- The results of `TestIfProjectHasSubproject` and
`TestFilterProjectsWithSubproject`. -/
theorem hasSubprojectFolder_examples :
    hasSubprojectFolder "marvin" examples.subprojectFolders = true ∧
    hasSubprojectFolder "marvin/trillian" examples.subprojectFolders = true ∧
    hasSubprojectFolder "marvin/trillian/hacktar" examples.subprojectFolders = false ∧
    hasSubprojectFolder "robot/trillian/hacktar" examples.subprojectFolders = false ∧
    hasSubprojectFolder "zem" examples.subprojectFolders = false ∧
    hasSubprojectFolder "unknown" examples.subprojectFolders = false ∧
    filterProjectsWithSubproject examples.allProjectFolders
      = ["zem", "caveman/anjie/garkbit", "marvin/trillian", "trillian"] := by
  decide

/-! ### The dependency search -/

theorem isProjectAlreadyAdded_iff {P : Type} (GetId : P → String)
    (a : P) (l : List P) :
    isProjectAlreadyAdded GetId a l = true ↔ GetId a ∈ l.map GetId := by
  simp only [isProjectAlreadyAdded, List.any_eq_true, decide_eq_true_eq, List.mem_map]

theorem Extends_refl {P : Type} (GetId : P → String) (HasDependencyOn : P → P → Bool)
    (av l : List P) : Extends GetId HasDependencyOn av l l :=
  ⟨[], (List.append_nil l).symm, by simp, by simp, by simp, by simp⟩

theorem Extends_add {P : Type} (GetId : P → String) (HasDependencyOn : P → P → Bool)
    (av l cur : List P) (p a : P)
    (h : Extends GetId HasDependencyOn av l cur) (hp : p ∈ cur) (ha : a ∈ av)
    (hdep : HasDependencyOn p a = true) (hnew : isProjectAlreadyAdded GetId a cur = false) :
    Extends GetId HasDependencyOn av l (cur ++ [a]) := by
  obtain ⟨added, rfl, hav, hnd, hnot, hsrc⟩ := h
  have hnew2 : GetId a ∉ (l ++ added).map GetId := by
    intro hmem
    rw [(isProjectAlreadyAdded_iff GetId a _).2 hmem] at hnew
    exact absurd hnew (by decide)
  rw [List.map_append, List.mem_append, not_or] at hnew2
  refine ⟨added ++ [a], by rw [List.append_assoc], ?_, ?_, ?_, ?_⟩
  · intro x hx
    rcases List.mem_append.1 hx with h | h
    · exact hav x h
    · rw [List.mem_singleton.1 h]; exact ha
  · rw [List.map_append]
    refine List.Nodup.append hnd (List.nodup_singleton _) ?_
    intro x hx hx2
    rw [List.map_singleton, List.mem_singleton] at hx2
    rw [hx2] at hx
    exact hnew2.2 hx
  · intro x hx
    rcases List.mem_append.1 hx with h | h
    · exact hnot x h
    · rw [List.mem_singleton.1 h]; exact hnew2.1
  · intro x hx
    rcases List.mem_append.1 hx with h | h
    · obtain ⟨q, hq, hqd⟩ := hsrc x h
      exact ⟨q, List.mem_append_left _ hq, hqd⟩
    · rw [List.mem_singleton.1 h]
      exact ⟨p, List.mem_append_left _ hp, hdep⟩

theorem Extends_sublist {P : Type} (GetId : P → String) (HasDependencyOn : P → P → Bool)
    (av l cur : List P) (h : Extends GetId HasDependencyOn av l cur) :
    ∀ p ∈ l, p ∈ cur := by
  obtain ⟨added, rfl, _⟩ := h
  intro p hp
  exact List.mem_append_left _ hp

theorem searchStep_inv {P : Type} (GetId : P → String) (HasDependencyOn : P → P → Bool)
    (av l : List P) (done : P → P → Prop) (state : List P × Bool)
    (p a : P) (hp : p ∈ l) (ha : a ∈ av)
    (h : RoundInv GetId HasDependencyOn av l done state) :
    RoundInv GetId HasDependencyOn av l (fun p1 a1 => done p1 a1 ∨ (p1 = p ∧ a1 = a))
      (searchStep GetId HasDependencyOn p state a) := by
  unfold searchStep
  by_cases hc : (HasDependencyOn p a && !isProjectAlreadyAdded GetId a state.1) = true
  · rw [if_pos hc]
    simp only [Bool.and_eq_true, Bool.not_eq_true'] at hc
    refine ⟨Extends_add GetId HasDependencyOn av l state.1 p a h.ext
      (Extends_sublist GetId HasDependencyOn av l state.1 h.ext p hp) ha hc.1 hc.2,
      fun hf => Bool.noConfusion hf, fun _ => ?_, ?_⟩
    · obtain ⟨added, hadd, _⟩ := h.ext
      intro heq
      have heq2 : state.1 ++ [a] = l := heq
      have : (state.1 ++ [a]).length = l.length := by rw [heq2]
      rw [hadd] at this
      simp at this
    · intro p1 a1 hd hdep
      rw [List.map_append, List.mem_append]
      rcases hd with hd | ⟨_, rfl⟩
      · exact Or.inl (h.closed p1 a1 hd hdep)
      · exact Or.inr (by simp)
  · rw [if_neg hc]
    refine ⟨h.ext, h.flag, h.grown, ?_⟩
    intro p1 a1 hd hdep
    rcases hd with hd | ⟨rfl, rfl⟩
    · exact h.closed p1 a1 hd hdep
    · simp only [Bool.and_eq_true, Bool.not_eq_true', not_and, Bool.not_eq_false] at hc
      exact (isProjectAlreadyAdded_iff GetId a1 state.1).1 (hc hdep)

theorem RoundInv_mono {P : Type} (GetId : P → String) (HasDependencyOn : P → P → Bool)
    (av l : List P) (done done1 : P → P → Prop) (state : List P × Bool)
    (h : RoundInv GetId HasDependencyOn av l done state)
    (hd : ∀ p a, done1 p a → done p a) :
    RoundInv GetId HasDependencyOn av l done1 state :=
  ⟨h.ext, h.flag, h.grown, fun p a hpa => h.closed p a (hd p a hpa)⟩

theorem inner_inv {P : Type} (GetId : P → String) (HasDependencyOn : P → P → Bool)
    (av l : List P) (p : P) (hp : p ∈ l) :
    ∀ (as : List P) (done : P → P → Prop) (state : List P × Bool),
      (∀ a ∈ as, a ∈ av) → RoundInv GetId HasDependencyOn av l done state →
      RoundInv GetId HasDependencyOn av l (fun p1 a1 => done p1 a1 ∨ (p1 = p ∧ a1 ∈ as))
        (as.foldl (searchStep GetId HasDependencyOn p) state) := by
  intro as
  induction as with
  | nil =>
    intro done state _ h
    exact RoundInv_mono GetId HasDependencyOn av l _ _ state h (by
      rintro p1 a1 (h1 | ⟨_, h2⟩)
      · exact h1
      · exact absurd h2 (List.not_mem_nil _))
  | cons a as ih =>
    intro done state hav h
    rw [List.foldl_cons]
    have h1 := searchStep_inv GetId HasDependencyOn av l done state p a hp
      (hav a (List.mem_cons_self _ _)) h
    have h2 := ih _ _ (fun x hx => hav x (List.mem_cons_of_mem _ hx)) h1
    exact RoundInv_mono GetId HasDependencyOn av l _ _ _ h2 (by
      rintro p1 a1 (h3 | ⟨h3, h4⟩)
      · exact Or.inl (Or.inl h3)
      · rcases List.mem_cons.1 h4 with h5 | h5
        · exact Or.inl (Or.inr ⟨h3, h5⟩)
        · exact Or.inr ⟨h3, h5⟩)

theorem outer_inv {P : Type} (GetId : P → String) (HasDependencyOn : P → P → Bool)
    (av l : List P) :
    ∀ (ps : List P) (done : P → P → Prop) (state : List P × Bool),
      (∀ p ∈ ps, p ∈ l) → RoundInv GetId HasDependencyOn av l done state →
      RoundInv GetId HasDependencyOn av l (fun p1 a1 => done p1 a1 ∨ (p1 ∈ ps ∧ a1 ∈ av))
        (ps.foldl (fun state project => av.foldl (searchStep GetId HasDependencyOn project) state)
          state) := by
  intro ps
  induction ps with
  | nil =>
    intro done state _ h
    exact RoundInv_mono GetId HasDependencyOn av l _ _ state h (by
      rintro p1 a1 (h1 | ⟨h2, _⟩)
      · exact h1
      · exact absurd h2 (List.not_mem_nil _))
  | cons p ps ih =>
    intro done state hl h
    rw [List.foldl_cons]
    have h1 := inner_inv GetId HasDependencyOn av l p (hl p (List.mem_cons_self _ _)) av done
      state (fun a ha => ha) h
    have h2 := ih _ _ (fun x hx => hl x (List.mem_cons_of_mem _ hx)) h1
    exact RoundInv_mono GetId HasDependencyOn av l _ _ _ h2 (by
      rintro p1 a1 (h3 | ⟨h3, h4⟩)
      · exact Or.inl (Or.inl h3)
      · rcases List.mem_cons.1 h3 with h5 | h5
        · exact Or.inl (Or.inr ⟨h5, h4⟩)
        · exact Or.inr ⟨h5, h4⟩)

theorem searchRound_inv {P : Type} (GetId : P → String) (HasDependencyOn : P → P → Bool)
    (av l : List P) :
    RoundInv GetId HasDependencyOn av l (fun p a => p ∈ l ∧ a ∈ av)
      (searchRound GetId HasDependencyOn av l) := by
  have h0 : RoundInv GetId HasDependencyOn av l (fun _ _ => False) (l, false) :=
    ⟨Extends_refl GetId HasDependencyOn av l, fun _ => rfl, fun h => Bool.noConfusion h,
      fun _ _ h => h.elim⟩
  have := outer_inv GetId HasDependencyOn av l l _ _ (fun p hp => hp) h0
  exact RoundInv_mono GetId HasDependencyOn av l _ _ _ this (fun p a h => Or.inr h)

theorem Extends_trans {P : Type} (GetId : P → String) (HasDependencyOn : P → P → Bool)
    (av l l1 l2 : List P) (h1 : Extends GetId HasDependencyOn av l l1)
    (h2 : Extends GetId HasDependencyOn av l1 l2) : Extends GetId HasDependencyOn av l l2 := by
  obtain ⟨a1, rfl, hav1, hnd1, hnot1, hsrc1⟩ := h1
  obtain ⟨a2, rfl, hav2, hnd2, hnot2, hsrc2⟩ := h2
  have hsplit : ∀ a ∈ a2, GetId a ∉ l.map GetId ∧ GetId a ∉ a1.map GetId := by
    intro a ha
    have := hnot2 a ha
    rw [List.map_append, List.mem_append, not_or] at this
    exact this
  refine ⟨a1 ++ a2, by rw [List.append_assoc], ?_, ?_, ?_, ?_⟩
  · intro x hx
    rcases List.mem_append.1 hx with h | h
    · exact hav1 x h
    · exact hav2 x h
  · rw [List.map_append]
    refine List.Nodup.append hnd1 hnd2 ?_
    intro x hx1 hx2
    obtain ⟨a, ha, rfl⟩ := List.mem_map.1 hx2
    exact (hsplit a ha).2 hx1
  · intro x hx
    rcases List.mem_append.1 hx with h | h
    · exact hnot1 x h
    · exact (hsplit x h).1
  · intro x hx
    rcases List.mem_append.1 hx with h | h
    · obtain ⟨q, hq, hqd⟩ := hsrc1 x h
      exact ⟨q, List.mem_append_left _ hq, hqd⟩
    · exact hsrc2 x h

theorem filter_length_lt {α : Type} (p q : α → Bool) :
    ∀ xs : List α, (∀ x ∈ xs, q x = true → p x = true) →
      (∃ x ∈ xs, p x = true ∧ q x = false) →
      (xs.filter q).length < (xs.filter p).length := by
  intro xs
  induction xs with
  | nil => rintro _ ⟨x, hx, _⟩; exact absurd hx (List.not_mem_nil _)
  | cons y ys ih =>
    intro himp hex
    have himp1 : ∀ x ∈ ys, q x = true → p x = true :=
      fun x hx => himp x (List.mem_cons_of_mem _ hx)
    have hle : (ys.filter q).length ≤ (ys.filter p).length := by
      rw [← List.countP_eq_length_filter, ← List.countP_eq_length_filter]
      exact List.countP_mono_left himp1
    obtain ⟨x, hx, hpx, hqx⟩ := hex
    cases hq : q y with
    | true =>
      have hp := himp y (List.mem_cons_self _ _) hq
      rw [List.filter_cons_of_pos hq, List.filter_cons_of_pos hp, List.length_cons,
        List.length_cons]
      rcases List.mem_cons.1 hx with rfl | hx1
      · rw [hq] at hqx; exact Bool.noConfusion hqx
      · exact Nat.succ_lt_succ (ih himp1 ⟨x, hx1, hpx, hqx⟩)
    | false =>
      rw [List.filter_cons_of_neg (by simp [hq])]
      cases hp : p y with
      | true =>
        rw [List.filter_cons_of_pos hp, List.length_cons]
        exact Nat.lt_succ_of_le hle
      | false =>
        rw [List.filter_cons_of_neg (by simp [hp])]
        rcases List.mem_cons.1 hx with rfl | hx1
        · rw [hp] at hpx; exact Bool.noConfusion hpx
        · exact ih himp1 ⟨x, hx1, hpx, hqx⟩

theorem notAdded_lt {P : Type} (GetId : P → String) (HasDependencyOn : P → P → Bool)
    (av l next : List P) (h : Extends GetId HasDependencyOn av l next)
    (hne : next ≠ l) : (notAdded GetId av next).length < (notAdded GetId av l).length := by
  obtain ⟨added, rfl, hav, _, hnot, _⟩ := h
  cases added with
  | nil => exact absurd (List.append_nil l) hne
  | cons a0 rest =>
    apply filter_length_lt
    · intro x _ hx
      simp only [Bool.not_eq_true'] at hx ⊢
      cases hx1 : isProjectAlreadyAdded GetId x l with
      | false => rfl
      | true =>
        have h1 := (isProjectAlreadyAdded_iff GetId x l).1 hx1
        have h2 := (isProjectAlreadyAdded_iff GetId x (l ++ a0 :: rest)).2 (by
          rw [List.map_append]; exact List.mem_append_left _ h1)
        rw [h2] at hx
        exact Bool.noConfusion hx
    · refine ⟨a0, hav a0 (List.mem_cons_self _ _), ?_, ?_⟩
      · cases hx1 : isProjectAlreadyAdded GetId a0 l with
        | false => rfl
        | true =>
          exact absurd ((isProjectAlreadyAdded_iff GetId a0 l).1 hx1)
            (hnot a0 (List.mem_cons_self _ _))
      · have h2 := (isProjectAlreadyAdded_iff GetId a0 (l ++ a0 :: rest)).2 (by
          rw [List.map_append]
          exact List.mem_append_right _ (List.mem_map.2 ⟨a0, List.mem_cons_self _ _, rfl⟩))
        rw [h2]
        rfl

theorem searchDependencies_unfold {P : Type} (GetId : P → String) (HasDependencyOn : P → P → Bool)
    (av : List P) (fuel : Nat) (l : List P) :
    searchDependencies GetId HasDependencyOn av (fuel + 1) l
      = if (searchRound GetId HasDependencyOn av l).2 = true then
          searchDependencies GetId HasDependencyOn av fuel
            (searchRound GetId HasDependencyOn av l).1
        else some (searchRound GetId HasDependencyOn av l).1 :=
  rfl

theorem searchDependencies_result {P : Type} (GetId : P → String) (HasDependencyOn : P → P → Bool)
    (av : List P) :
    ∀ (fuel : Nat) (l : List P), (notAdded GetId av l).length < fuel →
      ∃ res, searchDependencies GetId HasDependencyOn av fuel l = some res ∧
        Extends GetId HasDependencyOn av l res ∧ Closed GetId HasDependencyOn av res := by
  intro fuel
  induction fuel with
  | zero => intro l h; exact absurd h (Nat.not_lt_zero _)
  | succ fuel ih =>
    intro l hfuel
    have hinv := searchRound_inv GetId HasDependencyOn av l
    rw [searchDependencies_unfold]
    cases hflag : (searchRound GetId HasDependencyOn av l).2 with
    | true =>
      have hlt := notAdded_lt GetId HasDependencyOn av l _ hinv.ext (hinv.grown hflag)
      obtain ⟨res, hres, hext, hclosed⟩ :=
        ih (searchRound GetId HasDependencyOn av l).1 (by omega)
      refine ⟨res, ?_, Extends_trans GetId HasDependencyOn av l _ res hinv.ext hext, hclosed⟩
      rw [if_pos rfl]
      exact hres
    | false =>
      refine ⟨(searchRound GetId HasDependencyOn av l).1, by simp, hinv.ext, ?_⟩
      have heq := hinv.flag hflag
      intro p hp a ha hdep
      rw [heq] at hp
      exact hinv.closed p a ⟨hp, ha⟩ hdep

theorem searchDependencies_succ {P : Type} (GetId : P → String) (HasDependencyOn : P → P → Bool)
    (av : List P) :
    ∀ (fuel : Nat) (l res : List P),
      searchDependencies GetId HasDependencyOn av fuel l = some res →
      searchDependencies GetId HasDependencyOn av (fuel + 1) l = some res := by
  intro fuel
  induction fuel with
  | zero => intro l res h; exact absurd h (by simp [searchDependencies])
  | succ fuel ih =>
    intro l res h
    rw [searchDependencies_unfold] at h ⊢
    cases hflag : (searchRound GetId HasDependencyOn av l).2 with
    | true =>
      rw [hflag, if_pos rfl] at h
      rw [if_pos rfl]
      exact ih _ _ h
    | false =>
      rw [hflag, if_neg (by decide)] at h
      rw [if_neg (by decide)]
      exact h

theorem searchDependencies_le {P : Type} (GetId : P → String) (HasDependencyOn : P → P → Bool)
    (av : List P) (fuel : Nat) (l res : List P)
    (h : searchDependencies GetId HasDependencyOn av fuel l = some res) :
    ∀ more, fuel ≤ more → searchDependencies GetId HasDependencyOn av more l = some res := by
  intro more hle
  induction hle with
  | refl => exact h
  | step _ ih => exact searchDependencies_succ GetId HasDependencyOn av _ l res ih

theorem notAdded_length_le {P : Type} (GetId : P → String)
    (av l : List P) : (notAdded GetId av l).length ≤ av.length :=
  List.length_filter_le _ _

theorem Closed_reachable {P : Type} (GetId : P → String) (HasDependencyOn : P → P → Bool)
    (av requested res : List P)
    (hext : Extends GetId HasDependencyOn av requested res)
    (hclosed : Closed GetId HasDependencyOn av res)
    (hid : ∀ p ∈ requested ++ av, ∀ q ∈ requested ++ av, GetId p = GetId q →
      ∀ a ∈ av, HasDependencyOn p a = HasDependencyOn q a)
    (a : P) (h : Reachable HasDependencyOn av requested a) : GetId a ∈ res.map GetId := by
  induction h with
  | direct r a hr ha hdep =>
    exact hclosed r (Extends_sublist GetId HasDependencyOn av requested res hext r hr) a ha hdep
  | step b a hb ha hdep ih =>
    obtain ⟨q, hq, hqb⟩ := List.mem_map.1 ih
    obtain ⟨added, rfl, hav, _⟩ := hext
    have hq2 : q ∈ requested ++ av := by
      rcases List.mem_append.1 hq with h | h
      · exact List.mem_append_left _ h
      · exact List.mem_append_right _ (hav q h)
    have hb2 : b ∈ requested ++ av := by
      cases hb with
      | direct _ _ _ hb1 _ => exact List.mem_append_right _ hb1
      | step _ _ _ hb1 _ => exact List.mem_append_right _ hb1
    have hdep2 : HasDependencyOn q a = true := by
      rw [hid q hq2 b hb2 hqb a ha]; exact hdep
    exact hclosed q hq a ha hdep2

/-- C30 (dependency search of `LoadProjectsToDeploy`): for every list of
available projects and more rounds than there are available projects the search
ends with the requested projects followed by added projects; the added ones are
available projects with pairwise distinct ids that are not ids of requested
projects; the result holds, by id, every available project that one of its
projects depends on, and, when projects with the same id have the same
dependencies, every available project that a requested project depends on
directly or through available projects. -/
theorem searchDependencies_spec {P : Type} (GetId : P → String)
    (HasDependencyOn : P → P → Bool) (availableProjects requested : List P) :
    ∃ added,
      (∀ fuel, availableProjects.length < fuel →
        searchDependencies GetId HasDependencyOn availableProjects fuel requested
          = some (requested ++ added)) ∧
      (∀ a ∈ added, a ∈ availableProjects) ∧
      (added.map GetId).Nodup ∧
      (∀ a ∈ added, GetId a ∉ requested.map GetId) ∧
      (∀ p ∈ requested ++ added, ∀ a ∈ availableProjects, HasDependencyOn p a = true →
        GetId a ∈ (requested ++ added).map GetId) ∧
      ((∀ p ∈ requested ++ availableProjects, ∀ q ∈ requested ++ availableProjects,
          GetId p = GetId q → ∀ a ∈ availableProjects, HasDependencyOn p a = HasDependencyOn q a) →
        ∀ a, Reachable HasDependencyOn availableProjects requested a →
          GetId a ∈ (requested ++ added).map GetId) := by
  obtain ⟨res, hres, hext, hclosed⟩ :=
    searchDependencies_result GetId HasDependencyOn availableProjects
      (availableProjects.length + 1) requested
      (Nat.lt_succ_of_le (notAdded_length_le GetId availableProjects requested))
  have hext2 := hext
  obtain ⟨added, rfl, hav, hnd, hnot, _⟩ := hext2
  refine ⟨added, ?_, hav, hnd, hnot, hclosed, ?_⟩
  · intro fuel hfuel
    exact searchDependencies_le GetId HasDependencyOn availableProjects _ requested _ hres fuel
      hfuel
  · intro hid a ha
    exact Closed_reachable GetId HasDependencyOn availableProjects requested _ hext hclosed hid a
      ha

/-- The search for the requested project `a` adds `b` and then `c`, and leaves
`d` out. -/
theorem searchDependencies_example :
    searchDependencies examples.LegacyProject.GetId examples.LegacyProject.HasDependencyOn
      examples.availableProjects 5 [⟨"a", ["b"]⟩]
      = some [⟨"a", ["b"]⟩, ⟨"b", ["c", "a"]⟩, ⟨"c", []⟩] := by
  decide

end v1
end project

/-! ## The authentication check reports one violation -/

namespace deploy

open config project manifest

/-- The first hit of `findSome?` is the head of `filterMap`. -/
theorem findSome_filterMap_head {α β : Type} (f : α → Option β) (l : List α) :
    l.findSome? f = (l.filterMap f).head? := by
  induction l with
  | nil => rfl
  | cons x xs ih =>
    cases h : f x with
    | none => rw [List.findSome?_cons, h, List.filterMap_cons_none h]; exact ih
    | some y => rw [List.findSome?_cons, h, List.filterMap_cons_some h]; rfl

/-- The first head found among the lists is the head of their concatenation. -/
theorem findSome_flatMap_head {α β : Type} (g : α → List β) (l : List α) :
    l.findSome? (fun x => (g x).head?) = (l.flatMap g).head? := by
  induction l with
  | nil => rfl
  | cons x xs ih =>
    rw [List.findSome?_cons, List.flatMap_cons]
    cases h : g x with
    | nil => rw [List.head?_nil, List.nil_append]; exact ih
    | cons y ys => rfl

/-- C32, amended: `validateAuthenticationWithProjectConfigs` returns the first
violation in the order of its loops over projects, environments, files and
configs, and no error when there is no violation; later violations are not
reported. -/
theorem validateAuthenticationWithProjectConfigs_first (projects : List Project)
    (environments : List (String × EnvironmentDefinition)) :
    validateAuthenticationWithProjectConfigs projects environments
      = (authenticationViolations projects environments).head? := by
  unfold validateAuthenticationWithProjectConfigs authenticationViolations
  rw [← findSome_flatMap_head]
  congr 1
  funext p
  rw [← findSome_flatMap_head]
  congr 1
  funext env
  rw [← findSome_flatMap_head]
  congr 1
  funext file
  exact findSome_filterMap_head _ _

/-- C32, as stated, fails: a dashboard config for `dev` and a bucket config for
`prod`, on environments without credentials, are two violations; the result is
the first of them and says nothing of the second. -/
theorem validateAuthenticationWithProjectConfigs_counterexample :
    authenticationViolations [examples.twoEnvironmentsProject]
        [("dev", examples.bareEnvironment), ("prod", examples.bareEnvironment)]
      = [AuthenticationError.requiresToken (Type'.ClassicApiType "dashboard") "dev",
         AuthenticationError.requiresOAuth Type'.BucketType "prod"] ∧
    validateAuthenticationWithProjectConfigs [examples.twoEnvironmentsProject]
        [("dev", examples.bareEnvironment), ("prod", examples.bareEnvironment)]
      = some (AuthenticationError.requiresToken (Type'.ClassicApiType "dashboard") "dev") ∧
    validateAuthenticationWithProjectConfigs [examples.twoEnvironmentsProject]
        [("dev", examples.bareEnvironment), ("prod", examples.bareEnvironment)]
      ≠ some (AuthenticationError.requiresOAuth Type'.BucketType "prod") := by
  decide

end deploy

/-! ## Paths that contain the name of an API -/

namespace strings

theorem containsChars_iff (sub : List Char) :
    ∀ s : List Char, containsChars sub s = true ↔ sub <:+: s := by
  intro s
  induction s with
  | nil =>
    simp only [containsChars, List.isEmpty_iff, List.infix_nil]
  | cons c cs ih =>
    simp only [containsChars, Bool.or_eq_true, List.isPrefixOf_iff_prefix, ih]
    rw [List.infix_cons_iff]

/-- The first segment is the start of the text. -/
theorem splitChars_head (sep : Char) :
    ∀ (s first : List Char) (rest : List (List Char)),
      splitChars sep s = first :: rest → first <+: s := by
  intro s
  induction s with
  | nil =>
    intro first rest h
    simp only [splitChars, List.cons.injEq] at h
    rw [← h.1]
  | cons c cs ih =>
    intro first rest h
    unfold splitChars at h
    by_cases hc : c = sep
    · rw [if_pos hc] at h
      simp only [List.cons.injEq] at h
      rw [← h.1]
      exact List.nil_prefix
    · rw [if_neg hc] at h
      cases hs : splitChars sep cs with
      | nil =>
        rw [hs] at h
        simp only [List.cons.injEq] at h
        rw [← h.1]
        exact (List.prefix_cons_inj c).2 List.nil_prefix
      | cons first1 rest1 =>
        rw [hs] at h
        simp only [List.cons.injEq] at h
        rw [← h.1]
        exact (List.prefix_cons_inj c).2 (ih first1 rest1 hs)

/-- Every segment between separators is a contiguous run of the text. -/
theorem splitChars_infix (sep : Char) :
    ∀ (s : List Char) (seg : List Char), seg ∈ splitChars sep s → seg <:+: s := by
  intro s
  induction s with
  | nil =>
    intro seg h
    simp only [splitChars, List.mem_singleton] at h
    rw [h]
  | cons c cs ih =>
    intro seg h
    cases hsplit : splitChars sep (c :: cs) with
    | nil => rw [hsplit] at h; exact absurd h (List.not_mem_nil _)
    | cons first rest =>
      rw [hsplit] at h
      rcases List.mem_cons.1 h with h1 | h1
      · rw [h1]
        exact (splitChars_head sep (c :: cs) first rest hsplit).isInfix
      · unfold splitChars at hsplit
        by_cases hc : c = sep
        · rw [if_pos hc] at hsplit
          simp only [List.cons.injEq] at hsplit
          exact List.infix_cons (ih seg (by rw [hsplit.2]; exact h1))
        · rw [if_neg hc] at hsplit
          cases hs : splitChars sep cs with
          | nil =>
            rw [hs] at hsplit
            simp only [List.cons.injEq] at hsplit
            rw [← hsplit.2] at h1
            exact absurd h1 (List.not_mem_nil _)
          | cons first1 rest1 =>
            rw [hs] at hsplit
            simp only [List.cons.injEq] at hsplit
            exact List.infix_cons (ih seg (by
              rw [hs, hsplit.2]; exact List.mem_cons_of_mem _ h1))

end strings

namespace api

/-- The function `ContainsApiName` tests whether some API id occurs in the path
as a substring. -/
theorem ContainsApiName_iff (path : String) :
    ContainsApiName path = true ↔ ∃ id ∈ apiMap, id.toList <:+: path.toList := by
  simp only [ContainsApiName, List.any_eq_true, strings.ContainsSubstring,
    strings.containsChars_iff]

/-- C35, amended: `ContainsApiName path` is true exactly when some API id occurs
in the path as a substring; a path with a component that is an API id is one such
path. -/
theorem ContainsApiName_spec (path : String) :
    (ContainsApiName path = true ↔ ∃ id ∈ apiMap, id.toList <:+: path.toList) ∧
    ((∃ c ∈ strings.Split path '/', IsApi c = true) → ContainsApiName path = true) := by
  refine ⟨ContainsApiName_iff path, ?_⟩
  rintro ⟨c, hc, hapi⟩
  rw [ContainsApiName_iff]
  simp only [IsApi, List.contains_iff_exists_mem_beq, beq_iff_eq] at hapi
  obtain ⟨id, hid, rfl⟩ := hapi
  refine ⟨c, hid, ?_⟩
  simp only [strings.Split, List.mem_map] at hc
  obtain ⟨seg, hseg, rfl⟩ := hc
  exact strings.splitChars_infix '/' path.toList seg hseg

/-- C35, as stated, fails: `ContainsApiName` is true for `projects/my-dashboards`
and for `slo-configs`, although no component of these paths is an API id. -/
theorem ContainsApiName_counterexample :
    ContainsApiName "projects/my-dashboards" = true ∧
    ContainsApiName "slo-configs" = true ∧
    (∀ c ∈ strings.Split "projects/my-dashboards" '/', IsApi c = false) ∧
    (∀ c ∈ strings.Split "slo-configs" '/', IsApi c = false) := by
  decide

end api

/-! ## The version check of extensions -/

namespace dtclient

/-- C34 (string comparison of versions): a 404 on the lookup gives
`extensionNeedsUpdate` without error; when the lookup gives the deployed version
and the payload the local version, the status is `extensionConfigOutdated`
exactly when deployed > local as strings, and exactly then there is an error; it
is `extensionUpToDate` exactly when the two strings are equal and
`extensionNeedsUpdate` otherwise. As strings `1.9` > `1.10`, so the local `1.10`
is rejected against the deployed `1.9`. -/
theorem validateIfExtensionShouldBeUploaded_spec (d : DynatraceClient)
    (apiPath extensionName payload : String) (response : rest.Response)
    (curVersion newVersion : String) :
    (d.Get (apiPath ++ "/" ++ extensionName) = (response, none) → response.StatusCode = 404 →
      validateIfExtensionShouldBeUploaded d apiPath extensionName payload
        = (extensionStatus.extensionNeedsUpdate, none)) ∧
    (d.Get (apiPath ++ "/" ++ extensionName) = (response, none) → response.StatusCode ≠ 404 →
      d.Unmarshal response.Body = .ok (some curVersion) →
      d.Unmarshal payload = .ok (some newVersion) →
      ((validateIfExtensionShouldBeUploaded d apiPath extensionName payload).1
          = extensionStatus.extensionConfigOutdated
        ↔ 0 < strings.Compare curVersion newVersion) ∧
      ((validateIfExtensionShouldBeUploaded d apiPath extensionName payload).2 ≠ none
        ↔ 0 < strings.Compare curVersion newVersion) ∧
      ((validateIfExtensionShouldBeUploaded d apiPath extensionName payload).1
          = extensionStatus.extensionUpToDate
        ↔ curVersion = newVersion) ∧
      ((validateIfExtensionShouldBeUploaded d apiPath extensionName payload).1
          = extensionStatus.extensionNeedsUpdate
        ↔ ¬ 0 < strings.Compare curVersion newVersion ∧ curVersion ≠ newVersion)) ∧
    0 < strings.Compare "1.9" "1.10" ∧
    (validateIfExtensionShouldBeUploaded (examples.extensionClient "1.9") "api" "ext" "1.10").1
      = extensionStatus.extensionConfigOutdated := by
  refine ⟨?_, ?_, by decide, by decide⟩
  · intro hget h404
    simp [validateIfExtensionShouldBeUploaded, hget, h404]
  · intro hget h404 hcur hnew
    have hself : ∀ v : String, strings.Compare v v = 0 := by
      intro v
      have := strings.Compare_neg v v
      omega
    by_cases he : curVersion = newVersion
    · subst he
      simp [validateIfExtensionShouldBeUploaded, hget, h404, hcur, hnew, hself]
    · by_cases hlt : 0 < strings.Compare curVersion newVersion
      · simp [validateIfExtensionShouldBeUploaded, hget, h404, hcur, hnew, hlt, he]
      · simp [validateIfExtensionShouldBeUploaded, hget, h404, hcur, hnew, hlt, he]

/-- C37 fails on the code: for the extension `custom.ext`, deployed in version
`2.0`, and the local version `1.0`, the error names the extension where its text
says version and the deployed version where it says extension. -/
theorem validateIfExtensionShouldBeUploaded_message :
    validateIfExtensionShouldBeUploaded (examples.extensionClient "2.0") "api" "custom.ext" "1.0"
      = (extensionStatus.extensionConfigOutdated,
          some "already deployed version (custom.ext) of extension (2.0) is newer than local (1.0)") := by
  decide

end dtclient

/-! ## Sending with retries -/

namespace rest

theorem rounds_succ (timeout : Int) (n k : Nat) :
    rounds timeout n (k + 1)
      = [Event.sleep timeout, Event.call n] ++ rounds timeout (n + 1) k := by
  unfold rounds
  rw [List.range_succ_eq_map, List.flatMap_cons, List.flatMap_map]
  simp only [Nat.add_zero, List.cons_append, List.nil_append, List.cons.injEq, true_and]
  apply List.flatMap_congr
  intro i _
  rw [show n + (i + 1) = n + 1 + i by omega]

theorem sendLoop_fail (restCall : Nat → String → String → String → Response × Option String)
    (objectName path body apiToken : String) (maxRetries timeout : Int) :
    ∀ (remaining n : Nat) (last : Response × Option String) (events : List Event),
      (∀ j, j < remaining → succeeded (restCall (n + j) path body apiToken) = false) →
      ∃ err, sendLoop restCall objectName path body apiToken maxRetries timeout remaining n last
          events
        = ((Response.empty, some err), events ++ rounds timeout n remaining) := by
  intro remaining
  induction remaining with
  | zero =>
    intro n last events _
    exact ⟨sendError objectName maxRetries last, by simp [sendLoop, rounds]⟩
  | succ k ih =>
    intro n last events h
    have h0 := h 0 (Nat.succ_pos k)
    rw [Nat.add_zero] at h0
    have hnot : ¬ ((restCall n path body apiToken).2 = none
        ∧ success (restCall n path body apiToken).1 = true) := by
      intro hs
      rw [(succeeded_iff _).2 hs] at h0
      exact Bool.noConfusion h0
    obtain ⟨err, herr⟩ := ih (n + 1) (restCall n path body apiToken)
      (events ++ [Event.sleep timeout] ++ [Event.call n]) (by
        intro j hj
        have := h (j + 1) (Nat.succ_lt_succ hj)
        rwa [show n + (j + 1) = n + 1 + j by omega] at this)
    refine ⟨err, ?_⟩
    simp only [sendLoop, hnot, if_false, herr, rounds_succ]
    simp

theorem sendLoop_first (restCall : Nat → String → String → String → Response × Option String)
    (objectName path body apiToken : String) (maxRetries timeout : Int) :
    ∀ (remaining n k : Nat) (last : Response × Option String) (events : List Event),
      k < remaining →
      (∀ j, j < k → succeeded (restCall (n + j) path body apiToken) = false) →
      succeeded (restCall (n + k) path body apiToken) = true →
      sendLoop restCall objectName path body apiToken maxRetries timeout remaining n last events
        = (((restCall (n + k) path body apiToken).1, none),
            events ++ rounds timeout n (k + 1)) := by
  intro remaining
  induction remaining with
  | zero => intro n k last events hk; exact absurd hk (Nat.not_lt_zero k)
  | succ m ih =>
    intro n k last events hk hfail hok
    cases k with
    | zero =>
      rw [Nat.add_zero] at hok
      have hs := (succeeded_iff _).1 hok
      simp only [sendLoop, hs, and_self, if_true, Nat.add_zero, rounds_succ]
      have : rounds timeout (n + 1) 0 = [] := rfl
      rw [this, ← hs.1]
      simp
    | succ k =>
      have h0 := hfail 0 (Nat.succ_pos k)
      rw [Nat.add_zero] at h0
      have hnot : ¬ ((restCall n path body apiToken).2 = none
          ∧ success (restCall n path body apiToken).1 = true) := by
        intro hs
        rw [(succeeded_iff _).2 hs] at h0
        exact Bool.noConfusion h0
      have := ih (n + 1) k (restCall n path body apiToken)
        (events ++ [Event.sleep timeout] ++ [Event.call n]) (Nat.lt_of_succ_lt_succ hk) (by
          intro j hj
          have := hfail (j + 1) (Nat.succ_lt_succ hj)
          rwa [show n + (j + 1) = n + 1 + j by omega] at this) (by
          rwa [show n + (k + 1) = n + 1 + k by omega] at hok)
      simp only [sendLoop, hnot, if_false, this, rounds_succ timeout n (k + 1)]
      rw [show n + 1 + k = n + (k + 1) by omega]
      simp

/-- The three cases of `sendWithRetry`: a first success, no success, and
`maxRetries = 0`. -/
theorem sendWithRetry_cases
    (restCall : Nat → String → String → String → Response × Option String)
    (objectName path body apiToken : String) (maxRetries timeout : Int) :
    (∀ k, k < maxRetries.toNat →
      (∀ j, j < k → succeeded (restCall j path body apiToken) = false) →
      succeeded (restCall k path body apiToken) = true →
      sendWithRetry restCall objectName path body apiToken maxRetries timeout
        = (((restCall k path body apiToken).1, none), rounds timeout 0 (k + 1))) ∧
    ((∀ j, j < maxRetries.toNat → succeeded (restCall j path body apiToken) = false) →
      ∃ err, sendWithRetry restCall objectName path body apiToken maxRetries timeout
        = ((Response.empty, some err), rounds timeout 0 maxRetries.toNat)) ∧
    (∃ err, sendWithRetry restCall objectName path body apiToken 0 timeout
        = ((Response.empty, some err), [])) := by
  refine ⟨?_, ?_, ⟨_, rfl⟩⟩
  · intro k hk hfail hok
    have := sendLoop_first restCall objectName path body apiToken maxRetries timeout
      maxRetries.toNat 0 k (Response.empty, none) [] hk
      (by intro j hj; rw [Nat.zero_add]; exact hfail j hj) (by rw [Nat.zero_add]; exact hok)
    rw [Nat.zero_add, List.nil_append] at this
    exact this
  · intro hfail
    obtain ⟨err, herr⟩ := sendLoop_fail restCall objectName path body apiToken maxRetries timeout
      maxRetries.toNat 0 (Response.empty, none) []
      (by intro j hj; rw [Nat.zero_add]; exact hfail j hj)
    exact ⟨err, by rw [List.nil_append] at herr; exact herr⟩

/-- C39 (retry starts with a wait): what `sendWithRetry` does is `k` rounds of
one sleep of `timeout` followed by one call, for some `k ≤ maxRetries.toNat`, so
nothing is sent before the first sleep. When call `k` is the first successful one
it returns that response with the nil error after `k + 1` rounds; when none of
the `maxRetries.toNat` calls succeeds, whatever their results, it returns the empty
response and an error; for `maxRetries = 0` it returns the empty response and an
error and nothing happens at all. -/
theorem sendWithRetry_spec
    (restCall : Nat → String → String → String → Response × Option String)
    (objectName path body apiToken : String) (maxRetries timeout : Int) :
    (∃ k, k ≤ maxRetries.toNat ∧
      (sendWithRetry restCall objectName path body apiToken maxRetries timeout).2
        = rounds timeout 0 k) ∧
    (∀ k, k < maxRetries.toNat →
      (∀ j, j < k → succeeded (restCall j path body apiToken) = false) →
      succeeded (restCall k path body apiToken) = true →
      sendWithRetry restCall objectName path body apiToken maxRetries timeout
        = (((restCall k path body apiToken).1, none), rounds timeout 0 (k + 1))) ∧
    ((∀ j, j < maxRetries.toNat → succeeded (restCall j path body apiToken) = false) →
      ∃ err, sendWithRetry restCall objectName path body apiToken maxRetries timeout
        = ((Response.empty, some err), rounds timeout 0 maxRetries.toNat)) ∧
    (∃ err, sendWithRetry restCall objectName path body apiToken 0 timeout
        = ((Response.empty, some err), [])) := by
  have hcases := sendWithRetry_cases restCall objectName path body apiToken maxRetries timeout
  refine ⟨?_, hcases⟩
  by_cases h : ∃ k, k < maxRetries.toNat ∧ succeeded (restCall k path body apiToken) = true
  · classical
    have hmin : ∀ j, j < Nat.find h →
        ¬ (j < maxRetries.toNat ∧ succeeded (restCall j path body apiToken) = true) :=
      fun j hj => Nat.find_min h hj
    obtain ⟨hlt, hok⟩ := Nat.find_spec h
    refine ⟨Nat.find h + 1, hlt, ?_⟩
    rw [hcases.1 (Nat.find h) hlt ?_ hok]
    intro j hj
    have hnot := hmin j hj
    cases hs : succeeded (restCall j path body apiToken) with
    | false => rfl
    | true => exact absurd ⟨Nat.lt_trans hj hlt, hs⟩ hnot
  · refine ⟨maxRetries.toNat, Nat.le_refl _, ?_⟩
    obtain ⟨err, herr⟩ := hcases.2.1 (by
      intro j hj
      cases hs : succeeded (restCall j path body apiToken) with
      | false => rfl
      | true => exact absurd ⟨j, hj, hs⟩ h)
    rw [herr]

/-- A run of `sendWithRetry` whose first call is answered 503 and whose second
call is answered 200: two sleeps, two calls, and the second response. -/
theorem sendWithRetry_example :
    sendWithRetry examples.secondCallSucceeds "dashboard" "/api" "body" "token" 3 5
      = ((⟨200, "ok", []⟩, none),
         [Event.sleep 5, Event.call 0, Event.sleep 5, Event.call 1]) := by
  decide

end rest

/-! ## The counters of the summary -/

namespace report

theorem process_counts :
    ∀ (records : List record) (d : defaultReporter),
      (∀ r ∈ records, r.State = State_DEPL_SUCCESS ∨ r.State = State_DEPL_EXCLUDED
        ∨ r.State = State_DEPL_SKIPPED) →
      ∃ d1, d.process records = some d1 ∧
        d1.started = d.started ∧
        d1.ended = ((records.getLast?).map (fun r => r.Time)).getD d.ended ∧
        d1.deploymentFinishedCount
          = d.deploymentFinishedCount + countState State_DEPL_SUCCESS records ∧
        d1.deploymentsExcludedCount
          = d.deploymentsExcludedCount + countState State_DEPL_EXCLUDED records ∧
        d1.deploymentsSkippedCount
          = d.deploymentsSkippedCount + countState State_DEPL_SKIPPED records := by
  intro records
  induction records with
  | nil =>
    intro d _
    exact ⟨d, rfl, rfl, rfl, by simp [countState], by simp [countState], by simp [countState]⟩
  | cons r rs ih =>
    intro d hstates
    have hr := hstates r (List.mem_cons_self _ _)
    have hrs : ∀ x ∈ rs, x.State = State_DEPL_SUCCESS ∨ x.State = State_DEPL_EXCLUDED
        ∨ x.State = State_DEPL_SKIPPED := fun x hx => hstates x (List.mem_cons_of_mem _ hx)
    have hlast : (((r :: rs).getLast?).map (fun r => r.Time)).getD d.ended
        = ((rs.getLast?).map (fun r => r.Time)).getD r.Time := by
      cases rs with
      | nil => rfl
      | cons x xs => rw [List.getLast?_cons_cons]; simp [List.getLast?_cons]
    have hne1 : State_DEPL_SUCCESS ≠ State_DEPL_EXCLUDED := by decide
    have hne2 : State_DEPL_SUCCESS ≠ State_DEPL_SKIPPED := by decide
    have hne3 : State_DEPL_EXCLUDED ≠ State_DEPL_SKIPPED := by decide
    rcases hr with h | h | h
    · obtain ⟨d1, hd1, h1, h2, h3, h4, h5⟩ := ih
        { d with ended := r.Time, deploymentFinishedCount := d.deploymentFinishedCount + 1 } hrs
      refine ⟨d1, ?_, h1, by rw [hlast]; exact h2, ?_, ?_, ?_⟩
      · simp only [defaultReporter.process, List.foldlM_cons,
          defaultReporter.updateSummaryFromRecord, h, if_true] at hd1 ⊢
        exact hd1
      · rw [h3]; simp only [countState, List.filter_cons, h, decide_True, if_true,
          List.length_cons]; push_cast; ring
      · rw [h4]; simp [countState, List.filter_cons, h, hne1]
      · rw [h5]; simp [countState, List.filter_cons, h, hne2]
    · obtain ⟨d1, hd1, h1, h2, h3, h4, h5⟩ := ih
        { d with ended := r.Time, deploymentsExcludedCount := d.deploymentsExcludedCount + 1 } hrs
      refine ⟨d1, ?_, h1, by rw [hlast]; exact h2, ?_, ?_, ?_⟩
      · simp only [defaultReporter.process, List.foldlM_cons,
          defaultReporter.updateSummaryFromRecord, h, hne1.symm, if_false, if_true] at hd1 ⊢
        exact hd1
      · rw [h3]; simp [countState, List.filter_cons, h, hne1.symm]
      · rw [h4]; simp only [countState, List.filter_cons, h, decide_True, if_true,
          List.length_cons]; push_cast; ring
      · rw [h5]; simp [countState, List.filter_cons, h, hne3]
    · obtain ⟨d1, hd1, h1, h2, h3, h4, h5⟩ := ih
        { d with ended := r.Time, deploymentsSkippedCount := d.deploymentsSkippedCount + 1 } hrs
      refine ⟨d1, ?_, h1, by rw [hlast]; exact h2, ?_, ?_, ?_⟩
      · simp only [defaultReporter.process, List.foldlM_cons,
          defaultReporter.updateSummaryFromRecord, h, hne2.symm, hne3.symm, if_false,
          if_true] at hd1 ⊢
        exact hd1
      · rw [h3]; simp [countState, List.filter_cons, h, hne2.symm]
      · rw [h4]; simp [countState, List.filter_cons, h, hne3.symm]
      · rw [h5]; simp only [countState, List.filter_cons, h, decide_True, if_true,
          List.length_cons]; push_cast; ring

end report

namespace report

theorem countState_sum :
    ∀ records : List record,
      (∀ r ∈ records, r.State = State_DEPL_SUCCESS ∨ r.State = State_DEPL_EXCLUDED
        ∨ r.State = State_DEPL_SKIPPED) →
      countState State_DEPL_SUCCESS records + countState State_DEPL_EXCLUDED records
        + countState State_DEPL_SKIPPED records = (records.length : Int) := by
  intro records
  induction records with
  | nil => intro _; rfl
  | cons r rs ih =>
    intro hstates
    have hr := hstates r (List.mem_cons_self _ _)
    have ih1 := ih (fun x hx => hstates x (List.mem_cons_of_mem _ hx))
    have hne1 : State_DEPL_SUCCESS ≠ State_DEPL_EXCLUDED := by decide
    have hne2 : State_DEPL_SUCCESS ≠ State_DEPL_SKIPPED := by decide
    have hne3 : State_DEPL_EXCLUDED ≠ State_DEPL_SKIPPED := by decide
    simp only [countState] at ih1 ⊢
    rcases hr with h | h | h
    · simp only [List.filter_cons, h, decide_True, if_true, hne1, hne2, decide_False,
        List.length_cons]
      push_cast
      omega
    · simp only [List.filter_cons, h, decide_True, if_true, hne1.symm, hne3, decide_False,
        List.length_cons]
      push_cast
      omega
    · simp only [List.filter_cons, h, decide_True, if_true, hne2.symm, hne3.symm, decide_False,
        List.length_cons]
      push_cast
      omega

/-- C40 (summary counters): when a new default reporter processes records whose
states are `SUCCESS`, `EXCLUDED` or `SKIPPED`, every update completes, each of
the three counters is the number of processed records in its state, their sum is
the number of processed records, the end time is the time of the last record, and
`GetSummary` prints these numbers. -/
theorem process_summary (now : Time) (records : List record) (format : Time → String)
    (sub : Time → Time → String)
    (hstates : ∀ r ∈ records, r.State = State_DEPL_SUCCESS ∨ r.State = State_DEPL_EXCLUDED
      ∨ r.State = State_DEPL_SKIPPED) :
    ∃ d, (NewDefaultReporter now).process records = some d ∧
      d.deploymentFinishedCount = countState State_DEPL_SUCCESS records ∧
      d.deploymentsExcludedCount = countState State_DEPL_EXCLUDED records ∧
      d.deploymentsSkippedCount = countState State_DEPL_SKIPPED records ∧
      d.deploymentFinishedCount + d.deploymentsExcludedCount + d.deploymentsSkippedCount
        = (records.length : Int) ∧
      (∀ last, records.getLast? = some last → d.ended = last.Time) ∧
      d.GetSummary format sub
        = "Deployments success: " ++ toString (countState State_DEPL_SUCCESS records) ++ "\n"
          ++ "Deployments excluded: " ++ toString (countState State_DEPL_EXCLUDED records) ++ "\n"
          ++ "Deployments skipped: " ++ toString (countState State_DEPL_SKIPPED records) ++ "\n"
          ++ "Deploy Start Time: " ++ format now ++ "\n"
          ++ "Deploy End Time: " ++ format d.ended ++ "\n"
          ++ "Deploy Duration: " ++ sub d.ended now ++ "\n" := by
  obtain ⟨d, hd, h1, h2, h3, h4, h5⟩ := process_counts records (NewDefaultReporter now) hstates
  simp only [NewDefaultReporter, Int.zero_add] at h1 h2 h3 h4 h5
  refine ⟨d, hd, h3, h4, h5, ?_, ?_, ?_⟩
  · rw [h3, h4, h5]
    exact countState_sum records hstates
  · intro last hlast
    rw [h2, hlast]
    rfl
  · simp only [defaultReporter.GetSummary, h1, h3, h4, h5]

/-- Witness of C40: a success, a skipped record and another success. -/
theorem process_summary_witness :
    (∀ r ∈ examples.processedRecords, r.State = State_DEPL_SUCCESS
      ∨ r.State = State_DEPL_EXCLUDED ∨ r.State = State_DEPL_SKIPPED) ∧
    ∃ d, (NewDefaultReporter ⟨1700000000, 0⟩).process examples.processedRecords = some d ∧
      d.deploymentFinishedCount = countState State_DEPL_SUCCESS examples.processedRecords ∧
      d.deploymentsExcludedCount = countState State_DEPL_EXCLUDED examples.processedRecords ∧
      d.deploymentsSkippedCount = countState State_DEPL_SKIPPED examples.processedRecords ∧
      d.deploymentFinishedCount + d.deploymentsExcludedCount + d.deploymentsSkippedCount
        = (examples.processedRecords.length : Int) ∧
      (∀ last, examples.processedRecords.getLast? = some last → d.ended = last.Time) ∧
      d.GetSummary (fun t => toString t.sec) (fun a b => toString (a.sec - b.sec))
        = "Deployments success: "
          ++ toString (countState State_DEPL_SUCCESS examples.processedRecords) ++ "\n"
          ++ "Deployments excluded: "
          ++ toString (countState State_DEPL_EXCLUDED examples.processedRecords) ++ "\n"
          ++ "Deployments skipped: "
          ++ toString (countState State_DEPL_SKIPPED examples.processedRecords) ++ "\n"
          ++ "Deploy Start Time: " ++ (fun t : Time => toString t.sec) ⟨1700000000, 0⟩ ++ "\n"
          ++ "Deploy End Time: " ++ (fun t : Time => toString t.sec) d.ended ++ "\n"
          ++ "Deploy Duration: "
          ++ (fun a b : Time => toString (a.sec - b.sec)) d.ended ⟨1700000000, 0⟩ ++ "\n" :=
  ⟨by decide, process_summary ⟨1700000000, 0⟩ examples.processedRecords _ _ (by decide)⟩

/-- The summary of the example -/
theorem process_example :
    ((NewDefaultReporter ⟨1700000000, 0⟩).process examples.processedRecords).map
        (fun d => (d.deploymentFinishedCount, d.deploymentsExcludedCount,
          d.deploymentsSkippedCount, d.ended))
      = some (2, 0, 1, ⟨1700000003, 0⟩) := by
  decide

end report

/-! ## Upserts of the account management client -/

namespace deployer

theorem handleClientResponseError_some (r : HttpResponse) (clientErr : Option String)
    (errMessage : String) :
    handleClientResponseError (some r) clientErr errMessage = some none ↔
      IsSuccess r = true ∨ r.StatusCode = 404 := by
  unfold handleClientResponseError
  by_cases hs : IsSuccess r = true
  · simp [hs]
  · by_cases h404 : r.StatusCode = 404
    · simp [hs, h404]
    · cases hb : r.Body <;> simp [hs, h404, hb]

end deployer

namespace deployer

theorem handleClientResponseError_eq_nil (resp : Option HttpResponse)
    (clientErr : Option String) (errMessage : String) :
    handleClientResponseError resp clientErr errMessage = some none ↔ accepted resp := by
  cases resp with
  | none =>
    cases clientErr <;> simp [handleClientResponseError, accepted]
  | some r =>
    rw [handleClientResponseError_some]
    simp [accepted]

/-- C31 (upsert of a policy): with a non-empty origin object id `upsertPolicy`
sends one update of that id and returns the id, without a lookup. Without one it
looks the policy up by name; when the lookup returns no policy it creates the
policy and returns the UUID of the created one, and when it returns policies it
updates the first one and returns its UUID, however many there are. Each case is
for requests whose response `handleClientResponseError` accepts. -/
theorem upsertPolicy_spec (client : Client) (policyLevel policyLevelId policyId : String)
    (policy : Policy) :
    (policyId ≠ "" →
      accepted (client.UpdateLevelPolicy policyLevel policyLevelId policyId policy).1 →
      upsertPolicy client policyLevel policyLevelId policyId policy
        = some ((policyId, none), [Call.updatePolicy policyId])) ∧
    (policyId = "" →
      accepted (client.GetLevelPolicies policyLevel policyLevelId policy.Name).2.1 →
      ((client.GetLevelPolicies policyLevel policyLevelId policy.Name).1.getD [] = [] →
        accepted (client.CreateLevelPolicy policyLevel policyLevelId policy).2.1 →
        upsertPolicy client policyLevel policyLevelId policyId policy
          = some ((((client.CreateLevelPolicy policyLevel policyLevelId policy).1.map
                (fun p => p.Uuid)).getD "", none),
              [Call.getPolicies policy.Name, Call.createPolicy policy.Name])) ∧
      (∀ first rest,
        (client.GetLevelPolicies policyLevel policyLevelId policy.Name).1.getD [] = first :: rest →
        accepted (client.UpdateLevelPolicy policyLevel policyLevelId first.Uuid policy).1 →
        upsertPolicy client policyLevel policyLevelId policyId policy
          = some ((first.Uuid, none),
              [Call.getPolicies policy.Name, Call.updatePolicy first.Uuid]))) := by
  constructor
  · intro hid hacc
    have h := (handleClientResponseError_eq_nil _
      (client.UpdateLevelPolicy policyLevel policyLevelId policyId policy).2
      ("unable to update policy with UUID: " ++ policyId)).2 hacc
    simp only [upsertPolicy, hid, ne_eq, not_false_eq_true, if_true, h]
  · intro hid hget
    have h := (handleClientResponseError_eq_nil _
      (client.GetLevelPolicies policyLevel policyLevelId policy.Name).2.2
      ("unable to get policy with name: " ++ policy.Name)).2 hget
    constructor
    · intro hnone hcreate
      have hc := (handleClientResponseError_eq_nil _
        (client.CreateLevelPolicy policyLevel policyLevelId policy).2.2
        ("unable to create policy with name: " ++ policy.Name)).2 hcreate
      simp only [upsertPolicy, hid, ne_eq, not_true_eq_false, if_false, h, hnone, hc]
    · intro first rest hsome hupdate
      have hu := (handleClientResponseError_eq_nil _
        (client.UpdateLevelPolicy policyLevel policyLevelId first.Uuid policy).2
        ("unable to update policy with name: " ++ policy.Name)).2 hupdate
      simp only [upsertPolicy, hid, ne_eq, not_true_eq_false, if_false, h, hsome, hu]

/-- The upserts on an account without the policy: created without an origin
object id, and the origin object id returned on a 404. -/
theorem upsertPolicy_example :
    upsertPolicy examples.missingObjects "account" "acc" "" ⟨"readers", "", "ALLOW x;"⟩
      = some (("new-uuid", none), [Call.getPolicies "readers", Call.createPolicy "readers"]) ∧
    upsertPolicy examples.missingObjects "account" "acc" "gone" ⟨"readers", "", "ALLOW x;"⟩
      = some (("gone", none), [Call.updatePolicy "gone"]) ∧
    upsertGroup examples.missingObjects "acc" "gone" ⟨"team", ""⟩
      = some (("gone", none), [Call.editGroup "gone"]) := by
  decide

/-- C38 (404 counts as success): for a response that is not nil
`handleClientResponseError` returns nil exactly when the status is a success
status or 404, whatever the client error is; so `upsertPolicy` and `upsertGroup`
with an origin object id, whose update is answered 404, return that id with no
error after this one request. -/
theorem handleClientResponseError_notFound :
    (∀ (r : HttpResponse) (clientErr : Option String) (errMessage : String),
      handleClientResponseError (some r) clientErr errMessage = some none ↔
        IsSuccess r = true ∨ r.StatusCode = 404) ∧
    (∀ (client : Client) (policyLevel policyLevelId policyId : String) (policy : Policy)
      (r : HttpResponse), policyId ≠ "" →
      (client.UpdateLevelPolicy policyLevel policyLevelId policyId policy).1 = some r →
      r.StatusCode = 404 →
      upsertPolicy client policyLevel policyLevelId policyId policy
        = some ((policyId, none), [Call.updatePolicy policyId])) ∧
    (∀ (client : Client) (accountUUID groupId : String) (group : Group) (r : HttpResponse),
      groupId ≠ "" →
      (client.EditGroup accountUUID groupId group).1 = some r →
      r.StatusCode = 404 →
      upsertGroup client accountUUID groupId group
        = some ((groupId, none), [Call.editGroup groupId])) := by
  refine ⟨handleClientResponseError_some, ?_, ?_⟩
  · intro client policyLevel policyLevelId policyId policy r hid hr h404
    have h := (handleClientResponseError_eq_nil
      (client.UpdateLevelPolicy policyLevel policyLevelId policyId policy).1
      (client.UpdateLevelPolicy policyLevel policyLevelId policyId policy).2
      ("unable to update policy with UUID: " ++ policyId)).2 ⟨r, hr, Or.inr h404⟩
    simp only [upsertPolicy, hid, ne_eq, not_false_eq_true, if_true, h]
  · intro client accountUUID groupId group r hid hr h404
    have h := (handleClientResponseError_eq_nil
      (client.EditGroup accountUUID groupId group).1
      (client.EditGroup accountUUID groupId group).2
      ("unable to update group with UUID: " ++ groupId)).2 ⟨r, hr, Or.inr h404⟩
    simp only [upsertGroup, hid, ne_eq, not_false_eq_true, if_true, h]

end deployer

/-! ## The errors of a failed config sort -/

namespace topologysort

open coordinate config

theorem foldl_indices_eq (configs : List Config) (conf : Config) :
    ∀ (indices : List Nat) (m : List (Coordinate × CircularDependencyConfigSortError)),
      indices.foldl (fun depErrs index =>
        match configs[index]? with
        | none => depErrs
        | some dependingConfig => addDepErr depErrs dependingConfig conf) m
      = (indices.filterMap (fun index =>
          (configs[index]?).map (fun dependingConfig => (dependingConfig, conf)))).foldl
          (fun m p => addDepErr m p.1 p.2) m := by
  intro indices
  induction indices with
  | nil => intro m; rfl
  | cons i rest ih =>
    intro m
    rw [List.foldl_cons]
    cases hi : configs[i]? with
    | none =>
      rw [List.filterMap_cons_none (by rw [hi]; rfl)]
      exact ih m
    | some dep =>
      rw [List.filterMap_cons_some (by rw [hi]; rfl), List.foldl_cons]
      exact ih _

theorem foldl_collectDepErrs_eq (configs : List Config) :
    ∀ (sortErrs : List sort.TopologySortError)
      (m : List (Coordinate × CircularDependencyConfigSortError)),
      sortErrs.foldl (collectDepErrs configs) m
        = (resolvedEdges configs sortErrs).foldl (fun m p => addDepErr m p.1 p.2) m := by
  intro sortErrs
  induction sortErrs with
  | nil => intro m; rfl
  | cons e rest ih =>
    intro m
    rw [List.foldl_cons, ih]
    unfold resolvedEdges
    rw [List.flatMap_cons, List.foldl_append]
    congr 1
    unfold collectDepErrs
    cases hon : configs[e.OnId]? with
    | none => rfl
    | some conf => exact foldl_indices_eq configs conf _ m

theorem addDepErr_inv (m : List (Coordinate × CircularDependencyConfigSortError))
    (processed : List (Config × Config)) (dep conf : Config) (h : DepInv m processed) :
    DepInv (addDepErr m dep conf) (processed ++ [(dep, conf)]) := by
  unfold addDepErr
  by_cases hany : m.any (fun kv => decide (kv.1 = dep.Coordinate)) = true
  · rw [if_pos hany]
    have hkey : dep.Coordinate ∈ m.map Prod.fst := by
      obtain ⟨kv, hkv, hk⟩ := List.any_eq_true.1 hany
      exact List.mem_map.2 ⟨kv, hkv, by simpa using hk⟩
    have hfst : (m.map (fun kv =>
        if kv.1 = dep.Coordinate then
          (kv.1, { kv.2 with DependsOn := kv.2.DependsOn ++ [conf.Coordinate] })
        else kv)).map Prod.fst = m.map Prod.fst := by
      rw [List.map_map]
      apply List.map_congr_left
      intro kv _
      by_cases hk : kv.1 = dep.Coordinate <;> simp [hk]
    refine ⟨by rw [hfst]; exact h.nodup, ?_, ?_⟩
    · intro k
      rw [hfst, h.keys k]
      constructor
      · rintro ⟨p, hp, hpk⟩
        exact ⟨p, List.mem_append_left _ hp, hpk⟩
      · rintro ⟨p, hp, hpk⟩
        rcases List.mem_append.1 hp with hp1 | hp1
        · exact ⟨p, hp1, hpk⟩
        · rw [List.mem_singleton.1 hp1] at hpk
          rw [← hpk]
          exact (h.keys _).1 hkey
    · intro kv1 hkv1
      obtain ⟨kv, hkv, rfl⟩ := List.mem_map.1 hkv1
      obtain ⟨h1, ⟨p, hp, hpk, hpe⟩, h3⟩ := h.entry kv hkv
      by_cases hk : kv.1 = dep.Coordinate
      · rw [if_pos hk]
        refine ⟨h1, ⟨p, List.mem_append_left _ hp, hpk, hpe⟩, ?_⟩
        simp only
        rw [List.filter_append, List.map_append, h3]
        simp [hk]
      · rw [if_neg hk]
        refine ⟨h1, ⟨p, List.mem_append_left _ hp, hpk, hpe⟩, ?_⟩
        rw [List.filter_append, List.map_append, h3]
        have : ¬ dep.Coordinate = kv.1 := fun he => hk he.symm
        simp [this]
  · rw [if_neg hany]
    have hkey : dep.Coordinate ∉ m.map Prod.fst := by
      intro hmem
      obtain ⟨kv, hkv, hk⟩ := List.mem_map.1 hmem
      exact hany (List.any_eq_true.2 ⟨kv, hkv, by simpa using hk⟩)
    have hnone : ∀ p ∈ processed, p.1.Coordinate ≠ dep.Coordinate := by
      intro p hp he
      exact hkey ((h.keys _).2 ⟨p, hp, he⟩)
    refine ⟨?_, ?_, ?_⟩
    · rw [List.map_append]
      refine List.Nodup.append h.nodup (List.nodup_singleton _) ?_
      intro k hk1 hk2
      simp only [List.map_cons, List.map_nil, List.mem_singleton] at hk2
      rw [hk2] at hk1
      exact hkey hk1
    · intro k
      rw [List.map_append, List.mem_append, h.keys k]
      constructor
      · rintro (⟨p, hp, hpk⟩ | hk)
        · exact ⟨p, List.mem_append_left _ hp, hpk⟩
        · simp only [List.map_cons, List.map_nil, List.mem_singleton] at hk
          exact ⟨(dep, conf), List.mem_append_right _ (List.mem_singleton.2 rfl), hk.symm⟩
      · rintro ⟨p, hp, hpk⟩
        rcases List.mem_append.1 hp with hp1 | hp1
        · exact Or.inl ⟨p, hp1, hpk⟩
        · rw [List.mem_singleton.1 hp1] at hpk
          exact Or.inr (by simp [← hpk])
    · intro kv hkv
      rcases List.mem_append.1 hkv with hkv1 | hkv1
      · obtain ⟨h1, ⟨p, hp, hpk, hpe⟩, h3⟩ := h.entry kv hkv1
        refine ⟨h1, ⟨p, List.mem_append_left _ hp, hpk, hpe⟩, ?_⟩
        rw [List.filter_append, List.map_append, h3]
        have : ¬ dep.Coordinate = kv.1 := by
          intro he
          exact hkey (he ▸ List.mem_map.2 ⟨kv, hkv1, rfl⟩)
        simp [this]
      · rw [List.mem_singleton.1 hkv1]
        refine ⟨rfl, ⟨(dep, conf), List.mem_append_right _ (List.mem_singleton.2 rfl), rfl, rfl⟩,
          ?_⟩
        rw [List.filter_append, List.map_append]
        have hempty : processed.filter (fun p => decide (p.1.Coordinate = dep.Coordinate)) = [] := by
          rw [List.filter_eq_nil_iff]
          intro p hp
          simpa using hnone p hp
        simp [hempty]

theorem foldl_addDepErr_inv :
    ∀ (rest processed : List (Config × Config))
      (m : List (Coordinate × CircularDependencyConfigSortError)),
      DepInv m processed →
      DepInv (rest.foldl (fun m p => addDepErr m p.1 p.2) m) (processed ++ rest) := by
  intro rest
  induction rest with
  | nil => intro processed m h; rw [List.append_nil]; exact h
  | cons p rest ih =>
    intro processed m h
    rw [List.foldl_cons]
    have := ih (processed ++ [p]) _ (addDepErr_inv m processed p.1 p.2 h)
    rw [List.append_assoc] at this
    exact this

theorem parseConfigSortErrors_inv (sortErrs : List sort.TopologySortError)
    (configs : List Config) :
    DepInv (sortErrs.foldl (collectDepErrs configs) []) (resolvedEdges configs sortErrs) := by
  rw [foldl_collectDepErrs_eq]
  have := foldl_addDepErr_inv (resolvedEdges configs sortErrs) [] []
    ⟨List.nodup_nil, by simp, by simp⟩
  rw [List.nil_append] at this
  exact this

theorem mem_resolvedEdges (configs : List Config) (sortErrs : List sort.TopologySortError)
    (p : Config × Config) :
    p ∈ resolvedEdges configs sortErrs ↔
      ∃ e ∈ sortErrs, configs[e.OnId]? = some p.2 ∧
        ∃ i ∈ e.UnresolvedIncomingEdgesFrom, configs[i]? = some p.1 := by
  unfold resolvedEdges
  rw [List.mem_flatMap]
  constructor
  · rintro ⟨e, he, hp⟩
    cases hon : configs[e.OnId]? with
    | none => rw [hon] at hp; exact absurd hp (List.not_mem_nil _)
    | some conf =>
      rw [hon] at hp
      obtain ⟨i, hi, hpi⟩ := List.mem_filterMap.1 hp
      cases hci : configs[i]? with
      | none => rw [hci] at hpi; exact absurd hpi (by simp)
      | some dep =>
        rw [hci] at hpi
        simp only [Option.map_some', Option.some.injEq] at hpi
        rw [← hpi]
        exact ⟨e, he, hon, i, hi, hci⟩
  · rintro ⟨e, he, hon, i, hi, hci⟩
    refine ⟨e, he, ?_⟩
    rw [hon]
    exact List.mem_filterMap.2 ⟨i, hi, by rw [hci]; rfl⟩

theorem coordinate_index (configs : List Config)
    (hdistinct : (configs.map (fun c => c.Coordinate)).Nodup) (i j : Nat) (c d : Config)
    (hi : configs[i]? = some c) (hj : configs[j]? = some d)
    (h : c.Coordinate = d.Coordinate) : i = j := by
  obtain ⟨hi1, hi2⟩ := List.getElem?_eq_some_iff.1 hi
  obtain ⟨hj1, hj2⟩ := List.getElem?_eq_some_iff.1 hj
  have hi3 : i < (configs.map (fun c => c.Coordinate)).length := by
    rw [List.length_map]; exact hi1
  have hj3 : j < (configs.map (fun c => c.Coordinate)).length := by
    rw [List.length_map]; exact hj1
  apply (@List.Nodup.getElem_inj_iff _ _ hdistinct i hi3 j hj3).1
  rw [List.getElem_map, List.getElem_map, hi2, hj2]
  exact h

theorem edges_filter (configs : List Config)
    (hdistinct : (configs.map (fun c => c.Coordinate)).Nodup) (i : Nat) (c conf : Config)
    (hi : configs[i]? = some c) :
    ∀ indices : List Nat, indices.Nodup → (∀ j ∈ indices, j < configs.length) →
      ((indices.filterMap (fun j => (configs[j]?).map (fun dep => (dep, conf)))).filter
          (fun p => decide (p.1.Coordinate = c.Coordinate))).map (fun p => p.2.Coordinate)
        = if i ∈ indices then [conf.Coordinate] else [] := by
  intro indices
  induction indices with
  | nil => intro _ _; rfl
  | cons j rest ih =>
    intro hnd hrange
    have hj := hrange j (List.mem_cons_self _ _)
    have hcj : configs[j]? = some configs[j] := List.getElem?_eq_getElem hj
    rw [List.filterMap_cons_some (by rw [hcj]; rfl)]
    have ih1 := ih (List.nodup_cons.1 hnd).2 (fun k hk => hrange k (List.mem_cons_of_mem _ hk))
    by_cases hji : j = i
    · subst hji
      have hc : configs[j] = c := by
        rw [hcj] at hi
        exact Option.some.inj hi
      have hnot : j ∉ rest := (List.nodup_cons.1 hnd).1
      rw [List.filter_cons_of_pos (by simp [hc]), List.map_cons, ih1, if_neg hnot,
        if_pos (List.mem_cons_self _ _)]
    · have hne : ¬ configs[j].Coordinate = c.Coordinate := by
        intro he
        exact hji (coordinate_index configs hdistinct j i _ _ hcj hi he)
      rw [List.filter_cons_of_neg (by simp [hne]), ih1]
      have hiff : i ∈ j :: rest ↔ i ∈ rest := by
        rw [List.mem_cons]
        constructor
        · rintro (h | h)
          · exact absurd h.symm hji
          · exact h
        · exact Or.inr
      by_cases hmem : i ∈ rest
      · rw [if_pos hmem, if_pos (hiff.2 hmem)]
      · rw [if_neg hmem, if_neg (fun h => hmem (hiff.1 h))]

theorem resolvedEdges_filter (configs : List Config)
    (hdistinct : (configs.map (fun c => c.Coordinate)).Nodup) (i : Nat) (c : Config)
    (hi : configs[i]? = some c) :
    ∀ sortErrs : List sort.TopologySortError,
      (∀ e ∈ sortErrs, e.OnId < configs.length
        ∧ ∀ j ∈ e.UnresolvedIncomingEdgesFrom, j < configs.length) →
      (∀ e ∈ sortErrs, e.UnresolvedIncomingEdgesFrom.Nodup) →
      ((resolvedEdges configs sortErrs).filter
          (fun p => decide (p.1.Coordinate = c.Coordinate))).map (fun p => p.2.Coordinate)
        = (sortErrs.filter (fun e => decide (i ∈ e.UnresolvedIncomingEdgesFrom))).filterMap
            (fun e => (configs[e.OnId]?).map (fun conf => conf.Coordinate)) := by
  intro sortErrs
  induction sortErrs with
  | nil => intro _ _; rfl
  | cons e rest ih =>
    intro hrange hnodup
    have he := hrange e (List.mem_cons_self _ _)
    have hon : configs[e.OnId]? = some configs[e.OnId] := List.getElem?_eq_getElem he.1
    have ih1 := ih (fun x hx => hrange x (List.mem_cons_of_mem _ hx))
      (fun x hx => hnodup x (List.mem_cons_of_mem _ hx))
    have hhead := edges_filter configs hdistinct i c configs[e.OnId] hi
      e.UnresolvedIncomingEdgesFrom (hnodup e (List.mem_cons_self _ _)) he.2
    unfold resolvedEdges at ih1 ⊢
    rw [List.flatMap_cons, List.filter_append, List.map_append, ih1, hon]
    simp only
    rw [hhead]
    by_cases hmem : i ∈ e.UnresolvedIncomingEdgesFrom
    · rw [if_pos hmem, List.filter_cons_of_pos (by simp [hmem]),
        List.filterMap_cons_some (by rw [hon]; rfl)]
      rfl
    · rw [if_neg hmem, List.filter_cons_of_neg (by simp [hmem])]
      rfl

/-- C33 (one error per still-incoming config): for configs with pairwise
distinct coordinates and sort errors over these configs, with every index in
range and no index twice in one error as `sort.TopologySort` builds them, the
errors of `parseConfigSortErrors` have pairwise distinct coordinates, and they
are exactly the errors of the indices `i` in some `UnresolvedIncomingEdgesFrom`:
the coordinate and environment of `configs[i]`, and as `DependsOn` the
coordinates of the `OnId` configs of the sort errors that list `i`, in the order
of the sort errors. -/
theorem parseConfigSortErrors_spec (sortErrs : List sort.TopologySortError)
    (configs : List Config)
    (hdistinct : (configs.map (fun c => c.Coordinate)).Nodup)
    (hrange : ∀ e ∈ sortErrs, e.OnId < configs.length
      ∧ ∀ j ∈ e.UnresolvedIncomingEdgesFrom, j < configs.length)
    (hnodup : ∀ e ∈ sortErrs, e.UnresolvedIncomingEdgesFrom.Nodup) :
    ((parseConfigSortErrors sortErrs configs).map (fun err => err.Config)).Nodup ∧
    ∀ err, err ∈ parseConfigSortErrors sortErrs configs ↔
      ∃ i c, configs[i]? = some c ∧
        (∃ e ∈ sortErrs, i ∈ e.UnresolvedIncomingEdgesFrom) ∧
        err = { Config := c.Coordinate
                Environment := c.Environment
                DependsOn :=
                  (sortErrs.filter (fun e => decide (i ∈ e.UnresolvedIncomingEdgesFrom))).filterMap
                    (fun e => (configs[e.OnId]?).map (fun conf => conf.Coordinate)) } := by
  have hinv := parseConfigSortErrors_inv sortErrs configs
  unfold parseConfigSortErrors
  constructor
  · rw [List.map_map]
    have : (sortErrs.foldl (collectDepErrs configs) []).map
        ((fun err : CircularDependencyConfigSortError => err.Config) ∘ Prod.snd)
        = (sortErrs.foldl (collectDepErrs configs) []).map Prod.fst := by
      apply List.map_congr_left
      intro kv hkv
      exact (hinv.entry kv hkv).1
    rw [this]
    exact hinv.nodup
  · intro err
    rw [List.mem_map]
    constructor
    · rintro ⟨kv, hkv, rfl⟩
      obtain ⟨h1, ⟨p, hp, hpk, hpe⟩, h3⟩ := hinv.entry kv hkv
      obtain ⟨e, he, _, i, hi, hci⟩ := (mem_resolvedEdges configs sortErrs p).1 hp
      refine ⟨i, p.1, hci, ⟨e, he, hi⟩, ?_⟩
      have hfilter := resolvedEdges_filter configs hdistinct i p.1 hci sortErrs hrange hnodup
      rw [hpk, ← h3] at hfilter
      rw [← hfilter, hpk, ← h1, ← hpe]
    · rintro ⟨i, c, hci, ⟨e, he, hi⟩, rfl⟩
      have hlt : e.OnId < configs.length := (hrange e he).1
      have hon : configs[e.OnId]? = some configs[e.OnId] := List.getElem?_eq_getElem hlt
      have hp : (c, configs[e.OnId]) ∈ resolvedEdges configs sortErrs :=
        (mem_resolvedEdges configs sortErrs _).2 ⟨e, he, hon, i, hi, hci⟩
      have hkey := (hinv.keys c.Coordinate).2 ⟨_, hp, rfl⟩
      obtain ⟨kv, hkv, hk⟩ := List.mem_map.1 hkey
      refine ⟨kv, hkv, ?_⟩
      obtain ⟨h1, ⟨q, hq, hqk, hqe⟩, h3⟩ := hinv.entry kv hkv
      obtain ⟨e1, _, _, j, _, hcj⟩ := (mem_resolvedEdges configs sortErrs q).1 hq
      have hji : j = i :=
        coordinate_index configs hdistinct j i q.1 c hcj hci (by rw [hqk, hk])
      subst hji
      have hqc : q.1 = c := by
        rw [hcj] at hci
        exact Option.some.inj hci
      have hfilter := resolvedEdges_filter configs hdistinct j c hci sortErrs hrange hnodup
      rw [← hk, ← h3] at hfilter
      cases hkv2 : kv.2 with
      | mk cfg env deps =>
        rw [hkv2] at h1 hqe hfilter
        simp only at h1 hqe hfilter
        rw [h1, hk, hqe, hqc, hfilter]

end topologysort

namespace topologysort

theorem parseConfigSortErrors_example :
    parseConfigSortErrors examples.configSortErrors examples.threeConfigs
      = [⟨⟨"p", "dashboard", "b"⟩, "dev", [⟨"p", "dashboard", "a"⟩]⟩,
         ⟨⟨"p", "dashboard", "c"⟩, "dev", [⟨"p", "dashboard", "a"⟩, ⟨"p", "dashboard", "b"⟩]⟩] := by
  decide

end topologysort

namespace sort

/-- The errors of a sort over a square matrix are well formed: the node and the
sources of its unresolved edges are indices of the matrix, and no source is
listed twice. -/
theorem sortErrors_wellformed (m : List (List Bool))
    (hsquare : ∀ row ∈ m, row.length = m.length) :
    ∀ e ∈ sortErrors m, (e.OnId < m.length
      ∧ ∀ j ∈ e.UnresolvedIncomingEdgesFrom, j < m.length)
      ∧ e.UnresolvedIncomingEdgesFrom.Nodup := by
  intro e he
  rw [mem_sortErrors] at he
  obtain ⟨hlt, _, hedges⟩ := he
  have hrow : (m.getD e.OnId []).length = m.length := by
    apply hsquare
    rw [List.getD_eq_getElem?_getD, List.getElem?_eq_getElem hlt]
    exact List.getElem_mem _
  rw [hedges]
  unfold unresolvedEdges
  refine ⟨⟨hlt, ?_⟩, (List.nodup_range _).filter _⟩
  intro j hj
  have := (List.mem_filter.mp hj).1
  rw [List.mem_range, hrow] at this
  exact this

end sort

namespace topologysort

/-- Witness of C33: three configs, of which the second depends on the first and
the third on the first and the second. -/
theorem parseConfigSortErrors_spec_witness :
    ((examples.threeConfigs.map (fun c => c.Coordinate)).Nodup ∧
      (∀ e ∈ examples.configSortErrors, e.OnId < examples.threeConfigs.length
        ∧ ∀ j ∈ e.UnresolvedIncomingEdgesFrom, j < examples.threeConfigs.length) ∧
      (∀ e ∈ examples.configSortErrors, e.UnresolvedIncomingEdgesFrom.Nodup)) ∧
    ((parseConfigSortErrors examples.configSortErrors examples.threeConfigs).map
        (fun err => err.Config)).Nodup ∧
    ∀ err, err ∈ parseConfigSortErrors examples.configSortErrors examples.threeConfigs ↔
      ∃ i c, examples.threeConfigs[i]? = some c ∧
        (∃ e ∈ examples.configSortErrors, i ∈ e.UnresolvedIncomingEdgesFrom) ∧
        err = { Config := c.Coordinate
                Environment := c.Environment
                DependsOn :=
                  (examples.configSortErrors.filter
                    (fun e => decide (i ∈ e.UnresolvedIncomingEdgesFrom))).filterMap
                    (fun e => (examples.threeConfigs[e.OnId]?).map
                      (fun conf => conf.Coordinate)) } :=
  ⟨⟨by decide, by decide, by decide⟩,
    parseConfigSortErrors_spec examples.configSortErrors examples.threeConfigs
      (by decide) (by decide) (by decide)⟩

end topologysort

/-! ## The extraction of ids is reversible -/

namespace strings

/-- The test `isPrefixOf` decides whether a text starts with another. -/
theorem isPrefixOf_iff {a b : List Char} : a.isPrefixOf b = true ↔ a <+: b :=
  List.isPrefixOf_iff_prefix

theorem replaceChars_nil (old new : List Char) (k : Nat) : replaceChars old new k [] = [] := by
  cases k <;> rfl

theorem replaceChars_skip (old new : List Char) :
    ∀ (k : Nat) (s : List Char),
      replaceChars old new k s = replaceChars old new 0 (s.drop k)
  | 0, _ => rfl
  | _ + 1, [] => by rw [replaceChars_nil, List.drop_nil, replaceChars_nil]
  | k + 1, _ :: cs => by
    rw [replaceChars, List.drop_succ_cons]
    exact replaceChars_skip old new k cs

theorem replaceChars_cons (old new : List Char) (c : Char) (cs : List Char)
    (h : ¬ old <+: c :: cs) :
    replaceChars old new 0 (c :: cs) = c :: replaceChars old new 0 cs := by
  rw [replaceChars, if_neg]
  rw [strings.isPrefixOf_iff]
  exact h

theorem replaceChars_old (old new : List Char) (rest : List Char) (hold : old ≠ []) :
    replaceChars old new 0 (old ++ rest) = new ++ replaceChars old new 0 rest := by
  cases old with
  | nil => exact absurd rfl hold
  | cons o os =>
    rw [List.cons_append, replaceChars, if_pos, replaceChars_skip]
    · simp
    · rw [strings.isPrefixOf_iff, ← List.cons_append]
      exact List.prefix_append _ _

end strings

namespace id_extraction

theorem renderChars_nil (params : List (List Char × List Char)) (k : Nat) :
    renderChars params k [] = [] := by
  cases k <;> rfl

theorem renderChars_skip (params : List (List Char × List Char)) :
    ∀ (k : Nat) (s : List Char),
      renderChars params k s = renderChars params 0 (s.drop k)
  | 0, _ => rfl
  | _ + 1, [] => by rw [renderChars_nil, List.drop_nil, renderChars_nil]
  | k + 1, _ :: cs => by
    rw [renderChars, List.drop_succ_cons]
    exact renderChars_skip params k cs

theorem renderChars_cons (params : List (List Char × List Char)) (c : Char) (cs : List Char)
    (h : ∀ p ∈ params, ¬ p.1 <+: c :: cs) :
    renderChars params 0 (c :: cs) = c :: renderChars params 0 cs := by
  have hnone : params.find? (fun p => p.1.isPrefixOf (c :: cs)) = none := by
    rw [List.find?_eq_none]
    intro p hp
    rw [strings.isPrefixOf_iff]
    exact h p hp
  rw [renderChars, hnone]

theorem renderChars_match (params : List (List Char × List Char)) (p : List Char × List Char)
    (rest : List Char) (hne : p.1 ≠ [])
    (h : params.find? (fun q => q.1.isPrefixOf (p.1 ++ rest)) = some p) :
    renderChars params 0 (p.1 ++ rest) = p.2 ++ renderChars params 0 rest := by
  obtain ⟨ph, v⟩ := p
  cases ph with
  | nil => exact absurd rfl hne
  | cons o os =>
    simp only [List.cons_append] at h ⊢
    rw [renderChars, h]
    simp only [List.length_cons, Nat.add_sub_cancel]
    rw [renderChars_skip params os.length (os ++ rest), List.drop_left]

theorem Placeholder_ne_nil (ph : List Char) (h : Placeholder ph) : ph ≠ [] := by
  obtain ⟨p2, hp, _⟩ := h.braces
  rw [hp]
  exact List.cons_ne_nil _ _

/-- No placeholder starts a text whose first character is no opening brace. -/
theorem Placeholder_not_start (ph : List Char) (h : Placeholder ph) (c : Char)
    (cs : List Char) (hc : c ≠ '{') : ¬ ph <+: c :: cs := by
  obtain ⟨p2, hp, _⟩ := h.braces
  rw [hp]
  intro hpre
  exact hc (List.cons_prefix_cons.1 hpre).1.symm

/-- Rendering passes over a text without opening brace. -/
theorem renderChars_passes (P : List (List Char × List Char))
    (hP : ∀ p ∈ P, Placeholder p.1) (rest : List Char) :
    ∀ w : List Char, '{' ∉ w →
      renderChars P 0 (w ++ rest) = w ++ renderChars P 0 rest
  | [], _ => rfl
  | c :: w, hw => by
    have hc : c ≠ '{' := fun h => hw (h ▸ List.mem_cons_self _ _)
    rw [List.cons_append, renderChars_cons P c (w ++ rest)
      (fun p hp => Placeholder_not_start p.1 (hP p hp) c _ hc),
      renderChars_passes P hP rest w (fun h => hw (List.mem_cons_of_mem _ h))]
    rfl

/-- Rendering a text in which no placeholder occurs changes nothing. -/
theorem renderChars_fresh (P : List (List Char × List Char)) :
    ∀ s : List Char, (∀ p ∈ P, ¬ p.1 <:+: s) → renderChars P 0 s = s
  | [], _ => rfl
  | c :: cs, h => by
    rw [renderChars_cons P c cs (fun p hp hpre => h p hp hpre.isInfix),
      renderChars_fresh P cs (fun p hp hin => h p hp (hin.trans (List.suffix_cons c cs).isInfix))]

/-- The placeholder found at the start of a text that starts with a placeholder
of the rules is that placeholder. -/
theorem find_placeholder (P : List (List Char × List Char)) (hP : Rules P)
    (q : List Char × List Char) (hq : q ∈ P) (X : List Char) :
    P.find? (fun p => p.1.isPrefixOf (q.1 ++ X)) = some q := by
  cases hf : P.find? (fun p => p.1.isPrefixOf (q.1 ++ X)) with
  | none =>
    rw [List.find?_eq_none] at hf
    exact absurd (strings.isPrefixOf_iff.2 (List.prefix_append _ _)) (hf q hq)
  | some p =>
    have hp := List.mem_of_find?_eq_some hf
    have hpre := List.find?_some hf
    rw [strings.isPrefixOf_iff] at hpre
    rw [hP.unique p hp q hq X hpre]

/-- A text without opening brace that starts the replaced text starts the
text. -/
theorem starts_of_starts_replaceChars (old new : List Char) (hold : old ≠ [])
    (n2 : List Char) (hnew : new = '{' :: n2) :
    ∀ (w : List Char), '{' ∉ w → ∀ cs : List Char,
      w <+: strings.replaceChars old new 0 cs → w <+: cs
  | [], _, _, _ => List.nil_prefix
  | x :: w, hw, [], h => by
    rw [strings.replaceChars_nil] at h
    exact absurd (List.prefix_nil.1 h) (List.cons_ne_nil _ _)
  | x :: w, hw, d :: ds, h => by
    have hx : x ≠ '{' := fun e => hw (e ▸ List.mem_cons_self _ _)
    by_cases hp : old <+: d :: ds
    · obtain ⟨rest, hrest⟩ := hp
      rw [← hrest, strings.replaceChars_old old new rest hold, hnew, List.cons_append] at h
      exact absurd (List.cons_prefix_cons.1 h).1 hx
    · rw [strings.replaceChars_cons old new d ds hp] at h
      obtain ⟨hxd, hrest⟩ := List.cons_prefix_cons.1 h
      rw [hxd]
      exact List.cons_prefix_cons.2 ⟨rfl, starts_of_starts_replaceChars old new hold n2 hnew w
        (fun e => hw (List.mem_cons_of_mem _ e)) ds hrest⟩

/-- A placeholder that starts the text after a replacement at a place where
`old` does not start already starts the text before. -/
theorem placeholder_starts_of_replaceChars (old new ph : List Char) (hold : old ≠ [])
    (hnew : Placeholder new) (hph : Placeholder ph) (c : Char) (cs : List Char)
    (h : ph <+: c :: strings.replaceChars old new 0 cs) : ph <+: c :: cs := by
  obtain ⟨p2, hp, hp2, hno⟩ := hph.braces
  obtain ⟨n2, hn, _, _⟩ := hnew.braces
  rw [hp] at h ⊢
  obtain ⟨hc, h1⟩ := List.cons_prefix_cons.1 h
  refine List.cons_prefix_cons.2 ⟨hc, ?_⟩
  cases cs with
  | nil =>
    rw [strings.replaceChars_nil] at h1
    exact absurd (List.prefix_nil.1 h1) (List.cons_ne_nil _ _)
  | cons d ds =>
    by_cases hpre : old <+: d :: ds
    · obtain ⟨rest, hrest⟩ := hpre
      rw [← hrest, strings.replaceChars_old old new rest hold, hn, List.cons_append,
        List.cons_append] at h1
      have h2 := (List.cons_prefix_cons.1 h1).2
      cases p2 with
      | nil => exact absurd rfl hp2
      | cons y ys =>
        have := (List.cons_prefix_cons.1 h2).1
        exact absurd (this ▸ List.mem_cons_self _ _) hno
    · rw [strings.replaceChars_cons old new d ds hpre] at h1
      obtain ⟨hd, h2⟩ := List.cons_prefix_cons.1 h1
      exact List.cons_prefix_cons.2 ⟨hd,
        starts_of_starts_replaceChars old new hold ('{' :: n2) hn p2 hno ds h2⟩

/-- No id starts inside a placeholder. -/
theorem id_not_in_placeholder (ph old : List Char) (hph : Placeholder ph)
    (hold : IdText old) (w : List Char) (hw : w ≠ []) (hsuf : w <:+ ph) (rest : List Char) :
    ¬ old <+: w ++ rest := by
  intro h
  rcases List.prefix_or_prefix_of_prefix h (List.prefix_append w rest) with h1 | h1
  · exact hph.noDash (hsuf.subset (h1.subset hold.dash))
  · obtain ⟨t, ht⟩ := hsuf
    have hlast : w.getLast? = some '}' := by
      rw [← hph.last, ← ht, List.getLast?_append_of_ne_nil _ hw]
    exact hold.noClose (h1.subset (List.mem_of_getLast?_eq_some hlast))

/-- Replacing passes over a text in which `old` starts nowhere. -/
theorem replaceChars_passes (old new : List Char) (rest : List Char) :
    ∀ w : List Char, (∀ v, v ≠ [] → v <:+ w → ¬ old <+: v ++ rest) →
      strings.replaceChars old new 0 (w ++ rest) = w ++ strings.replaceChars old new 0 rest
  | [], _ => rfl
  | c :: w, h => by
    have hc := h (c :: w) (List.cons_ne_nil _ _) (List.suffix_refl _)
    rw [List.cons_append] at hc ⊢
    rw [strings.replaceChars_cons old new c (w ++ rest) hc,
      replaceChars_passes old new rest w
        (fun v hv hsuf => h v hv (hsuf.trans (List.suffix_cons c w)))]
    rfl

/-- Replacing an id by its placeholder does not change the rendering. -/
theorem renderChars_replaceChars (P : List (List Char × List Char)) (hP : Rules P)
    (new old : List Char) (hmem : (new, old) ∈ P) :
    ∀ (n : Nat) (s : List Char), s.length ≤ n →
      renderChars P 0 (strings.replaceChars old new 0 s) = renderChars P 0 s
  | _, [], _ => by rw [strings.replaceChars_nil]
  | 0, c :: cs, h => absurd h (by simp)
  | n + 1, c :: cs, h => by
    have hold : IdText old := hP.id _ hmem
    have hnew : Placeholder new := hP.placeholder _ hmem
    have hlen : cs.length ≤ n := Nat.le_of_succ_le_succ h
    by_cases hA : old <+: c :: cs
    · obtain ⟨rest, hrest⟩ := hA
      have hrl : rest.length ≤ n := by
        have := congrArg List.length hrest
        rw [List.length_append, List.length_cons] at this
        have hpos : 0 < old.length := List.length_pos.2 hold.ne
        omega
      rw [← hrest, strings.replaceChars_old old new rest hold.ne,
        renderChars_match P (new, old) _ (Placeholder_ne_nil new hnew)
          (find_placeholder P hP (new, old) hmem _),
        renderChars_replaceChars P hP new old hmem n rest hrl,
        renderChars_passes P hP.placeholder rest old hold.noOpen]
    · cases hf : P.find? (fun p => p.1.isPrefixOf (c :: cs)) with
      | some p =>
        have hp := List.mem_of_find?_eq_some hf
        have hpre := List.find?_some hf
        rw [strings.isPrefixOf_iff] at hpre
        obtain ⟨rest, hrest⟩ := hpre
        have hrl : rest.length ≤ n := by
          have := congrArg List.length hrest
          rw [List.length_append, List.length_cons] at this
          have hpos : 0 < p.1.length := List.length_pos.2 (Placeholder_ne_nil _ (hP.placeholder p hp))
          omega
        rw [← hrest, replaceChars_passes old new rest p.1
            (fun v hv hsuf => id_not_in_placeholder p.1 old (hP.placeholder p hp) hold
              v hv hsuf rest),
          renderChars_match P p _ (Placeholder_ne_nil _ (hP.placeholder p hp))
            (find_placeholder P hP p hp _),
          renderChars_match P p _ (Placeholder_ne_nil _ (hP.placeholder p hp))
            (find_placeholder P hP p hp _),
          renderChars_replaceChars P hP new old hmem n rest hrl]
      | none =>
        rw [List.find?_eq_none] at hf
        have hnone : ∀ p ∈ P, ¬ p.1 <+: c :: cs := by
          intro p hp hpre
          exact hf p hp (strings.isPrefixOf_iff.2 hpre)
        rw [strings.replaceChars_cons old new c cs hA,
          renderChars_cons P c _ (fun p hp hpre => hnone p hp
            (placeholder_starts_of_replaceChars old new p.1 hold.ne hnew (hP.placeholder p hp)
              c cs hpre)),
          renderChars_cons P c cs hnone,
          renderChars_replaceChars P hP new old hmem n cs hlen]

/-- Replacing ids by their placeholders one after the other does not change the
rendering. -/
theorem renderChars_foldl (P : List (List Char × List Char)) (hP : Rules P) :
    ∀ (l : List (List Char × List Char)) (s : List Char), (∀ p ∈ l, p ∈ P) →
      renderChars P 0 (l.foldl (fun t p => strings.replaceChars p.2 p.1 0 t) s)
        = renderChars P 0 s
  | [], _, _ => rfl
  | p :: l, s, h => by
    rw [List.foldl_cons, renderChars_foldl P hP l _ (fun q hq => h q (List.mem_cons_of_mem _ hq)),
      renderChars_replaceChars P hP p.1 p.2 (h p (List.mem_cons_self _ _)) s.length s
        (Nat.le_refl _)]

theorem test_ne (cl : CharClass) (c : Char) (h : cl.test c = true) :
    c ≠ '{' ∧ c ≠ '}' ∧ c ≠ ' ' ∧ c ≠ '.' := by
  refine ⟨?_, ?_, ?_, ?_⟩ <;>
  · rintro rfl
    cases cl <;> exact absurd h (by decide)

theorem test_ne_dash (cl : CharClass) (c : Char) (hcl : cl ≠ CharClass.dash)
    (h : cl.test c = true) : c ≠ '-' := by
  rintro rfl
  cases cl
  · exact absurd h (by decide)
  · exact absurd h (by decide)
  · exact absurd h (by decide)
  · exact hcl rfl

theorem test_dash (c : Char) (h : CharClass.dash.test c = true) : c = '-' := by
  simpa [CharClass.test] using h

theorem matchClasses_some :
    ∀ (cls : List CharClass) (s m : List Char), matchClasses cls s = some m → Matches cls m
  | [], _, m, h => by
    rw [matchClasses] at h
    cases h
    exact List.Forall₂.nil
  | _ :: _, [], _, h => by
    rw [matchClasses] at h
    cases h
  | cl :: cls, c :: cs, m, h => by
    rw [matchClasses] at h
    by_cases ht : cl.test c = true
    · rw [if_pos ht] at h
      cases hm : matchClasses cls cs with
      | none => rw [hm] at h; cases h
      | some m1 =>
        rw [hm] at h
        cases h
        exact List.Forall₂.cons ht (matchClasses_some cls cs m1 hm)
    · rw [if_neg ht] at h
      cases h

theorem mem_findAll (m : List Char → Option (List Char)) (id : List Char) :
    ∀ (k : Nat) (s : List Char), id ∈ findAll m k s → ∃ u, m u = some id
  | _, [], h => by
    cases ‹Nat› <;> simp [findAll] at h
  | k + 1, _ :: cs, h => by
    rw [findAll] at h
    exact mem_findAll m id k cs h
  | 0, c :: cs, h => by
    rw [findAll] at h
    cases hm : m (c :: cs) with
    | none =>
      rw [hm] at h
      exact mem_findAll m id 0 cs h
    | some found =>
      rw [hm] at h
      rcases List.mem_cons.1 h with h1 | h1
      · exact ⟨c :: cs, by rw [hm, h1]⟩
      · exact mem_findAll m id _ cs h1

theorem matchMeID_some (u id : List Char) (h : matchMeID u = some id) : IdShape id := by
  unfold matchMeID at h
  simp only at h
  by_cases hX : u.takeWhile CharClass.type.test = []
  · rw [if_pos hX] at h
    cases h
  · rw [if_neg hX] at h
    cases hm : matchClasses meIDClasses (u.dropWhile CharClass.type.test) with
    | none => rw [hm] at h; cases h
    | some m =>
      rw [hm] at h
      cases h
      exact Or.inl ⟨_, m, rfl, hX, fun c hc => List.mem_takeWhile_imp hc,
        matchClasses_some _ _ _ hm⟩

theorem matchUUID_some (u id : List Char) (h : matchUUID u = some id) : IdShape id :=
  Or.inr (matchClasses_some _ _ _ h)

/-- Every id found in a template is a match of one of the two patterns. -/
theorem findIDs_shape (content id : String) (h : id ∈ findIDs content) : IdShape id.toList := by
  unfold findIDs at h
  obtain ⟨l, hl, rfl⟩ := List.mem_map.1 h
  rcases List.mem_append.1 hl with h1 | h1
  · obtain ⟨u, hu⟩ := mem_findAll _ _ _ _ h1
    exact matchMeID_some u l hu
  · obtain ⟨u, hu⟩ := mem_findAll _ _ _ _ h1
    exact matchUUID_some u l hu

theorem Matches_ne (cls : List CharClass) (l : List Char) (h : Matches cls l) :
    ∀ c ∈ l, c ≠ '{' ∧ c ≠ '}' ∧ c ≠ ' ' ∧ c ≠ '.' := by
  induction h with
  | nil => intro c hc; cases hc
  | cons hab _ ih =>
    intro c hc
    rcases List.mem_cons.1 hc with h1 | h1
    · rw [h1]; exact test_ne _ _ hab
    · exact ih c h1

theorem Matches_dash (cls : List CharClass) (l : List Char) (h : Matches cls l)
    (hd : CharClass.dash ∈ cls) : '-' ∈ l := by
  induction h with
  | nil => cases hd
  | cons hab _ ih =>
    rcases List.mem_cons.1 hd with h1 | h1
    · rw [← h1] at hab
      rw [test_dash _ hab]
      exact List.mem_cons_self _ _
    · exact List.mem_cons_of_mem _ (ih h1)

theorem IdShape_ne (l : List Char) (h : IdShape l) :
    ∀ c ∈ l, c ≠ '{' ∧ c ≠ '}' ∧ c ≠ ' ' ∧ c ≠ '.' := by
  rcases h with ⟨X, m, rfl, _, hX, hm⟩ | h
  · intro c hc
    rcases List.mem_append.1 hc with h1 | h1
    · exact test_ne _ _ (hX c h1)
    · exact Matches_ne _ _ hm c h1
  · exact Matches_ne _ _ h

theorem IdShape_text (l : List Char) (h : IdShape l) : IdText l := by
  have hne := IdShape_ne l h
  refine ⟨?_, fun hc => (hne _ hc).1 rfl, fun hc => (hne _ hc).2.1 rfl, ?_⟩
  · rcases h with ⟨X, m, rfl, hX, _, _⟩ | h
    · intro he
      exact hX (List.append_eq_nil.1 he).1
    · intro he
      rw [he] at h
      cases h
  · rcases h with ⟨X, m, rfl, _, _, hm⟩ | h
    · exact List.mem_append_right _ (Matches_dash _ _ hm (by decide))
    · exact Matches_dash _ _ h (by decide)

theorem keyChars_ne (l : List Char) (h : IdShape l) :
    ∀ c ∈ keyChars l, c ≠ '{' ∧ c ≠ '}' ∧ c ≠ ' ' ∧ c ≠ '-' := by
  intro c hc
  obtain ⟨d, hd, rfl⟩ := List.mem_map.1 hc
  have hne := IdShape_ne l h d hd
  by_cases hdash : d = '-'
  · rw [if_pos hdash]
    decide
  · rw [if_neg hdash]
    exact ⟨hne.1, hne.2.1, hne.2.2.1, hdash⟩

theorem phChars_placeholder (l : List Char) (h : IdShape l) : Placeholder (phChars l) := by
  have hk := keyChars_ne l h
  refine ⟨⟨" .__EXTRACTED_ID_".toList ++ (keyChars l ++ "__ \x7d\x7d".toList), rfl, ?_, ?_⟩,
    ?_, ?_⟩
  · intro he
    have := congrArg List.length he
    simp at this
  · intro hmem
    rcases List.mem_append.1 hmem with h1 | h1
    · exact absurd h1 (by decide)
    · rcases List.mem_append.1 h1 with h2 | h2
      · exact (hk _ h2).1 rfl
      · exact absurd h2 (by decide)
  · intro hmem
    unfold phChars at hmem
    rcases List.mem_append.1 hmem with h1 | h1
    · exact absurd h1 (by decide)
    · rcases List.mem_append.1 h1 with h2 | h2
      · exact (hk _ h2).2.2.2 rfl
      · exact absurd h2 (by decide)
  · unfold phChars
    rw [List.getLast?_append_of_ne_nil, List.getLast?_append_of_ne_nil]
    · rfl
    · decide
    · intro he
      exact absurd (List.append_eq_nil.1 he).2 (by decide)

theorem unkey_keyChars (cls : List CharClass) (l : List Char) (h : Matches cls l) :
    unkey cls (keyChars l) = l := by
  induction h with
  | nil => rfl
  | @cons cl c cls l hab _ ih =>
    unfold unkey keyChars at ih ⊢
    rw [List.map_cons, List.zipWith_cons_cons, ih]
    by_cases hcl : cl = CharClass.dash
    · rw [if_pos hcl]
      rw [hcl] at hab
      rw [test_dash c hab]
    · rw [if_neg hcl, if_neg (test_ne_dash cl c hcl hab)]

theorem keyChars_type (X : List Char) (hX : ∀ c ∈ X, CharClass.type.test c = true) :
    keyChars X = X := by
  unfold keyChars
  induction X with
  | nil => rfl
  | cons c X ih =>
    rw [List.map_cons, ih (fun d hd => hX d (List.mem_cons_of_mem _ hd)),
      if_neg (test_ne_dash _ c (by decide) (hX c (List.mem_cons_self _ _)))]

theorem keyChars_length (l : List Char) : (keyChars l).length = l.length := by
  unfold keyChars
  rw [List.length_map]

theorem keyChars_append (a b : List Char) : keyChars (a ++ b) = keyChars a ++ keyChars b := by
  unfold keyChars
  rw [List.map_append]

/-- The keys of a monitored entity id and of a UUID differ. -/
theorem keyChars_meID_ne_uuid (X m b : List Char) (hX : ∀ c ∈ X, CharClass.type.test c = true)
    (hm : Matches meIDClasses m) (hb : Matches uuidClasses b) :
    keyChars (X ++ m) ≠ keyChars b := by
  intro h
  rw [keyChars_append, keyChars_type X hX] at h
  have hml : m.length = 17 := by
    rw [← List.Forall₂.length_eq hm]
    rfl
  have hbl : b.length = 36 := by
    rw [← List.Forall₂.length_eq hb]
    rfl
  have hXl : X.length = 19 := by
    have := congrArg List.length h
    rw [List.length_append, keyChars_length, keyChars_length, hml, hbl] at this
    omega
  have hdrop := congrArg (List.drop 19) h
  rw [← hXl, List.drop_left, hXl] at hdrop
  unfold keyChars at hdrop
  rw [← List.map_drop] at hdrop
  have hb19 : Matches (uuidClasses.drop 19) (b.drop 19) := List.forall₂_drop 19 hb
  cases hm with
  | cons hc0 hm0 =>
    cases hb19' : b.drop 19 with
    | nil =>
      rw [hb19'] at hb19
      cases hb19
    | cons x xs =>
      rw [hb19'] at hb19 hdrop
      have hx : CharClass.hex.test x = true := by
        cases hb19 with
        | cons hx _ => exact hx
      rw [List.map_cons, List.map_cons, test_dash _ hc0, if_pos rfl,
        if_neg (test_ne_dash _ x (by decide) hx)] at hdrop
      have hxe : x = '_' := (List.cons.inj hdrop).1.symm
      rw [hxe] at hx
      exact absurd hx (by decide)

/-- Ids of the two patterns with the same key are equal. -/
theorem keyChars_injective (a b : List Char) (ha : IdShape a) (hb : IdShape b)
    (h : keyChars a = keyChars b) : a = b := by
  rcases ha with ⟨X, m, rfl, _, hX, hm⟩ | ha
  · rcases hb with ⟨Y, n, rfl, _, hY, hn⟩ | hb
    · rw [keyChars_append, keyChars_append, keyChars_type X hX, keyChars_type Y hY] at h
      have hlen : (keyChars m).length = (keyChars n).length := by
        rw [keyChars_length, keyChars_length, ← List.Forall₂.length_eq hm,
          ← List.Forall₂.length_eq hn]
      obtain ⟨h1, h2⟩ := List.append_inj' h hlen
      rw [h1, ← unkey_keyChars _ m hm, ← unkey_keyChars _ n hn, h2]
    · exact absurd h (keyChars_meID_ne_uuid X m b hX hm hb)
  · rcases hb with ⟨Y, n, rfl, _, hY, hn⟩ | hb
    · exact absurd h.symm (keyChars_meID_ne_uuid Y n a hY hn ha)
    · rw [← unkey_keyChars _ a ha, ← unkey_keyChars _ b hb, h]

theorem takeWhile_key (rest : List Char) :
    ∀ K : List Char, (∀ c ∈ K, c ≠ ' ') →
      (K ++ ('_' :: '_' :: ' ' :: rest)).takeWhile (fun c => decide (c ≠ ' ')) = K ++ ['_', '_']
  | [], _ => by
    simp [List.takeWhile]
  | c :: K, h => by
    rw [List.cons_append, List.takeWhile_cons, if_pos, takeWhile_key rest K
      (fun d hd => h d (List.mem_cons_of_mem _ hd))]
    · rfl
    · exact decide_eq_true (h c (List.mem_cons_self _ _))

/-- A placeholder that starts a text that starts with another placeholder is
the placeholder of the same id. -/
theorem phChars_unique (a b : List Char) (ha : IdShape a) (hb : IdShape b) (X : List Char)
    (h : phChars a <+: phChars b ++ X) : a = b := by
  unfold phChars at h
  rw [List.append_assoc, List.prefix_append_right_inj] at h
  obtain ⟨Y, hY⟩ := h
  have h1 := congrArg (List.takeWhile (fun c => decide (c ≠ ' '))) hY
  have e1 : keyChars a ++ "__ \x7d\x7d".toList ++ Y
      = keyChars a ++ ('_' :: '_' :: ' ' :: ('}' :: '}' :: Y)) := by
    rw [List.append_assoc]; rfl
  have e2 : (keyChars b ++ "__ \x7d\x7d".toList) ++ X
      = keyChars b ++ ('_' :: '_' :: ' ' :: ('}' :: '}' :: X)) := by
    rw [List.append_assoc]; rfl
  rw [e1, e2, takeWhile_key _ _ (fun c hc => (keyChars_ne a ha c hc).2.2.1),
    takeWhile_key _ _ (fun c hc => (keyChars_ne b hb c hc).2.2.1)] at h1
  exact keyChars_injective a b ha hb (List.append_cancel_right h1)

/-- The placeholders of ids of the two patterns, with their ids, are rules. -/
theorem rules_of_shape (l : List (List Char)) (h : ∀ id ∈ l, IdShape id) :
    Rules (l.map (fun id => (phChars id, id))) := by
  refine ⟨?_, ?_, ?_⟩
  · intro p hp
    obtain ⟨id, hid, rfl⟩ := List.mem_map.1 hp
    exact phChars_placeholder id (h id hid)
  · intro p hp
    obtain ⟨id, hid, rfl⟩ := List.mem_map.1 hp
    exact IdShape_text id (h id hid)
  · intro p hp q hq X hpre
    obtain ⟨a, ha, rfl⟩ := List.mem_map.1 hp
    obtain ⟨b, hb, rfl⟩ := List.mem_map.1 hq
    rw [phChars_unique a b (h a ha) (h b hb) X hpre]

theorem placeholder_toList (id : String) :
    ("\x7b\x7b ." ++ paramID id ++ " \x7d\x7d").toList = phChars id.toList := by
  simp only [paramID, phChars, keyChars, strings.ReplaceAll, String.toList, String.data_append,
    List.append_assoc]
  rfl

theorem extractID_Template (c : Config) (id : String) (hne : id.toList ≠ []) :
    (extractID c id).Template.toList
      = strings.replaceChars id.toList (phChars id.toList) 0 c.Template.toList := by
  unfold extractID strings.ReplaceAllString
  simp only
  rw [if_neg hne, placeholder_toList]
  rfl

theorem foldl_extractID_Template :
    ∀ (ids : List String) (c : Config), (∀ id ∈ ids, id.toList ≠ []) →
      (ids.foldl extractID c).Template.toList
        = (ids.map (fun id => (phChars id.toList, id.toList))).foldl
            (fun t p => strings.replaceChars p.2 p.1 0 t) c.Template.toList
  | [], _, _ => rfl
  | id :: ids, c, h => by
    rw [List.foldl_cons, foldl_extractID_Template ids _
      (fun x hx => h x (List.mem_cons_of_mem _ hx)), List.map_cons, List.foldl_cons,
      extractID_Template c id (h id (List.mem_cons_self _ _))]

theorem foldl_extractID_other (name : String) :
    ∀ (ids : List String) (c : Config), (∀ id ∈ ids, name ≠ paramID id) →
      project.mapFind (ids.foldl extractID c).Parameters name = project.mapFind c.Parameters name
  | [], _, _ => rfl
  | id :: ids, c, h => by
    rw [List.foldl_cons, foldl_extractID_other name ids _
      (fun x hx => h x (List.mem_cons_of_mem _ hx))]
    unfold extractID
    simp only
    rw [project.mapFind_mapSet, if_neg (h id (List.mem_cons_self _ _))]

theorem foldl_extractID_added :
    ∀ (ids : List String) (c : Config),
      (∀ a ∈ ids, ∀ b ∈ ids, paramID a = paramID b → a = b) →
      ∀ id ∈ ids, project.mapFind (ids.foldl extractID c).Parameters (paramID id)
        = some (Parameter.value id)
  | [], _, _, _, h => by cases h
  | x :: xs, c, hinj, id, hid => by
    rw [List.foldl_cons]
    by_cases hmem : id ∈ xs
    · exact foldl_extractID_added xs _
        (fun a ha b hb => hinj a (List.mem_cons_of_mem _ ha) b (List.mem_cons_of_mem _ hb)) id hmem
    · have hx : id = x := by
        rcases List.mem_cons.1 hid with h1 | h1
        · exact h1
        · exact absurd h1 hmem
      rw [foldl_extractID_other (paramID id) xs _ (fun y hy he =>
        hmem (by rw [hinj id hid y (List.mem_cons_of_mem _ hy) he]; exact hy))]
      unfold extractID
      simp only
      rw [project.mapFind_mapSet, hx, if_pos rfl]

theorem paramID_injective (a b : String) (ha : IdShape a.toList) (hb : IdShape b.toList)
    (h : paramID a = paramID b) : a = b := by
  have h1 := congrArg String.toList h
  simp only [paramID, strings.ReplaceAll, String.toList, String.data_append] at h1
  have h2 := List.append_cancel_left (List.append_cancel_right h1)
  exact String.ext (keyChars_injective a.data b.data ha hb h2)

/-- C36 (id extraction is reversible): for a config whose template does not
contain `{{ .__EXTRACTED_ID_`, and for every order `keys` in which the ids are
processed: the name of the parameter of an id is `__EXTRACTED_ID_`, the id with
every `-` replaced by `_`, and `__`; after the extraction every id has its
parameter, a value parameter that holds the id, and the parameters of other names
are as before; different ids have different parameter names; and the rewritten
template with every placeholder of an id replaced by the id is the original
template. -/
theorem extractConfig_reversible (keys : List String → List String)
    (hkeys : ∀ l, (keys l).Perm l) (c : Config)
    (hfresh : strings.ContainsSubstring c.Template "\x7b\x7b .__EXTRACTED_ID_" = false) :
    (∀ id, paramID id = "__EXTRACTED_ID_" ++ strings.ReplaceAll id '-' '_' ++ "__") ∧
    (∀ id ∈ deduplicateIDs keys (findIDs c.Template),
      project.mapFind (extractConfig keys c).Parameters (paramID id)
        = some (Parameter.value id)) ∧
    (∀ name, (∀ id ∈ deduplicateIDs keys (findIDs c.Template), name ≠ paramID id) →
      project.mapFind (extractConfig keys c).Parameters name
        = project.mapFind c.Parameters name) ∧
    (∀ a ∈ deduplicateIDs keys (findIDs c.Template),
      ∀ b ∈ deduplicateIDs keys (findIDs c.Template), a ≠ b → paramID a ≠ paramID b) ∧
    render ((deduplicateIDs keys (findIDs c.Template)).map (fun id => (paramID id, id)))
        (extractConfig keys c).Template = c.Template := by
  have hshape : ∀ id ∈ deduplicateIDs keys (findIDs c.Template), IdShape id.toList := by
    intro id hid
    unfold deduplicateIDs at hid
    rw [(hkeys _).mem_iff, List.mem_dedup] at hid
    exact findIDs_shape c.Template id hid
  have hinj : ∀ a ∈ deduplicateIDs keys (findIDs c.Template),
      ∀ b ∈ deduplicateIDs keys (findIDs c.Template), paramID a = paramID b → a = b :=
    fun a ha b hb h => paramID_injective a b (hshape a ha) (hshape b hb) h
  refine ⟨fun _ => rfl, ?_, ?_, ?_, ?_⟩
  · exact foldl_extractID_added _ c hinj
  · intro name hname
    exact foldl_extractID_other name _ c hname
  · intro a ha b hb hab h
    exact hab (hinj a ha b hb h)
  · have hrules : Rules ((deduplicateIDs keys (findIDs c.Template)).map
        (fun id => (phChars id.toList, id.toList))) := by
      have := rules_of_shape ((deduplicateIDs keys (findIDs c.Template)).map String.toList)
        (by
          intro l hl
          obtain ⟨id, hid, rfl⟩ := List.mem_map.1 hl
          exact hshape id hid)
      rw [List.map_map] at this
      exact this
    have hparams : ((deduplicateIDs keys (findIDs c.Template)).map
          (fun id => (paramID id, id))).map
          (fun p => (("\x7b\x7b ." ++ p.1 ++ " \x7d\x7d").toList, p.2.toList))
        = (deduplicateIDs keys (findIDs c.Template)).map
          (fun id => (phChars id.toList, id.toList)) := by
      rw [List.map_map]
      apply List.map_congr_left
      intro id _
      simp only [Function.comp]
      rw [placeholder_toList]
    unfold render
    rw [hparams]
    apply String.ext
    show renderChars _ 0 (extractConfig keys c).Template.toList = c.Template.toList
    unfold extractConfig
    rw [foldl_extractID_Template _ c (fun id hid => (IdShape_text _ (hshape id hid)).ne),
      renderChars_foldl _ hrules _ _ (fun p hp => hp)]
    apply renderChars_fresh
    intro p hp hin
    obtain ⟨id, _, rfl⟩ := List.mem_map.1 hp
    have hpre : "\x7b\x7b .__EXTRACTED_ID_".toList <:+: c.Template.toList :=
      (List.prefix_append _ _).isInfix.trans hin
    rw [← strings.containsChars_iff] at hpre
    unfold strings.ContainsSubstring at hfresh
    rw [hfresh] at hpre
    exact Bool.noConfusion hpre

/-- Rendering with one placeholder is `strings.ReplaceAll` of the placeholder by
its value. -/
theorem renderChars_single (ph v : List Char) :
    ∀ (k : Nat) (s : List Char),
      renderChars [(ph, v)] k s = strings.replaceChars ph v k s
  | _, [] => by rw [renderChars_nil, strings.replaceChars_nil]
  | k + 1, _ :: cs => by
    rw [renderChars, strings.replaceChars]
    exact renderChars_single ph v k cs
  | 0, c :: cs => by
    rw [renderChars, strings.replaceChars, List.find?_cons]
    by_cases h : ph.isPrefixOf (c :: cs) = true
    · simp only [h, if_true]
      rw [renderChars_single ph v _ cs]
    · rw [Bool.not_eq_true] at h
      simp only [h, List.find?_nil, Bool.false_eq_true, if_false]
      rw [renderChars_single ph v 0 cs]

set_option maxRecDepth 100000 in
/-- Witness of C36: the template with a monitored entity id, twice, and a UUID,
with the ids processed in the reverse order. -/
theorem extractConfig_reversible_witness :
    ((∀ l : List String, (List.reverse l).Perm l) ∧
      strings.ContainsSubstring examples.entityTemplate.Template "\x7b\x7b .__EXTRACTED_ID_"
        = false) ∧
    ((∀ id, paramID id = "__EXTRACTED_ID_" ++ strings.ReplaceAll id '-' '_' ++ "__") ∧
    (∀ id ∈ deduplicateIDs List.reverse (findIDs examples.entityTemplate.Template),
      project.mapFind (extractConfig List.reverse examples.entityTemplate).Parameters (paramID id)
        = some (Parameter.value id)) ∧
    (∀ name, (∀ id ∈ deduplicateIDs List.reverse (findIDs examples.entityTemplate.Template),
        name ≠ paramID id) →
      project.mapFind (extractConfig List.reverse examples.entityTemplate).Parameters name
        = project.mapFind examples.entityTemplate.Parameters name) ∧
    (∀ a ∈ deduplicateIDs List.reverse (findIDs examples.entityTemplate.Template),
      ∀ b ∈ deduplicateIDs List.reverse (findIDs examples.entityTemplate.Template),
        a ≠ b → paramID a ≠ paramID b) ∧
    render ((deduplicateIDs List.reverse (findIDs examples.entityTemplate.Template)).map
        (fun id => (paramID id, id)))
        (extractConfig List.reverse examples.entityTemplate).Template
      = examples.entityTemplate.Template) :=
  ⟨⟨fun l => List.reverse_perm l, by decide⟩,
    extractConfig_reversible List.reverse (fun l => List.reverse_perm l) examples.entityTemplate
      (by decide)⟩

set_option maxRecDepth 100000 in
/-- The extraction on a template with overlapping ids: whichever id is processed
first takes its place, the other one is not found any more, and rendering gives
the template back in both orders. -/
theorem extractConfig_overlapping :
    findIDs examples.overlappingTemplate.Template
      = ["abcd-123456789abcWXYZ", "12345678-1234-1234-abcd-123456789abc"] ∧
    (extractConfig (fun l => l) examples.overlappingTemplate).Template
      = "12345678-1234-1234-\x7b\x7b .__EXTRACTED_ID_abcd_123456789abcWXYZ__ \x7d\x7d" ∧
    (extractConfig List.reverse examples.overlappingTemplate).Template
      = "\x7b\x7b .__EXTRACTED_ID_12345678_1234_1234_abcd_123456789abc__ \x7d\x7dWXYZ" ∧
    render [("__EXTRACTED_ID_abcd_123456789abcWXYZ__", "abcd-123456789abcWXYZ"),
        ("__EXTRACTED_ID_12345678_1234_1234_abcd_123456789abc__",
          "12345678-1234-1234-abcd-123456789abc")]
        (extractConfig (fun l => l) examples.overlappingTemplate).Template
      = examples.overlappingTemplate.Template ∧
    render [("__EXTRACTED_ID_abcd_123456789abcWXYZ__", "abcd-123456789abcWXYZ"),
        ("__EXTRACTED_ID_12345678_1234_1234_abcd_123456789abc__",
          "12345678-1234-1234-abcd-123456789abc")]
        (extractConfig List.reverse examples.overlappingTemplate).Template
      = examples.overlappingTemplate.Template := by
  decide

/-- The ids found in the example template. -/
theorem findIDs_example :
    findIDs examples.entityTemplate.Template
      = ["HOST-0123456789ABCDEF", "HOST-0123456789ABCDEF",
         "12345678-abcd-ef01-2345-6789abcdef01"] := by
  decide

set_option maxRecDepth 100000 in
/-- The extraction on the example template. -/
theorem extractConfig_example :
    extractConfig (fun l => l) examples.entityTemplate
      = { Template := "\x7b\"a\": \"\x7b\x7b .__EXTRACTED_ID_HOST_0123456789ABCDEF__ \x7d\x7d\", \"b\": \"\x7b\x7b .__EXTRACTED_ID_HOST_0123456789ABCDEF__ \x7d\x7d\", \"c\": \"\x7b\x7b .__EXTRACTED_ID_12345678_abcd_ef01_2345_6789abcdef01__ \x7d\x7d\"\x7d"
          Parameters := [("name", Parameter.value "x"),
            ("__EXTRACTED_ID_HOST_0123456789ABCDEF__", Parameter.value "HOST-0123456789ABCDEF"),
            ("__EXTRACTED_ID_12345678_abcd_ef01_2345_6789abcdef01__",
              Parameter.value "12345678-abcd-ef01-2345-6789abcdef01")] } := by
  decide

end id_extraction
